import Mathlib

/-!
# VS-AudioTools: frame-grid offset resolver, sample codec, overflow policy and compositors

A shallow embedding of the sample-accurate core of the VS-AudioTools plugin
(`src/common/offset.*`, `src/vsutils/audio.cpp`, `src/utils/sample.hpp`,
`src/utils/number.hpp`, `src/vsutils/bitshift.hpp`, `src/common/overflow.*`,
`src/common/transition.*`, `src/common/peak.*`, `src/vsmap/vsmap_common.cpp`,
`src/delay.cpp`, `src/fade.cpp`, `src/crossfade.cpp`, `src/mix.cpp`, `src/normalize.cpp`,
`src/convert.cpp`, `src/setsamples.cpp`) together with theorems about it.

Conventions of the embedding

* C++ `int` / `int64_t` values are mathematical integers (`Int`).  Signed overflow is
  undefined behaviour in C++; the definitions agree with the code on every input for
  which no intermediate result leaves the range of its type.  Integer division and
  remainder are the truncating `Int.tdiv` / `Int.tmod`, as in C++.  The frame arithmetic of
  `vsutils/audio.cpp` is given a second time in the types of the source (namespace
  `vsutils.machine`), and the cast of a `double` to `int64_t` has no value outside the range
  of `int64_t`.
* The frame size `VS_AUDIO_FRAME_SAMPLES` is a macro of the host's API header, which is
  not part of the repository; every function that uses it takes it as its first
  argument `F`, and the theorems assume `0 < F` only.
* A raw pointer to a frame's channel buffer is an `Option (FrameBuffer α)`: `none` is the
  null pointer, and a read outside the buffer has no value.
* A finite `double` or `float` is its exact rational value; the operations that round are
  followed by the IEEE 754 rounding `roundToFormat` (see the section on floating point
  values).  Every `double` operation is rounded on its own (no fused multiply-add), and the
  cosine of the C library is an argument `cosD` of the functions that reach it.
* Mutable state is passed explicitly: a function that updates the overflow statistics or
  calls into the host returns the new statistics and the list of host calls.
-/

/-! ## `vsutils/audio.cpp` -/

namespace vsutils

/-- Number of frames required to hold `samples` samples (`samplesToFrames`): the value of
`frames` before its conversion to `int`, which is the result of the source when it is at most
`2^31 - 1`, the bound of the source's assertion "frames out of int range"
(`machine.samplesToFrames` has the conversion). -/
def samplesToFrames (F samples : Int) : Int :=
  (samples - 1).tdiv F + 1

/-- Number of samples held by frame `frame` of a stream of `totalSamples` samples
(`getFrameSampleCount`), in unbounded integers: the result of the source when the frame
number and the product `frame * F` are in the range of `int`
(`machine.getFrameSampleCount` has the types of the source). -/
def getFrameSampleCount (F frame totalSamples : Int) : Int :=
  let totalFrames := samplesToFrames F totalSamples
  if totalFrames ≤ frame then 0
  else if frame = totalFrames - 1 then totalSamples - frame * F
  else F

/-- Whether `frame` is the last frame of the stream (`isLastFrame`). -/
def isLastFrame (F frame totalSamples : Int) : Bool :=
  decide (frame = samplesToFrames F totalSamples - 1)

/-- First sample of a frame, inclusive (`frameToFirstSample`). -/
def frameToFirstSample (F frame : Int) : Int :=
  frame * F

/-- Last sample of a frame, exclusive, or `-1` if the frame is outside of all samples. -/
def frameToLastSample (F frame totalSamples : Int) : Int :=
  let frameSamples := getFrameSampleCount F frame totalSamples
  if frameSamples = 0 then -1
  else frameToFirstSample F frame + frameSamples

/-- Frame that holds the sample at position `sample` (`sampleToFrame`). -/
def sampleToFrame (F sample : Int) : Int :=
  sample.tdiv F

end vsutils

/-! ## `common/offset.hpp`, `common/offset.cpp` -/

namespace common

/-- Left and right frame sample offset (`struct FrameSampleOffsets`). -/
structure FrameSampleOffsets where
  left : Int
  right : Int
  deriving DecidableEq

/-- Frame numbers of the offset stream backing a base frame (`struct OffsetFramePos`). -/
structure OffsetFramePos where
  left : Int
  right : Int
  deriving DecidableEq

/-- Offset to add to a frame sample position to get the position in the left offset frame. -/
def getFrameLSampleOffsetFromFrameRSampleOffset (F frameRSampleOffset : Int) : Int :=
  if frameRSampleOffset = 0 then 0 else frameRSampleOffset + F

/-- Offset to add to a frame sample position to get the position in the right offset frame. -/
def getFrameRSampleOffset (F basePosOffsetStart : Int) : Int :=
  -(basePosOffsetStart.tmod F + (if basePosOffsetStart < 0 then F else 0))

/-- The left and right frame sample offset (`getFrameSampleOffsets`). -/
def getFrameSampleOffsets (F basePosOffsetStart : Int) : FrameSampleOffsets :=
  let frameRSampleOffset := getFrameRSampleOffset F basePosOffsetStart
  { left := getFrameLSampleOffsetFromFrameRSampleOffset F frameRSampleOffset,
    right := frameRSampleOffset }

/-- Offset-stream frames that back base frame `baseFrame` (`baseFrameToOffsetFrames`). -/
def baseFrameToOffsetFrames (F baseFrame basePosOffsetStart offsetTotalSamples
    baseTotalSamples : Int) : OffsetFramePos :=
  let basePosOffsetEnd := basePosOffsetStart + offsetTotalSamples
  let basePosBaseFrameStart := vsutils.frameToFirstSample F baseFrame
  let basePosBaseFrameEnd := vsutils.frameToLastSample F baseFrame baseTotalSamples
  if basePosBaseFrameEnd < 0 then
    { left := -1, right := -1 }
  else if basePosOffsetEnd ≤ basePosBaseFrameStart ∨ basePosBaseFrameEnd ≤ basePosOffsetStart then
    { left := -1, right := -1 }
  else if basePosBaseFrameStart < basePosOffsetStart then
    { left := -1, right := 0 }
  else
    let leftOffsetFrame := vsutils.sampleToFrame F (basePosBaseFrameStart - basePosOffsetStart)
    let sampleOffsetR := getFrameRSampleOffset F basePosOffsetStart
    if sampleOffsetR = 0 then
      { left := leftOffsetFrame, right := -1 }
    else if vsutils.isLastFrame F leftOffsetFrame offsetTotalSamples = true then
      { left := leftOffsetFrame, right := -1 }
    else
      { left := leftOffsetFrame, right := leftOffsetFrame + 1 }

/-- The trimming variant of `baseFrameToOffsetFrames` (`baseFrameToOffsetFramesTrim`). -/
def baseFrameToOffsetFramesTrim (F baseFrame basePosOffsetStart offsetTotalSamples
    basePosOffsetTrimStart basePosOffsetTrimEnd baseTotalSamples : Int) : OffsetFramePos :=
  let offsetFrame :=
    baseFrameToOffsetFrames F baseFrame basePosOffsetStart offsetTotalSamples baseTotalSamples
  let left :=
    if 0 ≤ offsetFrame.left then
      let basePosOffsetFrameLStart :=
        basePosOffsetStart + vsutils.frameToFirstSample F offsetFrame.left
      let basePosOffsetFrameLEnd :=
        basePosOffsetStart + vsutils.frameToLastSample F offsetFrame.left offsetTotalSamples
      if basePosOffsetTrimEnd ≤ basePosOffsetFrameLStart
          ∨ basePosOffsetFrameLEnd ≤ basePosOffsetTrimStart then -1
      else offsetFrame.left
    else offsetFrame.left
  let right :=
    if 0 ≤ offsetFrame.right then
      let basePosOffsetFrameRStart :=
        basePosOffsetStart + vsutils.frameToFirstSample F offsetFrame.right
      let basePosOffsetFrameREnd :=
        basePosOffsetStart + vsutils.frameToLastSample F offsetFrame.right offsetTotalSamples
      if basePosOffsetTrimEnd ≤ basePosOffsetFrameRStart
          ∨ basePosOffsetFrameREnd ≤ basePosOffsetTrimStart then -1
      else offsetFrame.right
    else offsetFrame.right
  { left := left, right := right }

/-- One channel of one frame as the host hands it out: `length` samples read by index. -/
structure FrameBuffer (α : Type) where
  length : Int
  data : Int → α

/-- The read `ptr[i]`: it has a value for a non-null pointer and an index inside the buffer. -/
def readSample {α : Type} (ptr : Option (FrameBuffer α)) (i : Int) : Option α :=
  match ptr with
  | none => none
  | some buf => if 0 ≤ i ∧ i < buf.length then some (buf.data i) else none

/-- Sample of the left or right offset frame for a sample position of a base frame. -/
def getOffsetSample {α : Type} (baseFrameSamplePos : Int) (offsets : FrameSampleOffsets)
    (offsetFrameLPtr offsetFrameRPtr : Option (FrameBuffer α)) : Option α :=
  if offsets.left = 0 then
    readSample offsetFrameLPtr (baseFrameSamplePos + offsets.left)
  else if -offsets.right ≤ baseFrameSamplePos then
    readSample offsetFrameRPtr (baseFrameSamplePos + offsets.right)
  else
    readSample offsetFrameLPtr (baseFrameSamplePos + offsets.left)

/-- Channel buffer of frame `frame` of a stream of `totalSamples` samples, as fetched by the
callers: the null pointer for a frame number below zero (the `-1` sentinel), otherwise the
frame's `getFrameSampleCount` samples starting at the frame's first sample. -/
def frameReadPtr {α : Type} (F : Int) (stream : Int → α) (totalSamples frame : Int) :
    Option (FrameBuffer α) :=
  if 0 ≤ frame then
    some { length := vsutils.getFrameSampleCount F frame totalSamples,
           data := fun i => stream (vsutils.frameToFirstSample F frame + i) }
  else none

end common

/-! ## Floating point values

A finite `double` or `float` is represented by its exact rational value.  NaN is not
represented, and an infinity only where the code can produce one from a finite `double`
(the narrowing cast to `float`).  An operation of the source that rounds (`*` and `/` on
`double`, the cast from `double` to `float`) is the exact operation followed by
`roundToFormat`, the IEEE 754 rounding to nearest, ties to even, into binary64 (`fl64`) or
binary32; results too large for binary64 do not occur in the sample arithmetic below, whose
products and quotients are bounded by `2^31`, and the constructor of Mix, whose gains are not
bounded, tests the sum of the gains for it.  Comparison, negation, `std::abs` and
`std::clamp` are exact. -/

/-- Round to the nearest integer, ties to the even integer. -/
def roundHalfEven (t : ℚ) : Int :=
  if t - ⌊t⌋ < 1 / 2 then ⌊t⌋
  else if 1 / 2 < t - ⌊t⌋ then ⌊t⌋ + 1
  else if ⌊t⌋ % 2 = 0 then ⌊t⌋ else ⌊t⌋ + 1

/-- Exponent of the unit in the last place of `q` in a binary format with `prec` significant
bits whose smallest subnormal is `2 ^ emin`. -/
def ulpExponent (prec emin : Int) (q : ℚ) : Int :=
  max (Int.log 2 |q| - (prec - 1)) emin

/-- Rounding to nearest, ties to even, into the binary format `(prec, emin)`. -/
def roundToFormat (prec emin : Int) (q : ℚ) : ℚ :=
  if q = 0 then 0
  else roundHalfEven (q / (2 : ℚ) ^ ulpExponent prec emin q) * (2 : ℚ) ^ ulpExponent prec emin q

/-- Rounding into binary64 (`double`). -/
def fl64 (q : ℚ) : ℚ :=
  roundToFormat 53 (-1074) q

/-- The function `std::round` followed by the cast to an integer type: nearest integer, ties
away from zero. -/
def roundHalfAway (t : ℚ) : Int :=
  if 0 ≤ t then ⌊t + 1 / 2⌋ else -⌊-t + 1 / 2⌋

/-- A `float` obtained from a finite `double`: finite, or an infinity. -/
inductive FloatVal where
  | fin (q : ℚ)
  | posInf
  | negInf
  deriving DecidableEq

/-- Comparison `d < t` of a finite `double` with a `float` widened back to `double`. -/
def FloatVal.gtDouble (t : FloatVal) (d : ℚ) : Bool :=
  match t with
  | .fin q => decide (d < q)
  | .posInf => true
  | .negInf => false

/-- Comparison `t < d` of a `float` widened back to `double` with a finite `double`. -/
def FloatVal.ltDouble (t : FloatVal) (d : ℚ) : Bool :=
  match t with
  | .fin q => decide (q < d)
  | .posInf => false
  | .negInf => true

/-- The cast `static_cast<float>(d)` of a finite `double`. -/
def castToFloat32 (d : ℚ) : FloatVal :=
  let r := roundToFormat 24 (-149) d
  if (2 : ℚ) ^ (128 : Nat) ≤ r then .posInf
  else if r ≤ -(2 : ℚ) ^ (128 : Nat) then .negInf
  else .fin r

/-- Largest finite `float`. -/
def maxFloat32 : ℚ :=
  (2 : ℚ) ^ (128 : Nat) - (2 : ℚ) ^ (104 : Nat)

/-- The call `std::nextafter(t, 0.0f)` on a `float`: the neighbouring `float` towards zero. -/
def nextafterZero32 (t : FloatVal) : ℚ :=
  match t with
  | .posInf => maxFloat32
  | .negInf => -maxFloat32
  | .fin q =>
    if q = 0 then 0
    else
      let e := Int.log 2 |q|
      let step : ℚ :=
        if |q| = (2 : ℚ) ^ e then (2 : ℚ) ^ max (e - 24) (-149) else (2 : ℚ) ^ max (e - 23) (-149)
      if 0 < q then q - step else q + step

/-! ## `utils/number.hpp`, `utils/sample.hpp` -/

namespace common

/-- The sample types (`enum class SampleType`).  The filters instantiate their templates
`<sample_t, IntSampleBits>` as `<int8_t, 8>`, `<int16_t, 16>`, `<int32_t, 24>`,
`<int32_t, 32>`, `<float, 0>` and `<double, 0>` for these six types, in this order. -/
inductive SampleType where
  | Int8
  | Int16
  | Int24
  | Int32
  | Float32
  | Float64
  deriving DecidableEq

/-- Whether the sample type is a floating point type (`isFloatSampleType`). -/
def isFloatSampleType (st : SampleType) : Bool :=
  match st with
  | .Float32 => true
  | .Float64 => true
  | _ => false

/-- Template argument `IntSampleBits` of the instantiation for a sample type. -/
def intSampleBits (st : SampleType) : Nat :=
  match st with
  | .Int8 => 8
  | .Int16 => 16
  | .Int24 => 24
  | .Int32 => 32
  | .Float32 => 0
  | .Float64 => 0

/-- Bit width of the template argument `sample_t` (`utils::bitwidth<sample_t>`). -/
def bitwidth (st : SampleType) : Nat :=
  match st with
  | .Int8 => 8
  | .Int16 => 16
  | .Int24 => 32
  | .Int32 => 32
  | .Float32 => 32
  | .Float64 => 64

/-- A native sample: a value of an integer `sample_t`, or of `float` / `double`. -/
inductive Sample where
  | int (v : Int)
  | flt (v : ℚ)
  deriving DecidableEq

end common

namespace utils

open common

/-- Largest value of a signed integer of `bits` bits (`utils::maxInt`). -/
def maxInt (bits : Nat) : Int :=
  2 ^ (bits - 1) - 1

/-- Smallest value of a signed integer of `bits` bits (`utils::minInt`). -/
def minInt (bits : Nat) : Int :=
  -(2 ^ (bits - 1))

/-- The function `castToFloatTowardsZero<T>`: a `T` value between zero and `d`.  For `float`
the value `t` of the cast is finite on the path that returns `t`: an infinite `t` passes
the test and goes to `nextafter` (`castToFloat32_posInf`, `castToFloat32_negInf`), so the
last two cases of the inner `match` are never reached.  For `double` the cast is the
identity. -/
def castToFloatTowardsZero (st : SampleType) (d : ℚ) : ℚ :=
  match st with
  | .Float32 =>
    let t := castToFloat32 d
    if (0 < d ∧ t.gtDouble d = true) ∨ (d < 0 ∧ t.ltDouble d = true) then
      nextafterZero32 t
    else
      match t with
      | .fin q => q
      | .posInf => maxFloat32
      | .negInf => -maxFloat32
  | _ => d

/-- Whether a sample overflows (`isSampleOverflowing`): an integer sample equal to `minInt`,
a floating point sample outside `[-1, 1]`. -/
def isSampleOverflowing (st : SampleType) (sample : Sample) : Bool :=
  match sample with
  | .int v => decide (v = minInt (intSampleBits st))
  | .flt v => decide (v < -1) || decide (1 < v)

/-- The function `clampSymIntSample`: `minInt` is clamped to `-maxInt`. -/
def clampSymIntSample (bits : Nat) (sample : Int) : Int :=
  if sample = minInt bits then -maxInt bits else sample

/-- The function `clampFloatSample<double>`: `std::clamp(sample, -1, 1)`. -/
def clampFloatSample (sample : ℚ) : ℚ :=
  if sample < -1 then -1 else if 1 < sample then 1 else sample

/-- The function `clampFloatSample<float>` applied to a freshly cast `float`. -/
def clampFloatSample32 (sample : FloatVal) : ℚ :=
  match sample with
  | .fin q => clampFloatSample q
  | .posInf => 1
  | .negInf => -1

/-- Conversion of a native sample to `double` (`convSampleToDouble`): an integer is clamped
to the symmetric range and divided by `maxInt`, a floating point sample is widened. -/
def convSampleToDouble (st : SampleType) (sample : Sample) : ℚ :=
  match sample with
  | .int v =>
    fl64 ((clampSymIntSample (intSampleBits st) v : ℚ) / (maxInt (intSampleBits st) : ℚ))
  | .flt v => v

/-- Conversion of a `double` to a native sample (`convSampleFromDouble`). -/
def convSampleFromDouble (st : SampleType) (sample : ℚ) (clampFloat : Bool) : Sample :=
  match st with
  | .Float32 =>
    if clampFloat then .flt (clampFloatSample32 (castToFloat32 sample))
    else .flt (castToFloatTowardsZero .Float32 sample)
  | .Float64 =>
    if clampFloat then .flt (clampFloatSample sample)
    else .flt (castToFloatTowardsZero .Float64 sample)
  | _ =>
    .int (roundHalfAway (fl64 (clampFloatSample sample * (maxInt (intSampleBits st) : ℚ))))

end utils

/-! ## `vsutils/bitshift.hpp`, `common/overflow.hpp`, `common/overflow.cpp` -/

namespace vsutils

open common

/-- Bit shift between the stored and the logical sample (`struct BitShift`). -/
structure BitShift where
  count : Nat
  required : Bool
  deriving DecidableEq

/-- The function `getSampleBitShift<sample_t, IntSampleBits>`. -/
def getSampleBitShift (st : SampleType) : BitShift :=
  let bitShiftNum := bitwidth st - intSampleBits st
  { count := bitShiftNum,
    required := !isFloatSampleType st && decide (0 < bitShiftNum) }

end vsutils

namespace common

open utils vsutils

/-- How an overflowing sample is handled (`enum class OverflowMode`). -/
inductive OverflowMode where
  | Error
  | Clip
  | ClipInt
  | KeepFloat
  deriving DecidableEq

/-- Which overflowing samples are logged (`enum class OverflowLog`). -/
inductive OverflowLog where
  | All
  | Once
  | None
  deriving DecidableEq

/-- The fields of `struct OverflowContext` that select behaviour; the function name and the
host handles only label and route the messages. -/
structure OverflowContext where
  mode : OverflowMode
  log : OverflowLog
  deriving DecidableEq

/-- Accumulated overflow statistics (`struct OverflowStats`). -/
structure OverflowStats where
  count : Int
  peak : ℚ
  deriving DecidableEq

/-- Message type passed to the host's `logMessage`. -/
inductive MessageType where
  | mtInformation
  | mtWarning
  | mtCritical
  deriving DecidableEq

/-- Text of a message built by the overflow engine. -/
inductive MessageText where
  /-- Text of `genOverflowMsg`: "Overflow detected", with position, channel and sample. -/
  | overflow (sample : ℚ) (totalPos : Int) (channel : Int)
  /-- Text of `genOverflowHandlingMsg`: "Exiting with an error." -/
  | exitingWithError
  /-- Text of `genOverflowHandlingMsg`: "Overflowing samples will *not* be clipped." -/
  | notClipped
  /-- Text of `genOverflowHandlingMsg`: "Overflowing samples will be clipped." -/
  | clipped
  /-- Text "Only the first overflow will be logged." -/
  | firstOnlyHint
  /-- Text "Overflow detected. keep_float cannot be used with integer sample types". -/
  | keepFloatInteger
  deriving DecidableEq

/-- A call into the host made by the overflow engine. -/
inductive HostCall where
  | logMessage (msgType : MessageType) (text : MessageText)
  | setFilterError (text : MessageText)
  deriving DecidableEq

/-- The method `OverflowStats::addSample`. -/
def OverflowStats.addSample (ofStats : OverflowStats) (sample : ℚ) : OverflowStats :=
  let count := ofStats.count + 1
  let absSample := |sample|
  if ofStats.peak < absSample then { count := count, peak := absSample }
  else { count := count, peak := ofStats.peak }

/-- The function `genOverflowHandlingMsg<sample_t>`. -/
def genOverflowHandlingMsg (st : SampleType) (ofCtx : OverflowContext) : MessageText :=
  match ofCtx.mode with
  | .Error => .exitingWithError
  | .ClipInt => if isFloatSampleType st = true then .notClipped else .clipped
  | .KeepFloat => if isFloatSampleType st = true then .notClipped else .clipped
  | .Clip => .clipped

/-- The function `logOverflow<sample_t>`: the host calls it makes, in order. -/
def logOverflow (st : SampleType) (sample : ℚ) (totalPos channel : Int)
    (ofCtx : OverflowContext) (ofStats : OverflowStats) : List HostCall :=
  match ofCtx.log with
  | .All =>
    [.logMessage .mtWarning (.overflow sample totalPos channel)]
      ++ (if ofStats.count = 0 then
            [.logMessage .mtInformation (genOverflowHandlingMsg st ofCtx)]
          else [])
  | .Once =>
    if ofStats.count = 0 then
      let errorMode := decide (ofCtx.mode = .Error)
      [.logMessage (if errorMode = true then .mtCritical else .mtWarning)
          (.overflow sample totalPos channel),
        .logMessage .mtInformation (genOverflowHandlingMsg st ofCtx)]
        ++ (if errorMode = false then [.logMessage .mtInformation .firstOnlyHint] else [])
    else []
  | .None => []

/-- Outcome of a conversion: the optional sample, the statistics after the call and the
host calls made during it. -/
structure ConvertResult where
  value : Option Sample
  stats : OverflowStats
  calls : List HostCall
  deriving DecidableEq

/-- The function `handleOverflow<sample_t, IntSampleBits>`. -/
def handleOverflow (st : SampleType) (sample : ℚ) (totalPos channel : Int)
    (ofCtx : OverflowContext) (ofStats : OverflowStats) : ConvertResult :=
  let logged := logOverflow st sample totalPos channel ofCtx ofStats
  let stats := ofStats.addSample sample
  match ofCtx.mode with
  | .Error =>
    { value := none, stats := stats,
      calls := logged ++ [.setFilterError (.overflow sample totalPos channel)] }
  | .KeepFloat =>
    if isFloatSampleType st = true then
      { value := some (convSampleFromDouble st sample false), stats := stats, calls := logged }
    else
      { value := none, stats := stats,
        calls := logged ++ [.setFilterError .keepFloatInteger] }
  | .ClipInt =>
    if isFloatSampleType st = true then
      { value := some (convSampleFromDouble st sample false), stats := stats, calls := logged }
    else
      { value := some (convSampleFromDouble st sample true), stats := stats, calls := logged }
  | .Clip =>
    { value := some (convSampleFromDouble st sample true), stats := stats, calls := logged }

/-- The function `safeConvertSample<sample_t, IntSampleBits>`. -/
def safeConvertSample (st : SampleType) (sample : ℚ) (totalPos channel : Int)
    (ofCtx : OverflowContext) (ofStats : OverflowStats) : ConvertResult :=
  if isSampleOverflowing .Float64 (.flt sample) = true then
    handleOverflow st sample totalPos channel ofCtx ofStats
  else
    { value := some (convSampleFromDouble st sample false), stats := ofStats, calls := [] }

/-- Outcome of a write: the returned flag, the output buffer, the statistics and the host
calls. -/
structure WriteResult where
  ok : Bool
  frm : Int → Sample
  stats : OverflowStats
  calls : List HostCall

/-- The compound assignment `outSample <<= count` on an integer sample. -/
def shiftLeft (sample : Sample) (count : Nat) : Sample :=
  match sample with
  | .int v => .int (v * 2 ^ count)
  | .flt v => .flt v

/-- The function `safeWriteSample<sample_t, IntSampleBits>`; `frm` is the memory behind
`frmPtr`, indexed by sample position. -/
def safeWriteSample (st : SampleType) (sample : ℚ) (frm : Int → Sample) (frmPtrPos : Int)
    (totalPos channel : Int) (ofCtx : OverflowContext) (ofStats : OverflowStats) :
    WriteResult :=
  let conv := safeConvertSample st sample totalPos channel ofCtx ofStats
  match conv.value with
  | some optSample =>
    let outBitShift := getSampleBitShift st
    let outSample :=
      if outBitShift.required = true then shiftLeft optSample outBitShift.count else optSample
    { ok := true,
      frm := fun i => if i = frmPtrPos then outSample else frm i,
      stats := conv.stats, calls := conv.calls }
  | none =>
    { ok := false, frm := frm, stats := conv.stats, calls := conv.calls }

end common

/-! ## `common/transition.hpp`, `common/transition.cpp`

The arithmetic of the transitions is `double` arithmetic: every `+`, `-`, `*`, `/` below is
the exact operation followed by `fl64`.  The cosine of the C library is not fixed by the
language; the functions that evaluate a transition take it as their first argument `cosD`.

The members and values below are those of the source as long as every intermediate result
is a finite `double`: for endpoints with a tiny or a huge `x2 - x1` a quotient of the source
overflows or has a divisor that was rounded to zero (`xDiffPow2`, `xDiffPow3`), and the
source continues with an infinity or a NaN.  The transitions that the filters build run
from `(0, y1)` to `(n - 1, y2)` for a sample count `n` and `y1`, `y2` in `{0, 1}`; the
theorems on `double` values are stated for these. -/

namespace common

/-- Shape of a transition (`enum class TransitionType`). -/
inductive TransitionType where
  | Linear
  | Cubic
  | Sine
  deriving DecidableEq

/-- The constant `std::numbers::pi`, the `double` nearest to π. -/
def piDouble : ℚ :=
  884279719003555 / 281474976710656

/-- Members of `class LinearTransition`. -/
structure LinearTransition where
  x1 : ℚ
  y1 : ℚ
  x2 : ℚ
  y2 : ℚ
  gradient : ℚ
  yOffset : ℚ
  deriving DecidableEq

/-- Constructor of `LinearTransition`.  For `x1 == x2` the members `gradient` and `yOffset`
stay uninitialised in the source and are never read; they are 0 here.  For `x1 != x2` the
members are those of the source when the quotient `gradient` is finite (it overflows for a
tiny `x2 - x1`). -/
def LinearTransition.new (x1 y1 x2 y2 : ℚ) : LinearTransition :=
  if x1 ≠ x2 then
    let gradient := fl64 (fl64 (y2 - y1) / fl64 (x2 - x1))
    let yOffset := fl64 (y1 - fl64 (gradient * x1))
    { x1 := x1, y1 := y1, x2 := x2, y2 := y2, gradient := gradient, yOffset := yOffset }
  else
    { x1 := x1, y1 := y1, x2 := x2, y2 := y2, gradient := 0, yOffset := 0 }

/-- The method `LinearTransition::calcY`. -/
def LinearTransition.calcY (t : LinearTransition) (x : ℚ) : ℚ :=
  if t.x1 = t.x2 then t.y1
  else fl64 (fl64 (t.gradient * x) + t.yOffset)

/-- Members of `class CubicTransition`. -/
structure CubicTransition where
  x1 : ℚ
  y1 : ℚ
  x2 : ℚ
  y2 : ℚ
  factor3 : ℚ
  factor2 : ℚ
  deriving DecidableEq

/-- Constructor of `CubicTransition`.  For `x1 != x2` the members are those of the source
when `xDiffPow2` and `xDiffPow3` are not rounded to zero and the two quotients are finite;
for a tiny `x2 - x1` the source divides by zero and the factors are infinities. -/
def CubicTransition.new (x1 y1 x2 y2 : ℚ) : CubicTransition :=
  let yDiff := fl64 (y2 - y1)
  let xDiff := fl64 (x2 - x1)
  let xDiffPow2 := fl64 (xDiff * xDiff)
  let xDiffPow3 := fl64 (fl64 (xDiff * xDiff) * xDiff)
  if x1 ≠ x2 then
    { x1 := x1, y1 := y1, x2 := x2, y2 := y2,
      factor2 := fl64 (fl64 (3 * yDiff) / xDiffPow2),
      factor3 := fl64 (fl64 (-2 * yDiff) / xDiffPow3) }
  else
    { x1 := x1, y1 := y1, x2 := x2, y2 := y2, factor2 := 0, factor3 := 0 }

/-- The method `CubicTransition::calcY`. -/
def CubicTransition.calcY (t : CubicTransition) (x : ℚ) : ℚ :=
  if t.x1 = t.x2 then t.y1
  else
    let x_x1Diff := fl64 (x - t.x1)
    let x_x1DiffPow2 := fl64 (x_x1Diff * x_x1Diff)
    let x_x1DiffPow3 := fl64 (fl64 (x_x1Diff * x_x1Diff) * x_x1Diff)
    fl64 (fl64 (fl64 (t.factor3 * x_x1DiffPow3) + fl64 (t.factor2 * x_x1DiffPow2)) + t.y1)

/-- Members of `class SineTransition`. -/
structure SineTransition where
  x1 : ℚ
  y1 : ℚ
  x2 : ℚ
  y2 : ℚ
  xScale : ℚ
  yScale : ℚ
  yOffset : ℚ
  deriving DecidableEq

/-- Constructor of `SineTransition`.  For `x1 == x2` the source divides by zero and `xScale`
is an infinity that is never read; the division yields 0 here. -/
def SineTransition.new (x1 y1 x2 y2 : ℚ) : SineTransition :=
  { x1 := x1, y1 := y1, x2 := x2, y2 := y2,
    xScale := fl64 (piDouble / fl64 (x2 - x1)),
    yScale := fl64 (fl64 (y1 - y2) / 2),
    yOffset := fl64 (fl64 (y1 + y2) / 2) }

/-- The method `SineTransition::calcY`. -/
def SineTransition.calcY (cosD : ℚ → ℚ) (t : SineTransition) (x : ℚ) : ℚ :=
  if t.x1 = t.x2 then t.y1
  else fl64 (fl64 (cosD (fl64 (fl64 (x - t.x1) * t.xScale)) * t.yScale) + t.yOffset)

/-- An object of a class derived from `class Transition`. -/
inductive Transition where
  | linear (t : LinearTransition)
  | cubic (t : CubicTransition)
  | sine (t : SineTransition)
  deriving DecidableEq

/-- The virtual method `Transition::calcY`. -/
def Transition.calcY (cosD : ℚ → ℚ) (t : Transition) (x : ℚ) : ℚ :=
  match t with
  | .linear l => l.calcY x
  | .cubic c => c.calcY x
  | .sine s => s.calcY cosD x

/-- The function `newTransition`. -/
def newTransition (type : TransitionType) (x1 y1 x2 y2 : ℚ) : Transition :=
  match type with
  | .Linear => .linear (LinearTransition.new x1 y1 x2 y2)
  | .Cubic => .cubic (CubicTransition.new x1 y1 x2 y2)
  | .Sine => .sine (SineTransition.new x1 y1 x2 y2)

end common

/-! ## The sample loop of the `writeFrameChannel` methods

The four compositors below write an output frame one channel at a time with a loop
`for (int s = 0; s < outFrmLen; ++s)` that leaves with `false` at the first failed
`safeWriteSample`.  The frames are those of a release build: `assert` and `assertm` expand to
nothing.  A read through a null pointer or outside a frame is undefined behaviour and is the
result `none`. -/

namespace common

/-- The compound assignment `inSample >>= count` on an integer sample (arithmetic shift). -/
def shiftRight (sample : Sample) (count : Nat) : Sample :=
  match sample with
  | .int v => .int (v / 2 ^ count)
  | .flt v => .flt v

/-- Whether `x` is a value that a sample of a frame of type `st` holds: for an integer type
a value of the container type (`bitwidth st` bits) whose bits below the logical sample are
zero, which is the form that `safeWriteSample` stores; for `float` a value that the cast to
`float` keeps; for `float` and `double` a value that is a `double`. -/
def isNativeSample (st : SampleType) (x : Sample) : Bool :=
  match x with
  | .int w =>
    !isFloatSampleType st
      && decide (w % 2 ^ (bitwidth st - intSampleBits st) = 0)
      && decide (utils.minInt (bitwidth st) ≤ w) && decide (w ≤ utils.maxInt (bitwidth st))
  | .flt q =>
    isFloatSampleType st && decide (utils.castToFloatTowardsZero st q = q)
      && decide (fl64 q = q)

/-- The loop `for (int s = ...; s < outFrmLen; ++s)`: `todo` passes are left, `s` is the loop
variable and `acc` the state reached so far; `body s frm stats` is one pass on the output
memory `frm` with the statistics `stats`. -/
def sampleLoop (body : Int → (Int → Sample) → OverflowStats → Option WriteResult) :
    Nat → Int → WriteResult → Option WriteResult
  | 0, _, acc => some acc
  | todo + 1, s, acc =>
    match body s acc.frm acc.stats with
    | none => none
    | some r =>
      if r.ok = true then
        sampleLoop body todo (s + 1)
          { ok := true, frm := r.frm, stats := r.stats, calls := acc.calls ++ r.calls }
      else
        some { ok := false, frm := r.frm, stats := r.stats, calls := acc.calls ++ r.calls }

end common

/-! ## `delay.cpp` -/

/-- Members of `class Delay` that the edit channels use. -/
structure Delay where
  numSamples : Int
  outSampleType : common.SampleType
  outPosOffsetStart : Int
  outPosOffsetEnd : Int
  audioFrameSampleOffsets : common.FrameSampleOffsets
  overflowMode : common.OverflowMode
  overflowLog : common.OverflowLog

namespace Delay

open common utils vsutils

/-- Constructor `Delay::Delay`; `numSamples` and `outSampleType` come from the audio
information of the input. -/
def new (F numSamples : Int) (outSampleType : SampleType) (offsetSamples : Int)
    (overflowMode : OverflowMode) (overflowLog : OverflowLog) : Delay :=
  { numSamples := numSamples,
    outSampleType := outSampleType,
    outPosOffsetStart := offsetSamples,
    outPosOffsetEnd := offsetSamples + numSamples,
    audioFrameSampleOffsets := getFrameSampleOffsets F offsetSamples,
    overflowMode := overflowMode,
    overflowLog := overflowLog }

/-- Number of samples of the output, `getOutInfo().numSamples`: the audio information of the
input is returned unchanged. -/
def outNumSamples (d : Delay) : Int :=
  d.numSamples

/-- The method `Delay::outFrameToOffsetInFrames`. -/
def outFrameToOffsetInFrames (F : Int) (d : Delay) (outFrmNum : Int) : OffsetFramePos :=
  baseFrameToOffsetFrames F outFrmNum d.outPosOffsetStart d.numSamples d.numSamples

/-- One pass of the loop of `Delay::writeFrameChannel`. -/
def writeFrameChannelStep (d : Delay) (ch outPosFrmStart : Int)
    (offsetInFrmLPtr offsetInFrmRPtr : Option (FrameBuffer Sample)) (ofCtx : OverflowContext)
    (s : Int) (outFrm : Int → Sample) (overflowStats : OverflowStats) : Option WriteResult :=
  let bitShift := getSampleBitShift d.outSampleType
  let outPos := outPosFrmStart + s
  if outPos < d.outPosOffsetStart ∨ d.outPosOffsetEnd ≤ outPos then
    some (safeWriteSample d.outSampleType 0 outFrm s outPos ch ofCtx overflowStats)
  else
    match getOffsetSample s d.audioFrameSampleOffsets offsetInFrmLPtr offsetInFrmRPtr with
    | none => none
    | some read =>
      let inSample := if bitShift.required = true then shiftRight read bitShift.count else read
      some (safeWriteSample d.outSampleType (convSampleToDouble d.outSampleType inSample)
        outFrm s outPos ch ofCtx overflowStats)

/-- The method `Delay::writeFrameChannel`. -/
def writeFrameChannel (d : Delay) (ch : Int) (outFrm : Int → Sample)
    (outPosFrmStart outFrmLen : Int)
    (offsetInFrmLPtr offsetInFrmRPtr : Option (FrameBuffer Sample)) (ofCtx : OverflowContext)
    (overflowStats : OverflowStats) : Option WriteResult :=
  sampleLoop (d.writeFrameChannelStep ch outPosFrmStart offsetInFrmLPtr offsetInFrmRPtr ofCtx)
    outFrmLen.toNat 0 { ok := true, frm := outFrm, stats := overflowStats, calls := [] }

end Delay

open common utils vsutils in
/-- The ready phase of `delayGetFrame` for one edit channel `ch` whose input samples are
`audio`: `outFrm` is the memory of the new output frame and `overflowStats` the statistics
left by the previous frame.  The result has `ok = false` when the function returns no frame.
The summary that `logOverflowStats` logs after the last frame is left out. -/
def delayGetFrame (F : Int) (d : Delay) (audio : Int → Sample) (ch outFrmNum : Int)
    (outFrm : Int → Sample) (overflowStats : OverflowStats) : Option WriteResult :=
  let offsetInFrmNums := d.outFrameToOffsetInFrames F outFrmNum
  let stats : OverflowStats := if outFrmNum = 0 then { count := 0, peak := 0 } else overflowStats
  let offsetInFrmL := frameReadPtr F audio d.numSamples offsetInFrmNums.left
  let offsetInFrmR := frameReadPtr F audio d.numSamples offsetInFrmNums.right
  let outFrmLen := getFrameSampleCount F outFrmNum d.outNumSamples
  d.writeFrameChannel ch outFrm (frameToFirstSample F outFrmNum) outFrmLen
    offsetInFrmL offsetInFrmR { mode := d.overflowMode, log := d.overflowLog } stats

/-! ## `fade.cpp` -/

/-- Members of `class Fade` that the edit channels use; `fadeTrans` is `none` for the null
pointer. -/
structure Fade where
  numSamples : Int
  outSampleType : common.SampleType
  outPosFadeStart : Int
  outPosFadeEnd : Int
  fadeSamples : Int
  fadeTrans : Option common.Transition
  outFrameFadeStart : Int
  outFrameFadeEnd : Int
  overflowMode : common.OverflowMode
  overflowLog : common.OverflowLog

namespace Fade

open common utils vsutils

/-- Constructor `Fade::Fade`. -/
def new (F numSamples : Int) (outSampleType : SampleType) (outPosFadeStart fadeSamples : Int)
    (fadeTrans : Option Transition) (overflowMode : OverflowMode) (overflowLog : OverflowLog) :
    Fade :=
  let outPosFadeEnd := outPosFadeStart + fadeSamples
  { numSamples := numSamples,
    outSampleType := outSampleType,
    outPosFadeStart := outPosFadeStart,
    outPosFadeEnd := outPosFadeEnd,
    fadeSamples := fadeSamples,
    fadeTrans := fadeTrans,
    outFrameFadeStart := sampleToFrame F outPosFadeStart,
    outFrameFadeEnd := sampleToFrame F (outPosFadeEnd - 1) + 1,
    overflowMode := overflowMode,
    overflowLog := overflowLog }

/-- One pass of the loop of `Fade::writeFrameChannel`. -/
def writeFrameChannelStep (cosD : ℚ → ℚ) (f : Fade) (ch outPosFrmStart : Int)
    (inFrmPtr : Option (FrameBuffer Sample)) (ofCtx : OverflowContext)
    (s : Int) (outFrm : Int → Sample) (overflowStats : OverflowStats) : Option WriteResult :=
  let bitShift := getSampleBitShift f.outSampleType
  let outPos := outPosFrmStart + s
  match readSample inFrmPtr s with
  | none => none
  | some read =>
    let inSample := if bitShift.required = true then shiftRight read bitShift.count else read
    match f.fadeTrans with
    | some fadeTrans =>
      if f.outPosFadeStart ≤ outPos ∧ outPos < f.outPosFadeEnd then
        let fadePos := outPos - f.outPosFadeStart
        let fadeScale := fadeTrans.calcY cosD (fl64 (fadePos : ℚ))
        let scaledSample := fl64 (fadeScale * convSampleToDouble f.outSampleType inSample)
        some (safeWriteSample f.outSampleType scaledSample outFrm s outPos ch ofCtx
          overflowStats)
      else
        some (safeWriteSample f.outSampleType (convSampleToDouble f.outSampleType inSample)
          outFrm s outPos ch ofCtx overflowStats)
    | none =>
      some (safeWriteSample f.outSampleType (convSampleToDouble f.outSampleType inSample)
        outFrm s outPos ch ofCtx overflowStats)

/-- The method `Fade::writeFrameChannel`. -/
def writeFrameChannel (cosD : ℚ → ℚ) (f : Fade) (ch : Int) (outFrm : Int → Sample)
    (outPosFrmStart outFrmLen : Int) (inFrmPtr : Option (FrameBuffer Sample))
    (ofCtx : OverflowContext) (overflowStats : OverflowStats) : Option WriteResult :=
  sampleLoop (f.writeFrameChannelStep cosD ch outPosFrmStart inFrmPtr ofCtx)
    outFrmLen.toNat 0 { ok := true, frm := outFrm, stats := overflowStats, calls := [] }

end Fade

open common utils vsutils in
/-- The ready phase of `fadeGetFrame` for one edit channel `ch` whose input samples are
`audio`.  A frame outside `[outFrameFadeStart, outFrameFadeEnd)` is the input frame itself;
otherwise `outFrm` is the memory of the new output frame.  The summary that
`logOverflowStats` logs after the last frame is left out. -/
def fadeGetFrame (F : Int) (cosD : ℚ → ℚ) (f : Fade) (audio : Int → Sample)
    (ch outFrmNum : Int) (outFrm : Int → Sample) (overflowStats : OverflowStats) :
    Option WriteResult :=
  let stats : OverflowStats := if outFrmNum = 0 then { count := 0, peak := 0 } else overflowStats
  let inFrm := frameReadPtr F audio f.numSamples outFrmNum
  if outFrmNum < f.outFrameFadeStart ∨ f.outFrameFadeEnd ≤ outFrmNum then
    some { ok := true, frm := fun i => audio (frameToFirstSample F outFrmNum + i),
           stats := stats, calls := [] }
  else
    let inFrmLen := getFrameSampleCount F outFrmNum f.numSamples
    f.writeFrameChannel cosD ch outFrm (frameToFirstSample F outFrmNum) inFrmLen inFrm
      { mode := f.overflowMode, log := f.overflowLog } stats

/-! ## `crossfade.cpp` -/

/-- Members of `class CrossFade`; `fadeoutTrans` is `none` for the null pointer. -/
structure CrossFade where
  audio1NumSamples : Int
  audio2NumSamples : Int
  outNumSamples : Int
  outSampleType : common.SampleType
  outPosFadeStart : Int
  outPosFadeEnd : Int
  audio2FrameSampleOffsets : common.FrameSampleOffsets
  fadeoutTrans : Option common.Transition
  overflowMode : common.OverflowMode
  overflowLog : common.OverflowLog

namespace CrossFade

open common utils vsutils

/-- Constructor `CrossFade::CrossFade`; the stream lengths and `outSampleType` come from the
audio information of the inputs. -/
def new (F audio1NumSamples audio2NumSamples : Int) (outSampleType : SampleType)
    (fadeSamples : Int) (fadeType : TransitionType) (overflowMode : OverflowMode)
    (overflowLog : OverflowLog) : CrossFade :=
  let fadeSamples := max fadeSamples 0
  let outPosFadeStart := audio1NumSamples - fadeSamples
  { audio1NumSamples := audio1NumSamples,
    audio2NumSamples := audio2NumSamples,
    outNumSamples := audio1NumSamples + audio2NumSamples - fadeSamples,
    outSampleType := outSampleType,
    outPosFadeStart := outPosFadeStart,
    outPosFadeEnd := audio1NumSamples,
    audio2FrameSampleOffsets := getFrameSampleOffsets F outPosFadeStart,
    fadeoutTrans :=
      if 0 < fadeSamples then
        some (newTransition fadeType 0 1 (fl64 ((fadeSamples - 1 : Int) : ℚ)) 0)
      else none,
    overflowMode := overflowMode,
    overflowLog := overflowLog }

/-- The method `CrossFade::outFrameToAudio1Frame`. -/
def outFrameToAudio1Frame (F : Int) (c : CrossFade) (outFrmNum : Int) : Int :=
  (baseFrameToOffsetFrames F outFrmNum 0 c.audio1NumSamples c.outNumSamples).left

/-- The method `CrossFade::outFrameToAudio2Frames`. -/
def outFrameToAudio2Frames (F : Int) (c : CrossFade) (outFrmNum : Int) : OffsetFramePos :=
  baseFrameToOffsetFrames F outFrmNum c.outPosFadeStart c.audio2NumSamples c.outNumSamples

/-- The two weights of the crossfade branch of `CrossFade::writeFrameChannel` at fade
position `fadePos`: `audio1Scale` and `audio2Scale`. -/
def scales (cosD : ℚ → ℚ) (c : CrossFade) (fadePos : Int) : ℚ × ℚ :=
  match c.fadeoutTrans with
  | some fadeoutTrans =>
    let audio1Scale := fadeoutTrans.calcY cosD (fl64 (fadePos : ℚ))
    (audio1Scale, fl64 (1 - audio1Scale))
  | none => (1, 0)

/-- One pass of the loop of `CrossFade::writeFrameChannel`. -/
def writeFrameChannelStep (cosD : ℚ → ℚ) (c : CrossFade) (ch outPosFrmStart : Int)
    (a1FrmPtr a2FrmLPtr a2FrmRPtr : Option (FrameBuffer Sample)) (ofCtx : OverflowContext)
    (s : Int) (outFrm : Int → Sample) (overflowStats : OverflowStats) : Option WriteResult :=
  let st := c.outSampleType
  let bitShift := getSampleBitShift st
  let shifted := fun (x : Sample) =>
    if bitShift.required = true then shiftRight x bitShift.count else x
  let outPos := outPosFrmStart + s
  if outPos < c.outPosFadeStart then
    match readSample a1FrmPtr s with
    | none => none
    | some a1Read =>
      some (safeWriteSample st (convSampleToDouble st (shifted a1Read)) outFrm s outPos ch
        ofCtx overflowStats)
  else if c.outPosFadeEnd ≤ outPos then
    match getOffsetSample s c.audio2FrameSampleOffsets a2FrmLPtr a2FrmRPtr with
    | none => none
    | some a2Read =>
      some (safeWriteSample st (convSampleToDouble st (shifted a2Read)) outFrm s outPos ch
        ofCtx overflowStats)
  else
    match readSample a1FrmPtr s,
        getOffsetSample s c.audio2FrameSampleOffsets a2FrmLPtr a2FrmRPtr with
    | some a1Read, some a2Read =>
      let fadePos := outPos - c.outPosFadeStart
      let audioScales := c.scales cosD fadePos
      let mixedSample :=
        fl64 (fl64 (audioScales.1 * convSampleToDouble st (shifted a1Read))
          + fl64 (audioScales.2 * convSampleToDouble st (shifted a2Read)))
      some (safeWriteSample st mixedSample outFrm s outPos ch ofCtx overflowStats)
    | _, _ => none

/-- The method `CrossFade::writeFrameChannel`. -/
def writeFrameChannel (cosD : ℚ → ℚ) (c : CrossFade) (ch : Int) (outFrm : Int → Sample)
    (outPosFrmStart outFrmLen : Int)
    (a1FrmPtr a2FrmLPtr a2FrmRPtr : Option (FrameBuffer Sample)) (ofCtx : OverflowContext)
    (overflowStats : OverflowStats) : Option WriteResult :=
  sampleLoop (c.writeFrameChannelStep cosD ch outPosFrmStart a1FrmPtr a2FrmLPtr a2FrmRPtr ofCtx)
    outFrmLen.toNat 0 { ok := true, frm := outFrm, stats := overflowStats, calls := [] }

end CrossFade

open common utils vsutils in
/-- The ready phase of `crossfadeGetFrame` for one channel `ch` whose input samples are
`audio1` and `audio2`: `outFrm` is the memory of the new output frame.  The summary that
`logOverflowStats` logs after the last frame is left out. -/
def crossfadeGetFrame (F : Int) (cosD : ℚ → ℚ) (c : CrossFade) (audio1 audio2 : Int → Sample)
    (ch outFrmNum : Int) (outFrm : Int → Sample) (overflowStats : OverflowStats) :
    Option WriteResult :=
  let a1FrmNum := c.outFrameToAudio1Frame F outFrmNum
  let a2FrmNums := c.outFrameToAudio2Frames F outFrmNum
  let stats : OverflowStats := if outFrmNum = 0 then { count := 0, peak := 0 } else overflowStats
  let a1Frm := frameReadPtr F audio1 c.audio1NumSamples a1FrmNum
  let a2FrmL := frameReadPtr F audio2 c.audio2NumSamples a2FrmNums.left
  let a2FrmR := frameReadPtr F audio2 c.audio2NumSamples a2FrmNums.right
  let outFrmLen := getFrameSampleCount F outFrmNum c.outNumSamples
  c.writeFrameChannel cosD ch outFrm (frameToFirstSample F outFrmNum) outFrmLen
    a1Frm a2FrmL a2FrmR { mode := c.overflowMode, log := c.overflowLog } stats

/-! ## `mix.cpp` -/

/-- Members of `class Mix`; a transition is `none` for the null pointer. -/
structure Mix where
  audio1NumSamples : Int
  audio2NumSamples : Int
  outNumSamples : Int
  outSampleType : common.SampleType
  editChannels : List Int
  audio1Scale : ℚ
  audio2Scale : ℚ
  outPosAudio1Start : Int
  outPosAudio1End : Int
  outPosAudio2Start : Int
  outPosAudio2End : Int
  outPosAudio1TrimStart : Int
  outPosAudio1TrimEnd : Int
  outPosAudio2TrimStart : Int
  outPosAudio2TrimEnd : Int
  audio1FrameSampleOffsets : common.FrameSampleOffsets
  audio2FrameSampleOffsets : common.FrameSampleOffsets
  outPosFadeinStart : Int
  outPosFadeinEnd : Int
  outPosFadeoutStart : Int
  outPosFadeoutEnd : Int
  fadeinAudio2 : Bool
  fadeoutAudio2 : Bool
  fadeinTrans : Option common.Transition
  fadeoutTrans : Option common.Transition
  overflowMode : common.OverflowMode
  overflowLog : common.OverflowLog

namespace Mix

open common utils vsutils

/-- Constructor `Mix::Mix`; the stream lengths and `outSampleType` come from the audio
information of the inputs.  A member that the source assigns in the branches of a conditional
is the conditional of the assigned values.  The gains are finite `double`s.  When the sum of
the gains rounds to a magnitude of `2^1024` or more, `totalGain` is an infinity in the source:
it is not equal to 0, and the quotient of a finite gain by it is a zero. -/
def new (F audio1NumSamples : Int) (audio1Gain : ℚ) (audio2NumSamples : Int) (audio2Gain : ℚ)
    (outSampleType : SampleType) (audio2OffsetSamples : Int) (relativeGain : Bool)
    (fadeinSamples fadeoutSamples : Int) (fadeType : TransitionType)
    (extendAudio1Start extendAudio1End : Bool) (editChannels : List Int)
    (overflowMode : OverflowMode) (overflowLog : OverflowLog) : Mix :=
  let outPosAudio1Start :=
    if audio2OffsetSamples < 0 then
      if extendAudio1Start = true then -audio2OffsetSamples else 0
    else 0
  let outPosAudio1TrimStart :=
    if audio2OffsetSamples < 0 then
      if extendAudio1Start = true then -audio2OffsetSamples else 0
    else 0
  let outPosAudio2Start :=
    if audio2OffsetSamples < 0 then
      if extendAudio1Start = true then 0 else audio2OffsetSamples
    else audio2OffsetSamples
  let outPosAudio2TrimStart :=
    if audio2OffsetSamples < 0 then
      if extendAudio1Start = true then 0 else 0
    else audio2OffsetSamples
  let fadeinAudio2 :=
    if audio2OffsetSamples < 0 then
      if extendAudio1Start = true then false else true
    else true
  let outPosAudio1End := outPosAudio1Start + audio1NumSamples
  let outPosAudio2End := outPosAudio2Start + audio2NumSamples
  let outPosAudio1TrimEnd := outPosAudio1End
  let outPosAudio2TrimEnd :=
    if outPosAudio1End < outPosAudio2End then
      if extendAudio1End = true then outPosAudio2End else outPosAudio1TrimEnd
    else outPosAudio2End
  let fadeoutAudio2 :=
    if outPosAudio1End < outPosAudio2End then
      if extendAudio1End = true then false else true
    else true
  let outLen :=
    max outPosAudio1TrimEnd outPosAudio2TrimEnd - min outPosAudio1TrimStart outPosAudio2TrimStart
  let outPosMixStart := max outPosAudio1TrimStart outPosAudio2TrimStart
  let outPosMixEnd := min outPosAudio1TrimEnd outPosAudio2TrimEnd
  let mixLen := outPosMixEnd - outPosMixStart
  let fadeinSamples := min fadeinSamples mixLen
  let fadeoutSamples := min fadeoutSamples mixLen
  let totalGain := fl64 (audio1Gain + audio2Gain)
  { audio1NumSamples := audio1NumSamples,
    audio2NumSamples := audio2NumSamples,
    outNumSamples := outLen,
    outSampleType := outSampleType,
    editChannels := editChannels,
    audio1Scale :=
      if relativeGain = true then
        if totalGain = 0 then 0
        else if (2 : ℚ) ^ 1024 ≤ |totalGain| then 0
        else fl64 (audio1Gain / totalGain)
      else audio1Gain,
    audio2Scale :=
      if relativeGain = true then
        if totalGain = 0 then 0
        else if (2 : ℚ) ^ 1024 ≤ |totalGain| then 0
        else fl64 (audio2Gain / totalGain)
      else audio2Gain,
    outPosAudio1Start := outPosAudio1Start,
    outPosAudio1End := outPosAudio1End,
    outPosAudio2Start := outPosAudio2Start,
    outPosAudio2End := outPosAudio2End,
    outPosAudio1TrimStart := outPosAudio1TrimStart,
    outPosAudio1TrimEnd := outPosAudio1TrimEnd,
    outPosAudio2TrimStart := outPosAudio2TrimStart,
    outPosAudio2TrimEnd := outPosAudio2TrimEnd,
    audio1FrameSampleOffsets := getFrameSampleOffsets F outPosAudio1Start,
    audio2FrameSampleOffsets := getFrameSampleOffsets F outPosAudio2Start,
    outPosFadeinStart := outPosMixStart,
    outPosFadeinEnd := outPosMixStart + fadeinSamples,
    outPosFadeoutStart := outPosMixEnd - fadeoutSamples,
    outPosFadeoutEnd := outPosMixEnd,
    fadeinAudio2 := fadeinAudio2,
    fadeoutAudio2 := fadeoutAudio2,
    fadeinTrans :=
      if 0 < fadeinSamples then
        some (newTransition fadeType 0 0 (fl64 ((fadeinSamples - 1 : Int) : ℚ)) 1)
      else none,
    fadeoutTrans :=
      if 0 < fadeoutSamples then
        some (newTransition fadeType 0 1 (fl64 ((fadeoutSamples - 1 : Int) : ℚ)) 0)
      else none,
    overflowMode := overflowMode,
    overflowLog := overflowLog }

/-- The method `Mix::isEditChannel`. -/
def isEditChannel (m : Mix) (ch : Int) : Bool :=
  m.editChannels.contains ch

/-- The method `Mix::outFrameToAudio1Frames`. -/
def outFrameToAudio1Frames (F : Int) (m : Mix) (outFrmNum : Int) : OffsetFramePos :=
  baseFrameToOffsetFramesTrim F outFrmNum m.outPosAudio1Start m.audio1NumSamples
    m.outPosAudio1TrimStart m.outPosAudio1TrimEnd m.outNumSamples

/-- The method `Mix::outFrameToAudio2Frames`. -/
def outFrameToAudio2Frames (F : Int) (m : Mix) (outFrmNum : Int) : OffsetFramePos :=
  baseFrameToOffsetFramesTrim F outFrmNum m.outPosAudio2Start m.audio2NumSamples
    m.outPosAudio2TrimStart m.outPosAudio2TrimEnd m.outNumSamples

/-- The fade-in scales `(audio1FadeinScale, audio2FadeinScale)` that the mixing branch of
`Mix::writeFrameChannel` computes at output position `outPos`. -/
def fadeinScales (cosD : ℚ → ℚ) (m : Mix) (outPos : Int) : ℚ × ℚ :=
  let fadeinPos := outPos - m.outPosFadeinStart
  match m.fadeinTrans with
  | some fadeinTrans =>
    if m.outPosFadeinStart ≤ outPos ∧ outPos < m.outPosFadeinEnd then
      if m.fadeinAudio2 = true then (1, fadeinTrans.calcY cosD (fl64 (fadeinPos : ℚ)))
      else (fadeinTrans.calcY cosD (fl64 (fadeinPos : ℚ)), 1)
    else (1, 1)
  | none => (1, 1)

/-- The fade-out scales `(audio1FadeoutScale, audio2FadeoutScale)` that the mixing branch of
`Mix::writeFrameChannel` computes at output position `outPos`. -/
def fadeoutScales (cosD : ℚ → ℚ) (m : Mix) (outPos : Int) : ℚ × ℚ :=
  let fadeoutPos := outPos - m.outPosFadeoutStart
  match m.fadeoutTrans with
  | some fadeoutTrans =>
    if m.outPosFadeoutStart ≤ outPos ∧ outPos < m.outPosFadeoutEnd then
      if m.fadeoutAudio2 = true then (1, fadeoutTrans.calcY cosD (fl64 (fadeoutPos : ℚ)))
      else (fadeoutTrans.calcY cosD (fl64 (fadeoutPos : ℚ)), 1)
    else (1, 1)
  | none => (1, 1)

/-- One pass of the loop of `Mix::writeFrameChannel`.  In the branch that the source marks
as not supposed to happen nothing is written. -/
def writeFrameChannelStep (cosD : ℚ → ℚ) (m : Mix) (ch outPosFrmStart : Int)
    (a1FrmLPtr a1FrmRPtr a2FrmLPtr a2FrmRPtr : Option (FrameBuffer Sample))
    (ofCtx : OverflowContext) (s : Int) (outFrm : Int → Sample)
    (overflowStats : OverflowStats) : Option WriteResult :=
  let st := m.outSampleType
  let audio2Enabled := m.isEditChannel ch
  let bitShift := getSampleBitShift st
  let shifted := fun (x : Sample) =>
    if bitShift.required = true then shiftRight x bitShift.count else x
  let outPos := outPosFrmStart + s
  if m.outPosAudio1TrimStart ≤ outPos ∧ outPos < m.outPosAudio1TrimEnd then
    match getOffsetSample s m.audio1FrameSampleOffsets a1FrmLPtr a1FrmRPtr with
    | none => none
    | some audio1Read =>
      let audio1Sample := shifted audio1Read
      if audio2Enabled = true ∧ m.outPosAudio2TrimStart ≤ outPos
          ∧ outPos < m.outPosAudio2TrimEnd then
        match getOffsetSample s m.audio2FrameSampleOffsets a2FrmLPtr a2FrmRPtr with
        | none => none
        | some audio2Read =>
          let audio2Sample := shifted audio2Read
          let fadein := m.fadeinScales cosD outPos
          let fadeout := m.fadeoutScales cosD outPos
          let mixedSample :=
            fl64 (fl64 (fl64 (fl64 (m.audio1Scale * fadein.1) * fadeout.1)
                  * convSampleToDouble st audio1Sample)
              + fl64 (fl64 (fl64 (m.audio2Scale * fadein.2) * fadeout.2)
                  * convSampleToDouble st audio2Sample))
          some (safeWriteSample st mixedSample outFrm s outPos ch ofCtx overflowStats)
      else
        let scaledSample := fl64 (m.audio1Scale * convSampleToDouble st audio1Sample)
        some (safeWriteSample st scaledSample outFrm s outPos ch ofCtx overflowStats)
  else if audio2Enabled = true then
    if m.outPosAudio2TrimStart ≤ outPos ∧ outPos < m.outPosAudio2TrimEnd then
      match getOffsetSample s m.audio2FrameSampleOffsets a2FrmLPtr a2FrmRPtr with
      | none => none
      | some audio2Read =>
        let audio2Sample := shifted audio2Read
        let scaledSample := fl64 (m.audio2Scale * convSampleToDouble st audio2Sample)
        some (safeWriteSample st scaledSample outFrm s outPos ch ofCtx overflowStats)
    else
      some { ok := true, frm := outFrm, stats := overflowStats, calls := [] }
  else
    some (safeWriteSample st 0 outFrm s outPos ch ofCtx overflowStats)

/-- The method `Mix::writeFrameChannel`. -/
def writeFrameChannel (cosD : ℚ → ℚ) (m : Mix) (ch : Int) (outFrm : Int → Sample)
    (outPosFrmStart outFrmLen : Int)
    (a1FrmLPtr a1FrmRPtr a2FrmLPtr a2FrmRPtr : Option (FrameBuffer Sample))
    (ofCtx : OverflowContext) (overflowStats : OverflowStats) : Option WriteResult :=
  sampleLoop
    (m.writeFrameChannelStep cosD ch outPosFrmStart a1FrmLPtr a1FrmRPtr a2FrmLPtr a2FrmRPtr
      ofCtx)
    outFrmLen.toNat 0 { ok := true, frm := outFrm, stats := overflowStats, calls := [] }

end Mix

/-! ## `vsutils/audio.cpp` (seconds), `vsmap/vsmap_common.cpp` -/

/-- The cast `static_cast<int64_t>(d)` of a finite `double`: the fractional part is discarded
(truncation towards zero).  The behaviour is undefined when the truncated value cannot be
represented in `int64_t`; this is the result `none`. -/
def truncToInt (d : ℚ) : Option Int :=
  let t : Int := if 0 ≤ d then ⌊d⌋ else ⌈d⌉
  if utils.minInt 64 ≤ t ∧ t ≤ utils.maxInt 64 then some t else none

namespace vsutils

/-- The function `secondsToSamples`: `std::round` of the `double` product, cast to `int64_t`.
The value of `std::round` is an integer and a `double`. -/
def secondsToSamples (seconds : ℚ) (sampleRate : Int) : Option Int :=
  truncToInt ((roundHalfAway (fl64 (seconds * (sampleRate : ℚ))) : Int) : ℚ)

end vsutils

namespace vsmap

/-- The function `getOptSamples`.  The two lookups in the argument map of the host,
`mapGetInt` and `mapGetFloat`, are the arguments `samples` and `seconds`: `none` stands for a
lookup that sets `err`.  The result `none` is the undefined cast of a product outside the
range of `int64_t`. -/
def getOptSamples (samples : Option Int) (seconds : Option ℚ) (defaultValue : Int)
    (sampleRate : Int) : Option Int :=
  match samples with
  | some s => some s
  | none =>
    match seconds with
    | none => some defaultValue
    | some sec => truncToInt (fl64 ((sampleRate : ℚ) * sec))

/-- The function `getOptIntArray`.  The array of the argument map of the host is the argument
`provided`: `none` stands for a lookup that sets `err`. -/
def getOptIntArray (provided : Option (List Int)) (defaultValue : List Int) : List Int :=
  match provided with
  | none => defaultValue
  | some values => values

/-- The function `getOptChannels`; `none` is the result `std::nullopt`, which the function
returns after it has set the error of the output map. -/
def getOptChannels (provided : Option (List Int)) (defaultValue : List Int)
    (numChannels : Int) : Option (List Int) :=
  let channels := getOptIntArray provided defaultValue
  if channels.length = 0 then
    some ((List.range numChannels.toNat).map fun (ch : Nat) => (ch : Int))
  else if channels.any (fun ch => decide (numChannels ≤ ch)) = true then none
  else some channels

end vsmap

/-! ## `vsutils/audio.cpp`, the frame arithmetic in the integer types of the source

The functions of the first section compute in unbounded integers.  Here the results have the
types of the source: the conversions `static_cast<int>` of `samplesToFrames` and of
`getFrameSampleCount` reduce the value modulo `2^32`, and the product
`frame * VS_AUDIO_FRAME_SAMPLES` of two `int`s, whose overflow is undefined behaviour, has no
value outside the range of `int`.  The assertions are those of a release build: they expand
to nothing.  `frame` and `F` are `int`s and `samples` is an `int64_t` of at least 0. -/

namespace vsutils.machine

/-- The conversion `static_cast<int>` of an `int64_t`: the value that is congruent modulo
`2^32` and lies in the range of `int`. -/
def toInt32 (v : Int) : Int :=
  (v + 2 ^ 31) % 2 ^ 32 - 2 ^ 31

/-- The function `samplesToFrames`: `frames` is computed in `int64_t` and converted to
`int`. -/
def samplesToFrames (F samples : Int) : Int :=
  toInt32 ((samples - 1).tdiv F + 1)

/-- The function `getFrameSampleCount`.  The product `frame * VS_AUDIO_FRAME_SAMPLES` of the
last frame is an `int`; `none` is its overflow. -/
def getFrameSampleCount (F frame totalSamples : Int) : Option Int :=
  let totalFrames := samplesToFrames F totalSamples
  if totalFrames ≤ frame then some 0
  else if frame = totalFrames - 1 then
    if utils.minInt 32 ≤ frame * F ∧ frame * F ≤ utils.maxInt 32 then
      some (toInt32 (totalSamples - frame * F))
    else none
  else some F

/-- The function `frameToLastSample`; `frameToFirstSample` multiplies in `int64_t`. -/
def frameToLastSample (F frame totalSamples : Int) : Option Int :=
  match getFrameSampleCount F frame totalSamples with
  | none => none
  | some frameSamples =>
    if frameSamples = 0 then some (-1)
    else some (vsutils.frameToFirstSample F frame + frameSamples)

end vsutils.machine

/-! ## `common/peak.hpp`, `common/peak.cpp` -/

namespace common

open utils vsutils

/-- A frame as the host hands it out: `length` samples in each channel, read by channel and
index. -/
structure AudioFrame where
  length : Int
  data : Int → Int → Sample

/-- Result of a peak scan of one frame (`struct PeakResult`). -/
structure PeakResult where
  value : ℚ
  isMax : Bool
  deriving DecidableEq

/-- Local variables `posPeak`, `negPeak`, `foundMaxPeak` of the integer branch of
`findFramePeakImpl`. -/
structure PeakScan where
  posPeak : Int
  negPeak : Int
  foundMaxPeak : Bool
  deriving DecidableEq

/-- One pass of the inner loop of the integer branch of `findFramePeakImpl` on the sample
`read`; the pass ends with `break` exactly when it sets `foundMaxPeak`.  A frame of an integer
type holds integers, so the case `.flt` does not occur. -/
def findFramePeakIntStep (st : SampleType) (normalize : Bool) (read : Sample)
    (acc : PeakScan) : PeakScan :=
  let bitShift := getSampleBitShift st
  match (if bitShift.required = true then shiftRight read bitShift.count else read) with
  | .int sample =>
    if sample < acc.negPeak then
      if sample ≤ -maxInt (intSampleBits st)
          ∧ (sample = minInt (intSampleBits st) ∨ normalize = true) then
        { posPeak := acc.posPeak, negPeak := sample, foundMaxPeak := true }
      else
        { posPeak := acc.posPeak, negPeak := sample, foundMaxPeak := acc.foundMaxPeak }
    else if acc.posPeak < sample then
      if sample = maxInt (intSampleBits st) ∧ normalize = true then
        { posPeak := sample, negPeak := acc.negPeak, foundMaxPeak := true }
      else
        { posPeak := sample, negPeak := acc.negPeak, foundMaxPeak := acc.foundMaxPeak }
    else acc
  | .flt _ => acc

/-- The inner loop `for (int s = ...; s < frmLen; ++s)` of the integer branch: `todo` passes
are left and `s` is the loop variable; the loop is left after a pass that ends with `break`. -/
def findFramePeakIntSamples (st : SampleType) (normalize : Bool) (frmPtr : Int → Sample) :
    Nat → Int → PeakScan → PeakScan
  | 0, _, acc => acc
  | todo + 1, s, acc =>
    let acc1 := findFramePeakIntStep st normalize (frmPtr s) acc
    if acc1.foundMaxPeak = true then acc1
    else findFramePeakIntSamples st normalize frmPtr todo (s + 1) acc1

/-- The outer loop `for (const int& ch : channels)` of the integer branch, left by `break`
when `foundMaxPeak` is set. -/
def findFramePeakIntChannels (st : SampleType) (normalize : Bool) (frame : AudioFrame) :
    List Int → PeakScan → PeakScan
  | [], acc => acc
  | ch :: rest, acc =>
    let acc1 := findFramePeakIntSamples st normalize (frame.data ch) frame.length.toNat 0 acc
    if acc1.foundMaxPeak = true then acc1
    else findFramePeakIntChannels st normalize frame rest acc1

/-- One pass of the inner loop of the floating point branch of `findFramePeakImpl`. -/
def findFramePeakFltStep (read : Sample) (peak : ℚ) : ℚ :=
  match read with
  | .flt sample => if |peak| < |sample| then sample else peak
  | .int _ => peak

/-- The inner loop of the floating point branch. -/
def findFramePeakFltSamples (frmPtr : Int → Sample) : Nat → Int → ℚ → ℚ
  | 0, _, peak => peak
  | todo + 1, s, peak =>
    findFramePeakFltSamples frmPtr todo (s + 1) (findFramePeakFltStep (frmPtr s) peak)

/-- The outer loop of the floating point branch. -/
def findFramePeakFltChannels (frame : AudioFrame) : List Int → ℚ → ℚ
  | [], peak => peak
  | ch :: rest, peak =>
    findFramePeakFltChannels frame rest
      (findFramePeakFltSamples (frame.data ch) frame.length.toNat 0 peak)

/-- The function `findFramePeakImpl<sample_t, IntSampleBits>`, which `findFramePeak` selects by
the sample type. -/
def findFramePeakImpl (st : SampleType) (frame : AudioFrame) (channels : List Int)
    (normalize : Bool) : PeakResult :=
  if isFloatSampleType st = true then
    let peak := findFramePeakFltChannels frame channels 0
    if normalize = true then { value := |peak|, isMax := false }
    else { value := peak, isMax := false }
  else
    let scan := findFramePeakIntChannels st normalize frame channels
      { posPeak := 0, negPeak := 0, foundMaxPeak := false }
    if normalize = true then
      { value := max (convSampleToDouble st (.int scan.posPeak))
          |convSampleToDouble st (.int scan.negPeak)|,
        isMax := scan.foundMaxPeak }
    else
      let posPeakD : ℚ := (scan.posPeak : ℚ)
      let negPeakD : ℚ := (scan.negPeak : ℚ)
      { value := if posPeakD < |negPeakD| then negPeakD else posPeakD,
        isMax := scan.foundMaxPeak }

/-- The loop `for (int n = 0; n < numFrames && !isMax; ++n)` of `findPeak`: `todo` frames are
left, `n` is the loop variable; `getFrame` is the host's frame request, `none` for the null
pointer. -/
def findPeakLoop (getFrame : Int → Option AudioFrame) (sampleType : SampleType)
    (channels : List Int) (normalize : Bool) : Nat → Int → ℚ → Bool → ℚ
  | 0, _, peak, _ => peak
  | todo + 1, n, peak, isMax =>
    if isMax = true then peak
    else
      match getFrame n with
      | some frame =>
        let peakResult := findFramePeakImpl sampleType frame channels normalize
        findPeakLoop getFrame sampleType channels normalize todo (n + 1)
          (if |peak| < |peakResult.value| then peakResult.value else peak)
          (isMax || peakResult.isMax)
      | none => findPeakLoop getFrame sampleType channels normalize todo (n + 1) peak isMax

/-- The function `findPeak`; `numFrames` and `sampleType` come from the audio information of
the stream. -/
def findPeak (getFrame : Int → Option AudioFrame) (numFrames : Int) (sampleType : SampleType)
    (channels : List Int) (normalize : Bool) : ℚ :=
  findPeakLoop getFrame sampleType channels normalize numFrames.toNat 0 0 false

/-- The function `adjustNormPeak`.  `std::floor` of a `double` is exact, the product and the
quotient are rounded; `std::copysign` gives the magnitude of `tmp` the sign of `normPeak`. -/
def adjustNormPeak (normPeak : ℚ) (st : SampleType) : ℚ :=
  let absNormPeak := |normPeak|
  let tmp : ℚ :=
    match st with
    | .Float32 => castToFloatTowardsZero .Float32 absNormPeak
    | .Float64 => absNormPeak
    | _ =>
      fl64 ((⌊fl64 (absNormPeak * (maxInt (intSampleBits st) : ℚ))⌋ : ℚ)
        / (maxInt (intSampleBits st) : ℚ))
  if normPeak < 0 then -|tmp| else |tmp|

/-- The logical samples of the selected channels of all frames of a stream, in the order of
the frames, channels and indices.  This list follows the words of the specification ("all
samples of all frames and selected channels"), not the source. -/
def allSelectedSamples (getFrame : Int → Option AudioFrame) (numFrames : Int)
    (st : SampleType) (channels : List Int) : List Sample :=
  ((List.range numFrames.toNat).filterMap fun (n : Nat) => getFrame (n : Int)).flatMap
    fun frame => channels.flatMap fun ch =>
      (List.range frame.length.toNat).map fun (s : Nat) =>
        if (getSampleBitShift st).required = true then
          shiftRight (frame.data ch (s : Int)) (getSampleBitShift st).count
        else frame.data ch (s : Int)

/-- The naive full scan of the specification with normalization: the maximum of
`|convSampleToDouble x|` over all samples of all frames and selected channels, 0 if there are
none. -/
def naiveNormPeak (getFrame : Int → Option AudioFrame) (numFrames : Int) (st : SampleType)
    (channels : List Int) : ℚ :=
  ((allSelectedSamples getFrame numFrames st channels).map fun x =>
    |convSampleToDouble st x|).foldl max 0

/-- The naive full scan of the specification without normalization: the maximum of `|x|` over
all integer samples of all frames and selected channels, 0 if there are none. -/
def naiveAbsPeak (getFrame : Int → Option AudioFrame) (numFrames : Int) (st : SampleType)
    (channels : List Int) : ℚ :=
  ((allSelectedSamples getFrame numFrames st channels).map fun x =>
    match x with
    | .int v => |(v : ℚ)|
    | .flt q => |q|).foldl max 0

end common

/-! ## `delay.cpp`, the checks of a debug build -/

namespace Delay

open common utils vsutils

/-- The block under `#ifndef NDEBUG` in one pass of the loop of `Delay::writeFrameChannel`:
`false` when one of the two `assertm` calls fails.  The block is reached only for an output
position inside `[outPosOffsetStart, outPosOffsetEnd)`. -/
def writeFrameChannelAsserts (d : Delay) (outPosFrmStart : Int)
    (offsetInFrmLPtr offsetInFrmRPtr : Option (FrameBuffer Sample)) (s : Int) : Bool :=
  let outPos := outPosFrmStart + s
  if outPos < d.outPosOffsetStart ∨ d.outPosOffsetEnd ≤ outPos then true
  else
    offsetInFrmLPtr.isSome
      && (if d.audioFrameSampleOffsets.right ≠ 0 then offsetInFrmRPtr.isSome else true)

end Delay

open common utils vsutils in
/-- The checks of `Delay::writeFrameChannel` in pass `s` of the loop, with the frame pointers
that `delayGetFrame` hands to it for output frame `outFrmNum`. -/
def delayGetFrameAsserts (F : Int) (d : Delay) (audio : Int → Sample) (outFrmNum s : Int) :
    Bool :=
  let offsetInFrmNums := d.outFrameToOffsetInFrames F outFrmNum
  d.writeFrameChannelAsserts (frameToFirstSample F outFrmNum)
    (frameReadPtr F audio d.numSamples offsetInFrmNums.left)
    (frameReadPtr F audio d.numSamples offsetInFrmNums.right) s

/-! ## `setsamples.cpp` -/

/-- Members of `class SetSamples` that the edit channels use.  The value `dSample` that
`SetSamples::writeFrameChannel` computes from the member `sample` before its loop stands for
that member. -/
structure SetSamples where
  outSampleType : common.SampleType
  dSample : ℚ
  outPosStart : Int
  outPosEnd : Int
  overflowMode : common.OverflowMode
  overflowLog : common.OverflowLog

namespace SetSamples

open common utils vsutils

/-- One pass of the loop of `SetSamples::writeFrameChannel`. -/
def writeFrameChannelStep (d : SetSamples) (ch outPosFrmStart : Int)
    (inFrmPtr : Option (FrameBuffer Sample)) (ofCtx : OverflowContext)
    (s : Int) (outFrm : Int → Sample) (overflowStats : OverflowStats) : Option WriteResult :=
  let bitShift := getSampleBitShift d.outSampleType
  let outPos := outPosFrmStart + s
  if d.outPosStart ≤ outPos ∧ outPos < d.outPosEnd then
    some (safeWriteSample d.outSampleType d.dSample outFrm s outPos ch ofCtx overflowStats)
  else
    match readSample inFrmPtr s with
    | none => none
    | some read =>
      let inSample := if bitShift.required = true then shiftRight read bitShift.count else read
      some (safeWriteSample d.outSampleType (convSampleToDouble d.outSampleType inSample)
        outFrm s outPos ch ofCtx overflowStats)

end SetSamples

/-! ## `normalize.cpp` -/

/-- Members of `class Normalize` that the edit channels use. -/
structure Normalize where
  outSampleType : common.SampleType
  outNormPeak : ℚ
  gain : ℚ
  editChannels : List Int
  overflowMode : common.OverflowMode
  overflowLog : common.OverflowLog

namespace Normalize

open common utils vsutils

/-- Constructor `Normalize::Normalize`; `getFrame`, `numFrames` and `outSampleType` describe
the input and `targetPeak` is the argument `_outNormPeak`.  For a silent input (`inNormPeak = 0`) the quotient of the source is an infinity or
a NaN, which the rationals do not have: `gain` is meaningful for `inNormPeak ≠ 0` only. -/
def new (getFrame : Int → Option AudioFrame) (numFrames : Int) (outSampleType : SampleType)
    (targetPeak : ℚ) (lowerOnly : Bool) (editChannels : List Int)
    (overflowMode : OverflowMode) (overflowLog : OverflowLog) : Normalize :=
  let outNormPeak := adjustNormPeak targetPeak outSampleType
  let inNormPeak := findPeak getFrame numFrames outSampleType editChannels true
  { outSampleType := outSampleType,
    outNormPeak := outNormPeak,
    gain := if lowerOnly = true ∧ inNormPeak ≤ outNormPeak then 1
      else fl64 (outNormPeak / inNormPeak),
    editChannels := editChannels,
    overflowMode := overflowMode,
    overflowLog := overflowLog }

/-- The value that `Normalize::Normalize` assigns to `gain`, with the division of the source
made explicit: `none` when the quotient `outNormPeak / inNormPeak` is evaluated with
`inNormPeak = 0`, where the `double` result is an infinity or a NaN. -/
def newGain (getFrame : Int → Option AudioFrame) (numFrames : Int) (outSampleType : SampleType)
    (targetPeak : ℚ) (lowerOnly : Bool) (editChannels : List Int) : Option ℚ :=
  let outNormPeak := adjustNormPeak targetPeak outSampleType
  let inNormPeak := findPeak getFrame numFrames outSampleType editChannels true
  if lowerOnly = true ∧ inNormPeak ≤ outNormPeak then some 1
  else if inNormPeak = 0 then none
  else some (fl64 (outNormPeak / inNormPeak))

/-- The call `std::clamp(v, lo, hi)`. -/
def clamp (v lo hi : ℚ) : ℚ :=
  if v < lo then lo else if hi < v then hi else v

/-- One pass of the loop of `Normalize::writeFrameChannel`. -/
def writeFrameChannelStep (nz : Normalize) (ch outPosFrmStart : Int)
    (inFrmPtr : Option (FrameBuffer Sample)) (ofCtx : OverflowContext)
    (s : Int) (outFrm : Int → Sample) (overflowStats : OverflowStats) : Option WriteResult :=
  let bitShift := getSampleBitShift nz.outSampleType
  let outPos := outPosFrmStart + s
  match readSample inFrmPtr s with
  | none => none
  | some read =>
    let inSample := if bitShift.required = true then shiftRight read bitShift.count else read
    let scaledSample :=
      clamp (fl64 (nz.gain * convSampleToDouble nz.outSampleType inSample))
        (-nz.outNormPeak) nz.outNormPeak
    some (safeWriteSample nz.outSampleType scaledSample outFrm s outPos ch ofCtx overflowStats)

/-- The method `Normalize::writeFrameChannel`. -/
def writeFrameChannel (nz : Normalize) (ch : Int) (outFrm : Int → Sample)
    (outPosFrmStart outFrmLen : Int) (inFrmPtr : Option (FrameBuffer Sample))
    (ofCtx : OverflowContext) (overflowStats : OverflowStats) : Option WriteResult :=
  sampleLoop (nz.writeFrameChannelStep ch outPosFrmStart inFrmPtr ofCtx)
    outFrmLen.toNat 0 { ok := true, frm := outFrm, stats := overflowStats, calls := [] }

end Normalize

open common utils vsutils in
/-- The ready phase of `normalizeGetFrame` for one edit channel `ch`: the input frame is the
host's frame `outFrmNum` (a null frame is dereferenced, which has no value), `outFrm` is the
memory of the new output frame, of the input frame's length, and `overflowStats` the
statistics left by the previous frame.  The summary that `logOverflowStats` logs after the
last frame is left out. -/
def normalizeGetFrame (F : Int) (nz : Normalize) (getFrame : Int → Option AudioFrame)
    (ch outFrmNum : Int) (outFrm : Int → Sample) (overflowStats : OverflowStats) :
    Option WriteResult :=
  let stats : OverflowStats := if outFrmNum = 0 then { count := 0, peak := 0 } else overflowStats
  match getFrame outFrmNum with
  | none => none
  | some inFrm =>
    nz.writeFrameChannel ch outFrm (frameToFirstSample F outFrmNum) inFrm.length
      (some { length := inFrm.length, data := inFrm.data ch })
      { mode := nz.overflowMode, log := nz.overflowLog } stats

/-! ## `convert.cpp` -/

/-- Members of `class Convert` that the conversion uses. -/
structure Convert where
  inSampleType : common.SampleType
  outSampleType : common.SampleType
  overflowMode : common.OverflowMode
  overflowLog : common.OverflowLog

namespace Convert

open common utils vsutils

/-- Constructor `Convert::Convert`; `inSampleType` comes from the audio information of the
input. -/
def new (inSampleType outSampleType : SampleType) (overflowMode : OverflowMode)
    (overflowLog : OverflowLog) : Convert :=
  { inSampleType := inSampleType,
    outSampleType := outSampleType,
    overflowMode := overflowMode,
    overflowLog := overflowLog }

/-- The method `Convert::isPassthrough`. -/
def isPassthrough (c : Convert) : Bool :=
  decide (c.inSampleType = c.outSampleType)

/-- One pass of the loop of `Convert::writeFrameChannel`. -/
def writeFrameChannelStep (c : Convert) (ch outPosFrmStart : Int)
    (inFrmPtr : Option (FrameBuffer Sample)) (ofCtx : OverflowContext)
    (s : Int) (outFrm : Int → Sample) (overflowStats : OverflowStats) : Option WriteResult :=
  let inBitShift := getSampleBitShift c.inSampleType
  let outPos := outPosFrmStart + s
  match readSample inFrmPtr s with
  | none => none
  | some read =>
    let sample := if inBitShift.required = true then shiftRight read inBitShift.count else read
    some (safeWriteSample c.outSampleType (convSampleToDouble c.inSampleType sample)
      outFrm s outPos ch ofCtx overflowStats)

/-- The method `Convert::writeFrameChannel`. -/
def writeFrameChannel (c : Convert) (ch : Int) (outFrm : Int → Sample)
    (outPosFrmStart outFrmLen : Int) (inFrmPtr : Option (FrameBuffer Sample))
    (ofCtx : OverflowContext) (overflowStats : OverflowStats) : Option WriteResult :=
  sampleLoop (c.writeFrameChannelStep ch outPosFrmStart inFrmPtr ofCtx)
    outFrmLen.toNat 0 { ok := true, frm := outFrm, stats := overflowStats, calls := [] }

end Convert

/-- What the ready phase of `convertGetFrame` hands back for one channel: on the passthrough
path the input frame itself (the pointer `inFrm`, `none` for the null pointer) and the
statistics; otherwise the outcome of `writeFrame` on the new frame. -/
inductive ConvertOutcome where
  | returnedInput (inFrm : Option common.AudioFrame) (stats : common.OverflowStats)
  | written (r : common.WriteResult)

open common utils vsutils in
/-- The ready phase of `convertGetFrame` for one channel `ch`: the input frame is the host's
frame `outFrmNum`, `outFrm` is the memory of the new output frame, and `overflowStats` the
statistics left by the previous frame.  Off the passthrough path a null input frame is
dereferenced, which has no value.  The summary that `logOverflowStats` logs after the last
frame is left out. -/
def convertGetFrame (F : Int) (c : Convert) (getFrame : Int → Option AudioFrame)
    (ch outFrmNum : Int) (outFrm : Int → Sample) (overflowStats : OverflowStats) :
    Option ConvertOutcome :=
  let stats : OverflowStats := if outFrmNum = 0 then { count := 0, peak := 0 } else overflowStats
  let inFrm := getFrame outFrmNum
  if c.isPassthrough = true then
    some (.returnedInput inFrm stats)
  else
    match inFrm with
    | none => none
    | some frame =>
      match c.writeFrameChannel ch outFrm (frameToFirstSample F outFrmNum) frame.length
          (some { length := frame.length, data := frame.data ch })
          { mode := c.overflowMode, log := c.overflowLog } stats with
      | none => none
      | some r => some (.written r)

/-! ## The transitions in exact arithmetic

The expressions of the constructors and of `calcY` in `common/transition.cpp`, operation by
operation, evaluated in a field `K` without rounding.  With `K` the real numbers these are
the functions that the source approximates in `double` arithmetic; `cos` and `pi` are the
cosine and the constant π of `K`. -/

namespace common

/-- The expression of `LinearTransition::calcY` in exact arithmetic. -/
def LinearTransition.calcYExact {K : Type} [Field K] [DecidableEq K] (x1 y1 x2 y2 x : K) : K :=
  let gradient := (y2 - y1) / (x2 - x1)
  let yOffset := y1 - gradient * x1
  if x1 = x2 then y1 else gradient * x + yOffset

/-- The expression of `CubicTransition::calcY` in exact arithmetic. -/
def CubicTransition.calcYExact {K : Type} [Field K] [DecidableEq K] (x1 y1 x2 y2 x : K) : K :=
  let yDiff := y2 - y1
  let xDiff := x2 - x1
  let xDiffPow2 := xDiff * xDiff
  let xDiffPow3 := xDiff * xDiff * xDiff
  let factor2 := 3 * yDiff / xDiffPow2
  let factor3 := -2 * yDiff / xDiffPow3
  if x1 = x2 then y1
  else
    let x_x1Diff := x - x1
    let x_x1DiffPow2 := x_x1Diff * x_x1Diff
    let x_x1DiffPow3 := x_x1Diff * x_x1Diff * x_x1Diff
    factor3 * x_x1DiffPow3 + factor2 * x_x1DiffPow2 + y1

/-- The expression of `SineTransition::calcY` in exact arithmetic. -/
def SineTransition.calcYExact {K : Type} [Field K] [DecidableEq K] (cos : K → K) (pi : K)
    (x1 y1 x2 y2 x : K) : K :=
  let xScale := pi / (x2 - x1)
  let yScale := (y1 - y2) / 2
  let yOffset := (y1 + y2) / 2
  if x1 = x2 then y1 else cos ((x - x1) * xScale) * yScale + yOffset

end common

/-! ## Integer division lemmas and closed forms of the frame arithmetic -/

open vsutils common utils

theorem ediv_bounds {F : Int} (hF : 0 < F) (a : Int) :
    F * (a / F) ≤ a ∧ a < F * (a / F) + F := by
  have h1 := Int.emod_add_ediv a F
  have h2 := Int.emod_nonneg a hF.ne'
  have h3 := Int.emod_lt_of_pos a hF
  constructor <;> linarith

theorem ediv_unique {F : Int} (hF : 0 < F) {a q : Int} (h1 : F * q ≤ a) (h2 : a < F * q + F) :
    a / F = q := by
  have h := (Int.ediv_emod_unique (a := a) (r := a - F * q) (q := q) hF).2
    ⟨by ring, by linarith, by linarith⟩
  exact h.1

theorem emod_unique {F : Int} (hF : 0 < F) {a q r : Int} (h0 : a = F * q + r) (h1 : 0 ≤ r)
    (h2 : r < F) : a % F = r := by
  have h := (Int.ediv_emod_unique (a := a) (r := r) (q := q) hF).2
    ⟨by linarith, h1, h2⟩
  exact h.2

theorem tdiv_of_nonneg {F : Int} (hF : 0 < F) {a : Int} (ha : 0 ≤ a) : a.tdiv F = a / F :=
  Int.tdiv_eq_ediv ha hF.le

theorem tdiv_of_neg {F : Int} (hF : 0 < F) {a : Int} (ha : a < 0) :
    a.tdiv F = if a % F = 0 then a / F else a / F + 1 := by
  have h1 : a.tdiv F = -((-a).tdiv F) := by
    simp
  have h2 : (-a).tdiv F = (-a) / F := Int.tdiv_eq_ediv (by linarith) hF.le
  have hm := Int.emod_add_ediv a F
  have hr0 := Int.emod_nonneg a hF.ne'
  have hr1 := Int.emod_lt_of_pos a hF
  rw [h1, h2]
  split_ifs with h
  · have : (-a) / F = -(a / F) := ediv_unique hF (by rw [h] at hm; linarith) (by rw [h] at hm; linarith)
    rw [this]; ring
  · have hpos : 0 < a % F := lt_of_le_of_ne hr0 (Ne.symm h)
    have : (-a) / F = -(a / F) - 1 := ediv_unique hF (by linarith) (by linarith)
    rw [this]; ring

theorem tmod_of_nonneg {F : Int} (hF : 0 < F) {a : Int} (ha : 0 ≤ a) : a.tmod F = a % F :=
  Int.tmod_eq_emod ha hF.le

theorem tmod_of_neg {F : Int} (hF : 0 < F) {a : Int} (ha : a < 0) :
    a.tmod F = if a % F = 0 then 0 else a % F - F := by
  have hm := Int.emod_add_ediv a F
  rw [Int.tmod_def, tdiv_of_neg hF ha]
  split_ifs with h
  · rw [h] at hm; linarith
  · linarith

theorem samplesToFrames_bounds {F : Int} (hF : 0 < F) {total : Int} (ht : 1 ≤ total) :
    F * (samplesToFrames F total - 1) < total ∧ total ≤ F * samplesToFrames F total := by
  unfold samplesToFrames
  rw [tdiv_of_nonneg hF (by linarith)]
  have hb := ediv_bounds hF (total - 1)
  constructor
  · linarith [hb.1]
  · linarith [hb.2]

theorem samplesToFrames_zero {F : Int} (hF : 0 < F) :
    samplesToFrames F 0 = 0 ∨ samplesToFrames F 0 = 1 := by
  unfold samplesToFrames
  have h3 := tdiv_of_neg hF (a := (0 : Int) - 1) (by norm_num)
  have hb := ediv_bounds hF ((0 : Int) - 1)
  have h5 : (0 - 1) / F < 0 := by
    by_contra hc
    push_neg at hc
    have := mul_nonneg hF.le hc
    linarith [hb.1]
  have h6 : -1 ≤ (0 - 1) / F := by
    by_contra hc
    push_neg at hc
    have : (0 - 1) / F + 2 ≤ 0 := by omega
    nlinarith [hb.2]
  have h7 : (0 - 1) / F = -1 := by omega
  rw [h3, h7]
  split_ifs <;> simp

theorem getFrameSampleCount_eq {F : Int} (hF : 0 < F) {frame total : Int} (hn : 0 ≤ frame)
    (ht : 0 ≤ total) :
    getFrameSampleCount F frame total
      = if total ≤ frame * F then 0 else min F (total - frame * F) := by
  rcases ht.eq_or_lt with h0 | hpos
  · subst h0
    have hnF : 0 ≤ frame * F := mul_nonneg hn hF.le
    rw [if_pos hnF]
    unfold getFrameSampleCount
    simp only
    rcases samplesToFrames_zero hF with h | h <;> rw [h]
    · rw [if_pos hn]
    · split_ifs with h1 h2
      · rfl
      · have : frame = 0 := by omega
        subst this; simp
      · omega
  · have hb := samplesToFrames_bounds hF (show 1 ≤ total by omega)
    unfold getFrameSampleCount
    simp only
    generalize samplesToFrames F total = N at hb
    split_ifs with h1 h2 h3 h4 h5
    · rfl
    · exfalso
      have : F * N ≤ F * frame := mul_le_mul_of_nonneg_left h1 hF.le
      push_neg at h2
      nlinarith
    · exfalso
      subst h3
      nlinarith [hb.1]
    · subst h3
      rw [min_eq_right]
      nlinarith [hb.2]
    · exfalso
      have : frame + 2 ≤ N := by omega
      have := mul_le_mul_of_nonneg_left this hF.le
      nlinarith [hb.1]
    · have : frame + 2 ≤ N := by omega
      have := mul_le_mul_of_nonneg_left this hF.le
      rw [min_eq_left]
      nlinarith [hb.1]

theorem getFrameRSampleOffset_eq {F : Int} (hF : 0 < F) (d : Int) :
    getFrameRSampleOffset F d
      = if d % F = 0 then (if d < 0 then -F else 0) else -(d % F) := by
  unfold getFrameRSampleOffset
  by_cases hd : d < 0
  · rw [tmod_of_neg hF hd]
    simp only [hd, if_true]
    split_ifs <;> ring
  · push_neg at hd
    rw [tmod_of_nonneg hF hd]
    have : ¬ d < 0 := not_lt.mpr hd
    simp only [this, if_false]
    split_ifs with h
    · rw [h]; rfl
    · ring

theorem getFrameRSampleOffset_eq_zero_iff {F : Int} (hF : 0 < F) (d : Int) :
    getFrameRSampleOffset F d = 0 ↔ d % F = 0 ∧ 0 ≤ d := by
  rw [getFrameRSampleOffset_eq hF]
  have hr0 := Int.emod_nonneg d hF.ne'
  split_ifs with h1 h2
  · constructor
    · intro h; linarith
    · rintro ⟨-, h⟩; linarith
  · constructor
    · intro _; exact ⟨h1, by linarith⟩
    · intro _; rfl
  · constructor
    · intro h; exact absurd (by linarith) h1
    · rintro ⟨h, -⟩; exact absurd h h1

theorem baseFrameToOffsetFrames_eq {F : Int} (hF : 0 < F) {n d offsetTotal baseTotal : Int}
    (hn : 0 ≤ n) (hb : 0 ≤ baseTotal) (ho : 1 ≤ offsetTotal) :
    baseFrameToOffsetFrames F n d offsetTotal baseTotal =
      if baseTotal ≤ n * F then { left := -1, right := -1 }
      else if d + offsetTotal ≤ n * F ∨ n * F + min F (baseTotal - n * F) ≤ d then
        { left := -1, right := -1 }
      else if n * F < d then { left := -1, right := 0 }
      else if d % F = 0 ∧ 0 ≤ d then { left := (n * F - d) / F, right := -1 }
      else if (n * F - d) / F = (offsetTotal - 1) / F then
        { left := (n * F - d) / F, right := -1 }
      else { left := (n * F - d) / F, right := (n * F - d) / F + 1 } := by
  have hnF : 0 ≤ n * F := mul_nonneg hn hF.le
  unfold baseFrameToOffsetFrames frameToLastSample frameToFirstSample sampleToFrame isLastFrame
  simp only [getFrameSampleCount_eq hF hn hb, getFrameRSampleOffset_eq_zero_iff hF,
    decide_eq_true_eq]
  by_cases h1 : baseTotal ≤ n * F
  · simp [h1]
  · have hmin : 0 < min F (baseTotal - n * F) := lt_min hF (by linarith)
    have hne : min F (baseTotal - n * F) ≠ 0 := hmin.ne'
    have hnl : ¬ (n * F + min F (baseTotal - n * F) < 0) := by linarith
    simp only [h1, if_false, hne, hnl]
    by_cases h2 : d + offsetTotal ≤ n * F ∨ n * F + min F (baseTotal - n * F) ≤ d
    · simp only [h2, if_true]
    · simp only [h2, if_false]
      by_cases h3 : n * F < d
      · simp only [h3, if_true]
      · simp only [h3, if_false]
        push_neg at h3
        rw [tdiv_of_nonneg hF (by linarith : 0 ≤ n * F - d)]
        rw [samplesToFrames, tdiv_of_nonneg hF (by linarith : 0 ≤ offsetTotal - 1)]
        simp only [add_sub_cancel_right]

theorem samplesToFrames_le_one_of_neg {F : Int} (hF : 0 < F) {total : Int} (ht : total < 0) :
    samplesToFrames F total ≤ 1 := by
  unfold samplesToFrames
  have hb := ediv_bounds hF (total - 1)
  have h5 : (total - 1) / F < 0 := by
    by_contra hc
    push_neg at hc
    have := mul_nonneg hF.le hc
    linarith [hb.1]
  rw [tdiv_of_neg hF (by linarith)]
  split_ifs <;> omega

theorem getFrameSampleCount_of_neg {F : Int} (hF : 0 < F) {frame total : Int} (hn : 0 ≤ frame)
    (ht : total < 0) :
    getFrameSampleCount F frame total = 0
      ∨ (frame = 0 ∧ getFrameSampleCount F frame total = total) := by
  have hN := samplesToFrames_le_one_of_neg hF ht
  unfold getFrameSampleCount
  simp only
  split_ifs with h1 h2
  · exact Or.inl rfl
  · have h0 : frame = 0 := by omega
    right
    refine ⟨h0, ?_⟩
    rw [h0]; ring
  · omega

theorem baseFrameToOffsetFrames_of_neg {F : Int} (hF : 0 < F) {n : Int} (d offsetTotal : Int)
    {baseTotal : Int} (hn : 0 ≤ n) (hb : baseTotal < 0) :
    baseFrameToOffsetFrames F n d offsetTotal baseTotal = { left := -1, right := -1 } := by
  unfold baseFrameToOffsetFrames frameToLastSample frameToFirstSample
  simp only
  rcases getFrameSampleCount_of_neg hF hn hb with h | ⟨h0, h⟩
  · rw [h]; simp
  · rw [h, h0]
    have hne : baseTotal ≠ 0 := hb.ne
    simp [hne, hb]

theorem readSample_frameReadPtr {α : Type} {F : Int} (hF : 0 < F) (stream : Int → α)
    {total f i : Int} (hf : 0 ≤ f) (hi0 : 0 ≤ i) (hiF : i < F) (hit : f * F + i < total) :
    readSample (frameReadPtr F stream total f) i = some (stream (f * F + i)) := by
  have hfF : 0 ≤ f * F := mul_nonneg hf hF.le
  have ht : 0 ≤ total := by linarith
  unfold frameReadPtr readSample
  rw [if_pos hf]
  simp only [getFrameSampleCount_eq hF hf ht, frameToFirstSample]
  have h1 : ¬ total ≤ f * F := by linarith
  rw [if_neg h1, if_pos]
  exact ⟨hi0, lt_min hiF (by linarith)⟩

theorem getFrameSampleOffsets_eq {F : Int} (hF : 0 < F) (d : Int) :
    getFrameSampleOffsets F d
      = if d % F = 0 then { left := 0, right := if d < 0 then -F else 0 }
        else { left := F - d % F, right := -(d % F) } := by
  have hr0 := Int.emod_nonneg d hF.ne'
  have hr1 := Int.emod_lt_of_pos d hF
  unfold getFrameSampleOffsets getFrameLSampleOffsetFromFrameRSampleOffset
  simp only [getFrameRSampleOffset_eq hF]
  by_cases h : d % F = 0
  · simp only [h, if_true]
    by_cases hd : d < 0
    · simp only [hd, if_true]
      have : -F ≠ 0 := by linarith
      simp [this]
    · simp [hd]
  · simp only [h, if_false]
    have : -(d % F) ≠ 0 := by
      intro hc; exact h (by linarith)
    simp only [this, if_false]
    congr 1
    ring

theorem ediv_sub_of_emod_eq_zero {F : Int} (hF : 0 < F) {n d : Int} (h : d % F = 0) :
    F * ((n * F - d) / F) = n * F - d := by
  have hm := Int.emod_add_ediv d F
  rw [h] at hm
  have : (n * F - d) / F = n - d / F := ediv_unique hF (by linarith) (by linarith)
  rw [this]; linarith

theorem ediv_sub_of_emod_ne_zero {F : Int} (hF : 0 < F) {n d : Int} (h : d % F ≠ 0) :
    F * ((n * F - d) / F) = n * F - d - (F - d % F) := by
  have hm := Int.emod_add_ediv d F
  have hr0 := Int.emod_nonneg d hF.ne'
  have hr1 := Int.emod_lt_of_pos d hF
  have hpos : 0 < d % F := lt_of_le_of_ne hr0 (Ne.symm h)
  have : (n * F - d) / F = n - d / F - 1 := ediv_unique hF (by linarith) (by linarith)
  rw [this]; linarith

theorem mem_frame_span_iff {F : Int} (hF : 0 < F) {f total : Int} (hf : 0 ≤ f) (ht : 0 ≤ total)
    (d p : Int) :
    (d + frameToFirstSample F f ≤ p
        ∧ p < d + frameToFirstSample F f + getFrameSampleCount F f total)
      ↔ (d + f * F ≤ p ∧ p < d + f * F + F ∧ p < d + total) := by
  rw [getFrameSampleCount_eq hF hf ht]
  unfold frameToFirstSample
  split_ifs with h
  · constructor
    · rintro ⟨h1, h2⟩; linarith
    · rintro ⟨h1, h2, h3⟩; linarith
  · push_neg at h
    constructor
    · rintro ⟨h1, h2⟩
      have := lt_min_iff.mp (show p - d - f * F < min F (total - f * F) by linarith)
      exact ⟨h1, by linarith [this.1], by linarith [this.2]⟩
    · rintro ⟨h1, h2, h3⟩
      have : p - d - f * F < min F (total - f * F) := lt_min (by linarith) (by linarith)
      exact ⟨h1, by linarith⟩

/-! ## Rounding lemmas -/

theorem roundHalfEven_error (t : ℚ) : |(roundHalfEven t : ℚ) - t| ≤ 1 / 2 := by
  have h1 : (⌊t⌋ : ℚ) ≤ t := Int.floor_le t
  have h2 : t < ⌊t⌋ + 1 := Int.lt_floor_add_one t
  unfold roundHalfEven
  rw [abs_le]
  split_ifs with h3 h4 h5
  · constructor <;> linarith
  · push_cast; constructor <;> linarith
  · constructor <;> linarith
  · push_cast; constructor <;> linarith

theorem roundHalfEven_intCast (z : Int) : roundHalfEven (z : ℚ) = z := by
  unfold roundHalfEven
  simp

theorem roundHalfAway_eq_of_close {y : ℚ} {x : Int} (h : |y - x| < 1 / 2) :
    roundHalfAway y = x := by
  rw [abs_lt] at h
  unfold roundHalfAway
  split_ifs with h0
  · rw [Int.floor_eq_iff]
    constructor <;> linarith [h.1, h.2]
  · have : ⌊-y + 1 / 2⌋ = -x := by
      rw [Int.floor_eq_iff]
      push_cast
      constructor <;> linarith [h.1, h.2]
    rw [this, neg_neg]

theorem two_zpow_pos (e : Int) : (0 : ℚ) < (2 : ℚ) ^ e :=
  zpow_pos (by norm_num) e

theorem roundToFormat_error (prec emin : Int) (q : ℚ) :
    |roundToFormat prec emin q - q| ≤ (2 : ℚ) ^ ulpExponent prec emin q / 2 := by
  unfold roundToFormat
  have hu := two_zpow_pos (ulpExponent prec emin q)
  split_ifs with h
  · subst h
    simp only [sub_zero, abs_zero]
    positivity
  · have h1 := roundHalfEven_error (q / (2 : ℚ) ^ ulpExponent prec emin q)
    have h2 : (roundHalfEven (q / (2 : ℚ) ^ ulpExponent prec emin q) : ℚ)
          * (2 : ℚ) ^ ulpExponent prec emin q - q
        = ((roundHalfEven (q / (2 : ℚ) ^ ulpExponent prec emin q) : ℚ)
            - q / (2 : ℚ) ^ ulpExponent prec emin q) * (2 : ℚ) ^ ulpExponent prec emin q := by
      field_simp
    rw [h2, abs_mul, abs_of_pos hu]
    calc |(roundHalfEven (q / (2 : ℚ) ^ ulpExponent prec emin q) : ℚ)
            - q / (2 : ℚ) ^ ulpExponent prec emin q| * (2 : ℚ) ^ ulpExponent prec emin q
        ≤ 1 / 2 * (2 : ℚ) ^ ulpExponent prec emin q :=
          mul_le_mul_of_nonneg_right h1 hu.le
      _ = (2 : ℚ) ^ ulpExponent prec emin q / 2 := by ring

theorem ulpExponent_le {prec emin k : Int} {q : ℚ} (hq : q ≠ 0) (hk : |q| < (2 : ℚ) ^ k)
    (hm : emin ≤ k - prec) : ulpExponent prec emin q ≤ k - prec := by
  have hpos : 0 < |q| := abs_pos.mpr hq
  have hlog : Int.log 2 |q| < k := by
    have := (Int.lt_zpow_iff_log_lt (b := 2) (by norm_num) hpos (x := k)).1 (by exact_mod_cast hk)
    exact this
  unfold ulpExponent
  apply max_le
  · omega
  · exact hm

theorem fl64_error {k : Int} {q : ℚ} (hk : |q| < (2 : ℚ) ^ k) (hm : -1021 ≤ k) :
    |fl64 q - q| ≤ (2 : ℚ) ^ (k - 54) := by
  by_cases hq : q = 0
  · subst hq
    simp only [fl64, roundToFormat, if_true, sub_zero, abs_zero]
    exact (two_zpow_pos _).le
  · have h1 := roundToFormat_error 53 (-1074) q
    have h2 := @ulpExponent_le 53 (-1074) k q hq hk (by omega)
    have h3 : (2 : ℚ) ^ ulpExponent 53 (-1074) q ≤ (2 : ℚ) ^ (k - 53) :=
      zpow_le_zpow_right₀ (by norm_num) h2
    have h4 : (2 : ℚ) ^ (k - 53) = 2 * (2 : ℚ) ^ (k - 54) := by
      rw [show k - 53 = (k - 54) + 1 by ring, zpow_add_one₀ (by norm_num)]
      ring
    unfold fl64
    linarith

theorem fl64_zero : fl64 0 = 0 := by
  simp [fl64, roundToFormat]

theorem fl64_intCast {n : Int} (hn : |n| < 2 ^ 53) : fl64 (n : ℚ) = n := by
  by_cases h0 : n = 0
  · subst h0
    simpa using fl64_zero
  have hq : (n : ℚ) ≠ 0 := by exact_mod_cast h0
  have hpos : (0 : ℚ) < |(n : ℚ)| := abs_pos.mpr hq
  have habs1 : (1 : ℚ) ≤ |(n : ℚ)| := by
    have : (1 : Int) ≤ |n| := Int.one_le_abs h0
    exact_mod_cast this
  have habs2 : |(n : ℚ)| < (2 : ℚ) ^ (53 : Int) := by
    have h' : |(n : ℚ)| < (2 : ℚ) ^ (53 : ℕ) := by exact_mod_cast hn
    rw [show (53 : Int) = ((53 : ℕ) : Int) by rfl, zpow_natCast]
    exact h'
  have hlog0 : 0 ≤ Int.log 2 |(n : ℚ)| := by
    have := (Int.zpow_le_iff_le_log (b := 2) (by norm_num) hpos (x := 0)).1 (by simpa using habs1)
    exact this
  have hlog1 : Int.log 2 |(n : ℚ)| < 53 :=
    (Int.lt_zpow_iff_log_lt (b := 2) (by norm_num) hpos (x := 53)).1 (by exact_mod_cast habs2)
  have hu : ulpExponent 53 (-1074) (n : ℚ) = -((52 - Int.log 2 |(n : ℚ)|).toNat : Int) := by
    unfold ulpExponent
    rw [Int.toNat_of_nonneg (by omega)]
    rw [max_eq_left (by omega)]
    ring
  unfold fl64 roundToFormat
  rw [if_neg hq, hu]
  set j := (52 - Int.log 2 |(n : ℚ)|).toNat with hj
  have hdiv : (n : ℚ) / (2 : ℚ) ^ (-(j : Int)) = ((n * 2 ^ j : Int) : ℚ) := by
    rw [zpow_neg, zpow_natCast]
    push_cast
    field_simp
  rw [hdiv, roundHalfEven_intCast]
  rw [zpow_neg, zpow_natCast]
  push_cast
  field_simp

theorem roundHalfEven_nonneg {t : ℚ} (h : 0 ≤ t) : 0 ≤ roundHalfEven t := by
  have hf : 0 ≤ ⌊t⌋ := Int.floor_nonneg.mpr h
  unfold roundHalfEven
  split_ifs <;> omega

theorem roundHalfEven_nonpos {t : ℚ} (h : t ≤ 0) : roundHalfEven t ≤ 0 := by
  have hf : ⌊t⌋ ≤ 0 := by
    have := Int.floor_le t
    have h1 : (⌊t⌋ : ℚ) ≤ 0 := le_trans this h
    exact_mod_cast h1
  have h2 : t < ⌊t⌋ + 1 := Int.lt_floor_add_one t
  unfold roundHalfEven
  split_ifs with h3 h4 h5
  · exact hf
  · rcases hf.eq_or_lt with h0 | h0
    · rw [h0] at h4
      push_cast at h4
      linarith
    · omega
  · exact hf
  · rcases hf.eq_or_lt with h0 | h0
    · rw [h0] at h5
      simp at h5
    · omega

theorem roundToFormat_nonneg (prec emin : Int) {q : ℚ} (h : 0 ≤ q) :
    0 ≤ roundToFormat prec emin q := by
  unfold roundToFormat
  split_ifs
  · exact le_rfl
  · have hu := two_zpow_pos (ulpExponent prec emin q)
    have := roundHalfEven_nonneg (div_nonneg h hu.le)
    have h1 : (0 : ℚ) ≤ (roundHalfEven (q / (2 : ℚ) ^ ulpExponent prec emin q) : ℚ) := by
      exact_mod_cast this
    exact mul_nonneg h1 hu.le

theorem roundToFormat_nonpos (prec emin : Int) {q : ℚ} (h : q ≤ 0) :
    roundToFormat prec emin q ≤ 0 := by
  unfold roundToFormat
  split_ifs
  · exact le_rfl
  · have hu := two_zpow_pos (ulpExponent prec emin q)
    have := roundHalfEven_nonpos (div_nonpos_of_nonpos_of_nonneg h hu.le)
    have h1 : (roundHalfEven (q / (2 : ℚ) ^ ulpExponent prec emin q) : ℚ) ≤ 0 := by
      exact_mod_cast this
    exact mul_nonpos_of_nonpos_of_nonneg h1 hu.le

/-- An infinite result of the cast to `float` comes from a positive `double` and compares
above it, so `castToFloatTowardsZero` takes its `nextafter` branch. -/
theorem castToFloat32_posInf {d : ℚ} (h : castToFloat32 d = .posInf) :
    0 < d ∧ (castToFloat32 d).gtDouble d = true := by
  refine ⟨?_, by rw [h]; rfl⟩
  by_contra hd
  push_neg at hd
  have h1 := roundToFormat_nonpos 24 (-149) hd
  have h2 : ¬ ((2 : ℚ) ^ (128 : Nat) ≤ roundToFormat 24 (-149) d) := by
    have : (0 : ℚ) < (2 : ℚ) ^ (128 : Nat) := by positivity
    linarith
  unfold castToFloat32 at h
  simp only [h2, if_false] at h
  split_ifs at h

/-- The same for the negative infinity. -/
theorem castToFloat32_negInf {d : ℚ} (h : castToFloat32 d = .negInf) :
    d < 0 ∧ (castToFloat32 d).ltDouble d = true := by
  refine ⟨?_, by rw [h]; rfl⟩
  by_contra hd
  push_neg at hd
  have h1 := roundToFormat_nonneg 24 (-149) hd
  have h2 : ¬ (roundToFormat 24 (-149) d ≤ -(2 : ℚ) ^ (128 : Nat)) := by
    have : (0 : ℚ) < (2 : ℚ) ^ (128 : Nat) := by positivity
    linarith
  unfold castToFloat32 at h
  simp only [h2, if_false] at h
  split_ifs at h

theorem clampFloatSample_close {q : ℚ} (y : ℚ) (h1 : -1 ≤ q) (h2 : q ≤ 1) :
    |clampFloatSample y - q| ≤ |y - q| := by
  unfold clampFloatSample
  split_ifs with h3 h4
  · rw [abs_of_nonpos (by linarith), abs_of_nonpos (by linarith)]; linarith
  · rw [abs_of_nonneg (by linarith), abs_of_nonneg (by linarith)]; linarith
  · exact le_rfl

theorem clampFloatSample_bounds (y : ℚ) : -1 ≤ clampFloatSample y ∧ clampFloatSample y ≤ 1 := by
  unfold clampFloatSample
  split_ifs with h3 h4
  · constructor <;> norm_num
  · constructor <;> norm_num
  · constructor <;> linarith

theorem clampFloatSample_of_mem {y : ℚ} (h1 : -1 ≤ y) (h2 : y ≤ 1) : clampFloatSample y = y := by
  unfold clampFloatSample
  rw [if_neg (by linarith), if_neg (by linarith)]

/-- A product of a clamped sample with `maxInt`, rounded to `double`, stays within half a unit
of any integer the exact product is close to. -/
theorem fl64_scaled_close {m : Int} (hm1 : 1 ≤ m) (hm2 : m ≤ 2 ^ 31) {c : ℚ}
    (hc : -1 ≤ c ∧ c ≤ 1) : |fl64 (c * m) - c * m| ≤ (2 : ℚ) ^ (-22 : Int) := by
  have hmq1 : (1 : ℚ) ≤ m := by exact_mod_cast hm1
  have hmq2 : (m : ℚ) ≤ 2 ^ 31 := by exact_mod_cast hm2
  have habs : |c * m| < (2 : ℚ) ^ (32 : Int) := by
    rw [abs_mul, abs_of_pos (by linarith : (0 : ℚ) < m)]
    have : |c| ≤ 1 := abs_le.mpr hc
    calc |c| * m ≤ 1 * m := mul_le_mul_of_nonneg_right this (by linarith)
      _ < (2 : ℚ) ^ (32 : Int) := by norm_num; linarith
  have := fl64_error habs (by norm_num)
  norm_num at this ⊢
  exact this

theorem roundtrip_core {m : Int} (hm1 : 1 ≤ m) (hm2 : m ≤ 2 ^ 31) {x : Int} (hlo : -m ≤ x)
    (hhi : x ≤ m) :
    roundHalfAway (fl64 (clampFloatSample (fl64 ((x : ℚ) / (m : ℚ))) * (m : ℚ))) = x := by
  have hmq1 : (1 : ℚ) ≤ m := by exact_mod_cast hm1
  have hmq2 : (m : ℚ) ≤ 2 ^ 31 := by exact_mod_cast hm2
  have hmpos : (0 : ℚ) < m := by linarith
  have hxlo : (-(m : ℚ)) ≤ x := by exact_mod_cast hlo
  have hxhi : (x : ℚ) ≤ m := by exact_mod_cast hhi
  have hq1 : -1 ≤ (x : ℚ) / m ∧ (x : ℚ) / m ≤ 1 := by
    constructor
    · rw [le_div_iff₀ hmpos]; linarith
    · rw [div_le_iff₀ hmpos]; linarith
  have habs1 : |(x : ℚ) / m| < (2 : ℚ) ^ (1 : Int) := by
    have : |(x : ℚ) / m| ≤ 1 := abs_le.mpr hq1
    norm_num
    linarith
  have e1 := fl64_error habs1 (by norm_num)
  have e2 := clampFloatSample_close (fl64 ((x : ℚ) / m)) hq1.1 hq1.2
  have hc := clampFloatSample_bounds (fl64 ((x : ℚ) / m))
  have e3 := fl64_scaled_close hm1 hm2 hc
  set c := clampFloatSample (fl64 ((x : ℚ) / m)) with hcdef
  have e4 : |c * m - x| ≤ (2 : ℚ) ^ (-22 : Int) := by
    have h : c * m - x = (c - (x : ℚ) / m) * m := by field_simp
    rw [h, abs_mul, abs_of_pos hmpos]
    have h5 : |c - (x : ℚ) / m| ≤ (2 : ℚ) ^ ((1 : Int) - 54) := le_trans e2 e1
    calc |c - (x : ℚ) / m| * m ≤ (2 : ℚ) ^ ((1 : Int) - 54) * 2 ^ 31 :=
          mul_le_mul h5 hmq2 hmpos.le (two_zpow_pos _).le
      _ = (2 : ℚ) ^ (-22 : Int) := by norm_num
  apply roundHalfAway_eq_of_close
  have h6 : fl64 (c * m) - x = (fl64 (c * m) - c * m) + (c * m - x) := by ring
  rw [h6]
  calc |fl64 (c * m) - c * m + (c * m - x)| ≤ |fl64 (c * m) - c * m| + |c * m - x| :=
        abs_add _ _
    _ ≤ (2 : ℚ) ^ (-22 : Int) + (2 : ℚ) ^ (-22 : Int) := add_le_add e3 e4
    _ < 1 / 2 := by norm_num

theorem roundHalfAway_bounds {y : ℚ} {m : Int} (hm : 0 ≤ m) (h1 : -(m : ℚ) - 1 / 2 < y)
    (h2 : y < (m : ℚ) + 1 / 2) : -m ≤ roundHalfAway y ∧ roundHalfAway y ≤ m := by
  unfold roundHalfAway
  split_ifs with h0
  · have ha : (0 : Int) ≤ ⌊y + 1 / 2⌋ := Int.floor_nonneg.mpr (by linarith)
    have hb : ⌊y + 1 / 2⌋ < m + 1 := Int.floor_lt.mpr (by push_cast; linarith)
    constructor <;> omega
  · push_neg at h0
    have ha : (0 : Int) ≤ ⌊-y + 1 / 2⌋ := Int.floor_nonneg.mpr (by linarith)
    have hb : ⌊-y + 1 / 2⌋ < m + 1 := Int.floor_lt.mpr (by push_cast; linarith)
    constructor <;> omega

theorem maxInt_bounds_of_int {st : SampleType} (hst : isFloatSampleType st = false) :
    1 ≤ maxInt (intSampleBits st) ∧ maxInt (intSampleBits st) ≤ 2 ^ 31
      ∧ minInt (intSampleBits st) = -maxInt (intSampleBits st) - 1 := by
  cases st <;> simp [isFloatSampleType] at hst <;> simp [intSampleBits, maxInt, minInt]

theorem convSampleFromDouble_int_eq {st : SampleType} (hst : isFloatSampleType st = false)
    (v : ℚ) (clampFloat : Bool) :
    convSampleFromDouble st v clampFloat
      = .int (roundHalfAway (fl64 (clampFloatSample v * (maxInt (intSampleBits st) : ℚ)))) := by
  cases st <;> simp [isFloatSampleType] at hst <;> rfl

theorem convSampleFromDouble_int_range {st : SampleType} (hst : isFloatSampleType st = false)
    (v : ℚ) :
    -maxInt (intSampleBits st)
        ≤ roundHalfAway (fl64 (clampFloatSample v * (maxInt (intSampleBits st) : ℚ)))
      ∧ roundHalfAway (fl64 (clampFloatSample v * (maxInt (intSampleBits st) : ℚ)))
        ≤ maxInt (intSampleBits st) := by
  obtain ⟨hm1, hm2, -⟩ := maxInt_bounds_of_int hst
  have hc := clampFloatSample_bounds v
  have e := fl64_scaled_close hm1 hm2 hc
  have hmq : (1 : ℚ) ≤ (maxInt (intSampleBits st) : ℚ) := by exact_mod_cast hm1
  rw [abs_le] at e
  norm_num at e
  have hp1 := mul_le_mul_of_nonneg_right hc.1 (by linarith : (0 : ℚ) ≤ maxInt (intSampleBits st))
  have hp2 := mul_le_mul_of_nonneg_right hc.2 (by linarith : (0 : ℚ) ≤ maxInt (intSampleBits st))
  apply roundHalfAway_bounds (by linarith)
  · linarith [e.1]
  · linarith [e.2]

theorem isSampleOverflowing_double_iff (v : ℚ) :
    isSampleOverflowing .Float64 (.flt v) = true ↔ (v < -1 ∨ 1 < v) := by
  simp [isSampleOverflowing]

theorem clampFloatSample32_bounds (t : FloatVal) :
    -1 ≤ clampFloatSample32 t ∧ clampFloatSample32 t ≤ 1 := by
  cases t with
  | fin q => exact clampFloatSample_bounds q
  | posInf => constructor <;> norm_num [clampFloatSample32]
  | negInf => constructor <;> norm_num [clampFloatSample32]

theorem safeConvertSample_of_not_overflowing (st : SampleType) {v : ℚ} (totalPos channel : Int)
    (ofCtx : OverflowContext) (ofStats : OverflowStats) (hv : ¬ (v < -1 ∨ 1 < v)) :
    safeConvertSample st v totalPos channel ofCtx ofStats
      = { value := some (convSampleFromDouble st v false), stats := ofStats, calls := [] } := by
  unfold safeConvertSample
  rw [if_neg]
  rwa [isSampleOverflowing_double_iff]

theorem safeConvertSample_of_overflowing (st : SampleType) {v : ℚ} (totalPos channel : Int)
    (ofCtx : OverflowContext) (ofStats : OverflowStats) (hv : v < -1 ∨ 1 < v) :
    safeConvertSample st v totalPos channel ofCtx ofStats
      = handleOverflow st v totalPos channel ofCtx ofStats := by
  unfold safeConvertSample
  rw [if_pos]
  rwa [isSampleOverflowing_double_iff]

theorem convSampleFromDouble_int_of_gt {st : SampleType} (hst : isFloatSampleType st = false)
    {v : ℚ} (hv : 1 < v) (clampFloat : Bool) :
    convSampleFromDouble st v clampFloat = .int (maxInt (intSampleBits st)) := by
  obtain ⟨hm1, hm2, -⟩ := maxInt_bounds_of_int hst
  have hc : clampFloatSample v = 1 := by
    unfold clampFloatSample
    rw [if_neg (by linarith), if_pos hv]
  rw [convSampleFromDouble_int_eq hst, hc, one_mul,
    fl64_intCast (by rw [abs_of_nonneg (by omega)]; omega)]
  congr 1
  apply roundHalfAway_eq_of_close
  simp

theorem convSampleFromDouble_int_of_lt {st : SampleType} (hst : isFloatSampleType st = false)
    {v : ℚ} (hv : v < -1) (clampFloat : Bool) :
    convSampleFromDouble st v clampFloat = .int (-maxInt (intSampleBits st)) := by
  obtain ⟨hm1, hm2, -⟩ := maxInt_bounds_of_int hst
  have hc : clampFloatSample v = -1 := by
    unfold clampFloatSample
    rw [if_pos hv]
  have hcast : (-1 : ℚ) * (maxInt (intSampleBits st) : ℚ)
      = ((-maxInt (intSampleBits st) : Int) : ℚ) := by push_cast; ring
  rw [convSampleFromDouble_int_eq hst, hc, hcast,
    fl64_intCast (by rw [abs_neg, abs_of_nonneg (by omega)]; omega)]
  congr 1
  apply roundHalfAway_eq_of_close
  simp

theorem shiftLeft_int_of_int (st : SampleType) (hst : isFloatSampleType st = false) (z : Int) :
    (if (getSampleBitShift st).required = true then
        shiftLeft (.int z) (getSampleBitShift st).count
      else Sample.int z)
      = .int (z * 2 ^ (bitwidth st - intSampleBits st)) := by
  cases st <;> simp [isFloatSampleType] at hst <;>
    simp [getSampleBitShift, shiftLeft, bitwidth, intSampleBits, isFloatSampleType]

theorem addSample_count (ofStats : OverflowStats) (v : ℚ) :
    (ofStats.addSample v).count = ofStats.count + 1 := by
  unfold OverflowStats.addSample
  dsimp only
  split_ifs <;> rfl

theorem addSample_peak (ofStats : OverflowStats) (v : ℚ) :
    (ofStats.addSample v).peak = max ofStats.peak |v| := by
  unfold OverflowStats.addSample
  dsimp only
  split_ifs with h
  · exact (max_eq_right h.le).symm
  · exact (max_eq_left (not_lt.mp h)).symm

theorem handleOverflow_stats (st : SampleType) (v : ℚ) (totalPos channel : Int)
    (ofCtx : OverflowContext) (ofStats : OverflowStats) :
    (handleOverflow st v totalPos channel ofCtx ofStats).stats = ofStats.addSample v := by
  unfold handleOverflow
  cases ofCtx.mode <;> cases isFloatSampleType st <;> rfl

theorem safeConvertSample_stats (st : SampleType) (v : ℚ) (totalPos channel : Int)
    (ofCtx : OverflowContext) (ofStats : OverflowStats) :
    (safeConvertSample st v totalPos channel ofCtx ofStats).stats
      = if isSampleOverflowing .Float64 (.flt v) = true then ofStats.addSample v
        else ofStats := by
  unfold safeConvertSample
  split_ifs
  · exact handleOverflow_stats st v totalPos channel ofCtx ofStats
  · rfl

/-- Statistics after a sequence of `safeConvertSample` calls, from arbitrary initial
statistics. -/
theorem foldl_safeConvertSample_stats (st : SampleType) (ofCtx : OverflowContext)
    (calls : List (ℚ × Int × Int)) (ofStats : OverflowStats) :
    (calls.foldl
        (fun stats c => (safeConvertSample st c.1 c.2.1 c.2.2 ofCtx stats).stats) ofStats).count
        = ofStats.count
          + ((calls.filter fun c => isSampleOverflowing .Float64 (.flt c.1)).length : Int)
      ∧ (calls.foldl
        (fun stats c => (safeConvertSample st c.1 c.2.1 c.2.2 ofCtx stats).stats) ofStats).peak
        = ((calls.filter fun c => isSampleOverflowing .Float64 (.flt c.1)).map
            fun c => |c.1|).foldl max ofStats.peak := by
  induction calls generalizing ofStats with
  | nil => simp
  | cons c cs ih =>
    rw [List.foldl_cons, safeConvertSample_stats]
    by_cases h : isSampleOverflowing .Float64 (.flt c.1) = true
    · rw [if_pos h]
      simp only [List.filter_cons, h, if_true]
      obtain ⟨ih1, ih2⟩ := ih (ofStats.addSample c.1)
      rw [ih1, ih2, addSample_count, addSample_peak]
      constructor
      · simp only [List.length_cons]
        push_cast
        ring
      · simp only [List.map_cons, List.foldl_cons]
    · rw [if_neg h]
      simp only [List.filter_cons, h, if_false]
      exact ih ofStats

theorem le_foldl_max (l : List ℚ) (a : ℚ) : a ≤ l.foldl max a := by
  induction l generalizing a with
  | nil => exact le_rfl
  | cons x xs ih =>
    rw [List.foldl_cons]
    exact le_trans (le_max_left a x) (ih (max a x))

theorem lt_foldl_max_of_ne_nil {l : List ℚ} (hl : l ≠ []) (hall : ∀ x ∈ l, 1 < x) (a : ℚ) :
    1 < l.foldl max a := by
  cases l with
  | nil => exact absurd rfl hl
  | cons x xs =>
    rw [List.foldl_cons]
    have h1 : 1 < x := hall x (List.mem_cons_self x xs)
    exact lt_of_lt_of_le (lt_of_lt_of_le h1 (le_max_right a x)) (le_foldl_max xs _)

/-- The offset stream's sample is read through the frames of `baseFrameToOffsetFrames`. -/
theorem getOffsetSample_eq_stream {α : Type} (F n d offsetTotal baseTotal s : Int)
    (stream : Int → α) (hF : 0 < F) (hn : 0 ≤ n) (hs0 : 0 ≤ s)
    (hs : s < getFrameSampleCount F n baseTotal)
    (hp0 : 0 ≤ frameToFirstSample F n + s - d)
    (hp : frameToFirstSample F n + s - d < offsetTotal) :
    getOffsetSample s (getFrameSampleOffsets F d)
        (frameReadPtr F stream offsetTotal
          (baseFrameToOffsetFrames F n d offsetTotal baseTotal).left)
        (frameReadPtr F stream offsetTotal
          (baseFrameToOffsetFrames F n d offsetTotal baseTotal).right)
      = some (stream (frameToFirstSample F n + s - d)) := by
  have hb : 0 ≤ baseTotal := by
    by_contra hc
    push_neg at hc
    rcases getFrameSampleCount_of_neg hF hn hc with h | ⟨-, h⟩ <;> rw [h] at hs <;> linarith
  have ho : 1 ≤ offsetTotal := by linarith
  rw [getFrameSampleCount_eq hF hn hb] at hs
  unfold frameToFirstSample at hp0 hp ⊢
  have hm := Int.emod_add_ediv d F
  have hr0 := Int.emod_nonneg d hF.ne'
  have hr1 := Int.emod_lt_of_pos d hF
  have hN := ediv_bounds hF (offsetTotal - 1)
  by_cases h1 : baseTotal ≤ n * F
  · rw [if_pos h1] at hs; linarith
  rw [if_neg h1] at hs
  have hsF : s < F := lt_of_lt_of_le hs (min_le_left _ _)
  rw [baseFrameToOffsetFrames_eq hF hn hb ho, getFrameSampleOffsets_eq hF]
  rw [if_neg h1]
  have h2 : ¬ (d + offsetTotal ≤ n * F ∨ n * F + min F (baseTotal - n * F) ≤ d) := by
    rintro (h | h) <;> linarith
  rw [if_neg h2]
  by_cases h3 : n * F < d
  · -- the base frame starts before the offset stream: frame 0 is the right frame
    rw [if_pos h3]
    have hk : d / F = n := by
      apply ediv_unique hF <;> nlinarith
    have hr : d % F = d - n * F := by rw [hk] at hm; linarith
    have hrne : ¬ d % F = 0 := by rw [hr]; linarith
    rw [if_neg hrne]
    unfold getOffsetSample
    dsimp only
    have hl : ¬ F - d % F = 0 := by linarith
    rw [if_neg hl, if_pos (by linarith : - -(d % F) ≤ s)]
    rw [readSample_frameReadPtr hF stream le_rfl (by linarith) (by linarith) (by linarith)]
    congr 2
    rw [hr]; ring
  · rw [if_neg h3]
    push_neg at h3
    have hq0 : 0 ≤ (n * F - d) / F := Int.ediv_nonneg (by linarith) hF.le
    by_cases hr : d % F = 0
    · -- frame-aligned streams (also negative multiples of the frame size): left frame only
      have hq := ediv_sub_of_emod_eq_zero hF (n := n) hr
      have hread : readSample (frameReadPtr F stream offsetTotal ((n * F - d) / F)) (s + 0)
          = some (stream (n * F + s - d)) := by
        rw [readSample_frameReadPtr hF stream hq0 (by linarith) (by linarith) (by linarith)]
        congr 2
        linarith
      rw [if_pos hr]
      unfold getOffsetSample
      dsimp only
      rw [if_pos rfl]
      split_ifs <;> exact hread
    · have hq := ediv_sub_of_emod_ne_zero hF (n := n) hr
      have hpos : 0 < d % F := lt_of_le_of_ne hr0 (Ne.symm hr)
      have h4 : ¬ (d % F = 0 ∧ 0 ≤ d) := fun h => hr h.1
      rw [if_neg h4, if_neg hr]
      unfold getOffsetSample
      dsimp only
      have hl : ¬ F - d % F = 0 := by linarith
      rw [if_neg hl]
      by_cases hside : - -(d % F) ≤ s
      · -- the sample lies in the right frame
        rw [if_pos hside]
        rw [neg_neg] at hside
        have h5 : ¬ (n * F - d) / F = (offsetTotal - 1) / F := by
          intro hc
          rw [hc] at hq
          linarith [hN.2]
        rw [if_neg h5]
        dsimp only
        rw [readSample_frameReadPtr hF stream (by linarith) (by linarith) (by linarith)
          (by linarith)]
        congr 2
        linarith
      · -- the sample lies in the left frame
        rw [if_neg hside]
        rw [neg_neg] at hside
        push_neg at hside
        have hread : readSample (frameReadPtr F stream offsetTotal ((n * F - d) / F))
            (s + (F - d % F)) = some (stream (n * F + s - d)) := by
          rw [readSample_frameReadPtr hF stream hq0 (by linarith) (by linarith) (by linarith)]
          congr 2
          linarith
        split_ifs <;> exact hread

/-! ## The frame-grid offset resolver (claims C1 to C5) -/

/-- C1: for a local index `s` of base frame `n` whose offset-stream position
`p = n * F + s - d` lies in `[0, offsetTotal)`, `getOffsetSample` with the offsets of
`getFrameSampleOffsets d` and the buffers of the frames returned by `baseFrameToOffsetFrames`
reads a present frame inside its sample count and returns the offset stream's sample at `p`
(this includes every `d` that is a negative multiple of `F`). -/
theorem getOffsetSample_reconstructs {α : Type} (F n d offsetTotal baseTotal s : Int)
    (stream : Int → α) (hF : 0 < F) (hn : 0 ≤ n) (hs0 : 0 ≤ s)
    (hs : s < getFrameSampleCount F n baseTotal)
    (hp0 : 0 ≤ frameToFirstSample F n + s - d)
    (hp : frameToFirstSample F n + s - d < offsetTotal) :
    getOffsetSample s (getFrameSampleOffsets F d)
        (frameReadPtr F stream offsetTotal
          (baseFrameToOffsetFrames F n d offsetTotal baseTotal).left)
        (frameReadPtr F stream offsetTotal
          (baseFrameToOffsetFrames F n d offsetTotal baseTotal).right)
      = some (stream (frameToFirstSample F n + s - d)) :=
  getOffsetSample_eq_stream F n d offsetTotal baseTotal s stream hF hn hs0 hs hp0 hp

/-- Witness for C1: offset `-3072`, a negative multiple of the frame size 3072; local index 5
of base frame 1 reads the offset stream's sample at position 6149. -/
theorem getOffsetSample_reconstructs_witness :
    getOffsetSample 5 (getFrameSampleOffsets 3072 (-3072))
        (frameReadPtr 3072 (fun i : Int => i) 10000
          (baseFrameToOffsetFrames 3072 1 (-3072) 10000 10000).left)
        (frameReadPtr 3072 (fun i : Int => i) 10000
          (baseFrameToOffsetFrames 3072 1 (-3072) 10000 10000).right)
      = some (frameToFirstSample 3072 1 + 5 - (-3072)) :=
  getOffsetSample_reconstructs 3072 1 (-3072) 10000 10000 5 (fun i : Int => i) (by decide)
    (by decide) (by decide) (by decide) (by decide) (by decide)

/-- C2, counterexample: with `F = 3072`, a 10-sample base stream and an offset stream of 10000
samples starting at `-2972`, base frame 0 lies inside offset frame 0, yet frame 1 is returned
as right frame although its span `[100, 3172)` has no position of the intersection. -/
theorem baseFrameToOffsetFrames_right_unneeded :
    (0 : Int) < samplesToFrames 3072 10
      ∧ baseFrameToOffsetFrames 3072 0 (-2972) 10000 10 = { left := 0, right := 1 }
      ∧ ¬ ∃ p : Int,
          (frameToFirstSample 3072 0 ≤ p
            ∧ p < frameToFirstSample 3072 0 + getFrameSampleCount 3072 0 10)
          ∧ (-2972 ≤ p ∧ p < -2972 + 10000)
          ∧ (-2972 + frameToFirstSample 3072 1 ≤ p
            ∧ p < -2972 + frameToFirstSample 3072 1 + getFrameSampleCount 3072 1 10000) := by
  refine ⟨by decide, by decide, ?_⟩
  rintro ⟨p, ⟨-, h1⟩, -, h2, -⟩
  have e1 : frameToFirstSample 3072 0 + getFrameSampleCount 3072 0 10 = 10 := by decide
  have e2 : -2972 + frameToFirstSample 3072 1 = 100 := by decide
  rw [e1] at h1
  rw [e2] at h2
  omega

/-- C2, amended: for every base frame `n ≥ 0`, with `{L, R}` the frames returned by
`baseFrameToOffsetFrames`: every position of the intersection of the base frame's span with
the offset stream's span lies in the span of a returned frame; a returned left frame always
holds the position of the base frame's first sample, which is in the intersection; when `d`
is not a multiple of `F`, a returned right frame holds a position of the intersection exactly
when no left frame is returned or the base frame has more than `d % F` samples; and `R = -1`
when `d` is a non-negative multiple of `F`. -/
theorem baseFrameToOffsetFrames_covers (F n d offsetTotal baseTotal L R : Int) (hF : 0 < F)
    (hn : 0 ≤ n) (ho : 1 ≤ offsetTotal)
    (hLR : baseFrameToOffsetFrames F n d offsetTotal baseTotal = { left := L, right := R }) :
    (∀ p : Int,
        frameToFirstSample F n ≤ p →
        p < frameToFirstSample F n + getFrameSampleCount F n baseTotal →
        d ≤ p → p < d + offsetTotal →
        (L ≠ -1 ∧ d + frameToFirstSample F L ≤ p
            ∧ p < d + frameToFirstSample F L + getFrameSampleCount F L offsetTotal)
          ∨ (R ≠ -1 ∧ d + frameToFirstSample F R ≤ p
            ∧ p < d + frameToFirstSample F R + getFrameSampleCount F R offsetTotal))
      ∧ (L ≠ -1 →
          (frameToFirstSample F n
              < frameToFirstSample F n + getFrameSampleCount F n baseTotal)
            ∧ (d ≤ frameToFirstSample F n ∧ frameToFirstSample F n < d + offsetTotal)
            ∧ (d + frameToFirstSample F L ≤ frameToFirstSample F n
              ∧ frameToFirstSample F n
                  < d + frameToFirstSample F L + getFrameSampleCount F L offsetTotal))
      ∧ (R ≠ -1 → d % F ≠ 0 →
          ((∃ p : Int,
              (frameToFirstSample F n ≤ p
                ∧ p < frameToFirstSample F n + getFrameSampleCount F n baseTotal)
              ∧ (d ≤ p ∧ p < d + offsetTotal)
              ∧ (d + frameToFirstSample F R ≤ p
                ∧ p < d + frameToFirstSample F R + getFrameSampleCount F R offsetTotal))
            ↔ (L = -1 ∨ d % F < getFrameSampleCount F n baseTotal)))
      ∧ (d % F = 0 → 0 ≤ d → R = -1) := by
  have hot : 0 ≤ offsetTotal := by linarith
  rcases lt_or_le baseTotal 0 with hb | hb
  · -- a negative stream length: nothing is returned and the base frame's span is empty
    rw [baseFrameToOffsetFrames_of_neg hF d offsetTotal hn hb] at hLR
    injection hLR with hL hR
    subst hL hR
    have hc : getFrameSampleCount F n baseTotal ≤ 0 := by
      rcases getFrameSampleCount_of_neg hF hn hb with h | ⟨-, h⟩ <;> rw [h]
      · linarith
    refine ⟨fun p g1 g2 => by linarith, fun h => absurd rfl h, fun h => absurd rfl h,
      fun _ _ => rfl⟩
  rw [baseFrameToOffsetFrames_eq hF hn hb ho] at hLR
  rw [getFrameSampleCount_eq hF hn hb]
  have hm := Int.emod_add_ediv d F
  have hr0 := Int.emod_nonneg d hF.ne'
  have hr1 := Int.emod_lt_of_pos d hF
  have hN := ediv_bounds hF (offsetTotal - 1)
  have hstart : frameToFirstSample F n = n * F := rfl
  rw [hstart]
  by_cases h1 : baseTotal ≤ n * F
  · rw [if_pos h1] at hLR ⊢
    injection hLR with hL hR
    subst hL hR
    refine ⟨fun p g1 g2 => by linarith, fun h => absurd rfl h, fun h => absurd rfl h,
      fun _ _ => rfl⟩
  rw [if_neg h1] at hLR ⊢
  push_neg at h1
  have hcF : min F (baseTotal - n * F) ≤ F := min_le_left _ _
  have hcpos : 0 < min F (baseTotal - n * F) := lt_min hF (by linarith)
  by_cases h2 : d + offsetTotal ≤ n * F ∨ n * F + min F (baseTotal - n * F) ≤ d
  · rw [if_pos h2] at hLR
    injection hLR with hL hR
    subst hL hR
    refine ⟨fun p g1 g2 g3 g4 => ?_, fun h => absurd rfl h, fun h => absurd rfl h,
      fun _ _ => rfl⟩
    rcases h2 with h | h <;> linarith
  rw [if_neg h2] at hLR
  push_neg at h2
  by_cases h3 : n * F < d
  · -- `{-1, 0}`: the base frame starts before the offset stream
    rw [if_pos h3] at hLR
    injection hLR with hL hR
    subst hL hR
    have hspan := fun p => mem_frame_span_iff hF (le_refl (0 : Int)) hot d p
    refine ⟨fun p g1 g2 g3 g4 => Or.inr ⟨by decide, (hspan p).2 ⟨by linarith, by linarith, g4⟩⟩,
      fun h => absurd rfl h, fun _ _ => ?_, fun hd _ => ?_⟩
    · refine ⟨fun _ => Or.inl rfl, fun _ => ⟨d, ⟨h3.le, h2.2⟩, ⟨le_rfl, by linarith⟩,
        (hspan d).2 ⟨by linarith, by linarith, by linarith⟩⟩⟩
    · exfalso
      rw [hd] at hm
      have hk1 : n < d / F := by
        by_contra hc
        push_neg at hc
        have := mul_le_mul_of_nonneg_left hc hF.le
        linarith
      have hk2 : d / F < n + 1 := by
        by_contra hc
        push_neg at hc
        have := mul_le_mul_of_nonneg_left hc hF.le
        linarith
      omega
  rw [if_neg h3] at hLR
  push_neg at h3
  have hq0 : 0 ≤ (n * F - d) / F := Int.ediv_nonneg (by linarith) hF.le
  have hqb := ediv_bounds hF (n * F - d)
  have hspanq := fun p => mem_frame_span_iff hF hq0 hot d p
  have hleft' : (n * F - d) / F ≠ -1 →
      n * F < n * F + min F (baseTotal - n * F)
        ∧ (d ≤ n * F ∧ n * F < d + offsetTotal)
        ∧ (d + frameToFirstSample F ((n * F - d) / F) ≤ n * F
          ∧ n * F < d + frameToFirstSample F ((n * F - d) / F)
              + getFrameSampleCount F ((n * F - d) / F) offsetTotal) := by
    intro _
    exact ⟨by linarith, ⟨h3, h2.1⟩, (hspanq (n * F)).2 ⟨by linarith [hqb.1], by linarith [hqb.2],
      h2.1⟩⟩
  by_cases h4 : d % F = 0 ∧ 0 ≤ d
  · -- frame-aligned at a non-negative offset: the left frame only
    rw [if_pos h4] at hLR
    injection hLR with hL hR
    subst hL hR
    have hq := ediv_sub_of_emod_eq_zero hF (n := n) h4.1
    refine ⟨fun p g1 g2 g3 g4 => Or.inl ⟨by omega, (hspanq p).2 ⟨by linarith, by linarith, g4⟩⟩,
      hleft', fun h => absurd rfl h, fun _ _ => rfl⟩
  rw [if_neg h4] at hLR
  by_cases h5 : (n * F - d) / F = (offsetTotal - 1) / F
  · -- the left frame is the last frame of the offset stream
    rw [if_pos h5] at hLR
    injection hLR with hL hR
    subst hL hR
    refine ⟨fun p g1 g2 g3 g4 => Or.inl ⟨by omega, (hspanq p).2 ⟨by linarith [hqb.1], ?_, g4⟩⟩,
      hleft', fun h => absurd rfl h, fun h5 h6 => absurd ⟨h5, h6⟩ h4⟩
    rw [h5]
    linarith [hN.2]
  rw [if_neg h5] at hLR
  injection hLR with hL hR
  subst hL hR
  have hq1 : 0 ≤ (n * F - d) / F + 1 := by linarith
  have hspanq1 := fun p => mem_frame_span_iff hF hq1 hot d p
  have hqN : (n * F - d) / F ≤ (offsetTotal - 1) / F :=
    Int.ediv_le_ediv hF (by linarith [h2.1])
  have hlt : (n * F - d) / F + 1 ≤ (offsetTotal - 1) / F := by
    have := lt_of_le_of_ne hqN h5
    omega
  have hltF := mul_le_mul_of_nonneg_left hlt hF.le
  refine ⟨fun p g1 g2 g3 g4 => ?_, hleft', fun _ hr => ?_, fun h5 h6 => absurd ⟨h5, h6⟩ h4⟩
  · rcases lt_or_le p (d + (n * F - d) / F * F + F) with hp | hp
    · exact Or.inl ⟨by omega, (hspanq p).2 ⟨by linarith [hqb.1], hp, g4⟩⟩
    · exact Or.inr ⟨by omega, (hspanq1 p).2 ⟨by linarith, by linarith [hqb.2], g4⟩⟩
  · have hq := ediv_sub_of_emod_ne_zero hF (n := n) hr
    have hne : ¬ (n * F - d) / F = -1 := by omega
    constructor
    · rintro ⟨p, ⟨hp1, hp2⟩, -, hp3⟩
      right
      have := ((hspanq1 p).1 hp3).1
      linarith
    · rintro (h | h)
      · exact absurd h hne
      · exact ⟨n * F + d % F, ⟨by linarith, by linarith⟩, ⟨by linarith, by linarith [hN.1]⟩,
          (hspanq1 _).2 ⟨by linarith, by linarith, by linarith [hN.1]⟩⟩

/-- Witness for C2 (amended), at the input of the counterexample: the left frame 0 holds the
base frame's first sample, and the returned right frame 1 holds a position of the
intersection exactly when the base frame has more than `-2972 % 3072 = 100` samples, which
it has not. -/
theorem baseFrameToOffsetFrames_covers_witness :
    ((frameToFirstSample 3072 0 < frameToFirstSample 3072 0 + getFrameSampleCount 3072 0 10)
        ∧ (-2972 ≤ frameToFirstSample 3072 0 ∧ frameToFirstSample 3072 0 < -2972 + 10000)
        ∧ (-2972 + frameToFirstSample 3072 0 ≤ frameToFirstSample 3072 0
          ∧ frameToFirstSample 3072 0
              < -2972 + frameToFirstSample 3072 0 + getFrameSampleCount 3072 0 10000))
      ∧ ((∃ p : Int,
            (frameToFirstSample 3072 0 ≤ p
              ∧ p < frameToFirstSample 3072 0 + getFrameSampleCount 3072 0 10)
            ∧ (-2972 ≤ p ∧ p < -2972 + 10000)
            ∧ (-2972 + frameToFirstSample 3072 1 ≤ p
              ∧ p < -2972 + frameToFirstSample 3072 1 + getFrameSampleCount 3072 1 10000))
          ↔ ((0 : Int) = -1 ∨ (-2972 : Int) % 3072 < getFrameSampleCount 3072 0 10)) :=
  ⟨(baseFrameToOffsetFrames_covers 3072 0 (-2972) 10000 10 0 1 (by decide) (by decide)
      (by decide) (by decide)).2.1 (by decide),
    (baseFrameToOffsetFrames_covers 3072 0 (-2972) 10000 10 0 1 (by decide) (by decide)
      (by decide) (by decide)).2.2.1 (by decide) (by decide)⟩

/-- C3: every component returned by `baseFrameToOffsetFrames` is the sentinel `-1` or a frame
number of the offset stream (`0 ≤ f < samplesToFrames offsetTotal`), and when both components
are present the right one is the left one plus one. -/
theorem baseFrameToOffsetFrames_frames_valid (F n d offsetTotal baseTotal : Int) (hF : 0 < F)
    (hn : 0 ≤ n) (hb : 0 ≤ baseTotal) (ho : 1 ≤ offsetTotal) :
    ((baseFrameToOffsetFrames F n d offsetTotal baseTotal).left = -1
        ∨ (0 ≤ (baseFrameToOffsetFrames F n d offsetTotal baseTotal).left
            ∧ (baseFrameToOffsetFrames F n d offsetTotal baseTotal).left
                < samplesToFrames F offsetTotal))
      ∧ ((baseFrameToOffsetFrames F n d offsetTotal baseTotal).right = -1
        ∨ (0 ≤ (baseFrameToOffsetFrames F n d offsetTotal baseTotal).right
            ∧ (baseFrameToOffsetFrames F n d offsetTotal baseTotal).right
                < samplesToFrames F offsetTotal))
      ∧ ((baseFrameToOffsetFrames F n d offsetTotal baseTotal).left ≠ -1 →
          (baseFrameToOffsetFrames F n d offsetTotal baseTotal).right ≠ -1 →
          (baseFrameToOffsetFrames F n d offsetTotal baseTotal).right
            = (baseFrameToOffsetFrames F n d offsetTotal baseTotal).left + 1) := by
  rw [baseFrameToOffsetFrames_eq hF hn hb ho]
  have hN : samplesToFrames F offsetTotal = (offsetTotal - 1) / F + 1 := by
    rw [samplesToFrames, tdiv_of_nonneg hF (by linarith)]
  rw [hN]
  have hq := ediv_bounds hF (n * F - d)
  have hN := ediv_bounds hF (offsetTotal - 1)
  have hN0 : 0 ≤ (offsetTotal - 1) / F := Int.ediv_nonneg (by linarith) hF.le
  split_ifs with h1 h2 h3 h4 h5
  · simp
  · simp
  · simp only [true_or, true_and]
    refine ⟨Or.inr ⟨le_rfl, by linarith⟩, fun h => absurd rfl h⟩
  all_goals
    push_neg at h2 h3
    have hq0 : 0 ≤ (n * F - d) / F := Int.ediv_nonneg (by linarith) hF.le
    have hqN : (n * F - d) / F ≤ (offsetTotal - 1) / F :=
      Int.ediv_le_ediv hF (by linarith [h2.1])
  · simp only [or_true, true_or, and_true, ne_eq, not_true_eq_false, false_implies,
      implies_true]
    exact Or.inr ⟨hq0, by linarith⟩
  · simp only [or_true, true_or, and_true, ne_eq, not_true_eq_false, false_implies,
      implies_true]
    exact Or.inr ⟨hq0, by linarith⟩
  · have hlt : (n * F - d) / F < (offsetTotal - 1) / F := lt_of_le_of_ne hqN h5
    dsimp only
    refine ⟨Or.inr ⟨hq0, by linarith⟩, Or.inr ⟨by linarith, by linarith⟩, fun _ _ => rfl⟩

/-- Witness for C3 at `F = 3072`, base frame 1, offset `-100`. -/
theorem baseFrameToOffsetFrames_frames_valid_witness :
    ((baseFrameToOffsetFrames 3072 1 (-100) 10000 10000).left = -1
        ∨ (0 ≤ (baseFrameToOffsetFrames 3072 1 (-100) 10000 10000).left
            ∧ (baseFrameToOffsetFrames 3072 1 (-100) 10000 10000).left
                < samplesToFrames 3072 10000))
      ∧ ((baseFrameToOffsetFrames 3072 1 (-100) 10000 10000).right = -1
        ∨ (0 ≤ (baseFrameToOffsetFrames 3072 1 (-100) 10000 10000).right
            ∧ (baseFrameToOffsetFrames 3072 1 (-100) 10000 10000).right
                < samplesToFrames 3072 10000))
      ∧ ((baseFrameToOffsetFrames 3072 1 (-100) 10000 10000).left ≠ -1 →
          (baseFrameToOffsetFrames 3072 1 (-100) 10000 10000).right ≠ -1 →
          (baseFrameToOffsetFrames 3072 1 (-100) 10000 10000).right
            = (baseFrameToOffsetFrames 3072 1 (-100) 10000 10000).left + 1) :=
  baseFrameToOffsetFrames_frames_valid 3072 1 (-100) 10000 10000 (by decide) (by decide)
    (by decide) (by decide)

/-- C4, failing input: for the offset `-3072`, an exact negative multiple of the frame size
3072, the non-negative remainder is 0 but the right frame sample offset is `-3072`, not 0,
although the left one is 0. -/
theorem getFrameSampleOffsets_negative_multiple :
    (-3072 : Int) % 3072 = 0
      ∧ getFrameSampleOffsets 3072 (-3072) = { left := 0, right := -3072 } := by
  constructor <;> decide

/-- C5: `baseFrameToOffsetFrames` returns `{-1, -1}` exactly when the base frame lies beyond
the end of the base stream or its sample span shares no position with the offset stream's span
`[d, d + offsetTotal)`. -/
theorem baseFrameToOffsetFrames_none_iff (F n d offsetTotal baseTotal : Int) (hF : 0 < F)
    (hn : 0 ≤ n) (ho : 1 ≤ offsetTotal) :
    baseFrameToOffsetFrames F n d offsetTotal baseTotal = { left := -1, right := -1 }
      ↔ (samplesToFrames F baseTotal ≤ n
          ∨ ¬ ∃ p : Int,
              (frameToFirstSample F n ≤ p
                ∧ p < frameToFirstSample F n + getFrameSampleCount F n baseTotal)
              ∧ (d ≤ p ∧ p < d + offsetTotal)) := by
  rcases lt_or_le baseTotal 0 with hb | hb
  · rw [baseFrameToOffsetFrames_of_neg hF d offsetTotal hn hb]
    simp only [true_iff]
    right
    rintro ⟨p, ⟨h1, h2⟩, -⟩
    rcases getFrameSampleCount_of_neg hF hn hb with h | ⟨-, h⟩ <;> rw [h] at h2 <;> linarith
  · rw [baseFrameToOffsetFrames_eq hF hn hb ho, getFrameSampleCount_eq hF hn hb]
    unfold frameToFirstSample
    have hq0 : d ≤ n * F → 0 ≤ (n * F - d) / F := fun h =>
      Int.ediv_nonneg (by linarith) hF.le
    split_ifs with h1 h2 h3 h4 h5
    · simp only [true_iff]
      right
      rintro ⟨p, ⟨h1, h2⟩, -⟩
      linarith
    · simp only [true_iff]
      right
      rintro ⟨p, ⟨hp1, hp2⟩, hp3, hp4⟩
      rcases h2 with h | h <;> linarith
    all_goals
      have hpos : 1 ≤ baseTotal := by
        have := mul_nonneg hn hF.le
        linarith
      have hNb := samplesToFrames_bounds hF hpos
      have hnN : ¬ samplesToFrames F baseTotal ≤ n := by
        intro hc
        have := mul_le_mul_of_nonneg_left hc hF.le
        nlinarith [hNb.2]
      push_neg at h2
      have hex : ∃ p : Int, (n * F ≤ p ∧ p < n * F + min F (baseTotal - n * F))
          ∧ (d ≤ p ∧ p < d + offsetTotal) := by
        rcases le_total d (n * F) with hd | hd
        · exact ⟨n * F, ⟨le_rfl, by linarith [lt_min hF (by linarith : 0 < baseTotal - n * F)]⟩,
            hd, h2.1⟩
        · exact ⟨d, ⟨hd, h2.2⟩, le_rfl, by linarith⟩
    · constructor
      · intro h; have := congrArg OffsetFramePos.right h; simp at this
      · rintro (h | h)
        · exact absurd h hnN
        · exact absurd hex h
    · constructor
      · intro h
        have := congrArg OffsetFramePos.left h
        simp only at this
        have := hq0 (by linarith)
        omega
      · rintro (h | h)
        · exact absurd h hnN
        · exact absurd hex h
    · constructor
      · intro h
        have := congrArg OffsetFramePos.left h
        simp only at this
        have := hq0 (by linarith)
        omega
      · rintro (h | h)
        · exact absurd h hnN
        · exact absurd hex h
    · constructor
      · intro h
        have := congrArg OffsetFramePos.left h
        simp only at this
        have := hq0 (by linarith)
        omega
      · rintro (h | h)
        · exact absurd h hnN
        · exact absurd hex h

/-- Witness for C5: a 100-sample offset stream starting at 5000 shares no position with base
frame 0 of a 4000-sample base stream. -/
theorem baseFrameToOffsetFrames_none_iff_witness :
    baseFrameToOffsetFrames 3072 0 5000 100 4000 = { left := -1, right := -1 }
      ↔ (samplesToFrames 3072 4000 ≤ 0
          ∨ ¬ ∃ p : Int,
              (frameToFirstSample 3072 0 ≤ p
                ∧ p < frameToFirstSample 3072 0 + getFrameSampleCount 3072 0 4000)
              ∧ (5000 ≤ p ∧ p < 5000 + 100)) :=
  baseFrameToOffsetFrames_none_iff 3072 0 5000 100 4000 (by decide) (by decide) (by decide)

/-! ## The sample codec and the overflow policy (claims C6 to C10) -/

/-- C6: for an integer sample type and a native sample `x` with `-maxInt ≤ x ≤ maxInt`,
converting `x` to `double` and back returns `x` (with the binary64 rounding of the division
and of the multiplication); the most-negative value `minInt` and `-maxInt` both convert to
`-1`, so the round trip of `minInt` yields `-maxInt`. -/
theorem convSample_roundtrip (st : SampleType) (x : Int) (clampFloat : Bool)
    (hst : isFloatSampleType st = false) (hlo : -maxInt (intSampleBits st) ≤ x)
    (hhi : x ≤ maxInt (intSampleBits st)) :
    convSampleFromDouble st (convSampleToDouble st (.int x)) clampFloat = .int x
      ∧ convSampleToDouble st (.int (minInt (intSampleBits st))) = -1
      ∧ convSampleToDouble st (.int (-maxInt (intSampleBits st))) = -1
      ∧ convSampleFromDouble st (convSampleToDouble st (.int (minInt (intSampleBits st))))
          clampFloat = .int (-maxInt (intSampleBits st)) := by
  obtain ⟨hm1, hm2, hmin⟩ := maxInt_bounds_of_int hst
  have hmq : ((maxInt (intSampleBits st) : Int) : ℚ) ≠ 0 := by
    have : (1 : ℚ) ≤ (maxInt (intSampleBits st) : ℚ) := by exact_mod_cast hm1
    linarith
  have hneg1 : fl64 (-1) = -1 := by
    have := fl64_intCast (n := -1) (by norm_num)
    simpa using this
  have hto : ∀ y : Int, -maxInt (intSampleBits st) ≤ y → y ≤ maxInt (intSampleBits st) →
      convSampleToDouble st (.int y) = fl64 ((y : ℚ) / (maxInt (intSampleBits st) : ℚ)) := by
    intro y hy1 hy2
    simp only [convSampleToDouble, clampSymIntSample]
    rw [if_neg (by omega)]
  have htomin : convSampleToDouble st (.int (minInt (intSampleBits st))) = -1 := by
    simp only [convSampleToDouble, clampSymIntSample, if_true]
    push_cast
    rw [neg_div, div_self hmq, hneg1]
  have htoneg : convSampleToDouble st (.int (-maxInt (intSampleBits st))) = -1 := by
    rw [hto _ le_rfl (by omega)]
    push_cast
    rw [neg_div, div_self hmq, hneg1]
  have hback : convSampleFromDouble st (-1) clampFloat = .int (-maxInt (intSampleBits st)) := by
    rw [← htoneg, hto _ le_rfl (by omega), convSampleFromDouble_int_eq hst,
      roundtrip_core hm1 hm2 le_rfl (by omega)]
  refine ⟨?_, htomin, htoneg, ?_⟩
  · rw [hto x hlo hhi, convSampleFromDouble_int_eq hst, roundtrip_core hm1 hm2 hlo hhi]
  · rw [htomin, hback]

/-- Witness for C6: the 16-bit sample `-12345`. -/
theorem convSample_roundtrip_witness :
    convSampleFromDouble .Int16 (convSampleToDouble .Int16 (.int (-12345))) false
        = .int (-12345)
      ∧ convSampleToDouble .Int16 (.int (minInt (intSampleBits .Int16))) = -1
      ∧ convSampleToDouble .Int16 (.int (-maxInt (intSampleBits .Int16))) = -1
      ∧ convSampleFromDouble .Int16
          (convSampleToDouble .Int16 (.int (minInt (intSampleBits .Int16)))) false
          = .int (-maxInt (intSampleBits .Int16)) :=
  convSample_roundtrip .Int16 (-12345) false rfl (by decide) (by decide)

/-- C7: for an integer sample type, `convSampleFromDouble v` is the integer nearest, ties away
from zero, to the `double` product of `v` clamped to `[-1, 1]` with `maxInt`; it lies in
`[-maxInt, maxInt]` and is never `minInt`. -/
theorem convSampleFromDouble_int_clamped (st : SampleType) (v : ℚ) (clampFloat : Bool)
    (hst : isFloatSampleType st = false) :
    ∃ z : Int,
      convSampleFromDouble st v clampFloat = .int z
        ∧ z = roundHalfAway (fl64 (clampFloatSample v * (maxInt (intSampleBits st) : ℚ)))
        ∧ -maxInt (intSampleBits st) ≤ z
        ∧ z ≤ maxInt (intSampleBits st)
        ∧ z ≠ minInt (intSampleBits st) := by
  obtain ⟨hm1, hm2, hmin⟩ := maxInt_bounds_of_int hst
  obtain ⟨h1, h2⟩ := convSampleFromDouble_int_range hst v
  exact ⟨_, convSampleFromDouble_int_eq hst v clampFloat, rfl, h1, h2, by omega⟩

/-- Witness for C7: the value `-7/3` converted to a 24-bit sample. -/
theorem convSampleFromDouble_int_clamped_witness :
    ∃ z : Int,
      convSampleFromDouble .Int24 (-7 / 3) false = .int z
        ∧ z = roundHalfAway
            (fl64 (clampFloatSample (-7 / 3) * (maxInt (intSampleBits .Int24) : ℚ)))
        ∧ -maxInt (intSampleBits .Int24) ≤ z
        ∧ z ≤ maxInt (intSampleBits .Int24)
        ∧ z ≠ minInt (intSampleBits .Int24) :=
  convSampleFromDouble_int_clamped .Int24 (-7 / 3) false rfl

/-- C8: `safeConvertSample` returns no value exactly when the sample overflows (`v < -1` or
`1 < v`) and the mode is `Error`, or `KeepFloat` with an integer output type.  Otherwise it
returns a value: the plain conversion when the sample does not overflow; the clamped
conversion, a value of the normalized range, under `Clip` and under `ClipInt` with an integer
output; the unclamped `castToFloatTowardsZero` under `ClipInt` and `KeepFloat` with a floating
point output. -/
theorem safeConvertSample_fails_iff (st : SampleType) (v : ℚ) (totalPos channel : Int)
    (ofCtx : OverflowContext) (ofStats : OverflowStats) :
    ((safeConvertSample st v totalPos channel ofCtx ofStats).value = none
        ↔ ((v < -1 ∨ 1 < v)
            ∧ (ofCtx.mode = .Error
                ∨ (ofCtx.mode = .KeepFloat ∧ isFloatSampleType st = false))))
      ∧ (¬ (v < -1 ∨ 1 < v) →
          (safeConvertSample st v totalPos channel ofCtx ofStats).value
            = some (convSampleFromDouble st v false))
      ∧ ((v < -1 ∨ 1 < v) →
          (ofCtx.mode = .Clip ∨ (ofCtx.mode = .ClipInt ∧ isFloatSampleType st = false)) →
          (safeConvertSample st v totalPos channel ofCtx ofStats).value
              = some (convSampleFromDouble st v true)
            ∧ ((∃ z : Int, convSampleFromDouble st v true = .int z
                  ∧ -maxInt (intSampleBits st) ≤ z ∧ z ≤ maxInt (intSampleBits st))
                ∨ (∃ q : ℚ, convSampleFromDouble st v true = .flt q ∧ -1 ≤ q ∧ q ≤ 1)))
      ∧ ((v < -1 ∨ 1 < v) →
          (ofCtx.mode = .ClipInt ∨ ofCtx.mode = .KeepFloat) → isFloatSampleType st = true →
          (safeConvertSample st v totalPos channel ofCtx ofStats).value
            = some (.flt (castToFloatTowardsZero st v))) := by
  refine ⟨?_, ?_, ?_, ?_⟩
  · by_cases hv : v < -1 ∨ 1 < v
    · rw [safeConvertSample_of_overflowing st totalPos channel ofCtx ofStats hv]
      unfold handleOverflow
      cases hmode : ofCtx.mode <;> cases hf : isFloatSampleType st <;> simp [hv]
    · rw [safeConvertSample_of_not_overflowing st totalPos channel ofCtx ofStats hv]
      simp [hv]
  · intro hv
    rw [safeConvertSample_of_not_overflowing st totalPos channel ofCtx ofStats hv]
  · intro hv hmode
    rw [safeConvertSample_of_overflowing st totalPos channel ofCtx ofStats hv]
    constructor
    · unfold handleOverflow
      rcases hmode with h | ⟨h, hf⟩
      · rw [h]
      · rw [h]; simp [hf]
    · cases hf : isFloatSampleType st
      · left
        obtain ⟨h1, h2⟩ := convSampleFromDouble_int_range hf v
        exact ⟨_, convSampleFromDouble_int_eq hf v true, h1, h2⟩
      · right
        cases st <;> simp [isFloatSampleType] at hf
        · exact ⟨_, rfl, clampFloatSample32_bounds _⟩
        · exact ⟨_, rfl, clampFloatSample_bounds _⟩
  · intro hv hmode hf
    rw [safeConvertSample_of_overflowing st totalPos channel ofCtx ofStats hv]
    unfold handleOverflow
    rcases hmode with h | h <;> rw [h] <;> simp only [hf, if_true] <;>
      cases st <;> simp [isFloatSampleType] at hf <;> rfl

/-- C9: for an integer output type and an overflowing sample (`v < -1` or `1 < v`), under
`Clip` the write succeeds, stores `+maxInt` for `1 < v` and `-maxInt` for `v < -1` shifted
into storage position, leaves every other slot alone and increments the count by exactly one;
under `Error` the write returns `false` and the output buffer is unchanged. -/
theorem safeWriteSample_overflow (st : SampleType) (v : ℚ) (frm : Int → Sample)
    (frmPtrPos totalPos channel : Int) (log : OverflowLog) (ofStats : OverflowStats)
    (hst : isFloatSampleType st = false) (hv : v < -1 ∨ 1 < v) :
    ((safeWriteSample st v frm frmPtrPos totalPos channel { mode := .Clip, log := log }
          ofStats).ok = true
        ∧ (safeWriteSample st v frm frmPtrPos totalPos channel { mode := .Clip, log := log }
            ofStats).frm frmPtrPos
          = .int ((if 1 < v then maxInt (intSampleBits st) else -maxInt (intSampleBits st))
              * 2 ^ (bitwidth st - intSampleBits st))
        ∧ (∀ i : Int, i ≠ frmPtrPos →
            (safeWriteSample st v frm frmPtrPos totalPos channel { mode := .Clip, log := log }
              ofStats).frm i = frm i)
        ∧ (safeWriteSample st v frm frmPtrPos totalPos channel { mode := .Clip, log := log }
            ofStats).stats.count = ofStats.count + 1)
      ∧ ((safeWriteSample st v frm frmPtrPos totalPos channel { mode := .Error, log := log }
            ofStats).ok = false
        ∧ (safeWriteSample st v frm frmPtrPos totalPos channel { mode := .Error, log := log }
            ofStats).frm = frm) := by
  have hconv : convSampleFromDouble st v true
      = .int (if 1 < v then maxInt (intSampleBits st) else -maxInt (intSampleBits st)) := by
    split_ifs with h
    · exact convSampleFromDouble_int_of_gt hst h true
    · rcases hv with h' | h'
      · exact convSampleFromDouble_int_of_lt hst h' true
      · exact absurd h' h
  have hclip : safeConvertSample st v totalPos channel { mode := .Clip, log := log } ofStats
      = { value := some (convSampleFromDouble st v true), stats := ofStats.addSample v,
          calls := logOverflow st v totalPos channel { mode := .Clip, log := log } ofStats } := by
    rw [safeConvertSample_of_overflowing st totalPos channel _ ofStats hv]
    rfl
  have herr : safeConvertSample st v totalPos channel { mode := .Error, log := log } ofStats
      = { value := none, stats := ofStats.addSample v,
          calls := logOverflow st v totalPos channel { mode := .Error, log := log } ofStats
            ++ [.setFilterError (.overflow v totalPos channel)] } := by
    rw [safeConvertSample_of_overflowing st totalPos channel _ ofStats hv]
    rfl
  constructor
  · unfold safeWriteSample
    rw [hclip]
    dsimp only
    rw [hconv, shiftLeft_int_of_int st hst]
    refine ⟨rfl, ?_, ?_, ?_⟩
    · simp
    · intro i hi
      simp [hi]
    · exact addSample_count ofStats v
  · unfold safeWriteSample
    rw [herr]
    exact ⟨rfl, rfl⟩

/-- Witness for C9: writing `1.5` to a 16-bit stream under `Clip` stores `32767` and takes the
count from 0 to 1; under `Error` the write fails. -/
theorem safeWriteSample_overflow_witness :
    (safeWriteSample .Int16 (3 / 2) (fun _ => .int 0) 5 100 0 { mode := .Clip, log := .Once }
        { count := 0, peak := 0 }).frm 5 = .int 32767
      ∧ (safeWriteSample .Int16 (3 / 2) (fun _ => .int 0) 5 100 0 { mode := .Clip, log := .Once }
        { count := 0, peak := 0 }).stats.count = 1
      ∧ (safeWriteSample .Int16 (3 / 2) (fun _ => .int 0) 5 100 0 { mode := .Error, log := .Once }
        { count := 0, peak := 0 }).ok = false := by
  have h := safeWriteSample_overflow .Int16 (3 / 2) (fun _ => .int 0) 5 100 0 .Once
    { count := 0, peak := 0 } rfl (Or.inr (by norm_num))
  refine ⟨?_, ?_, h.2.1⟩
  · rw [h.1.2.1]
    norm_num [maxInt, intSampleBits, bitwidth]
  · rw [h.1.2.2.2]
    rfl

/-- C10: starting from reset statistics and for any overflow mode, after any sequence of
`safeConvertSample` calls the count is the number of overflowing samples and the peak is the
maximum `|v|` over the overflowing samples (0 if there are none); a call with a
non-overflowing sample leaves the statistics unchanged; and a positive count implies a peak
above 1. -/
theorem overflowStats_after_calls (st : SampleType) (ofCtx : OverflowContext)
    (calls : List (ℚ × Int × Int)) :
    ((calls.foldl
          (fun stats c => (safeConvertSample st c.1 c.2.1 c.2.2 ofCtx stats).stats)
          { count := 0, peak := 0 }).count
        = ((calls.filter fun c => decide (c.1 < -1 ∨ 1 < c.1)).length : Int))
      ∧ ((calls.foldl
          (fun stats c => (safeConvertSample st c.1 c.2.1 c.2.2 ofCtx stats).stats)
          { count := 0, peak := 0 }).peak
        = ((calls.filter fun c => decide (c.1 < -1 ∨ 1 < c.1)).map fun c => |c.1|).foldl max 0)
      ∧ (∀ (ofStats : OverflowStats) (v : ℚ) (totalPos channel : Int),
          ¬ (v < -1 ∨ 1 < v) →
          (safeConvertSample st v totalPos channel ofCtx ofStats).stats = ofStats)
      ∧ (0 < (calls.foldl
          (fun stats c => (safeConvertSample st c.1 c.2.1 c.2.2 ofCtx stats).stats)
          { count := 0, peak := 0 }).count →
        1 < (calls.foldl
          (fun stats c => (safeConvertSample st c.1 c.2.1 c.2.2 ofCtx stats).stats)
          { count := 0, peak := 0 }).peak) := by
  have hfilter : (calls.filter fun c => isSampleOverflowing .Float64 (.flt c.1))
      = calls.filter fun c => decide (c.1 < -1 ∨ 1 < c.1) := by
    apply List.filter_congr
    intro c _
    rw [Bool.eq_iff_iff, isSampleOverflowing_double_iff, decide_eq_true_iff]
  obtain ⟨h1, h2⟩ := foldl_safeConvertSample_stats st ofCtx calls { count := 0, peak := 0 }
  rw [hfilter] at h1 h2
  simp only [zero_add] at h1
  refine ⟨h1, h2, ?_, ?_⟩
  · intro ofStats v totalPos channel hv
    rw [safeConvertSample_of_not_overflowing st totalPos channel ofCtx ofStats hv]
  · intro hpos
    rw [h1] at hpos
    rw [h2]
    have hne : (calls.filter fun c => decide (c.1 < -1 ∨ 1 < c.1)) ≠ [] := by
      intro hc
      rw [hc] at hpos
      simp at hpos
    apply lt_foldl_max_of_ne_nil
    · intro hc
      exact hne (List.map_eq_nil_iff.mp hc)
    · intro x hx
      rw [List.mem_map] at hx
      obtain ⟨c, hc, rfl⟩ := hx
      have := (List.mem_filter.mp hc).2
      rw [decide_eq_true_iff] at this
      rcases this with h | h
      · rw [abs_of_neg (by linarith)]; linarith
      · rw [abs_of_pos (by linarith)]; exact h

/-! ## Logging of overflows -/

theorem stats_count_eq_zero_iff (st : SampleType) (ofCtx : OverflowContext)
    (calls : List (ℚ × Int × Int)) :
    (calls.foldl
        (fun stats c => (safeConvertSample st c.1 c.2.1 c.2.2 ofCtx stats).stats)
        { count := 0, peak := 0 }).count = 0
      ↔ ∀ c ∈ calls, ¬ (c.1 < -1 ∨ 1 < c.1) := by
  rw [(foldl_safeConvertSample_stats st ofCtx calls { count := 0, peak := 0 }).1]
  simp only [zero_add]
  constructor
  · intro h c hc hv
    have hlen : (calls.filter fun c => isSampleOverflowing .Float64 (.flt c.1)).length = 0 := by
      exact_mod_cast h
    have hnil := List.length_eq_zero.mp hlen
    have hmem : c ∈ calls.filter fun c => isSampleOverflowing .Float64 (.flt c.1) :=
      List.mem_filter.mpr ⟨hc, (isSampleOverflowing_double_iff c.1).mpr hv⟩
    rw [hnil] at hmem
    exact absurd hmem (List.not_mem_nil c)
  · intro h
    have hnil : (calls.filter fun c => isSampleOverflowing .Float64 (.flt c.1)) = [] := by
      rw [List.filter_eq_nil_iff]
      intro c hc hv
      exact h c hc ((isSampleOverflowing_double_iff c.1).mp hv)
    rw [hnil]
    rfl

theorem countP_overflow_logOverflow (st : SampleType) (v : ℚ) (totalPos channel : Int)
    (ofCtx : OverflowContext) (ofStats : OverflowStats) :
    (logOverflow st v totalPos channel ofCtx ofStats).countP
        (fun h => match h with
          | .logMessage _ (.overflow _ _ _) => true
          | _ => false)
      = match ofCtx.log with
        | .All => 1
        | .Once => if ofStats.count = 0 then 1 else 0
        | .None => 0 := by
  unfold logOverflow
  rcases ofCtx with ⟨mode, log⟩
  cases log <;> cases mode <;> simp only <;>
    first
      | rfl
      | (by_cases hc : ofStats.count = 0 <;>
          simp [hc, List.countP_cons, genOverflowHandlingMsg] <;> split_ifs <;> rfl)

theorem handleOverflow_calls_countP (st : SampleType) (v : ℚ) (totalPos channel : Int)
    (ofCtx : OverflowContext) (ofStats : OverflowStats) :
    (handleOverflow st v totalPos channel ofCtx ofStats).calls.countP
        (fun h => match h with
          | .logMessage _ (.overflow _ _ _) => true
          | _ => false)
      = (logOverflow st v totalPos channel ofCtx ofStats).countP
        (fun h => match h with
          | .logMessage _ (.overflow _ _ _) => true
          | _ => false) := by
  unfold handleOverflow
  cases ofCtx.mode <;> cases isFloatSampleType st <;> simp [List.countP_append, List.countP_cons]

/-! ## Rounding to nearest: nearest value, representable values, monotonicity -/

theorem roundHalfEven_nearest (t : ℚ) (z : Int) :
    |(roundHalfEven t : ℚ) - t| ≤ |(z : ℚ) - t| := by
  have h := roundHalfEven_error t
  by_cases hz : z = roundHalfEven t
  · rw [hz]
  · have h1 : (1 : ℚ) ≤ |(z : ℚ) - (roundHalfEven t : ℚ)| := by
      have : (1 : Int) ≤ |z - roundHalfEven t| := Int.one_le_abs (sub_ne_zero.mpr hz)
      exact_mod_cast this
    have h2 : |(z : ℚ) - (roundHalfEven t : ℚ)|
        ≤ |(z : ℚ) - t| + |(roundHalfEven t : ℚ) - t| := by
      have := abs_sub_le (z : ℚ) t (roundHalfEven t : ℚ)
      rwa [abs_sub_comm t (roundHalfEven t : ℚ)] at this
    linarith

theorem roundHalfEven_eq_of_close {t : ℚ} {z : Int} (h : |t - z| < 1 / 2) :
    roundHalfEven t = z := by
  by_contra hne
  have h1 : (1 : ℚ) ≤ |(roundHalfEven t : ℚ) - (z : ℚ)| := by
    have : (1 : Int) ≤ |roundHalfEven t - z| := Int.one_le_abs (sub_ne_zero.mpr hne)
    exact_mod_cast this
  have h2 := roundHalfEven_error t
  have h3 : |(roundHalfEven t : ℚ) - (z : ℚ)| ≤ |(roundHalfEven t : ℚ) - t| + |t - z| :=
    abs_sub_le _ _ _
  linarith

theorem roundHalfEven_tie (z : Int) :
    roundHalfEven ((z : ℚ) + 1 / 2) = if z % 2 = 0 then z else z + 1 := by
  have hf : ⌊(z : ℚ) + 1 / 2⌋ = z := by
    rw [Int.floor_eq_iff]
    constructor <;> linarith
  unfold roundHalfEven
  rw [hf]
  have e : (z : ℚ) + 1 / 2 - z = 1 / 2 := by ring
  rw [e, if_neg (lt_irrefl _), if_neg (lt_irrefl _)]

theorem ulpExponent_eq {L : Int} {q : ℚ} (h1 : (2 : ℚ) ^ L ≤ |q|) (h2 : |q| < (2 : ℚ) ^ (L + 1)) :
    ulpExponent 53 (-1074) q = max (L - 52) (-1074) := by
  have hpos : 0 < |q| := lt_of_lt_of_le (two_zpow_pos L) h1
  have hlog : Int.log 2 |q| = L := by
    have ha := (Int.zpow_le_iff_le_log (b := 2) (by norm_num) hpos (x := L)).1
      (by exact_mod_cast h1)
    have hb := (Int.lt_zpow_iff_log_lt (b := 2) (by norm_num) hpos (x := L + 1)).1
      (by exact_mod_cast h2)
    omega
  unfold ulpExponent
  rw [hlog]
  norm_num

theorem log_bounds {q : ℚ} (hq : q ≠ 0) :
    (2 : ℚ) ^ Int.log 2 |q| ≤ |q| ∧ |q| < (2 : ℚ) ^ (Int.log 2 |q| + 1) := by
  have hpos : 0 < |q| := abs_pos.mpr hq
  constructor
  · have := Int.zpow_log_le_self (b := 2) (r := |q|) (by norm_num) hpos
    exact_mod_cast this
  · have := Int.lt_zpow_succ_log_self (b := 2) (by norm_num) |q|
    exact_mod_cast this

/-- Evaluation of `fl64` at a value of known binade. -/
theorem fl64_eq_of_binade {q : ℚ} {L r : Int} (h1 : (2 : ℚ) ^ L ≤ |q|)
    (h2 : |q| < (2 : ℚ) ^ (L + 1)) (hL : -1022 ≤ L)
    (hr : roundHalfEven (q / (2 : ℚ) ^ (L - 52)) = r) :
    fl64 q = (r : ℚ) * (2 : ℚ) ^ (L - 52) := by
  have hq : q ≠ 0 := by
    intro h
    rw [h, abs_zero] at h1
    exact absurd h1 (not_le.mpr (two_zpow_pos L))
  unfold fl64 roundToFormat
  rw [if_neg hq, ulpExponent_eq h1 h2, max_eq_left (by omega), hr]

/-- The significand of a rounded value has at most 53 bits. -/
theorem fl64_significand (q : ℚ) (hq : q ≠ 0) :
    |roundHalfEven (q / (2 : ℚ) ^ ulpExponent 53 (-1074) q)| ≤ 2 ^ 53 := by
  obtain ⟨h1, h2⟩ := log_bounds hq
  have hu := two_zpow_pos (ulpExponent 53 (-1074) q)
  have hge : Int.log 2 |q| - 52 ≤ ulpExponent 53 (-1074) q := by
    unfold ulpExponent
    exact le_trans (by omega) (le_max_left _ _)
  have ht : |q / (2 : ℚ) ^ ulpExponent 53 (-1074) q| < (2 : ℚ) ^ (53 : Int) := by
    rw [abs_div, abs_of_pos hu, div_lt_iff₀ hu, ← zpow_add₀ (by norm_num : (2 : ℚ) ≠ 0)]
    refine lt_of_lt_of_le h2 ?_
    exact zpow_le_zpow_right₀ (by norm_num) (by omega)
  have herr := roundHalfEven_error (q / (2 : ℚ) ^ ulpExponent 53 (-1074) q)
  have habs : |(roundHalfEven (q / (2 : ℚ) ^ ulpExponent 53 (-1074) q) : ℚ)|
      < (2 : ℚ) ^ (53 : Int) + 1 := by
    have h3 := abs_sub_abs_le_abs_sub
      (roundHalfEven (q / (2 : ℚ) ^ ulpExponent 53 (-1074) q) : ℚ)
      (q / (2 : ℚ) ^ ulpExponent 53 (-1074) q)
    linarith
  have hcast : ((|roundHalfEven (q / (2 : ℚ) ^ ulpExponent 53 (-1074) q)| : Int) : ℚ)
      < ((2 ^ 53 + 1 : Int) : ℚ) := by
    push_cast
    norm_num at habs ⊢
    linarith
  have := Int.cast_lt.mp hcast
  omega

/-- A rounded value is a `double`: a significand of at most 53 bits times a power of two not
below the smallest subnormal. -/
theorem fl64_isDouble (q : ℚ) :
    ∃ n e : Int, |n| ≤ 2 ^ 53 ∧ -1074 ≤ e ∧ fl64 q = (n : ℚ) * (2 : ℚ) ^ e := by
  by_cases hq : q = 0
  · exact ⟨0, 0, by norm_num, by norm_num, by rw [hq, fl64_zero]; simp⟩
  · refine ⟨roundHalfEven (q / (2 : ℚ) ^ ulpExponent 53 (-1074) q), ulpExponent 53 (-1074) q,
      fl64_significand q hq, ?_, ?_⟩
    · unfold ulpExponent
      exact le_max_right _ _
    · unfold fl64 roundToFormat
      rw [if_neg hq]

/-- The rounded value is at least as near as every multiple of the unit in the last place. -/
theorem fl64_nearest_multiple (q : ℚ) (hq : q ≠ 0) (z : Int) :
    |fl64 q - q| ≤ |(z : ℚ) * (2 : ℚ) ^ ulpExponent 53 (-1074) q - q| := by
  have hu := two_zpow_pos (ulpExponent 53 (-1074) q)
  have h := roundHalfEven_nearest (q / (2 : ℚ) ^ ulpExponent 53 (-1074) q) z
  have e1 : ∀ w : ℚ, w * (2 : ℚ) ^ ulpExponent 53 (-1074) q - q
      = (w - q / (2 : ℚ) ^ ulpExponent 53 (-1074) q) * (2 : ℚ) ^ ulpExponent 53 (-1074) q := by
    intro w
    field_simp
  unfold fl64 roundToFormat
  rw [if_neg hq, e1, e1, abs_mul, abs_mul, abs_of_pos hu]
  exact mul_le_mul_of_nonneg_right h hu.le

/-- The rounded value is at least as near as every `double`. -/
theorem fl64_nearest (q : ℚ) (n e : Int) (hn : |n| ≤ 2 ^ 53) (he : -1074 ≤ e) :
    |fl64 q - q| ≤ |(n : ℚ) * (2 : ℚ) ^ e - q| := by
  by_cases hq : q = 0
  · rw [hq, fl64_zero, sub_zero, abs_zero]
    exact abs_nonneg _
  by_cases hcase : ulpExponent 53 (-1074) q ≤ e
  · -- the candidate is a multiple of the unit in the last place
    obtain ⟨j, hj⟩ := Int.eq_ofNat_of_zero_le (sub_nonneg.mpr hcase)
    have hc : (n : ℚ) * (2 : ℚ) ^ e
        = ((n * 2 ^ j : Int) : ℚ) * (2 : ℚ) ^ ulpExponent 53 (-1074) q := by
      have he2 : e = ulpExponent 53 (-1074) q + (j : Int) := by omega
      rw [he2, zpow_add₀ (by norm_num : (2 : ℚ) ≠ 0), zpow_natCast]
      push_cast
      ring
    rw [hc]
    exact fl64_nearest_multiple q hq _
  · -- the candidate lies below the binade of `q`
    push_neg at hcase
    obtain ⟨h1, h2⟩ := log_bounds hq
    have hue : ulpExponent 53 (-1074) q = Int.log 2 |q| - 52 := by
      have : ulpExponent 53 (-1074) q = max (Int.log 2 |q| - 52) (-1074) := by
        unfold ulpExponent
        norm_num
      rw [this] at hcase ⊢
      rcases max_cases (Int.log 2 |q| - 52) (-1074) with ⟨hm, -⟩ | ⟨hm, -⟩
      · exact hm
      · omega
    have hcabs : |(n : ℚ) * (2 : ℚ) ^ e| ≤ (2 : ℚ) ^ Int.log 2 |q| := by
      rw [abs_mul, abs_of_pos (two_zpow_pos e)]
      have hn2 : |(n : ℚ)| ≤ (2 : ℚ) ^ (53 : Int) := by
        have : ((|n| : Int) : ℚ) ≤ ((2 ^ 53 : Int) : ℚ) := Int.cast_le.mpr hn
        push_cast at this
        have e : (2 : ℚ) ^ (53 : Int) = (2 : ℚ) ^ (53 : ℕ) := by norm_num
        rw [e]
        exact this
      calc |(n : ℚ)| * (2 : ℚ) ^ e ≤ (2 : ℚ) ^ (53 : Int) * (2 : ℚ) ^ e :=
            mul_le_mul_of_nonneg_right hn2 (two_zpow_pos e).le
        _ = (2 : ℚ) ^ (53 + e) := by rw [zpow_add₀ (by norm_num : (2 : ℚ) ≠ 0)]
        _ ≤ (2 : ℚ) ^ Int.log 2 |q| := zpow_le_zpow_right₀ (by norm_num) (by omega)
    -- the power of two at the bottom of the binade is a multiple of the unit
    have hpow : (2 : ℚ) ^ Int.log 2 |q|
        = ((2 ^ 52 : Int) : ℚ) * (2 : ℚ) ^ ulpExponent 53 (-1074) q := by
      have e52 : ((2 ^ 52 : Int) : ℚ) = (2 : ℚ) ^ (52 : Int) := by norm_num
      rw [hue, e52, ← zpow_add₀ (by norm_num : (2 : ℚ) ≠ 0)]
      congr 1
      ring
    rcases le_or_lt 0 q with hpos | hneg
    · have hqa : |q| = q := abs_of_nonneg hpos
      have hnear := fl64_nearest_multiple q hq (2 ^ 52)
      rw [← hpow] at hnear
      have h3 : |(2 : ℚ) ^ Int.log 2 |q| - q| = q - (2 : ℚ) ^ Int.log 2 |q| := by
        rw [abs_sub_comm, abs_of_nonneg (by linarith)]
      have h4 : q - (2 : ℚ) ^ Int.log 2 |q| ≤ |(n : ℚ) * (2 : ℚ) ^ e - q| := by
        have := neg_abs_le ((n : ℚ) * (2 : ℚ) ^ e - q)
        have := le_abs_self ((n : ℚ) * (2 : ℚ) ^ e)
        linarith
      linarith
    · have hqa : |q| = -q := abs_of_neg hneg
      have hnear := fl64_nearest_multiple q hq (-(2 ^ 52))
      have hpow2 : ((-(2 ^ 52) : Int) : ℚ) * (2 : ℚ) ^ ulpExponent 53 (-1074) q
          = -(2 : ℚ) ^ Int.log 2 |q| := by
        rw [hpow]
        push_cast
        ring
      rw [hpow2] at hnear
      have h3 : |-(2 : ℚ) ^ Int.log 2 |q| - q| = -q - (2 : ℚ) ^ Int.log 2 |q| := by
        rw [abs_of_nonneg (by linarith)]
        ring
      have h4 : -q - (2 : ℚ) ^ Int.log 2 |q| ≤ |(n : ℚ) * (2 : ℚ) ^ e - q| := by
        have := le_abs_self ((n : ℚ) * (2 : ℚ) ^ e - q)
        have := neg_abs_le ((n : ℚ) * (2 : ℚ) ^ e)
        linarith
      linarith

/-- A `double` is rounded to itself. -/
theorem fl64_of_dyadic (n e : Int) (hn : |n| ≤ 2 ^ 53) (he : -1074 ≤ e) :
    fl64 ((n : ℚ) * (2 : ℚ) ^ e) = (n : ℚ) * (2 : ℚ) ^ e := by
  have h := fl64_nearest ((n : ℚ) * (2 : ℚ) ^ e) n e hn he
  rw [sub_self, abs_zero] at h
  exact sub_eq_zero.mp (abs_eq_zero.mp (le_antisymm h (abs_nonneg _)))

theorem fl64_idem (q : ℚ) : fl64 (fl64 q) = fl64 q := by
  obtain ⟨n, e, hn, he, h⟩ := fl64_isDouble q
  rw [h]
  exact fl64_of_dyadic n e hn he

theorem fl64_mono {x y : ℚ} (hxy : x ≤ y) : fl64 x ≤ fl64 y := by
  by_contra hlt
  push_neg at hlt
  obtain ⟨n1, e1, hn1, he1, h1⟩ := fl64_isDouble x
  obtain ⟨n2, e2, hn2, he2, h2⟩ := fl64_isDouble y
  have hx := fl64_nearest x n2 e2 hn2 he2
  have hy := fl64_nearest y n1 e1 hn1 he1
  rw [← h2] at hx
  rw [← h1] at hy
  -- `fl64 y < fl64 x` and `x ≤ y`
  have a1 := le_abs_self (fl64 x - x)
  have a2 := neg_abs_le (fl64 x - x)
  have b1 := le_abs_self (fl64 y - y)
  have b2 := neg_abs_le (fl64 y - y)
  rcases le_or_lt x (fl64 y) with hc | hc
  · -- then `fl64 y` is nearer to `x` than `fl64 x`
    have : |fl64 y - x| = fl64 y - x := abs_of_nonneg (by linarith)
    rw [this] at hx
    have : |fl64 x - x| = fl64 x - x := abs_of_nonneg (by linarith)
    rw [this] at hx
    linarith
  · rcases le_or_lt (fl64 x) y with hd | hd
    · have : |fl64 x - y| = y - fl64 x := by
        rw [abs_sub_comm]
        exact abs_of_nonneg (by linarith)
      rw [this] at hy
      have : |fl64 y - y| = y - fl64 y := by
        rw [abs_sub_comm]
        exact abs_of_nonneg (by linarith)
      rw [this] at hy
      linarith
    · -- `fl64 y < x ≤ y < fl64 x`
      have e1 : |fl64 y - x| = x - fl64 y := by
        rw [abs_sub_comm]
        exact abs_of_nonneg (by linarith)
      have e2 : |fl64 x - x| = fl64 x - x := abs_of_nonneg (by linarith)
      have e3 : |fl64 x - y| = fl64 x - y := abs_of_nonneg (by linarith)
      have e4 : |fl64 y - y| = y - fl64 y := by
        rw [abs_sub_comm]
        exact abs_of_nonneg (by linarith)
      rw [e1, e2] at hx
      rw [e3, e4] at hy
      have hxy2 : x = y := by linarith
      rw [hxy2] at hlt
      exact lt_irrefl _ hlt

/-- Relative error of a rounding in the normal range. -/
theorem fl64_rel_error {q : ℚ} (hq : (2 : ℚ) ^ (-1022 : Int) ≤ |q|) :
    |fl64 q - q| ≤ (2 : ℚ) ^ (-53 : Int) * |q| := by
  have hq0 : q ≠ 0 := by
    intro h
    rw [h, abs_zero] at hq
    exact absurd hq (not_le.mpr (two_zpow_pos _))
  obtain ⟨h1, h2⟩ := log_bounds hq0
  have hL : -1022 ≤ Int.log 2 |q| := by
    have := (Int.zpow_le_iff_le_log (b := 2) (by norm_num) (abs_pos.mpr hq0) (x := -1022)).1
      (by exact_mod_cast hq)
    exact this
  have h3 := fl64_error h2 (by omega)
  have h4 : (2 : ℚ) ^ (Int.log 2 |q| + 1 - 54)
      = (2 : ℚ) ^ (-53 : Int) * (2 : ℚ) ^ Int.log 2 |q| := by
    rw [← zpow_add₀ (by norm_num : (2 : ℚ) ≠ 0)]
    congr 1
    ring
  rw [h4] at h3
  have h5 : (2 : ℚ) ^ (-53 : Int) * (2 : ℚ) ^ Int.log 2 |q| ≤ (2 : ℚ) ^ (-53 : Int) * |q| :=
    mul_le_mul_of_nonneg_left h1 (two_zpow_pos _).le
  linarith

theorem fl64_one : fl64 1 = 1 := by
  have := fl64_intCast (n := 1) (by norm_num)
  simpa using this

theorem fl64_nonneg {q : ℚ} (h : 0 ≤ q) : 0 ≤ fl64 q :=
  roundToFormat_nonneg 53 (-1074) h

theorem fl64_nonpos {q : ℚ} (h : q ≤ 0) : fl64 q ≤ 0 :=
  roundToFormat_nonpos 53 (-1074) h

/-- Quotient of a non-negative `double` by the `double` sum it is part of. -/
theorem relative_scale_bounds {g h : ℚ} (hg : 0 ≤ g) (hh : 0 ≤ h) (hd : fl64 g = g)
    (hT : fl64 (g + h) ≠ 0) :
    0 ≤ g / fl64 (g + h) ∧ g / fl64 (g + h) ≤ 1 ∧ 0 ≤ fl64 (g / fl64 (g + h))
      ∧ fl64 (g / fl64 (g + h)) ≤ 1
      ∧ |fl64 (g / fl64 (g + h)) - g / fl64 (g + h)| ≤ (2 : ℚ) ^ (-53 : Int) := by
  have hTpos : 0 < fl64 (g + h) := lt_of_le_of_ne (fl64_nonneg (by linarith)) (Ne.symm hT)
  have hle : g ≤ fl64 (g + h) := by
    have := fl64_mono (show g ≤ g + h by linarith)
    rwa [hd] at this
  have h0 : 0 ≤ g / fl64 (g + h) := div_nonneg hg hTpos.le
  have h1 : g / fl64 (g + h) ≤ 1 := (div_le_one hTpos).mpr hle
  refine ⟨h0, h1, fl64_nonneg h0, ?_, ?_⟩
  · have := fl64_mono h1
    rwa [fl64_one] at this
  · have habs : |g / fl64 (g + h)| < (2 : ℚ) ^ (1 : Int) := by
      rw [abs_of_nonneg h0]
      norm_num
      linarith
    have := fl64_error habs (by norm_num)
    norm_num at this ⊢
    exact this

/-! ## The writes of a frame -/

theorem safeConvertSample_value_indep (st : SampleType) (v : ℚ) (ofCtx : OverflowContext)
    (p c p2 c2 : Int) (s s2 : OverflowStats) :
    (safeConvertSample st v p c ofCtx s).value = (safeConvertSample st v p2 c2 ofCtx s2).value := by
  unfold safeConvertSample
  split_ifs
  · unfold handleOverflow
    cases ofCtx.mode <;> cases isFloatSampleType st <;> rfl
  · rfl

theorem safeWriteSample_frm_of_ne (st : SampleType) (v : ℚ) (frm : Int → Sample)
    (i p c : Int) (ofCtx : OverflowContext) (s : OverflowStats) {j : Int} (hj : j ≠ i) :
    (safeWriteSample st v frm i p c ofCtx s).frm j = frm j := by
  simp only [safeWriteSample]
  cases (safeConvertSample st v p c ofCtx s).value with
  | none => rfl
  | some x => simp only [if_neg hj]

theorem safeWriteSample_frm_indep (st : SampleType) (v : ℚ) (frm frm2 : Int → Sample)
    (i p c p2 c2 : Int) (ofCtx : OverflowContext) (s s2 : OverflowStats)
    (hok : (safeWriteSample st v frm i p c ofCtx s).ok = true) :
    (safeWriteSample st v frm i p c ofCtx s).frm i
      = (safeWriteSample st v frm2 i p2 c2 ofCtx s2).frm i := by
  have hval := safeConvertSample_value_indep st v ofCtx p c p2 c2 s s2
  simp only [safeWriteSample] at hok ⊢
  rw [← hval]
  cases hv : (safeConvertSample st v p c ofCtx s).value with
  | none =>
    rw [hv] at hok
    simp at hok
  | some x => simp

theorem safeWriteSample_of_not_overflowing (st : SampleType) {v : ℚ} (frm : Int → Sample)
    (i p c : Int) (ofCtx : OverflowContext) (s : OverflowStats) (hv : ¬ (v < -1 ∨ 1 < v)) :
    (safeWriteSample st v frm i p c ofCtx s).ok = true
      ∧ (safeWriteSample st v frm i p c ofCtx s).stats = s
      ∧ (safeWriteSample st v frm i p c ofCtx s).calls = []
      ∧ (safeWriteSample st v frm i p c ofCtx s).frm i
        = (if (getSampleBitShift st).required = true then
            shiftLeft (convSampleFromDouble st v false) (getSampleBitShift st).count
          else convSampleFromDouble st v false) := by
  simp only [safeWriteSample]
  rw [safeConvertSample_of_not_overflowing st p c ofCtx s hv]
  simp

/-- The loop of a `writeFrameChannel` whose pass `s` writes the value `v s`: the loop
returns; it leaves the memory outside the indices of its passes alone; when it returns `true`
every index holds what `safeWriteSample` writes for its value; and when no value lies outside
`[-1, 1]` it returns `true` without touching the statistics or calling the host. -/
theorem sampleLoop_spec (st : SampleType) (ch : Int) (ofCtx : OverflowContext)
    (body : Int → (Int → Sample) → OverflowStats → Option WriteResult) (v : Int → ℚ)
    (pos : Int → Int) :
    ∀ (todo : Nat) (s0 : Int) (acc : WriteResult), acc.ok = true →
      (∀ s, s0 ≤ s → s < s0 + todo → ∀ frm stats,
        body s frm stats = some (safeWriteSample st (v s) frm s (pos s) ch ofCtx stats)) →
      ∃ r, sampleLoop body todo s0 acc = some r
        ∧ (∀ j, ¬ (s0 ≤ j ∧ j < s0 + todo) → r.frm j = acc.frm j)
        ∧ (r.ok = true → ∀ j, s0 ≤ j → j < s0 + todo → ∀ frm p c stats,
            r.frm j = (safeWriteSample st (v j) frm j p c ofCtx stats).frm j)
        ∧ ((∀ j, s0 ≤ j → j < s0 + todo → ¬ (v j < -1 ∨ 1 < v j)) →
            r.ok = true ∧ r.stats = acc.stats ∧ r.calls = acc.calls) := by
  intro todo
  induction todo with
  | zero =>
    intro s0 acc hacc _
    refine ⟨acc, rfl, fun _ _ => rfl, ?_, fun _ => ⟨hacc, rfl, rfl⟩⟩
    intro _ j h1 h2
    simp only [Nat.cast_zero, add_zero] at h2
    omega
  | succ todo ih =>
    intro s0 acc hacc hbody
    have hb := hbody s0 le_rfl (by push_cast; omega) acc.frm acc.stats
    have hbody2 : ∀ s, s0 + 1 ≤ s → s < s0 + 1 + todo → ∀ frm stats,
        body s frm stats = some (safeWriteSample st (v s) frm s (pos s) ch ofCtx stats) := by
      intro s h1 h2
      exact hbody s (by omega) (by push_cast; omega)
    unfold sampleLoop
    rw [hb]
    simp only
    by_cases hok : (safeWriteSample st (v s0) acc.frm s0 (pos s0) ch ofCtx acc.stats).ok = true
    · rw [if_pos hok]
      obtain ⟨r, hr, hout, hin, hclean⟩ := ih (s0 + 1)
        { ok := true,
          frm := (safeWriteSample st (v s0) acc.frm s0 (pos s0) ch ofCtx acc.stats).frm,
          stats := (safeWriteSample st (v s0) acc.frm s0 (pos s0) ch ofCtx acc.stats).stats,
          calls := acc.calls
            ++ (safeWriteSample st (v s0) acc.frm s0 (pos s0) ch ofCtx acc.stats).calls }
        rfl hbody2
      refine ⟨r, hr, ?_, ?_, ?_⟩
      · intro j hj
        rw [hout j (by omega)]
        exact safeWriteSample_frm_of_ne st (v s0) acc.frm s0 (pos s0) ch ofCtx acc.stats
          (by push_cast at hj; omega)
      · intro hrok j h1 h2 frm p c stats
        by_cases hj : j = s0
        · subst hj
          rw [hout j (by omega)]
          exact safeWriteSample_frm_indep st (v j) acc.frm frm j (pos j) ch p c ofCtx
            acc.stats stats hok
        · exact hin hrok j (by omega) (by push_cast at h2; omega) frm p c stats
      · intro hall
        have h0 := safeWriteSample_of_not_overflowing st acc.frm s0 (pos s0) ch ofCtx
          acc.stats (hall s0 le_rfl (by push_cast; omega))
        obtain ⟨c1, c2, c3⟩ := hclean (fun j h1 h2 => hall j (by omega) (by push_cast; omega))
        refine ⟨c1, ?_, ?_⟩
        · rw [c2]
          exact h0.2.1
        · rw [c3]
          simp only
          rw [h0.2.2.1, List.append_nil]
    · rw [if_neg hok]
      refine ⟨_, rfl, ?_, ?_, ?_⟩
      · intro j hj
        exact safeWriteSample_frm_of_ne st (v s0) acc.frm s0 (pos s0) ch ofCtx acc.stats
          (by push_cast at hj; omega)
      · intro hrok
        simp at hrok
      · intro hall
        have h0 := safeWriteSample_of_not_overflowing st acc.frm s0 (pos s0) ch ofCtx
          acc.stats (hall s0 le_rfl (by push_cast; omega))
        exact absurd h0.1 hok

/-! ## Copies through the codec -/

theorem fl64_neg_one : fl64 (-1) = -1 := by
  have := fl64_intCast (n := -1) (by norm_num)
  simpa using this

theorem fl64_abs_le_one {q : ℚ} (h1 : -1 ≤ q) (h2 : q ≤ 1) : -1 ≤ fl64 q ∧ fl64 q ≤ 1 := by
  constructor
  · have := fl64_mono h1
    rwa [fl64_neg_one] at this
  · have := fl64_mono h2
    rwa [fl64_one] at this

theorem clampSymIntSample_bounds {st : SampleType} (hst : isFloatSampleType st = false)
    {x : Int} (hlo : minInt (intSampleBits st) ≤ x) (hhi : x ≤ maxInt (intSampleBits st)) :
    -maxInt (intSampleBits st) ≤ clampSymIntSample (intSampleBits st) x
      ∧ clampSymIntSample (intSampleBits st) x ≤ maxInt (intSampleBits st) := by
  obtain ⟨hm1, -, hmin⟩ := maxInt_bounds_of_int hst
  unfold clampSymIntSample
  split_ifs with h <;> constructor <;> omega

/-- A native integer sample converts to a `double` in `[-1, 1]`. -/
theorem convSampleToDouble_int_bounds {st : SampleType} (hst : isFloatSampleType st = false)
    {x : Int} (hlo : minInt (intSampleBits st) ≤ x) (hhi : x ≤ maxInt (intSampleBits st)) :
    -1 ≤ convSampleToDouble st (.int x) ∧ convSampleToDouble st (.int x) ≤ 1 := by
  obtain ⟨hm1, -, -⟩ := maxInt_bounds_of_int hst
  obtain ⟨hc1, hc2⟩ := clampSymIntSample_bounds hst hlo hhi
  have hmpos : (0 : ℚ) < (maxInt (intSampleBits st) : ℚ) := by
    have : (1 : ℚ) ≤ (maxInt (intSampleBits st) : ℚ) := by exact_mod_cast hm1
    linarith
  have hq1 : (-(maxInt (intSampleBits st) : ℚ)) ≤ (clampSymIntSample (intSampleBits st) x : ℚ) := by
    exact_mod_cast hc1
  have hq2 : (clampSymIntSample (intSampleBits st) x : ℚ) ≤ (maxInt (intSampleBits st) : ℚ) := by
    exact_mod_cast hc2
  simp only [convSampleToDouble]
  apply fl64_abs_le_one
  · rw [le_div_iff₀ hmpos]
    linarith
  · rw [div_le_iff₀ hmpos]
    linarith

/-- The codec returns a native integer sample, with `minInt` clamped to `-maxInt`. -/
theorem convSample_roundtrip_clamped {st : SampleType} (hst : isFloatSampleType st = false)
    {x : Int} (hlo : minInt (intSampleBits st) ≤ x) (hhi : x ≤ maxInt (intSampleBits st))
    (clampFloat : Bool) :
    convSampleFromDouble st (convSampleToDouble st (.int x)) clampFloat
      = .int (clampSymIntSample (intSampleBits st) x) := by
  obtain ⟨hm1, hm2, -⟩ := maxInt_bounds_of_int hst
  obtain ⟨hc1, hc2⟩ := clampSymIntSample_bounds hst hlo hhi
  rw [convSampleFromDouble_int_eq hst]
  simp only [convSampleToDouble]
  rw [roundtrip_core hm1 hm2 hc1 hc2]

theorem castToFloatTowardsZero_zero (st : SampleType) : castToFloatTowardsZero st 0 = 0 := by
  have h32 : castToFloat32 0 = .fin 0 := by
    have hp : ¬ ((2 : ℚ) ^ (128 : Nat) ≤ 0) := not_le.mpr (by positivity)
    simp only [castToFloat32, roundToFormat, if_true, if_neg hp]
    rw [if_neg]
    intro h
    have : (0 : ℚ) < (2 : ℚ) ^ (128 : Nat) := by positivity
    linarith
  cases st <;> simp [castToFloatTowardsZero, h32, FloatVal.gtDouble, FloatVal.ltDouble]

/-- The sample written for the value 0. -/
theorem safeWriteSample_zero (st : SampleType) (frm : Int → Sample) (i p c : Int)
    (ofCtx : OverflowContext) (s : OverflowStats) :
    (safeWriteSample st 0 frm i p c ofCtx s).frm i
      = if isFloatSampleType st = true then .flt 0 else .int 0 := by
  have h := (safeWriteSample_of_not_overflowing st frm i p c ofCtx s
    (show ¬ ((0 : ℚ) < -1 ∨ (1 : ℚ) < 0) by norm_num)).2.2.2
  rw [h]
  by_cases hst : isFloatSampleType st = true
  · rw [if_pos hst]
    cases st <;> simp [isFloatSampleType] at hst <;>
      simp [getSampleBitShift, isFloatSampleType, convSampleFromDouble,
        castToFloatTowardsZero_zero]
  · rw [if_neg hst]
    have hst2 : isFloatSampleType st = false := by simpa using hst
    have h0 : convSampleFromDouble st 0 false = .int 0 := by
      rw [convSampleFromDouble_int_eq hst2]
      have : clampFloatSample 0 = 0 := clampFloatSample_of_mem (by norm_num) (by norm_num)
      rw [this, zero_mul, fl64_zero]
      norm_num [roundHalfAway]
    rw [h0, shiftLeft_int_of_int st hst2, zero_mul]

/-- A copy through the codec of a native sample whose floating point value lies in `[-1, 1]`:
the value handed to `safeWriteSample` does not overflow, and the sample written is the sample
read, with the most negative integer replaced by `-maxInt`. -/
theorem safeWriteSample_copy (st : SampleType) (y : Sample) (hn : isNativeSample st y = true)
    (hr : ∀ q, y = .flt q → -1 ≤ q ∧ q ≤ 1) (frm : Int → Sample) (i p c : Int)
    (ofCtx : OverflowContext) (s : OverflowStats) :
    ¬ (convSampleToDouble st
          (if (getSampleBitShift st).required = true then
            shiftRight y (getSampleBitShift st).count else y) < -1
        ∨ 1 < convSampleToDouble st
          (if (getSampleBitShift st).required = true then
            shiftRight y (getSampleBitShift st).count else y))
      ∧ (safeWriteSample st
          (convSampleToDouble st
            (if (getSampleBitShift st).required = true then
              shiftRight y (getSampleBitShift st).count else y))
          frm i p c ofCtx s).frm i
        = (if y = .int (minInt (bitwidth st)) then
            .int (-maxInt (intSampleBits st) * 2 ^ (bitwidth st - intSampleBits st))
          else y) := by
  cases y with
  | int w =>
    simp only [isNativeSample, Bool.and_eq_true, Bool.not_eq_true', decide_eq_true_eq] at hn
    obtain ⟨⟨⟨hst, hmod⟩, hlo⟩, hhi⟩ := hn
    -- the logical sample
    have hload : (if (getSampleBitShift st).required = true then
          shiftRight (.int w) (getSampleBitShift st).count else Sample.int w)
        = .int (w / 2 ^ (bitwidth st - intSampleBits st)) := by
      cases st <;> simp [isFloatSampleType] at hst <;>
        simp [getSampleBitShift, shiftRight, bitwidth, intSampleBits, isFloatSampleType]
    have hw : w = w / 2 ^ (bitwidth st - intSampleBits st)
        * 2 ^ (bitwidth st - intSampleBits st) := by
      rw [Int.ediv_mul_cancel (Int.dvd_of_emod_eq_zero hmod)]
    have hrange : minInt (intSampleBits st) ≤ w / 2 ^ (bitwidth st - intSampleBits st)
        ∧ w / 2 ^ (bitwidth st - intSampleBits st) ≤ maxInt (intSampleBits st) := by
      cases st <;> simp [isFloatSampleType] at hst <;>
        simp [bitwidth, intSampleBits, minInt, maxInt] at hlo hhi hmod ⊢ <;> omega
    rw [hload]
    obtain ⟨hb1, hb2⟩ := convSampleToDouble_int_bounds hst hrange.1 hrange.2
    have hno : ¬ (convSampleToDouble st (.int (w / 2 ^ (bitwidth st - intSampleBits st))) < -1
        ∨ 1 < convSampleToDouble st (.int (w / 2 ^ (bitwidth st - intSampleBits st)))) := by
      rintro (h | h) <;> linarith
    refine ⟨hno, ?_⟩
    rw [(safeWriteSample_of_not_overflowing st frm i p c ofCtx s hno).2.2.2,
      convSample_roundtrip_clamped hst hrange.1 hrange.2, shiftLeft_int_of_int st hst]
    have hmin : w = minInt (bitwidth st)
        ↔ w / 2 ^ (bitwidth st - intSampleBits st) = minInt (intSampleBits st) := by
      cases st <;> simp [isFloatSampleType] at hst <;>
        simp [bitwidth, intSampleBits, minInt, maxInt] at hlo hhi hmod ⊢ <;> omega
    unfold clampSymIntSample
    by_cases hm : w = minInt (bitwidth st)
    · rw [if_pos (hmin.mp hm), if_pos (by rw [hm])]
    · rw [if_neg (fun h => hm (hmin.mpr h)), if_neg (by simpa using hm), ← hw]
  | flt q =>
    simp only [isNativeSample, Bool.and_eq_true, decide_eq_true_eq] at hn
    obtain ⟨⟨hst, hrep⟩, -⟩ := hn
    obtain ⟨h1, h2⟩ := hr q rfl
    have hload : (if (getSampleBitShift st).required = true then
          shiftRight (.flt q) (getSampleBitShift st).count else Sample.flt q) = .flt q := by
      cases st <;> simp [isFloatSampleType] at hst <;>
        simp [getSampleBitShift, isFloatSampleType]
    rw [hload]
    have hno : ¬ (convSampleToDouble st (.flt q) < -1 ∨ 1 < convSampleToDouble st (.flt q)) := by
      simp only [convSampleToDouble]
      rintro (h | h) <;> linarith
    refine ⟨hno, ?_⟩
    rw [(safeWriteSample_of_not_overflowing st frm i p c ofCtx s hno).2.2.2]
    simp only [convSampleToDouble]
    cases st <;> simp [isFloatSampleType] at hst <;>
      simp [getSampleBitShift, isFloatSampleType, convSampleFromDouble, hrep]

/-! ## Frames of Delay -/

/-- One pass of the loop of `Delay::writeFrameChannel` on the frames that `delayGetFrame`
fetches: the value written is 0 outside `[offset, offset + numSamples)` and the converted
input sample at `p - offset` inside. -/
theorem delay_writeFrameChannelStep_eq (F numSamples offset : Int) (st : SampleType)
    (mode : OverflowMode) (log : OverflowLog) (audio : Int → Sample) (ch n : Int)
    (ofCtx : OverflowContext) (hF : 0 < F) (hn : 0 ≤ n) (s : Int) (hs0 : 0 ≤ s)
    (hs : s < getFrameSampleCount F n numSamples) (frm : Int → Sample)
    (stats : OverflowStats) :
    (Delay.new F numSamples st offset mode log).writeFrameChannelStep ch
        (frameToFirstSample F n)
        (frameReadPtr F audio numSamples
          (baseFrameToOffsetFrames F n offset numSamples numSamples).left)
        (frameReadPtr F audio numSamples
          (baseFrameToOffsetFrames F n offset numSamples numSamples).right)
        ofCtx s frm stats
      = some (safeWriteSample st
          (if frameToFirstSample F n + s < offset
              ∨ offset + numSamples ≤ frameToFirstSample F n + s then 0
            else convSampleToDouble st
              (if (getSampleBitShift st).required = true then
                shiftRight (audio (frameToFirstSample F n + s - offset))
                  (getSampleBitShift st).count
              else audio (frameToFirstSample F n + s - offset)))
          frm s (frameToFirstSample F n + s) ch ofCtx stats) := by
  simp only [Delay.writeFrameChannelStep, Delay.new]
  by_cases hout : frameToFirstSample F n + s < offset
      ∨ offset + numSamples ≤ frameToFirstSample F n + s
  · rw [if_pos hout, if_pos hout]
  · rw [if_neg hout, if_neg hout]
    push_neg at hout
    rw [getOffsetSample_eq_stream F n offset numSamples numSamples s audio hF hn hs0 hs
      (by linarith [hout.1]) (by linarith [hout.2])]

/-- The frame that `delayGetFrame` produces. -/
theorem delayGetFrame_spec (F numSamples offset : Int) (st : SampleType) (mode : OverflowMode)
    (log : OverflowLog) (audio : Int → Sample) (ch n : Int) (outFrm : Int → Sample)
    (stats : OverflowStats) (hF : 0 < F) (hn : 0 ≤ n) :
    ∃ r, delayGetFrame F (Delay.new F numSamples st offset mode log) audio ch n outFrm stats
        = some r
      ∧ (r.ok = true → ∀ s, 0 ≤ s → s < getFrameSampleCount F n numSamples →
          ∀ frm p c stats2,
            r.frm s = (safeWriteSample st
              (if frameToFirstSample F n + s < offset
                  ∨ offset + numSamples ≤ frameToFirstSample F n + s then 0
                else convSampleToDouble st
                  (if (getSampleBitShift st).required = true then
                    shiftRight (audio (frameToFirstSample F n + s - offset))
                      (getSampleBitShift st).count
                  else audio (frameToFirstSample F n + s - offset)))
              frm s p c { mode := mode, log := log } stats2).frm s)
      ∧ ((∀ s, 0 ≤ s → s < getFrameSampleCount F n numSamples →
            ¬ ((if frameToFirstSample F n + s < offset
                    ∨ offset + numSamples ≤ frameToFirstSample F n + s then (0 : ℚ)
                  else convSampleToDouble st
                    (if (getSampleBitShift st).required = true then
                      shiftRight (audio (frameToFirstSample F n + s - offset))
                        (getSampleBitShift st).count
                    else audio (frameToFirstSample F n + s - offset))) < -1
              ∨ 1 < (if frameToFirstSample F n + s < offset
                    ∨ offset + numSamples ≤ frameToFirstSample F n + s then (0 : ℚ)
                  else convSampleToDouble st
                    (if (getSampleBitShift st).required = true then
                      shiftRight (audio (frameToFirstSample F n + s - offset))
                        (getSampleBitShift st).count
                    else audio (frameToFirstSample F n + s - offset))))) →
          r.ok = true
            ∧ r.stats = (if n = 0 then { count := 0, peak := 0 } else stats)
            ∧ r.calls = []) := by
  obtain ⟨r, hr, -, hin, hclean⟩ := sampleLoop_spec st ch { mode := mode, log := log }
    ((Delay.new F numSamples st offset mode log).writeFrameChannelStep ch
      (frameToFirstSample F n)
      (frameReadPtr F audio numSamples
        (baseFrameToOffsetFrames F n offset numSamples numSamples).left)
      (frameReadPtr F audio numSamples
        (baseFrameToOffsetFrames F n offset numSamples numSamples).right)
      { mode := mode, log := log })
    (fun s =>
      if frameToFirstSample F n + s < offset
          ∨ offset + numSamples ≤ frameToFirstSample F n + s then 0
      else convSampleToDouble st
        (if (getSampleBitShift st).required = true then
          shiftRight (audio (frameToFirstSample F n + s - offset)) (getSampleBitShift st).count
        else audio (frameToFirstSample F n + s - offset)))
    (fun s => frameToFirstSample F n + s)
    (getFrameSampleCount F n numSamples).toNat 0
    { ok := true, frm := outFrm,
      stats := if n = 0 then { count := 0, peak := 0 } else stats, calls := [] }
    rfl
    (fun s h1 h2 frm stats2 =>
      delay_writeFrameChannelStep_eq F numSamples offset st mode log audio ch n
        { mode := mode, log := log } hF hn s h1 (by omega) frm stats2)
  refine ⟨r, hr, ?_, ?_⟩
  · intro hok s h1 h2 frm p c stats2
    exact hin hok s h1 (by omega) frm p c stats2
  · intro hall
    exact hclean (fun s h1 h2 => hall s h1 (by omega))

/-- The frame that `delayGetFrame` produces from native samples whose floating point values
lie in `[-1, 1]`. -/
theorem delayGetFrame_native (F numSamples offset : Int) (st : SampleType)
    (mode : OverflowMode) (log : OverflowLog) (audio : Int → Sample) (ch n : Int)
    (outFrm : Int → Sample) (stats : OverflowStats) (hF : 0 < F) (hn : 0 ≤ n)
    (hnative : ∀ i, isNativeSample st (audio i) = true)
    (hrange : ∀ i q, audio i = .flt q → -1 ≤ q ∧ q ≤ 1) :
    ∃ r, delayGetFrame F (Delay.new F numSamples st offset mode log) audio ch n outFrm stats
        = some r
      ∧ r.ok = true
      ∧ r.stats = (if n = 0 then { count := 0, peak := 0 } else stats)
      ∧ r.calls = []
      ∧ ∀ s, 0 ≤ s → s < getFrameSampleCount F n numSamples →
          r.frm s
            = if offset ≤ frameToFirstSample F n + s
                ∧ frameToFirstSample F n + s < offset + numSamples then
                (if audio (frameToFirstSample F n + s - offset) = .int (minInt (bitwidth st))
                  then .int (-maxInt (intSampleBits st) * 2 ^ (bitwidth st - intSampleBits st))
                  else audio (frameToFirstSample F n + s - offset))
              else (if isFloatSampleType st = true then .flt 0 else .int 0) := by
  obtain ⟨r, hr, hin, hclean⟩ :=
    delayGetFrame_spec F numSamples offset st mode log audio ch n outFrm stats hF hn
  have hno : ∀ s, 0 ≤ s → s < getFrameSampleCount F n numSamples →
      ¬ ((if frameToFirstSample F n + s < offset
              ∨ offset + numSamples ≤ frameToFirstSample F n + s then (0 : ℚ)
            else convSampleToDouble st
              (if (getSampleBitShift st).required = true then
                shiftRight (audio (frameToFirstSample F n + s - offset))
                  (getSampleBitShift st).count
              else audio (frameToFirstSample F n + s - offset))) < -1
        ∨ 1 < (if frameToFirstSample F n + s < offset
              ∨ offset + numSamples ≤ frameToFirstSample F n + s then (0 : ℚ)
            else convSampleToDouble st
              (if (getSampleBitShift st).required = true then
                shiftRight (audio (frameToFirstSample F n + s - offset))
                  (getSampleBitShift st).count
              else audio (frameToFirstSample F n + s - offset)))) := by
    intro s _ _
    by_cases h : frameToFirstSample F n + s < offset
        ∨ offset + numSamples ≤ frameToFirstSample F n + s
    · rw [if_pos h]
      norm_num
    · rw [if_neg h]
      exact (safeWriteSample_copy st _ (hnative _) (hrange _) outFrm s 0 ch
        { mode := mode, log := log } stats).1
  obtain ⟨hok, hstats, hcalls⟩ := hclean hno
  refine ⟨r, hr, hok, hstats, hcalls, ?_⟩
  intro s h1 h2
  rw [hin hok s h1 h2 outFrm 0 ch stats]
  by_cases hout : frameToFirstSample F n + s < offset
      ∨ offset + numSamples ≤ frameToFirstSample F n + s
  · rw [if_pos hout, if_neg (by push_neg; intro h; rcases hout with h' | h' <;> omega)]
    exact safeWriteSample_zero st outFrm s 0 ch _ stats
  · rw [if_neg hout]
    push_neg at hout
    rw [if_pos hout]
    exact (safeWriteSample_copy st _ (hnative _) (hrange _) outFrm s 0 ch
      { mode := mode, log := log } stats).2

/-! ## Frames of Fade -/

/-- A local index of a frame lies in the frame and in the stream. -/
theorem lt_getFrameSampleCount {F : Int} (hF : 0 < F) {n total s : Int} (hn : 0 ≤ n)
    (hs0 : 0 ≤ s) (hs : s < getFrameSampleCount F n total) :
    s < F ∧ n * F + s < total := by
  have ht : 0 ≤ total := by
    by_contra hc
    push_neg at hc
    rcases getFrameSampleCount_of_neg hF hn hc with h | ⟨-, h⟩ <;> rw [h] at hs <;> linarith
  rw [getFrameSampleCount_eq hF hn ht] at hs
  split_ifs at hs with h
  · linarith
  · have h1 := min_le_left F (total - n * F)
    have h2 := min_le_right F (total - n * F)
    constructor <;> linarith

/-- One pass of the loop of `Fade::writeFrameChannel` on the frame that `fadeGetFrame`
fetches. -/
theorem fade_writeFrameChannelStep_eq (cosD : ℚ → ℚ) (F numSamples fadeStart
    fadeSamples : Int) (st : SampleType) (fadeTrans : Option Transition) (mode : OverflowMode)
    (log : OverflowLog) (audio : Int → Sample) (ch n : Int) (ofCtx : OverflowContext)
    (hF : 0 < F) (hn : 0 ≤ n) (s : Int) (hs0 : 0 ≤ s)
    (hs : s < getFrameSampleCount F n numSamples) (frm : Int → Sample)
    (stats : OverflowStats) :
    (Fade.new F numSamples st fadeStart fadeSamples fadeTrans mode log).writeFrameChannelStep
        cosD ch (frameToFirstSample F n) (frameReadPtr F audio numSamples n) ofCtx s frm stats
      = some (safeWriteSample st
          (match fadeTrans with
            | some t =>
              if fadeStart ≤ frameToFirstSample F n + s
                  ∧ frameToFirstSample F n + s < fadeStart + fadeSamples then
                fl64 (t.calcY cosD (fl64 ((frameToFirstSample F n + s - fadeStart : Int) : ℚ))
                  * convSampleToDouble st
                    (if (getSampleBitShift st).required = true then
                      shiftRight (audio (frameToFirstSample F n + s))
                        (getSampleBitShift st).count
                    else audio (frameToFirstSample F n + s)))
              else
                convSampleToDouble st
                  (if (getSampleBitShift st).required = true then
                    shiftRight (audio (frameToFirstSample F n + s)) (getSampleBitShift st).count
                  else audio (frameToFirstSample F n + s))
            | none =>
              convSampleToDouble st
                (if (getSampleBitShift st).required = true then
                  shiftRight (audio (frameToFirstSample F n + s)) (getSampleBitShift st).count
                else audio (frameToFirstSample F n + s)))
          frm s (frameToFirstSample F n + s) ch ofCtx stats) := by
  obtain ⟨h1, h2⟩ := lt_getFrameSampleCount hF hn hs0 hs
  simp only [Fade.writeFrameChannelStep, Fade.new, frameToFirstSample]
  rw [readSample_frameReadPtr hF audio hn hs0 h1 h2]
  cases fadeTrans with
  | none => rfl
  | some t =>
    simp only
    split_ifs <;> rfl

/-- The frame that `fadeGetFrame` produces from native samples whose floating point values
lie in `[-1, 1]`: a frame outside the frames of the fade is the input frame; in a frame of
the fade the loop returns, a sample outside the fade range is copied through the codec, a
sample inside is what `safeWriteSample` writes for the scaled value, and the frame is
produced when no scaled value lies outside `[-1, 1]`. -/
theorem fadeGetFrame_native (cosD : ℚ → ℚ) (F numSamples fadeStart fadeSamples : Int)
    (st : SampleType) (fadeTrans : Option Transition) (mode : OverflowMode) (log : OverflowLog)
    (audio : Int → Sample) (ch n : Int) (outFrm : Int → Sample) (stats : OverflowStats)
    (hF : 0 < F) (hn : 0 ≤ n) (hnative : ∀ i, isNativeSample st (audio i) = true)
    (hrange : ∀ i q, audio i = .flt q → -1 ≤ q ∧ q ≤ 1) :
    ∃ r, fadeGetFrame F cosD (Fade.new F numSamples st fadeStart fadeSamples fadeTrans mode log)
          audio ch n outFrm stats = some r
      ∧ ((n < (Fade.new F numSamples st fadeStart fadeSamples fadeTrans mode
                log).outFrameFadeStart
            ∨ (Fade.new F numSamples st fadeStart fadeSamples fadeTrans mode
                log).outFrameFadeEnd ≤ n) →
          r.ok = true ∧ r.calls = [] ∧ ∀ s, r.frm s = audio (frameToFirstSample F n + s))
      ∧ (¬ (n < (Fade.new F numSamples st fadeStart fadeSamples fadeTrans mode
                log).outFrameFadeStart
            ∨ (Fade.new F numSamples st fadeStart fadeSamples fadeTrans mode
                log).outFrameFadeEnd ≤ n) →
          (r.ok = true → ∀ s, 0 ≤ s → s < getFrameSampleCount F n numSamples →
            ((fadeTrans = none ∨ frameToFirstSample F n + s < fadeStart
                ∨ fadeStart + fadeSamples ≤ frameToFirstSample F n + s) →
              r.frm s
                = if audio (frameToFirstSample F n + s) = .int (minInt (bitwidth st)) then
                    .int (-maxInt (intSampleBits st) * 2 ^ (bitwidth st - intSampleBits st))
                  else audio (frameToFirstSample F n + s))
            ∧ (∀ t, fadeTrans = some t → fadeStart ≤ frameToFirstSample F n + s →
                frameToFirstSample F n + s < fadeStart + fadeSamples →
                ∀ frm p c stats2,
                  r.frm s = (safeWriteSample st
                    (fl64 (t.calcY cosD
                        (fl64 ((frameToFirstSample F n + s - fadeStart : Int) : ℚ))
                      * convSampleToDouble st
                        (if (getSampleBitShift st).required = true then
                          shiftRight (audio (frameToFirstSample F n + s))
                            (getSampleBitShift st).count
                        else audio (frameToFirstSample F n + s))))
                    frm s p c { mode := mode, log := log } stats2).frm s))
          ∧ ((∀ t, fadeTrans = some t → ∀ s, 0 ≤ s → s < getFrameSampleCount F n numSamples →
                fadeStart ≤ frameToFirstSample F n + s →
                frameToFirstSample F n + s < fadeStart + fadeSamples →
                -1 ≤ fl64 (t.calcY cosD
                        (fl64 ((frameToFirstSample F n + s - fadeStart : Int) : ℚ))
                      * convSampleToDouble st
                        (if (getSampleBitShift st).required = true then
                          shiftRight (audio (frameToFirstSample F n + s))
                            (getSampleBitShift st).count
                        else audio (frameToFirstSample F n + s)))
                  ∧ fl64 (t.calcY cosD
                        (fl64 ((frameToFirstSample F n + s - fadeStart : Int) : ℚ))
                      * convSampleToDouble st
                        (if (getSampleBitShift st).required = true then
                          shiftRight (audio (frameToFirstSample F n + s))
                            (getSampleBitShift st).count
                        else audio (frameToFirstSample F n + s))) ≤ 1) →
              r.ok = true ∧ r.calls = []
                ∧ r.stats = (if n = 0 then { count := 0, peak := 0 } else stats))) := by
  cases fadeTrans with
  | none =>
    by_cases hfr : n < (Fade.new F numSamples st fadeStart fadeSamples none mode
          log).outFrameFadeStart
        ∨ (Fade.new F numSamples st fadeStart fadeSamples none mode log).outFrameFadeEnd ≤ n
    · refine ⟨_, by simp only [fadeGetFrame]; rw [if_pos hfr],
        fun _ => ⟨rfl, rfl, fun _ => rfl⟩, fun h => absurd hfr h⟩
    · obtain ⟨r, hr, -, hin, hclean⟩ := sampleLoop_spec st ch { mode := mode, log := log }
        ((Fade.new F numSamples st fadeStart fadeSamples none mode
            log).writeFrameChannelStep cosD ch (frameToFirstSample F n)
          (frameReadPtr F audio numSamples n) { mode := mode, log := log })
        (fun s =>
          convSampleToDouble st
            (if (getSampleBitShift st).required = true then
              shiftRight (audio (frameToFirstSample F n + s)) (getSampleBitShift st).count
            else audio (frameToFirstSample F n + s)))
        (fun s => frameToFirstSample F n + s)
        (getFrameSampleCount F n numSamples).toNat 0
        { ok := true, frm := outFrm,
          stats := if n = 0 then { count := 0, peak := 0 } else stats, calls := [] }
        rfl
        (fun s h1 h2 frm stats2 =>
          fade_writeFrameChannelStep_eq cosD F numSamples fadeStart fadeSamples st none mode
            log audio ch n { mode := mode, log := log } hF hn s h1 (by omega) frm stats2)
      refine ⟨r, by simp only [fadeGetFrame]; rw [if_neg hfr]; exact hr,
        fun h => absurd h hfr, fun _ => ⟨?_, ?_⟩⟩
      · intro hok s h1 h2
        refine ⟨fun _ => ?_, fun t ht => by simp at ht⟩
        rw [hin hok s h1 (by omega) outFrm 0 ch stats]
        exact (safeWriteSample_copy st _ (hnative _) (hrange _) outFrm s 0 ch
          { mode := mode, log := log } stats).2
      · intro _
        have hno := hclean (fun s _ _ =>
          (safeWriteSample_copy st _ (hnative _) (hrange _) outFrm s 0 ch
            { mode := mode, log := log } stats).1)
        exact ⟨hno.1, hno.2.2, hno.2.1⟩
  | some t =>
    by_cases hfr : n < (Fade.new F numSamples st fadeStart fadeSamples (some t) mode
          log).outFrameFadeStart
        ∨ (Fade.new F numSamples st fadeStart fadeSamples (some t) mode log).outFrameFadeEnd ≤ n
    · refine ⟨_, by simp only [fadeGetFrame]; rw [if_pos hfr],
        fun _ => ⟨rfl, rfl, fun _ => rfl⟩, fun h => absurd hfr h⟩
    · obtain ⟨r, hr, -, hin, hclean⟩ := sampleLoop_spec st ch { mode := mode, log := log }
        ((Fade.new F numSamples st fadeStart fadeSamples (some t) mode
            log).writeFrameChannelStep cosD ch (frameToFirstSample F n)
          (frameReadPtr F audio numSamples n) { mode := mode, log := log })
        (fun s =>
          if fadeStart ≤ frameToFirstSample F n + s
              ∧ frameToFirstSample F n + s < fadeStart + fadeSamples then
            fl64 (t.calcY cosD (fl64 ((frameToFirstSample F n + s - fadeStart : Int) : ℚ))
              * convSampleToDouble st
                (if (getSampleBitShift st).required = true then
                  shiftRight (audio (frameToFirstSample F n + s)) (getSampleBitShift st).count
                else audio (frameToFirstSample F n + s)))
          else
            convSampleToDouble st
              (if (getSampleBitShift st).required = true then
                shiftRight (audio (frameToFirstSample F n + s)) (getSampleBitShift st).count
              else audio (frameToFirstSample F n + s)))
        (fun s => frameToFirstSample F n + s)
        (getFrameSampleCount F n numSamples).toNat 0
        { ok := true, frm := outFrm,
          stats := if n = 0 then { count := 0, peak := 0 } else stats, calls := [] }
        rfl
        (fun s h1 h2 frm stats2 =>
          fade_writeFrameChannelStep_eq cosD F numSamples fadeStart fadeSamples st (some t)
            mode log audio ch n { mode := mode, log := log } hF hn s h1 (by omega) frm stats2)
      refine ⟨r, by simp only [fadeGetFrame]; rw [if_neg hfr]; exact hr,
        fun h => absurd h hfr, fun _ => ⟨?_, ?_⟩⟩
      · intro hok s h1 h2
        have hw := hin hok s h1 (by omega)
        simp only at hw
        constructor
        · intro hcopy
          rw [hw outFrm 0 ch stats, if_neg]
          · exact (safeWriteSample_copy st _ (hnative _) (hrange _) outFrm s 0 ch
              { mode := mode, log := log } stats).2
          · rintro ⟨g1, g2⟩
            rcases hcopy with h | h | h
            · simp at h
            · omega
            · omega
        · intro t2 ht g1 g2 frm p c stats2
          rw [hw frm p c stats2, if_pos ⟨g1, g2⟩]
          cases ht
          rfl
      · intro hall
        have hno := hclean (by
          intro s h1 h2
          by_cases hw : fadeStart ≤ frameToFirstSample F n + s
              ∧ frameToFirstSample F n + s < fadeStart + fadeSamples
          · rw [if_pos hw]
            have := hall t rfl s h1 (by omega) hw.1 hw.2
            rintro (h | h) <;> linarith [this.1, this.2]
          · rw [if_neg hw]
            exact (safeWriteSample_copy st _ (hnative _) (hrange _) outFrm s 0 ch
              { mode := mode, log := log } stats).1)
        exact ⟨hno.1, hno.2.2, hno.2.1⟩

/-! ## The linear transition of a fade-in -/

theorem fl64_one_add_half_ulp : fl64 (1 + (2 : ℚ) ^ (-53 : Int)) = 1 := by
  have e0 : (1 : ℚ) + (2 : ℚ) ^ (-53 : Int) = 9007199254740993 / 9007199254740992 := by norm_num
  rw [e0]
  have h := @fl64_eq_of_binade (9007199254740993 / 9007199254740992 : ℚ) 0 4503599627370496
    (by norm_num [abs_of_pos]) (by norm_num [abs_of_pos]) (by norm_num) (by
      have e : (9007199254740993 / 9007199254740992 : ℚ) / (2 : ℚ) ^ ((0 : Int) - 52)
          = ((4503599627370496 : Int) : ℚ) + 1 / 2 := by
        norm_num
      rw [e, roundHalfEven_tie]
      norm_num)
  rw [h]
  norm_num

/-- The linear transition from `(0, 0)` to `(m, 1)` at an integer `k`: the `double` product
of `k` with the `double` nearest `1 / m`. -/
theorem linear_fadein_calcY (cosD : ℚ → ℚ) {m k : Int} (hm1 : 1 ≤ m) (hm2 : m < 2 ^ 53)
    (hk0 : 0 ≤ k) (hk : k ≤ m) :
    (newTransition .Linear 0 0 (fl64 (m : ℚ)) 1).calcY cosD (fl64 (k : ℚ))
      = fl64 (fl64 (1 / (m : ℚ)) * (k : ℚ)) := by
  have hfm : fl64 (m : ℚ) = m := fl64_intCast (by rw [abs_of_nonneg (by omega)]; exact hm2)
  have hfk : fl64 (k : ℚ) = k := fl64_intCast (by rw [abs_of_nonneg hk0]; omega)
  have hmq : (0 : ℚ) ≠ (m : ℚ) := by
    have : (1 : ℚ) ≤ (m : ℚ) := by exact_mod_cast hm1
    linarith
  simp only [newTransition, Transition.calcY, LinearTransition.new, LinearTransition.calcY]
  rw [hfm, hfk, if_pos hmq]
  simp only
  rw [if_neg hmq]
  simp only [sub_zero, mul_zero, fl64_zero, add_zero, fl64_one, fl64_idem, hfm]

/-- Bounds of the linear fade-in gain. -/
theorem linear_fadein_bounds {m k : Int} (hm1 : 1 ≤ m) (hm2 : m < 2 ^ 53) (hk0 : 0 ≤ k)
    (hk : k ≤ m) :
    0 ≤ fl64 (fl64 (1 / (m : ℚ)) * (k : ℚ)) ∧ fl64 (fl64 (1 / (m : ℚ)) * (k : ℚ)) ≤ 1
      ∧ |fl64 (fl64 (1 / (m : ℚ)) * (k : ℚ)) - (k : ℚ) / (m : ℚ)|
        ≤ (2 : ℚ) ^ (-51 : Int) * ((k : ℚ) / (m : ℚ)) := by
  have hmq1 : (1 : ℚ) ≤ (m : ℚ) := by exact_mod_cast hm1
  have hmq2 : (m : ℚ) < (2 : ℚ) ^ (53 : Int) := by
    have : (m : ℚ) < ((2 ^ 53 : Int) : ℚ) := by exact_mod_cast hm2
    norm_num at this ⊢
    exact this
  have hmpos : (0 : ℚ) < (m : ℚ) := by linarith
  have hkq0 : (0 : ℚ) ≤ (k : ℚ) := by exact_mod_cast hk0
  have hkq : (k : ℚ) ≤ (m : ℚ) := by exact_mod_cast hk
  have hu : (2 : ℚ) ^ (-53 : Int) = 1 / 9007199254740992 := by norm_num
  have hu51 : (2 : ℚ) ^ (-51 : Int) = 4 / 9007199254740992 := by norm_num
  -- the gradient
  have hinv_pos : (0 : ℚ) < 1 / (m : ℚ) := by positivity
  have hinv_lo : (2 : ℚ) ^ (-53 : Int) ≤ 1 / (m : ℚ) := by
    rw [hu, div_le_div_iff₀ (by norm_num) hmpos]
    norm_num at hmq2
    linarith
  have hgrel := fl64_rel_error (q := 1 / (m : ℚ)) (by
    rw [abs_of_pos hinv_pos]
    exact le_trans (zpow_le_zpow_right₀ (by norm_num) (by norm_num)) hinv_lo)
  rw [abs_of_pos hinv_pos, hu, abs_le] at hgrel
  have hg0 : 0 ≤ fl64 (1 / (m : ℚ)) := fl64_nonneg hinv_pos.le
  have hglo : (2 : ℚ) ^ (-53 : Int) ≤ fl64 (1 / (m : ℚ)) := by
    have h1 := fl64_mono hinv_lo
    have h2 := fl64_of_dyadic 1 (-53) (by norm_num) (by norm_num)
    simp only [Int.cast_one, one_mul] at h2
    rwa [h2] at h1
  -- the product
  have hprod0 : 0 ≤ fl64 (1 / (m : ℚ)) * (k : ℚ) := mul_nonneg hg0 hkq0
  have hgm : fl64 (1 / (m : ℚ)) * (m : ℚ) ≤ 1 + 1 / 9007199254740992 := by
    have : 1 / (m : ℚ) * (m : ℚ) = 1 := by field_simp
    nlinarith [hgrel.2]
  have hprod1 : fl64 (1 / (m : ℚ)) * (k : ℚ) ≤ 1 + (2 : ℚ) ^ (-53 : Int) := by
    rw [hu]
    calc fl64 (1 / (m : ℚ)) * (k : ℚ) ≤ fl64 (1 / (m : ℚ)) * (m : ℚ) :=
          mul_le_mul_of_nonneg_left hkq hg0
      _ ≤ 1 + 1 / 9007199254740992 := hgm
  refine ⟨fl64_nonneg hprod0, ?_, ?_⟩
  · have := fl64_mono hprod1
    rwa [fl64_one_add_half_ulp] at this
  · rcases hkq0.eq_or_lt with h0 | hkpos
    · rw [← h0]
      simp [fl64_zero]
    · have hk1 : (1 : ℚ) ≤ (k : ℚ) := by
        have : (1 : Int) ≤ k := by
          have : (0 : Int) < k := by exact_mod_cast hkpos
          omega
        exact_mod_cast this
      have hplo : (2 : ℚ) ^ (-1022 : Int) ≤ |fl64 (1 / (m : ℚ)) * (k : ℚ)| := by
        rw [abs_of_nonneg hprod0]
        calc (2 : ℚ) ^ (-1022 : Int) ≤ (2 : ℚ) ^ (-53 : Int) :=
              zpow_le_zpow_right₀ (by norm_num) (by norm_num)
          _ ≤ fl64 (1 / (m : ℚ)) := hglo
          _ = fl64 (1 / (m : ℚ)) * 1 := (mul_one _).symm
          _ ≤ fl64 (1 / (m : ℚ)) * (k : ℚ) := mul_le_mul_of_nonneg_left hk1 hg0
      have hprel := fl64_rel_error hplo
      rw [abs_of_nonneg hprod0, hu, abs_le] at hprel
      rw [hu51, abs_le]
      have hkm : (k : ℚ) / (m : ℚ) = 1 / (m : ℚ) * (k : ℚ) := by field_simp
      rw [hkm]
      have hx0 : 0 ≤ 1 / (m : ℚ) * (k : ℚ) := mul_nonneg hinv_pos.le hkq0
      have hgk1 : fl64 (1 / (m : ℚ)) * (k : ℚ) - 1 / (m : ℚ) * (k : ℚ)
          ≤ 1 / 9007199254740992 * (1 / (m : ℚ) * (k : ℚ)) := by
        nlinarith [hgrel.2]
      have hgk2 : -(1 / 9007199254740992 * (1 / (m : ℚ) * (k : ℚ)))
          ≤ fl64 (1 / (m : ℚ)) * (k : ℚ) - 1 / (m : ℚ) * (k : ℚ) := by
        nlinarith [hgrel.1]
      constructor <;> nlinarith [hprel.1, hprel.2]

/-- A linear fade-in of `n` samples over a constant full-scale Float64 stream: every frame is
produced, the sample at position `p < n` is the gain `calcY(p)` and the samples from position
`n` on are unchanged. -/
theorem fadeGetFrame_linear_fadein (cosD : ℚ → ℚ) (F numSamples n : Int) (mode : OverflowMode)
    (log : OverflowLog) (ch f s : Int) (outFrm : Int → Sample) (stats : OverflowStats)
    (hF : 0 < F) (hn1 : 2 ≤ n) (hn2 : n ≤ 2 ^ 53) (hf : 0 ≤ f) (hs0 : 0 ≤ s)
    (hs : s < getFrameSampleCount F f numSamples) :
    ∃ r, fadeGetFrame F cosD
          (Fade.new F numSamples .Float64 0 n
            (some (newTransition .Linear 0 0 (fl64 ((n - 1 : Int) : ℚ)) 1)) mode log)
          (fun _ => .flt 1) ch f outFrm stats = some r
      ∧ r.ok = true
      ∧ r.calls = []
      ∧ r.frm s
        = .flt (if frameToFirstSample F f + s < n then
            (newTransition .Linear 0 0 (fl64 ((n - 1 : Int) : ℚ)) 1).calcY cosD
              (fl64 ((frameToFirstSample F f + s : Int) : ℚ))
          else 1) := by
  have hp0 : 0 ≤ frameToFirstSample F f + s := by
    have : 0 ≤ f * F := mul_nonneg hf hF.le
    simp only [frameToFirstSample]
    omega
  have hnat : ∀ i : Int, isNativeSample .Float64 ((fun _ : Int => Sample.flt 1) i) = true := by
    intro i
    show isNativeSample .Float64 (.flt 1) = true
    simp [isNativeSample, isFloatSampleType, castToFloatTowardsZero, fl64_one]
  have hrng : ∀ (i : Int) (q : ℚ), (fun _ : Int => Sample.flt 1) i = .flt q → -1 ≤ q ∧ q ≤ 1 := by
    intro i q h
    have h2 : Sample.flt 1 = Sample.flt q := h
    injection h2 with h3
    rw [← h3]
    norm_num
  have hload : convSampleToDouble .Float64
      (if (getSampleBitShift .Float64).required = true then
        shiftRight (Sample.flt 1) (getSampleBitShift .Float64).count
      else Sample.flt 1) = 1 := by
    simp [getSampleBitShift, isFloatSampleType, convSampleToDouble]
  -- the scaled value inside the fade is the gain itself
  have hscaled : ∀ p : Int, 0 ≤ p → p < n →
      fl64 ((newTransition .Linear 0 0 (fl64 ((n - 1 : Int) : ℚ)) 1).calcY cosD
          (fl64 (((p - 0 : Int)) : ℚ)) * 1)
        = (newTransition .Linear 0 0 (fl64 ((n - 1 : Int) : ℚ)) 1).calcY cosD
          (fl64 ((p : Int) : ℚ))
      ∧ 0 ≤ (newTransition .Linear 0 0 (fl64 ((n - 1 : Int) : ℚ)) 1).calcY cosD
          (fl64 ((p : Int) : ℚ))
      ∧ (newTransition .Linear 0 0 (fl64 ((n - 1 : Int) : ℚ)) 1).calcY cosD
          (fl64 ((p : Int) : ℚ)) ≤ 1 := by
    intro p h0 h1
    have hc := linear_fadein_calcY cosD (m := n - 1) (k := p) (by omega) (by omega) h0 (by omega)
    have hb := linear_fadein_bounds (m := n - 1) (k := p) (by omega) (by omega) h0 (by omega)
    rw [sub_zero, mul_one, hc, fl64_idem]
    exact ⟨rfl, hb.1, hb.2.1⟩
  obtain ⟨r, hr, hpass, hfade⟩ := fadeGetFrame_native cosD F numSamples 0 n .Float64
    (some (newTransition .Linear 0 0 (fl64 ((n - 1 : Int) : ℚ)) 1)) mode log
    (fun _ => .flt 1) ch f outFrm stats hF hf hnat hrng
  refine ⟨r, hr, ?_⟩
  by_cases hfr : f < (Fade.new F numSamples .Float64 0 n
        (some (newTransition .Linear 0 0 (fl64 ((n - 1 : Int) : ℚ)) 1)) mode
        log).outFrameFadeStart
      ∨ (Fade.new F numSamples .Float64 0 n
        (some (newTransition .Linear 0 0 (fl64 ((n - 1 : Int) : ℚ)) 1)) mode
        log).outFrameFadeEnd ≤ f
  · obtain ⟨hok, hcalls, hfrm⟩ := hpass hfr
    refine ⟨hok, hcalls, ?_⟩
    rw [hfrm s, if_neg]
    simp only [Fade.new, sampleToFrame, zero_add] at hfr
    rw [tdiv_of_nonneg hF (le_refl 0), tdiv_of_nonneg hF (show (0 : Int) ≤ n - 1 by omega)]
      at hfr
    have hb := ediv_bounds hF (n - 1)
    simp only [frameToFirstSample]
    rcases hfr with h | h
    · simp at h
      omega
    · have : F * ((n - 1) / F + 1) ≤ F * f := mul_le_mul_of_nonneg_left h hF.le
      nlinarith [hb.1, hb.2]
  · obtain ⟨hin, hclean⟩ := hfade hfr
    obtain ⟨hok, hcalls, -⟩ := hclean (by
      intro t ht s2 h1 h2 g1 g2
      cases ht
      simp only [hload]
      have hp2 : 0 ≤ frameToFirstSample F f + s2 := by linarith
      obtain ⟨e1, e2, e3⟩ := hscaled (frameToFirstSample F f + s2) hp2 (by linarith)
      rw [e1]
      constructor <;> linarith)
    refine ⟨hok, hcalls, ?_⟩
    by_cases hp : frameToFirstSample F f + s < n
    · rw [if_pos hp]
      obtain ⟨e1, e2, e3⟩ := hscaled (frameToFirstSample F f + s) hp0 hp
      rw [(hin hok s hs0 hs).2 _ rfl hp0 (by linarith) outFrm 0 ch stats]
      simp only [hload]
      rw [e1]
      rw [(safeWriteSample_of_not_overflowing .Float64 outFrm s 0 ch _ stats
        (by rintro (h | h) <;> linarith)).2.2.2]
      simp [getSampleBitShift, isFloatSampleType, convSampleFromDouble, castToFloatTowardsZero]
    · rw [if_neg hp, (hin hok s hs0 hs).1 (Or.inr (Or.inr (by linarith)))]
      simp

/-! ## Frames of CrossFade -/

/-- The frame of stream 1 that `CrossFade::outFrameToAudio1Frame` returns for an output frame
that starts inside stream 1 is the frame of the same number. -/
theorem baseFrameToOffsetFrames_zero_left {F : Int} (hF : 0 < F) {n total baseTotal : Int}
    (hn : 0 ≤ n) (h1 : n * F < total) (h2 : n * F < baseTotal) :
    (baseFrameToOffsetFrames F n 0 total baseTotal).left = n := by
  have hnF : 0 ≤ n * F := mul_nonneg hn hF.le
  rw [baseFrameToOffsetFrames_eq hF hn (by linarith) (by linarith)]
  rw [if_neg (by linarith), if_neg, if_neg (by linarith), if_pos ⟨by simp, le_refl 0⟩]
  · simp only [sub_zero]
    exact Int.mul_ediv_cancel n hF.ne'
  · push_neg
    refine ⟨by linarith, ?_⟩
    have : 0 < min F (baseTotal - n * F) := lt_min hF (by linarith)
    linarith

/-- One pass of the loop of `CrossFade::writeFrameChannel` on the frames that
`crossfadeGetFrame` fetches. -/
theorem crossfade_writeFrameChannelStep_eq (cosD : ℚ → ℚ) (F len1 len2 fadeSamples : Int)
    (st : SampleType) (fadeType : TransitionType) (mode : OverflowMode) (log : OverflowLog)
    (audio1 audio2 : Int → Sample) (ch n : Int) (ofCtx : OverflowContext) (hF : 0 < F)
    (hn : 0 ≤ n) (hfs0 : 0 ≤ fadeSamples) (s : Int) (hs0 : 0 ≤ s)
    (hs : s < getFrameSampleCount F n (len1 + len2 - fadeSamples)) (frm : Int → Sample)
    (stats : OverflowStats) :
    (CrossFade.new F len1 len2 st fadeSamples fadeType mode log).writeFrameChannelStep cosD ch
        (frameToFirstSample F n)
        (frameReadPtr F audio1 len1
          ((CrossFade.new F len1 len2 st fadeSamples fadeType mode
            log).outFrameToAudio1Frame F n))
        (frameReadPtr F audio2 len2
          ((CrossFade.new F len1 len2 st fadeSamples fadeType mode
            log).outFrameToAudio2Frames F n).left)
        (frameReadPtr F audio2 len2
          ((CrossFade.new F len1 len2 st fadeSamples fadeType mode
            log).outFrameToAudio2Frames F n).right)
        ofCtx s frm stats
      = some (safeWriteSample st
          (if frameToFirstSample F n + s < len1 - fadeSamples then
            convSampleToDouble st
              (if (getSampleBitShift st).required = true then
                shiftRight (audio1 (frameToFirstSample F n + s)) (getSampleBitShift st).count
              else audio1 (frameToFirstSample F n + s))
          else if len1 ≤ frameToFirstSample F n + s then
            convSampleToDouble st
              (if (getSampleBitShift st).required = true then
                shiftRight (audio2 (frameToFirstSample F n + s - (len1 - fadeSamples)))
                  (getSampleBitShift st).count
              else audio2 (frameToFirstSample F n + s - (len1 - fadeSamples)))
          else
            fl64 (fl64
                (((CrossFade.new F len1 len2 st fadeSamples fadeType mode log).scales cosD
                    (frameToFirstSample F n + s - (len1 - fadeSamples))).1
                  * convSampleToDouble st
                    (if (getSampleBitShift st).required = true then
                      shiftRight (audio1 (frameToFirstSample F n + s))
                        (getSampleBitShift st).count
                    else audio1 (frameToFirstSample F n + s)))
              + fl64
                (((CrossFade.new F len1 len2 st fadeSamples fadeType mode log).scales cosD
                    (frameToFirstSample F n + s - (len1 - fadeSamples))).2
                  * convSampleToDouble st
                    (if (getSampleBitShift st).required = true then
                      shiftRight (audio2 (frameToFirstSample F n + s - (len1 - fadeSamples)))
                        (getSampleBitShift st).count
                    else audio2 (frameToFirstSample F n + s - (len1 - fadeSamples))))))
          frm s (frameToFirstSample F n + s) ch ofCtx stats) := by
  obtain ⟨h1, h2⟩ := lt_getFrameSampleCount hF hn hs0 hs
  have hnF : 0 ≤ n * F := mul_nonneg hn hF.le
  have hmax : max fadeSamples 0 = fadeSamples := max_eq_left hfs0
  -- the reads
  have hread1 : frameToFirstSample F n + s < len1 →
      readSample (frameReadPtr F audio1 len1
          ((CrossFade.new F len1 len2 st fadeSamples fadeType mode
            log).outFrameToAudio1Frame F n)) s
        = some (audio1 (frameToFirstSample F n + s)) := by
    intro hp
    simp only [frameToFirstSample] at hp ⊢
    simp only [CrossFade.outFrameToAudio1Frame, CrossFade.new, hmax]
    rw [baseFrameToOffsetFrames_zero_left hF hn (by linarith) (by linarith)]
    exact readSample_frameReadPtr hF audio1 hn hs0 h1 hp
  have hread2 : len1 - fadeSamples ≤ frameToFirstSample F n + s →
      getOffsetSample s
          (CrossFade.new F len1 len2 st fadeSamples fadeType mode log).audio2FrameSampleOffsets
          (frameReadPtr F audio2 len2
            ((CrossFade.new F len1 len2 st fadeSamples fadeType mode
              log).outFrameToAudio2Frames F n).left)
          (frameReadPtr F audio2 len2
            ((CrossFade.new F len1 len2 st fadeSamples fadeType mode
              log).outFrameToAudio2Frames F n).right)
        = some (audio2 (frameToFirstSample F n + s - (len1 - fadeSamples))) := by
    intro hp
    simp only [CrossFade.outFrameToAudio2Frames, CrossFade.new, hmax]
    exact getOffsetSample_eq_stream F n (len1 - fadeSamples) len2
      (len1 + len2 - fadeSamples) s audio2 hF hn hs0 hs (by linarith)
      (by simp only [frameToFirstSample]; linarith)
  unfold CrossFade.writeFrameChannelStep
  simp only
  have e1 : (CrossFade.new F len1 len2 st fadeSamples fadeType mode log).outPosFadeStart
      = len1 - fadeSamples := by
    simp only [CrossFade.new, hmax]
  have e2 : (CrossFade.new F len1 len2 st fadeSamples fadeType mode log).outPosFadeEnd
      = len1 := rfl
  have e3 : (CrossFade.new F len1 len2 st fadeSamples fadeType mode log).outSampleType
      = st := rfl
  rw [e1, e2, e3]
  by_cases hA : frameToFirstSample F n + s < len1 - fadeSamples
  · rw [if_pos hA, if_pos hA, hread1 (by linarith)]
  · rw [if_neg hA, if_neg hA]
    by_cases hB : len1 ≤ frameToFirstSample F n + s
    · rw [if_pos hB, if_pos hB, hread2 (by linarith)]
    · rw [if_neg hB, if_neg hB, hread1 (by linarith), hread2 (by linarith)]

/-- The frame that `crossfadeGetFrame` produces from native samples whose floating point
values lie in `[-1, 1]`: the loop returns; when it returns `true` a sample before the
crossfade is the sample of stream 1 and a sample after it the sample of stream 2, copied
through the codec, and a sample of the crossfade is what `safeWriteSample` writes for the
weighted sum; the frame is produced when no weighted sum lies outside `[-1, 1]`. -/
theorem crossfadeGetFrame_native (cosD : ℚ → ℚ) (F len1 len2 fadeSamples : Int)
    (st : SampleType) (fadeType : TransitionType) (mode : OverflowMode) (log : OverflowLog)
    (audio1 audio2 : Int → Sample) (ch n : Int) (outFrm : Int → Sample)
    (stats : OverflowStats) (hF : 0 < F) (hn : 0 ≤ n) (hfs0 : 0 ≤ fadeSamples)
    (hnative1 : ∀ i, isNativeSample st (audio1 i) = true)
    (hnative2 : ∀ i, isNativeSample st (audio2 i) = true)
    (hrange1 : ∀ i q, audio1 i = .flt q → -1 ≤ q ∧ q ≤ 1)
    (hrange2 : ∀ i q, audio2 i = .flt q → -1 ≤ q ∧ q ≤ 1) :
    ∃ r, crossfadeGetFrame F cosD (CrossFade.new F len1 len2 st fadeSamples fadeType mode log)
          audio1 audio2 ch n outFrm stats = some r
      ∧ (r.ok = true → ∀ s, 0 ≤ s → s < getFrameSampleCount F n (len1 + len2 - fadeSamples) →
          (frameToFirstSample F n + s < len1 - fadeSamples →
            r.frm s
              = if audio1 (frameToFirstSample F n + s) = .int (minInt (bitwidth st)) then
                  .int (-maxInt (intSampleBits st) * 2 ^ (bitwidth st - intSampleBits st))
                else audio1 (frameToFirstSample F n + s))
          ∧ (len1 ≤ frameToFirstSample F n + s →
            r.frm s
              = if audio2 (frameToFirstSample F n + s - (len1 - fadeSamples))
                    = .int (minInt (bitwidth st)) then
                  .int (-maxInt (intSampleBits st) * 2 ^ (bitwidth st - intSampleBits st))
                else audio2 (frameToFirstSample F n + s - (len1 - fadeSamples)))
          ∧ (len1 - fadeSamples ≤ frameToFirstSample F n + s →
              frameToFirstSample F n + s < len1 →
              ∀ frm p c stats2,
                r.frm s = (safeWriteSample st
                  (fl64 (fl64
                (((CrossFade.new F len1 len2 st fadeSamples fadeType mode log).scales cosD
                    (frameToFirstSample F n + s - (len1 - fadeSamples))).1
                  * convSampleToDouble st
                    (if (getSampleBitShift st).required = true then
                      shiftRight (audio1 (frameToFirstSample F n + s))
                        (getSampleBitShift st).count
                    else audio1 (frameToFirstSample F n + s)))
              + fl64
                (((CrossFade.new F len1 len2 st fadeSamples fadeType mode log).scales cosD
                    (frameToFirstSample F n + s - (len1 - fadeSamples))).2
                  * convSampleToDouble st
                    (if (getSampleBitShift st).required = true then
                      shiftRight (audio2 (frameToFirstSample F n + s - (len1 - fadeSamples)))
                        (getSampleBitShift st).count
                    else audio2 (frameToFirstSample F n + s - (len1 - fadeSamples))))))
                  frm s p c { mode := mode, log := log } stats2).frm s))
      ∧ ((∀ s, 0 ≤ s → s < getFrameSampleCount F n (len1 + len2 - fadeSamples) →
            len1 - fadeSamples ≤ frameToFirstSample F n + s →
            frameToFirstSample F n + s < len1 →
            -1 ≤ fl64 (fl64
                (((CrossFade.new F len1 len2 st fadeSamples fadeType mode log).scales cosD
                    (frameToFirstSample F n + s - (len1 - fadeSamples))).1
                  * convSampleToDouble st
                    (if (getSampleBitShift st).required = true then
                      shiftRight (audio1 (frameToFirstSample F n + s))
                        (getSampleBitShift st).count
                    else audio1 (frameToFirstSample F n + s)))
              + fl64
                (((CrossFade.new F len1 len2 st fadeSamples fadeType mode log).scales cosD
                    (frameToFirstSample F n + s - (len1 - fadeSamples))).2
                  * convSampleToDouble st
                    (if (getSampleBitShift st).required = true then
                      shiftRight (audio2 (frameToFirstSample F n + s - (len1 - fadeSamples)))
                        (getSampleBitShift st).count
                    else audio2 (frameToFirstSample F n + s - (len1 - fadeSamples)))))
              ∧ fl64 (fl64
                (((CrossFade.new F len1 len2 st fadeSamples fadeType mode log).scales cosD
                    (frameToFirstSample F n + s - (len1 - fadeSamples))).1
                  * convSampleToDouble st
                    (if (getSampleBitShift st).required = true then
                      shiftRight (audio1 (frameToFirstSample F n + s))
                        (getSampleBitShift st).count
                    else audio1 (frameToFirstSample F n + s)))
              + fl64
                (((CrossFade.new F len1 len2 st fadeSamples fadeType mode log).scales cosD
                    (frameToFirstSample F n + s - (len1 - fadeSamples))).2
                  * convSampleToDouble st
                    (if (getSampleBitShift st).required = true then
                      shiftRight (audio2 (frameToFirstSample F n + s - (len1 - fadeSamples)))
                        (getSampleBitShift st).count
                    else audio2 (frameToFirstSample F n + s - (len1 - fadeSamples))))) ≤ 1) →
          r.ok = true ∧ r.calls = []
            ∧ r.stats = (if n = 0 then { count := 0, peak := 0 } else stats)) := by
  have hmax : max fadeSamples 0 = fadeSamples := max_eq_left hfs0
  have hlen : (CrossFade.new F len1 len2 st fadeSamples fadeType mode log).outNumSamples
      = len1 + len2 - fadeSamples := by
    simp only [CrossFade.new, hmax]
  obtain ⟨r, hr, -, hin, hclean⟩ := sampleLoop_spec st ch { mode := mode, log := log }
    ((CrossFade.new F len1 len2 st fadeSamples fadeType mode log).writeFrameChannelStep cosD
      ch (frameToFirstSample F n)
      (frameReadPtr F audio1 len1
        ((CrossFade.new F len1 len2 st fadeSamples fadeType mode
          log).outFrameToAudio1Frame F n))
      (frameReadPtr F audio2 len2
        ((CrossFade.new F len1 len2 st fadeSamples fadeType mode
          log).outFrameToAudio2Frames F n).left)
      (frameReadPtr F audio2 len2
        ((CrossFade.new F len1 len2 st fadeSamples fadeType mode
          log).outFrameToAudio2Frames F n).right)
      { mode := mode, log := log })
    (fun s =>
      if frameToFirstSample F n + s < len1 - fadeSamples then
            convSampleToDouble st
              (if (getSampleBitShift st).required = true then
                shiftRight (audio1 (frameToFirstSample F n + s)) (getSampleBitShift st).count
              else audio1 (frameToFirstSample F n + s))
          else if len1 ≤ frameToFirstSample F n + s then
            convSampleToDouble st
              (if (getSampleBitShift st).required = true then
                shiftRight (audio2 (frameToFirstSample F n + s - (len1 - fadeSamples)))
                  (getSampleBitShift st).count
              else audio2 (frameToFirstSample F n + s - (len1 - fadeSamples)))
          else
            fl64 (fl64
                (((CrossFade.new F len1 len2 st fadeSamples fadeType mode log).scales cosD
                    (frameToFirstSample F n + s - (len1 - fadeSamples))).1
                  * convSampleToDouble st
                    (if (getSampleBitShift st).required = true then
                      shiftRight (audio1 (frameToFirstSample F n + s))
                        (getSampleBitShift st).count
                    else audio1 (frameToFirstSample F n + s)))
              + fl64
                (((CrossFade.new F len1 len2 st fadeSamples fadeType mode log).scales cosD
                    (frameToFirstSample F n + s - (len1 - fadeSamples))).2
                  * convSampleToDouble st
                    (if (getSampleBitShift st).required = true then
                      shiftRight (audio2 (frameToFirstSample F n + s - (len1 - fadeSamples)))
                        (getSampleBitShift st).count
                    else audio2 (frameToFirstSample F n + s - (len1 - fadeSamples))))))
    (fun s => frameToFirstSample F n + s)
    (getFrameSampleCount F n (len1 + len2 - fadeSamples)).toNat 0
    { ok := true, frm := outFrm,
      stats := if n = 0 then { count := 0, peak := 0 } else stats, calls := [] }
    rfl
    (fun s h1 h2 frm stats2 =>
      crossfade_writeFrameChannelStep_eq cosD F len1 len2 fadeSamples st fadeType mode log
        audio1 audio2 ch n { mode := mode, log := log } hF hn hfs0 s h1 (by omega) frm stats2)
  have hr2 : crossfadeGetFrame F cosD
      (CrossFade.new F len1 len2 st fadeSamples fadeType mode log) audio1 audio2 ch n outFrm
      stats = some r := by
    simp only [crossfadeGetFrame, CrossFade.writeFrameChannel]
    rw [hlen]
    exact hr
  refine ⟨r, hr2, ?_, ?_⟩
  · intro hok s h1 h2
    have hw := hin hok s h1 (by omega)
    simp only at hw
    refine ⟨?_, ?_, ?_⟩
    · intro hA
      rw [hw outFrm 0 ch stats, if_pos hA]
      exact (safeWriteSample_copy st _ (hnative1 _) (hrange1 _) outFrm s 0 ch
        { mode := mode, log := log } stats).2
    · intro hB
      rw [hw outFrm 0 ch stats, if_neg (by linarith), if_pos hB]
      exact (safeWriteSample_copy st _ (hnative2 _) (hrange2 _) outFrm s 0 ch
        { mode := mode, log := log } stats).2
    · intro hA hB frm p c stats2
      rw [hw frm p c stats2, if_neg (by linarith), if_neg (by linarith)]
  · intro hall
    have hno := hclean (by
      intro s h1 h2
      by_cases hA : frameToFirstSample F n + s < len1 - fadeSamples
      · rw [if_pos hA]
        exact (safeWriteSample_copy st _ (hnative1 _) (hrange1 _) outFrm s 0 ch
          { mode := mode, log := log } stats).1
      · rw [if_neg hA]
        by_cases hB : len1 ≤ frameToFirstSample F n + s
        · rw [if_pos hB]
          exact (safeWriteSample_copy st _ (hnative2 _) (hrange2 _) outFrm s 0 ch
            { mode := mode, log := log } stats).1
        · rw [if_neg hB]
          have := hall s h1 (by omega) (by linarith) (by linarith)
          rintro (h | h) <;> linarith [this.1, this.2])
    exact ⟨hno.1, hno.2.2, hno.2.1⟩

/-! ## The fade-out transition of a crossfade at its two ends -/

theorem fl64_half : fl64 (1 / 2) = 1 / 2 := by
  have h := fl64_of_dyadic 1 (-1) (by norm_num) (by norm_num)
  norm_num at h
  simpa using h

/-- Each transition from `(0, 1)` returns 1 at 0, the cosine of 0 being 1. -/
theorem fadeout_calcY_zero (cosD : ℚ → ℚ) (hcos : cosD 0 = 1) (fadeType : TransitionType)
    (x2 : ℚ) : (newTransition fadeType 0 1 x2 0).calcY cosD (fl64 ((0 : Int) : ℚ)) = 1 := by
  simp only [Int.cast_zero, fl64_zero]
  cases fadeType with
  | Linear =>
    simp only [newTransition, Transition.calcY, LinearTransition.new, LinearTransition.calcY]
    by_cases h : (0 : ℚ) = x2
    · rw [if_neg (not_not.mpr h)]
      simp only
      rw [if_pos h]
    · rw [if_pos h]
      simp only
      rw [if_neg h]
      simp [fl64_zero, fl64_one]
  | Cubic =>
    simp only [newTransition, Transition.calcY, CubicTransition.new, CubicTransition.calcY]
    by_cases h : (0 : ℚ) = x2
    · rw [if_neg (not_not.mpr h)]
      simp only
      rw [if_pos h]
    · rw [if_pos h]
      simp only
      rw [if_neg h]
      simp [fl64_zero, fl64_one]
  | Sine =>
    simp only [newTransition, Transition.calcY, SineTransition.new, SineTransition.calcY]
    by_cases h : (0 : ℚ) = x2
    · rw [if_pos h]
    · rw [if_neg h]
      simp only [sub_zero, add_zero, fl64_zero, zero_mul, hcos, fl64_one, one_mul, fl64_half]
      norm_num [fl64_one]

/-- A native sample converts to a `double`. -/
theorem convSampleToDouble_isDouble (st : SampleType) (y : Sample)
    (hn : isNativeSample st y = true) :
    fl64 (convSampleToDouble st
        (if (getSampleBitShift st).required = true then
          shiftRight y (getSampleBitShift st).count else y))
      = convSampleToDouble st
        (if (getSampleBitShift st).required = true then
          shiftRight y (getSampleBitShift st).count else y) := by
  cases y with
  | int w =>
    have hload : ∃ v, (if (getSampleBitShift st).required = true then
          shiftRight (.int w) (getSampleBitShift st).count else Sample.int w) = .int v := by
      by_cases h : (getSampleBitShift st).required = true
      · exact ⟨_, by rw [if_pos h]; rfl⟩
      · exact ⟨_, by rw [if_neg h]⟩
    obtain ⟨v, hv⟩ := hload
    rw [hv]
    simp only [convSampleToDouble]
    exact fl64_idem _
  | flt q =>
    simp only [isNativeSample, Bool.and_eq_true, decide_eq_true_eq] at hn
    obtain ⟨⟨hst, -⟩, hd⟩ := hn
    have hload : (if (getSampleBitShift st).required = true then
          shiftRight (.flt q) (getSampleBitShift st).count else Sample.flt q) = .flt q := by
      by_cases h : (getSampleBitShift st).required = true
      · rw [if_pos h]; rfl
      · rw [if_neg h]
    rw [hload]
    simp only [convSampleToDouble]
    exact hd

/-- With the weights 1 and 0 the weighted sum is the first value. -/
theorem mixed_one_zero {c1 : ℚ} (c2 : ℚ) (h : fl64 c1 = c1) :
    fl64 (fl64 (1 * c1) + fl64 (0 * c2)) = c1 := by
  rw [one_mul, zero_mul, fl64_zero, add_zero, h, h]

theorem fl64_neg_one_sub_half_ulp : fl64 (-1 - (2 : ℚ) ^ (-53 : Int)) = -1 := by
  have e0 : (-1 : ℚ) - (2 : ℚ) ^ (-53 : Int) = -9007199254740993 / 9007199254740992 := by
    norm_num
  rw [e0]
  have h := @fl64_eq_of_binade (-9007199254740993 / 9007199254740992 : ℚ) 0
    (-4503599627370496) (by norm_num [abs_div]) (by norm_num [abs_div]) (by norm_num) (by
      have e : (-9007199254740993 / 9007199254740992 : ℚ) / (2 : ℚ) ^ ((0 : Int) - 52)
          = ((-4503599627370497 : Int) : ℚ) + 1 / 2 := by
        norm_num
      rw [e, roundHalfEven_tie]
      norm_num)
  rw [h]
  norm_num

/-- The linear transition from `(0, 1)` to `(m, 0)` at `m`: zero up to one rounding. -/
theorem linear_fadeout_end (cosD : ℚ → ℚ) {m : Int} (hm1 : 1 ≤ m) (hm2 : m < 2 ^ 53) :
    0 ≤ (newTransition .Linear 0 1 (fl64 (m : ℚ)) 0).calcY cosD (fl64 (m : ℚ))
      ∧ (newTransition .Linear 0 1 (fl64 (m : ℚ)) 0).calcY cosD (fl64 (m : ℚ))
        ≤ (2 : ℚ) ^ (-53 : Int) := by
  have hfm : fl64 (m : ℚ) = m := fl64_intCast (by rw [abs_of_nonneg (by omega)]; exact hm2)
  have hmq1 : (1 : ℚ) ≤ (m : ℚ) := by exact_mod_cast hm1
  have hmq2 : (m : ℚ) < (2 : ℚ) ^ (53 : Int) := by
    have : (m : ℚ) < ((2 ^ 53 : Int) : ℚ) := by exact_mod_cast hm2
    norm_num at this ⊢
    exact this
  have hmpos : (0 : ℚ) < (m : ℚ) := by linarith
  have hmne : (0 : ℚ) ≠ (m : ℚ) := hmpos.ne
  have hu : (2 : ℚ) ^ (-53 : Int) = 1 / 9007199254740992 := by norm_num
  have hval : (newTransition .Linear 0 1 (fl64 (m : ℚ)) 0).calcY cosD (fl64 (m : ℚ))
      = fl64 (fl64 (fl64 (-1 / (m : ℚ)) * (m : ℚ)) + 1) := by
    simp only [newTransition, Transition.calcY, LinearTransition.new, LinearTransition.calcY]
    rw [hfm, if_pos hmne]
    simp only
    rw [if_neg hmne]
    simp only [sub_zero, zero_sub, mul_zero, fl64_zero, fl64_one, fl64_neg_one, hfm]
  rw [hval]
  -- the gradient
  have hq : |(-1 : ℚ) / (m : ℚ)| = 1 / (m : ℚ) := by
    rw [abs_div, abs_neg, abs_one, abs_of_pos hmpos]
  have hinv_lo : (2 : ℚ) ^ (-1022 : Int) ≤ 1 / (m : ℚ) := by
    have h1 : (2 : ℚ) ^ (-53 : Int) ≤ 1 / (m : ℚ) := by
      rw [hu, div_le_div_iff₀ (by norm_num) hmpos]
      norm_num at hmq2
      linarith
    exact le_trans (zpow_le_zpow_right₀ (by norm_num) (by norm_num)) h1
  have hgrel := fl64_rel_error (q := -1 / (m : ℚ)) (by rw [hq]; exact hinv_lo)
  rw [hq, hu, abs_le] at hgrel
  have hone : 1 / (m : ℚ) * (m : ℚ) = 1 := by field_simp
  have hneg : -1 / (m : ℚ) * (m : ℚ) = -1 := by field_simp
  have hlo : -1 - (2 : ℚ) ^ (-53 : Int) ≤ fl64 (-1 / (m : ℚ)) * (m : ℚ) := by
    rw [hu]
    nlinarith [hgrel.1]
  have hhi : fl64 (-1 / (m : ℚ)) * (m : ℚ) ≤ -1 + (2 : ℚ) ^ (-53 : Int) := by
    rw [hu]
    nlinarith [hgrel.2]
  have h1 := fl64_mono hlo
  rw [fl64_neg_one_sub_half_ulp] at h1
  have h2 := fl64_mono hhi
  have hdy : fl64 (-1 + (2 : ℚ) ^ (-53 : Int)) = -1 + (2 : ℚ) ^ (-53 : Int) := by
    have h := fl64_of_dyadic (-9007199254740991) (-53) (by norm_num) (by norm_num)
    have e : ((-9007199254740991 : Int) : ℚ) * (2 : ℚ) ^ (-53 : Int)
        = -1 + (2 : ℚ) ^ (-53 : Int) := by norm_num
    rwa [e] at h
  rw [hdy] at h2
  constructor
  · have := fl64_mono (show (0 : ℚ) ≤ fl64 (fl64 (-1 / (m : ℚ)) * (m : ℚ)) + 1 by linarith)
    rwa [fl64_zero] at this
  · have h3 := fl64_mono
      (show fl64 (fl64 (-1 / (m : ℚ)) * (m : ℚ)) + 1 ≤ (2 : ℚ) ^ (-53 : Int) by linarith)
    have hdy2 : fl64 ((2 : ℚ) ^ (-53 : Int)) = (2 : ℚ) ^ (-53 : Int) := by
      have h := fl64_of_dyadic 1 (-53) (by norm_num) (by norm_num)
      simpa using h
    rwa [hdy2] at h3

set_option maxHeartbeats 1600000 in
/-- The cubic transition from `(0, 1)` to `(m, 0)` at `m`: zero up to rounding. -/
theorem cubic_fadeout_end (cosD : ℚ → ℚ) {m : Int} (hm1 : 1 ≤ m) (hm2 : m < 2 ^ 53) :
    |(newTransition .Cubic 0 1 (fl64 (m : ℚ)) 0).calcY cosD (fl64 (m : ℚ))|
      ≤ (2 : ℚ) ^ (-49 : Int) := by
  have hfm : fl64 (m : ℚ) = m := fl64_intCast (by rw [abs_of_nonneg (by omega)]; exact hm2)
  have hmq1 : (1 : ℚ) ≤ (m : ℚ) := by exact_mod_cast hm1
  have hmq2 : (m : ℚ) < (2 : ℚ) ^ (53 : Int) := by
    have : (m : ℚ) < ((2 ^ 53 : Int) : ℚ) := by exact_mod_cast hm2
    norm_num at this ⊢
    exact this
  have hmpos : (0 : ℚ) < (m : ℚ) := by linarith
  have hmne : (0 : ℚ) ≠ (m : ℚ) := hmpos.ne
  have hval : (newTransition .Cubic 0 1 (fl64 (m : ℚ)) 0).calcY cosD (fl64 (m : ℚ))
      = fl64 (fl64 (fl64 (fl64 (2 / fl64 (fl64 ((m : ℚ) * m) * m)) * fl64 (fl64 ((m : ℚ) * m) * m))
          + fl64 (fl64 (-3 / fl64 ((m : ℚ) * m)) * fl64 ((m : ℚ) * m))) + 1) := by
    have h3 : fl64 (-3 : ℚ) = -3 := by
      have := fl64_intCast (n := -3) (by norm_num)
      simpa using this
    have h2 : fl64 (2 : ℚ) = 2 := by
      have := fl64_intCast (n := 2) (by norm_num)
      simpa using this
    simp only [newTransition, Transition.calcY, CubicTransition.new, CubicTransition.calcY]
    rw [hfm, if_pos hmne]
    simp only
    rw [if_neg hmne]
    simp only [sub_zero, zero_sub, fl64_neg_one, hfm]
    norm_num [h3, h2]
  rw [hval]
  -- the powers
  have hP2lo : (1 : ℚ) ≤ fl64 ((m : ℚ) * m) := by
    have := fl64_mono (show (1 : ℚ) ≤ (m : ℚ) * m by nlinarith)
    rwa [fl64_one] at this
  have hP2hi : fl64 ((m : ℚ) * m) ≤ (2 : ℚ) ^ (106 : Int) := by
    have h := fl64_mono (show (m : ℚ) * m ≤ (2 : ℚ) ^ (106 : Int) by
      have e : (2 : ℚ) ^ (106 : Int) = (2 : ℚ) ^ (53 : Int) * (2 : ℚ) ^ (53 : Int) := by
        rw [← zpow_add₀ (by norm_num : (2 : ℚ) ≠ 0)]
        norm_num
      rw [e]
      nlinarith)
    have hd := fl64_of_dyadic 1 106 (by norm_num) (by norm_num)
    simp only [Int.cast_one, one_mul] at hd
    rwa [hd] at h
  have hP3lo : (1 : ℚ) ≤ fl64 (fl64 ((m : ℚ) * m) * m) := by
    have := fl64_mono (show (1 : ℚ) ≤ fl64 ((m : ℚ) * m) * m by nlinarith)
    rwa [fl64_one] at this
  have hP3hi : fl64 (fl64 ((m : ℚ) * m) * m) ≤ (2 : ℚ) ^ (159 : Int) := by
    have h := fl64_mono (show fl64 ((m : ℚ) * m) * m ≤ (2 : ℚ) ^ (159 : Int) by
      have e : (2 : ℚ) ^ (159 : Int) = (2 : ℚ) ^ (106 : Int) * (2 : ℚ) ^ (53 : Int) := by
        rw [← zpow_add₀ (by norm_num : (2 : ℚ) ≠ 0)]
        norm_num
      rw [e]
      have : (0 : ℚ) < (2 : ℚ) ^ (53 : Int) := two_zpow_pos _
      nlinarith)
    have hd := fl64_of_dyadic 1 159 (by norm_num) (by norm_num)
    simp only [Int.cast_one, one_mul] at hd
    rwa [hd] at h
  generalize fl64 ((m : ℚ) * m) = P2 at hP2lo hP2hi hP3lo hP3hi ⊢
  generalize fl64 (P2 * (m : ℚ)) = P3 at hP3lo hP3hi ⊢
  have hP2pos : (0 : ℚ) < P2 := by linarith
  have hP3pos : (0 : ℚ) < P3 := by linarith
  have hu : (2 : ℚ) ^ (-53 : Int) = 1 / 9007199254740992 := by norm_num
  -- the factors
  have hq3 : (2 : ℚ) ^ (-1022 : Int) ≤ |2 / P3| := by
    rw [abs_of_pos (by positivity)]
    have h1 : (2 : ℚ) ^ (-159 : Int) ≤ 2 / P3 := by
      rw [le_div_iff₀ hP3pos]
      have e : (2 : ℚ) ^ (-159 : Int) * (2 : ℚ) ^ (159 : Int) = 1 := by
        rw [← zpow_add₀ (by norm_num : (2 : ℚ) ≠ 0)]
        norm_num
      have : (0 : ℚ) < (2 : ℚ) ^ (-159 : Int) := two_zpow_pos _
      nlinarith
    exact le_trans (zpow_le_zpow_right₀ (by norm_num) (by norm_num)) h1
  have hf3 := fl64_rel_error hq3
  rw [abs_of_pos (show (0 : ℚ) < 2 / P3 by positivity), hu, abs_le] at hf3
  have hq2 : (2 : ℚ) ^ (-1022 : Int) ≤ |-3 / P2| := by
    rw [abs_div, abs_neg, abs_of_pos (by norm_num : (0 : ℚ) < 3), abs_of_pos hP2pos]
    have h1 : (2 : ℚ) ^ (-106 : Int) ≤ 3 / P2 := by
      rw [le_div_iff₀ hP2pos]
      have e : (2 : ℚ) ^ (-106 : Int) * (2 : ℚ) ^ (106 : Int) = 1 := by
        rw [← zpow_add₀ (by norm_num : (2 : ℚ) ≠ 0)]
        norm_num
      have : (0 : ℚ) < (2 : ℚ) ^ (-106 : Int) := two_zpow_pos _
      nlinarith
    exact le_trans (zpow_le_zpow_right₀ (by norm_num) (by norm_num)) h1
  have hf2 := fl64_rel_error hq2
  rw [abs_div, abs_neg, abs_of_pos (by norm_num : (0 : ℚ) < 3), abs_of_pos hP2pos, hu, abs_le]
    at hf2
  -- the two products
  have e3 : 2 / P3 * P3 = 2 := by field_simp
  have e2 : -3 / P2 * P2 = -3 := by field_simp
  have e2' : 3 / P2 * P2 = 3 := by field_simp
  have ha : |fl64 (2 / P3) * P3 - 2| ≤ 2 / 9007199254740992 := by
    rw [abs_le]
    constructor <;> nlinarith [hf3.1, hf3.2]
  have hb : |fl64 (-3 / P2) * P2 - -3| ≤ 3 / 9007199254740992 := by
    rw [abs_le]
    constructor <;> nlinarith [hf2.1, hf2.2]
  rw [abs_le] at ha hb
  have hA := fl64_error (k := 2) (q := fl64 (2 / P3) * P3) (by
    rw [abs_lt]
    norm_num
    constructor <;> linarith [ha.1, ha.2]) (by norm_num)
  have hB := fl64_error (k := 2) (q := fl64 (-3 / P2) * P2) (by
    rw [abs_lt]
    norm_num
    constructor <;> linarith [hb.1, hb.2]) (by norm_num)
  norm_num at hA hB
  rw [abs_le] at hA hB
  -- the sum
  have hS := fl64_error (k := 1)
    (q := fl64 (fl64 (2 / P3) * P3) + fl64 (fl64 (-3 / P2) * P2)) (by
      rw [abs_lt]
      norm_num
      constructor <;> linarith [ha.1, ha.2, hb.1, hb.2, hA.1, hA.2, hB.1, hB.2])
    (by norm_num)
  norm_num at hS
  rw [abs_le] at hS
  have hT := fl64_error (k := -49)
    (q := fl64 (fl64 (fl64 (2 / P3) * P3) + fl64 (fl64 (-3 / P2) * P2)) + 1) (by
      rw [abs_lt]
      norm_num
      constructor <;>
        linarith [ha.1, ha.2, hb.1, hb.2, hA.1, hA.2, hB.1, hB.2, hS.1, hS.2])
    (by norm_num)
  norm_num at hT ⊢
  rw [abs_le] at hT ⊢
  constructor <;> linarith [ha.1, ha.2, hb.1, hb.2, hA.1, hA.2, hB.1, hB.2, hS.1, hS.2,
    hT.1, hT.2]

/-- The sine transition from `(0, 1)` to `(m, 0)` at `m` is 0 when the cosine of the argument
reached there is `-1`. -/
theorem sine_fadeout_end (cosD : ℚ → ℚ) {m : Int} (hm1 : 1 ≤ m) (hm2 : m < 2 ^ 53)
    (hcos : cosD (fl64 ((m : ℚ) * fl64 (piDouble / (m : ℚ)))) = -1) :
    (newTransition .Sine 0 1 (fl64 (m : ℚ)) 0).calcY cosD (fl64 (m : ℚ)) = 0 := by
  have hfm : fl64 (m : ℚ) = m := fl64_intCast (by rw [abs_of_nonneg (by omega)]; exact hm2)
  have hmq1 : (1 : ℚ) ≤ (m : ℚ) := by exact_mod_cast hm1
  have hmne : (0 : ℚ) ≠ (m : ℚ) := by
    intro h
    rw [← h] at hmq1
    norm_num at hmq1
  have hmh : fl64 (-(1 / 2) : ℚ) = -(1 / 2) := by
    have h := fl64_of_dyadic (-1) (-1) (by norm_num) (by norm_num)
    have e : ((-1 : Int) : ℚ) * (2 : ℚ) ^ (-1 : Int) = -(1 / 2) := by norm_num
    rwa [e] at h
  simp only [newTransition, Transition.calcY, SineTransition.new, SineTransition.calcY]
  rw [hfm, if_neg hmne]
  simp only [sub_zero, add_zero, fl64_one, hfm, hcos, fl64_half]
  norm_num
  rw [hmh]
  norm_num [fl64_zero]

/-! ## Logging, delay, fade, crossfade and mix (claims C11 to C20) -/

/-- C11: over any sequence of `safeConvertSample` calls that starts from reset statistics
(`pre` are the calls made so far, `v` the sample of the next call): the next call emits the
per-sample overflow message once if `v` overflows and the log setting is `All`, once if `v`
overflows, the setting is `Once` and no earlier sample overflowed, and never otherwise (never
under `None`); a call with a non-overflowing sample makes no host call at all. -/
theorem logOverflow_policy (st : SampleType) (ofCtx : OverflowContext)
    (pre : List (ℚ × Int × Int)) (v : ℚ) (totalPos channel : Int) :
    ((safeConvertSample st v totalPos channel ofCtx
          (pre.foldl
            (fun stats c => (safeConvertSample st c.1 c.2.1 c.2.2 ofCtx stats).stats)
            { count := 0, peak := 0 })).calls.countP
        (fun h => match h with
          | .logMessage _ (.overflow _ _ _) => true
          | _ => false)
      = if v < -1 ∨ 1 < v then
          (match ofCtx.log with
            | .All => 1
            | .Once => if ∀ c ∈ pre, ¬ (c.1 < -1 ∨ 1 < c.1) then 1 else 0
            | .None => 0)
        else 0)
      ∧ (¬ (v < -1 ∨ 1 < v) →
          (safeConvertSample st v totalPos channel ofCtx
            (pre.foldl
              (fun stats c => (safeConvertSample st c.1 c.2.1 c.2.2 ofCtx stats).stats)
              { count := 0, peak := 0 })).calls = []) := by
  constructor
  · by_cases hv : v < -1 ∨ 1 < v
    · rw [if_pos hv, safeConvertSample_of_overflowing st totalPos channel ofCtx _ hv,
        handleOverflow_calls_countP, countP_overflow_logOverflow]
      cases hlog : ofCtx.log
      · rfl
      · simp only
        by_cases hpre : ∀ c ∈ pre, ¬ (c.1 < -1 ∨ 1 < c.1)
        · rw [if_pos hpre, if_pos ((stats_count_eq_zero_iff st ofCtx pre).mpr hpre)]
        · rw [if_neg hpre, if_neg]
          intro hc
          exact hpre ((stats_count_eq_zero_iff st ofCtx pre).mp hc)
      · rfl
    · rw [if_neg hv, safeConvertSample_of_not_overflowing st totalPos channel ofCtx _ hv]
      rfl
  · intro hv
    rw [safeConvertSample_of_not_overflowing st totalPos channel ofCtx _ hv]

/-- C12, counterexample: Delay with offset 0 on a 10-sample Int16 stream whose samples are
`-32768` (frame size 8): the frame is produced and output sample 0 is `-32767`, not the input
sample at position 0. -/
theorem delay_changes_minInt :
    ∃ r, delayGetFrame 8 (Delay.new 8 10 .Int16 0 .Error .Once) (fun _ => .int (-32768)) 0 0
          (fun _ => .int 0) { count := 0, peak := 0 } = some r
      ∧ r.ok = true
      ∧ r.frm 0 = .int (-32767)
      ∧ r.frm 0 ≠ (fun _ : Int => Sample.int (-32768)) (0 - 0) := by
  obtain ⟨r, hr, hok, -, -, hfrm⟩ := delayGetFrame_native 8 10 0 .Int16 .Error .Once
    (fun _ => .int (-32768)) 0 0 (fun _ => .int 0) { count := 0, peak := 0 } (by norm_num)
    (by norm_num)
    (fun _ => by show isNativeSample .Int16 (.int _) = true; decide)
    (fun _ q h => by simp at h)
  have h0 := hfrm 0 (by norm_num) (by decide)
  have hval : r.frm 0 = .int (-32767) := by
    rw [h0]
    decide
  refine ⟨r, hr, hok, hval, ?_⟩
  rw [hval]
  decide

/-- C12: Delay keeps the stream length, and for every edit channel, every signed offset,
every output frame `n` and local index `s` (output position `p = n * F + s`), on a stream of
native samples whose floating point values lie in `[-1, 1]`: the frame is produced without a
host call, and the output sample equals the input sample at position `p - offset`, with the
most negative integer written as `-maxInt`, when `offset ≤ p < offset + len`, and equals 0
otherwise. -/
theorem delay_output (F numSamples offset : Int) (st : SampleType) (mode : OverflowMode)
    (log : OverflowLog) (audio : Int → Sample) (ch n s : Int) (outFrm : Int → Sample)
    (stats : OverflowStats) (hF : 0 < F) (hn : 0 ≤ n) (hs0 : 0 ≤ s)
    (hs : s < getFrameSampleCount F n numSamples)
    (hnative : ∀ i, isNativeSample st (audio i) = true)
    (hrange : ∀ i q, audio i = .flt q → -1 ≤ q ∧ q ≤ 1) :
    (Delay.new F numSamples st offset mode log).outNumSamples = numSamples
      ∧ ∃ r, delayGetFrame F (Delay.new F numSamples st offset mode log) audio ch n outFrm
            stats = some r
          ∧ r.ok = true
          ∧ r.calls = []
          ∧ r.frm s
            = if offset ≤ frameToFirstSample F n + s
                ∧ frameToFirstSample F n + s < offset + numSamples then
                (if audio (frameToFirstSample F n + s - offset) = .int (minInt (bitwidth st))
                  then .int (-maxInt (intSampleBits st) * 2 ^ (bitwidth st - intSampleBits st))
                  else audio (frameToFirstSample F n + s - offset))
              else (if isFloatSampleType st = true then .flt 0 else .int 0) := by
  obtain ⟨r, hr, hok, -, hcalls, hfrm⟩ := delayGetFrame_native F numSamples offset st mode log
    audio ch n outFrm stats hF hn hnative hrange
  exact ⟨rfl, r, hr, hok, hcalls, hfrm s hs0 hs⟩

/-- Witness for C12: offset `-5` on a 10-sample Int16 stream of value 1000 with frame size 8;
output sample 2 is the input sample 7 (value 1000) and output sample 7 is 0. -/
theorem delay_output_witness :
    (∃ r, delayGetFrame 8 (Delay.new 8 10 .Int16 (-5) .Error .Once) (fun _ => .int 1000) 0 0
          (fun _ => .int 0) { count := 0, peak := 0 } = some r
        ∧ r.ok = true ∧ r.calls = [] ∧ r.frm 2 = .int 1000)
      ∧ (∃ r, delayGetFrame 8 (Delay.new 8 10 .Int16 (-5) .Error .Once) (fun _ => .int 1000) 0
            0 (fun _ => .int 0) { count := 0, peak := 0 } = some r
          ∧ r.ok = true ∧ r.calls = [] ∧ r.frm 7 = .int 0) := by
  constructor
  · obtain ⟨-, r, hr, hok, hcalls, hfrm⟩ := delay_output 8 10 (-5) .Int16 .Error .Once
      (fun _ => .int 1000) 0 0 2 (fun _ => .int 0) { count := 0, peak := 0 } (by norm_num)
      (by norm_num) (by norm_num) (by decide)
      (fun _ => by show isNativeSample .Int16 (.int _) = true; decide)
      (fun _ q h => by simp at h)
    refine ⟨r, hr, hok, hcalls, ?_⟩
    rw [hfrm]
    decide
  · obtain ⟨-, r, hr, hok, hcalls, hfrm⟩ := delay_output 8 10 (-5) .Int16 .Error .Once
      (fun _ => .int 1000) 0 0 7 (fun _ => .int 0) { count := 0, peak := 0 } (by norm_num)
      (by norm_num) (by norm_num) (by decide)
      (fun _ => by show isNativeSample .Int16 (.int _) = true; decide)
      (fun _ q h => by simp at h)
    refine ⟨r, hr, hok, hcalls, ?_⟩
    rw [hfrm]
    decide

/-- C13, counterexample: a linear fade over the positions `[0, 4)` of a 10-sample Int16
stream (frame size 8) whose sample at position 5 is `-32768` and whose other samples are 0:
frame 0 is produced and its sample 5, outside the fade range, is `-32767`, not the input
sample. -/
theorem fade_changes_minInt_outside :
    ∃ r, fadeGetFrame 8 (fun x => x)
          (Fade.new 8 10 .Int16 0 4 (some (newTransition .Linear 0 1 3 0)) .Error .Once)
          (fun i => if i = 5 then .int (-32768) else .int 0) 0 0 (fun _ => .int 0)
          { count := 0, peak := 0 } = some r
      ∧ r.ok = true
      ∧ r.frm 5 = .int (-32767)
      ∧ r.frm 5 ≠ (fun i : Int => if i = 5 then Sample.int (-32768) else Sample.int 0) 5 := by
  obtain ⟨r, hr, -, hfade⟩ := fadeGetFrame_native (fun x => x) 8 10 0 4 .Int16
    (some (newTransition .Linear 0 1 3 0)) .Error .Once
    (fun i => if i = 5 then .int (-32768) else .int 0) 0 0 (fun _ => .int 0)
    { count := 0, peak := 0 } (by norm_num) (by norm_num)
    (fun i => by
      show isNativeSample .Int16 (if i = 5 then .int (-32768) else .int 0) = true
      split_ifs <;> decide)
    (fun i q h => by
      have h2 : (if i = 5 then Sample.int (-32768) else Sample.int 0) = Sample.flt q := h
      split_ifs at h2)
  obtain ⟨hin, hclean⟩ := hfade (by decide)
  have hok := (hclean (by
    intro t _ s h1 h2 g1 g2
    have hp : ¬ frameToFirstSample 8 0 + s = 5 := by
      simp only [frameToFirstSample] at g2 ⊢
      omega
    have h0 : convSampleToDouble .Int16
        (if (getSampleBitShift .Int16).required = true then
          shiftRight (if frameToFirstSample 8 0 + s = 5 then .int (-32768) else .int 0)
            (getSampleBitShift .Int16).count
        else if frameToFirstSample 8 0 + s = 5 then .int (-32768) else .int 0) = 0 := by
      rw [if_neg hp]
      have hreq : (getSampleBitShift .Int16).required = false := by decide
      rw [hreq]
      simp only [Bool.false_eq_true, if_false, convSampleToDouble, clampSymIntSample]
      rw [if_neg (by decide)]
      simp [fl64_zero]
    rw [h0, mul_zero, fl64_zero]
    norm_num)).1
  have h5 := (hin hok 5 (by norm_num) (by decide)).1 (Or.inr (Or.inr (by decide)))
  have hval : r.frm 5 = .int (-32767) := by
    rw [h5]
    decide
  refine ⟨r, hr, hok, hval, ?_⟩
  rw [hval]
  decide

/-- C13: for Fade on an edit channel, on a stream of native samples whose floating point
values lie in `[-1, 1]`, for every output frame `n` and local index `s` (output position
`p = n * F + s`): a frame outside the frames of the fade is the input frame itself, so its
samples are identical to the input samples; a frame of the fade is written by the loop, which
returns, and when it returns `true` a sample outside `[fadeStart, fadeEnd)` (or any sample
when there is no transition) is the input sample with the most negative integer replaced by
`-maxInt`, and a sample inside is what `safeWriteSample` writes for the `double` product of
`calcY(p - fadeStart)` with the normalised input sample; the frame is produced whenever no
such product lies outside `[-1, 1]`. -/
theorem fade_output (cosD : ℚ → ℚ) (F numSamples fadeStart fadeSamples : Int)
    (st : SampleType) (fadeTrans : Option Transition) (mode : OverflowMode) (log : OverflowLog)
    (audio : Int → Sample) (ch n : Int) (outFrm : Int → Sample) (stats : OverflowStats)
    (hF : 0 < F) (hn : 0 ≤ n) (hnative : ∀ i, isNativeSample st (audio i) = true)
    (hrange : ∀ i q, audio i = .flt q → -1 ≤ q ∧ q ≤ 1) :
    ∃ r, fadeGetFrame F cosD (Fade.new F numSamples st fadeStart fadeSamples fadeTrans mode log)
          audio ch n outFrm stats = some r
      ∧ ((n < (Fade.new F numSamples st fadeStart fadeSamples fadeTrans mode
                log).outFrameFadeStart
            ∨ (Fade.new F numSamples st fadeStart fadeSamples fadeTrans mode
                log).outFrameFadeEnd ≤ n) →
          r.ok = true ∧ r.calls = [] ∧ ∀ s, r.frm s = audio (frameToFirstSample F n + s))
      ∧ (¬ (n < (Fade.new F numSamples st fadeStart fadeSamples fadeTrans mode
                log).outFrameFadeStart
            ∨ (Fade.new F numSamples st fadeStart fadeSamples fadeTrans mode
                log).outFrameFadeEnd ≤ n) →
          (r.ok = true → ∀ s, 0 ≤ s → s < getFrameSampleCount F n numSamples →
            ((fadeTrans = none ∨ frameToFirstSample F n + s < fadeStart
                ∨ fadeStart + fadeSamples ≤ frameToFirstSample F n + s) →
              r.frm s
                = if audio (frameToFirstSample F n + s) = .int (minInt (bitwidth st)) then
                    .int (-maxInt (intSampleBits st) * 2 ^ (bitwidth st - intSampleBits st))
                  else audio (frameToFirstSample F n + s))
            ∧ (∀ t, fadeTrans = some t → fadeStart ≤ frameToFirstSample F n + s →
                frameToFirstSample F n + s < fadeStart + fadeSamples →
                ∀ frm p c stats2,
                  r.frm s = (safeWriteSample st
                    (fl64 (t.calcY cosD
                        (fl64 ((frameToFirstSample F n + s - fadeStart : Int) : ℚ))
                      * convSampleToDouble st
                        (if (getSampleBitShift st).required = true then
                          shiftRight (audio (frameToFirstSample F n + s))
                            (getSampleBitShift st).count
                        else audio (frameToFirstSample F n + s))))
                    frm s p c { mode := mode, log := log } stats2).frm s))
          ∧ ((∀ t, fadeTrans = some t → ∀ s, 0 ≤ s → s < getFrameSampleCount F n numSamples →
                fadeStart ≤ frameToFirstSample F n + s →
                frameToFirstSample F n + s < fadeStart + fadeSamples →
                -1 ≤ fl64 (t.calcY cosD
                        (fl64 ((frameToFirstSample F n + s - fadeStart : Int) : ℚ))
                      * convSampleToDouble st
                        (if (getSampleBitShift st).required = true then
                          shiftRight (audio (frameToFirstSample F n + s))
                            (getSampleBitShift st).count
                        else audio (frameToFirstSample F n + s)))
                  ∧ fl64 (t.calcY cosD
                        (fl64 ((frameToFirstSample F n + s - fadeStart : Int) : ℚ))
                      * convSampleToDouble st
                        (if (getSampleBitShift st).required = true then
                          shiftRight (audio (frameToFirstSample F n + s))
                            (getSampleBitShift st).count
                        else audio (frameToFirstSample F n + s))) ≤ 1) →
              r.ok = true ∧ r.calls = []
                ∧ r.stats = (if n = 0 then { count := 0, peak := 0 } else stats))) :=
  fadeGetFrame_native cosD F numSamples fadeStart fadeSamples st fadeTrans mode log audio ch n
    outFrm stats hF hn hnative hrange

/-- Witness for C13: a linear fade over the positions `[0, 4)` of a 20-sample Int16 stream of
value 1000 with frame size 8; frame 2 lies outside the frames of the fade and is returned as
the input frame. -/
theorem fade_output_witness :
    ∃ r, fadeGetFrame 8 (fun x => x)
          (Fade.new 8 20 .Int16 0 4 (some (newTransition .Linear 0 1 3 0)) .Error .Once)
          (fun _ => .int 1000) 0 2 (fun _ => .int 0) { count := 0, peak := 0 } = some r
      ∧ r.ok = true ∧ r.frm 1 = .int 1000 := by
  obtain ⟨r, hr, hpass, -⟩ := fade_output (fun x => x) 8 20 0 4 .Int16
    (some (newTransition .Linear 0 1 3 0)) .Error .Once (fun _ => .int 1000) 0 2
    (fun _ => .int 0) { count := 0, peak := 0 } (by norm_num) (by norm_num)
    (fun _ => by show isNativeSample .Int16 (.int _) = true; decide)
    (fun _ q h => by simp at h)
  obtain ⟨hok, -, hfrm⟩ := hpass (by decide)
  exact ⟨r, hr, hok, hfrm 1⟩

/-- C14, counterexample: for the fade length `n = 50` the linear fade-in transition from
`(0, 0)` to `(49, 1)` has `calcY(49) = 1 - 2^-53`, which is not `49 / 49 = 1`. -/
theorem linear_fadein_end_ne_one :
    (newTransition .Linear 0 0 (fl64 ((50 - 1 : Int) : ℚ)) 1).calcY (fun x => x)
        (fl64 ((49 : Int) : ℚ)) = 9007199254740991 / 9007199254740992
      ∧ (newTransition .Linear 0 0 (fl64 ((50 - 1 : Int) : ℚ)) 1).calcY (fun x => x)
          (fl64 ((49 : Int) : ℚ)) ≠ ((49 : Int) : ℚ) / ((50 - 1 : Int) : ℚ) := by
  have hg : fl64 (1 / 49 : ℚ) = (5882252574524729 / 288230376151711744 : ℚ) := by
    have h := @fl64_eq_of_binade (1 / 49 : ℚ) (-6) 5882252574524729
      (by norm_num [abs_of_pos]) (by norm_num [abs_of_pos]) (by norm_num) (by
        apply roundHalfEven_eq_of_close
        norm_num [abs_lt])
    rw [h]
    norm_num
  have hv : fl64 (288230376151711721 / 288230376151711744 : ℚ)
      = (9007199254740991 / 9007199254740992 : ℚ) := by
    have h := @fl64_eq_of_binade (288230376151711721 / 288230376151711744 : ℚ) (-1)
      9007199254740991 (by norm_num [abs_of_pos]) (by norm_num [abs_of_pos]) (by norm_num) (by
        apply roundHalfEven_eq_of_close
        norm_num [abs_lt])
    rw [h]
    norm_num
  have hval : (newTransition .Linear 0 0 (fl64 ((50 - 1 : Int) : ℚ)) 1).calcY (fun x => x)
      (fl64 ((49 : Int) : ℚ)) = 9007199254740991 / 9007199254740992 := by
    rw [linear_fadein_calcY (fun x => x) (m := 50 - 1) (k := 49) (by norm_num) (by norm_num)
      (by norm_num) (by norm_num)]
    have e1 : (1 : ℚ) / ((50 - 1 : Int) : ℚ) = 1 / 49 := by norm_num
    have e2 : (5882252574524729 / 288230376151711744 : ℚ) * ((49 : Int) : ℚ)
        = 288230376151711721 / 288230376151711744 := by norm_num
    rw [e1, hg, e2, hv]
  refine ⟨hval, ?_⟩
  rw [hval]
  norm_num

/-- C14: for every fade length `n` with `2 ≤ n ≤ 2^53` and every integer `k` with
`0 ≤ k ≤ n - 1`, the Linear transition built for a fade-in, from `(0, 0)` to `(n - 1, 1)`, has
`calcY(0) = 0` and `calcY(k)` equal to the `double` product of `k` with the `double` nearest
`1 / (n - 1)`, a value in `[0, 1]` within the relative error `2^-51` of `k / (n - 1)`; a
fade-in over a constant full-scale Float64 stream yields the gains `calcY(0), ...,
calcY(n - 1)`, every frame being produced, and the signal is unchanged from position `n`
on. -/
theorem linear_fadein_gain (cosD : ℚ → ℚ) (F numSamples n k : Int) (mode : OverflowMode)
    (log : OverflowLog) (ch f s : Int) (outFrm : Int → Sample) (stats : OverflowStats)
    (hF : 0 < F) (hn1 : 2 ≤ n) (hn2 : n ≤ 2 ^ 53) (hk0 : 0 ≤ k) (hk : k ≤ n - 1)
    (hf : 0 ≤ f) (hs0 : 0 ≤ s) (hs : s < getFrameSampleCount F f numSamples) :
    (newTransition .Linear 0 0 (fl64 ((n - 1 : Int) : ℚ)) 1).calcY cosD (fl64 ((0 : Int) : ℚ))
        = 0
      ∧ (newTransition .Linear 0 0 (fl64 ((n - 1 : Int) : ℚ)) 1).calcY cosD (fl64 (k : ℚ))
          = fl64 (fl64 (1 / ((n - 1 : Int) : ℚ)) * (k : ℚ))
      ∧ 0 ≤ (newTransition .Linear 0 0 (fl64 ((n - 1 : Int) : ℚ)) 1).calcY cosD (fl64 (k : ℚ))
      ∧ (newTransition .Linear 0 0 (fl64 ((n - 1 : Int) : ℚ)) 1).calcY cosD (fl64 (k : ℚ)) ≤ 1
      ∧ |(newTransition .Linear 0 0 (fl64 ((n - 1 : Int) : ℚ)) 1).calcY cosD (fl64 (k : ℚ))
            - (k : ℚ) / ((n - 1 : Int) : ℚ)|
          ≤ (2 : ℚ) ^ (-51 : Int) * ((k : ℚ) / ((n - 1 : Int) : ℚ))
      ∧ ∃ r, fadeGetFrame F cosD
            (Fade.new F numSamples .Float64 0 n
              (some (newTransition .Linear 0 0 (fl64 ((n - 1 : Int) : ℚ)) 1)) mode log)
            (fun _ => .flt 1) ch f outFrm stats = some r
          ∧ r.ok = true
          ∧ r.calls = []
          ∧ r.frm s
            = .flt (if frameToFirstSample F f + s < n then
                (newTransition .Linear 0 0 (fl64 ((n - 1 : Int) : ℚ)) 1).calcY cosD
                  (fl64 ((frameToFirstSample F f + s : Int) : ℚ))
              else 1) := by
  have h0 := linear_fadein_calcY cosD (m := n - 1) (k := 0) (by omega) (by omega) le_rfl
    (by omega)
  have hc := linear_fadein_calcY cosD (m := n - 1) (k := k) (by omega) (by omega) hk0 hk
  have hb := linear_fadein_bounds (m := n - 1) (k := k) (by omega) (by omega) hk0 hk
  refine ⟨?_, hc, ?_, ?_, ?_, ?_⟩
  · rw [h0]
    simp [fl64_zero]
  · rw [hc]
    exact hb.1
  · rw [hc]
    exact hb.2.1
  · rw [hc]
    exact hb.2.2
  · exact fadeGetFrame_linear_fadein cosD F numSamples n mode log ch f s outFrm stats hF hn1
      hn2 hf hs0 hs

/-- Witness for C14: the fade length `n = 4` on a 10-sample stream with frame size 8, gain at
`k = 1` and output sample 5. -/
theorem linear_fadein_gain_witness :
    |(newTransition .Linear 0 0 (fl64 ((4 - 1 : Int) : ℚ)) 1).calcY (fun x => x)
          (fl64 ((1 : Int) : ℚ)) - ((1 : Int) : ℚ) / ((4 - 1 : Int) : ℚ)|
        ≤ (2 : ℚ) ^ (-51 : Int) * (((1 : Int) : ℚ) / ((4 - 1 : Int) : ℚ))
      ∧ ∃ r, fadeGetFrame 8 (fun x => x)
            (Fade.new 8 10 .Float64 0 4
              (some (newTransition .Linear 0 0 (fl64 ((4 - 1 : Int) : ℚ)) 1)) .Error .Once)
            (fun _ => .flt 1) 0 0 (fun _ => .flt 0) { count := 0, peak := 0 } = some r
          ∧ r.ok = true
          ∧ r.calls = []
          ∧ r.frm 5
            = .flt (if frameToFirstSample 8 0 + 5 < 4 then
                (newTransition .Linear 0 0 (fl64 ((4 - 1 : Int) : ℚ)) 1).calcY (fun x => x)
                  (fl64 ((frameToFirstSample 8 0 + 5 : Int) : ℚ))
              else 1) :=
  have h := linear_fadein_gain (fun x => x) 8 10 4 1 .Error .Once 0 0 5 (fun _ => .flt 0)
    { count := 0, peak := 0 } (by decide) (by decide) (by decide) (by decide) (by decide)
    (by decide) (by decide) (by decide)
  ⟨h.2.2.2.2.1, h.2.2.2.2.2⟩

/-- C15, counterexample: CrossFade of two 10-sample Int16 streams with `fadeSamples = 2`
(frame size 8), stream 1 holding `-32768` at position 0: output frame 0 is produced and its
sample 0, before the crossfade, is `-32767`, not stream 1's sample at position 0. -/
theorem crossfade_changes_minInt :
    ∃ r, crossfadeGetFrame 8 (fun x => x) (CrossFade.new 8 10 10 .Int16 2 .Linear .Error .Once)
          (fun i => if i = 0 then .int (-32768) else .int 0) (fun _ => .int 0) 0 0
          (fun _ => .int 0) { count := 0, peak := 0 } = some r
      ∧ r.ok = true
      ∧ r.frm 0 = .int (-32767)
      ∧ r.frm 0 ≠ (fun i : Int => if i = 0 then Sample.int (-32768) else Sample.int 0) 0 := by
  obtain ⟨r, hr, hin, hclean⟩ := crossfadeGetFrame_native (fun x => x) 8 10 10 2 .Int16 .Linear
    .Error .Once (fun i => if i = 0 then .int (-32768) else .int 0) (fun _ => .int 0) 0 0
    (fun _ => .int 0) { count := 0, peak := 0 } (by norm_num) (by norm_num) (by norm_num)
    (fun i => by
      show isNativeSample .Int16 (if i = 0 then .int (-32768) else .int 0) = true
      split_ifs <;> decide)
    (fun _ => by show isNativeSample .Int16 (.int _) = true; decide)
    (fun i q h => by
      have h2 : (if i = 0 then Sample.int (-32768) else Sample.int 0) = Sample.flt q := h
      split_ifs at h2)
    (fun _ q h => by simp at h)
  have hok := (hclean (by
    intro s h1 h2 g1 g2
    exfalso
    have hc : getFrameSampleCount 8 0 (10 + 10 - 2) = 8 := by decide
    rw [hc] at h2
    simp only [frameToFirstSample] at g1
    omega)).1
  have h0 := (hin hok 0 (by norm_num) (by decide)).1 (by decide)
  have hval : r.frm 0 = .int (-32767) := by
    rw [h0]
    decide
  refine ⟨r, hr, hok, hval, ?_⟩
  rw [hval]
  decide

/-- C15: for CrossFade with `0 ≤ fadeSamples`, on streams of native samples whose floating
point values lie in `[-1, 1]`: the output length is `len1 + len2 - fadeSamples`, and with
`fadeStart = len1 - fadeSamples`, for every channel, output frame `n` and local index `s`
(output position `p = n * F + s`) the loop returns, and when it returns `true`: `p < fadeStart`
gives stream 1's sample at `p` and `p ≥ len1` gives stream 2's sample at `p - fadeStart`, each
with the most negative integer replaced by `-maxInt`; `fadeStart ≤ p < len1` gives what
`safeWriteSample` writes for the `double` sum `w1 * a1[p] + w2 * a2[p - fadeStart]` of the
normalised samples, where `w1 = trans.calcY(p - fadeStart)` and `w2` is the `double`
`1 - w1`, so that `w1 + w2` differs from 1 by at most `2^-53` when `|1 - w1| < 2`; the frame
is produced when no such sum lies outside `[-1, 1]`. -/
theorem crossfade_output (cosD : ℚ → ℚ) (F len1 len2 fadeSamples : Int)
    (st : SampleType) (fadeType : TransitionType) (mode : OverflowMode) (log : OverflowLog)
    (audio1 audio2 : Int → Sample) (ch n : Int) (outFrm : Int → Sample)
    (stats : OverflowStats) (hF : 0 < F) (hn : 0 ≤ n) (hfs0 : 0 ≤ fadeSamples)
    (hnative1 : ∀ i, isNativeSample st (audio1 i) = true)
    (hnative2 : ∀ i, isNativeSample st (audio2 i) = true)
    (hrange1 : ∀ i q, audio1 i = .flt q → -1 ≤ q ∧ q ≤ 1)
    (hrange2 : ∀ i q, audio2 i = .flt q → -1 ≤ q ∧ q ≤ 1) :
    (CrossFade.new F len1 len2 st fadeSamples fadeType mode log).outNumSamples
        = len1 + len2 - fadeSamples
      ∧ (CrossFade.new F len1 len2 st fadeSamples fadeType mode log).outPosFadeStart
        = len1 - fadeSamples
      ∧ (∀ k : Int, 0 < fadeSamples →
          (CrossFade.new F len1 len2 st fadeSamples fadeType mode log).scales cosD k
              = ((newTransition fadeType 0 1 (fl64 ((fadeSamples - 1 : Int) : ℚ)) 0).calcY cosD
                  (fl64 (k : ℚ)),
                fl64 (1 - (newTransition fadeType 0 1 (fl64 ((fadeSamples - 1 : Int) : ℚ))
                  0).calcY cosD (fl64 (k : ℚ))))
            ∧ (|1 - (newTransition fadeType 0 1 (fl64 ((fadeSamples - 1 : Int) : ℚ)) 0).calcY
                  cosD (fl64 (k : ℚ))| < 2 →
                |((CrossFade.new F len1 len2 st fadeSamples fadeType mode log).scales cosD k).1
                    + ((CrossFade.new F len1 len2 st fadeSamples fadeType mode log).scales
                        cosD k).2 - 1| ≤ (2 : ℚ) ^ (-53 : Int)))
      ∧ (∃ r, crossfadeGetFrame F cosD (CrossFade.new F len1 len2 st fadeSamples fadeType mode log)
            audio1 audio2 ch n outFrm stats = some r
        ∧ (r.ok = true → ∀ s, 0 ≤ s → s < getFrameSampleCount F n (len1 + len2 - fadeSamples) →
            (frameToFirstSample F n + s < len1 - fadeSamples →
              r.frm s
                = if audio1 (frameToFirstSample F n + s) = .int (minInt (bitwidth st)) then
                    .int (-maxInt (intSampleBits st) * 2 ^ (bitwidth st - intSampleBits st))
                  else audio1 (frameToFirstSample F n + s))
            ∧ (len1 ≤ frameToFirstSample F n + s →
              r.frm s
                = if audio2 (frameToFirstSample F n + s - (len1 - fadeSamples))
                      = .int (minInt (bitwidth st)) then
                    .int (-maxInt (intSampleBits st) * 2 ^ (bitwidth st - intSampleBits st))
                  else audio2 (frameToFirstSample F n + s - (len1 - fadeSamples)))
            ∧ (len1 - fadeSamples ≤ frameToFirstSample F n + s →
                frameToFirstSample F n + s < len1 →
                ∀ frm p c stats2,
                  r.frm s = (safeWriteSample st
                    (fl64 (fl64
                  (((CrossFade.new F len1 len2 st fadeSamples fadeType mode log).scales cosD
                      (frameToFirstSample F n + s - (len1 - fadeSamples))).1
                    * convSampleToDouble st
                      (if (getSampleBitShift st).required = true then
                        shiftRight (audio1 (frameToFirstSample F n + s))
                          (getSampleBitShift st).count
                      else audio1 (frameToFirstSample F n + s)))
                + fl64
                  (((CrossFade.new F len1 len2 st fadeSamples fadeType mode log).scales cosD
                      (frameToFirstSample F n + s - (len1 - fadeSamples))).2
                    * convSampleToDouble st
                      (if (getSampleBitShift st).required = true then
                        shiftRight (audio2 (frameToFirstSample F n + s - (len1 - fadeSamples)))
                          (getSampleBitShift st).count
                      else audio2 (frameToFirstSample F n + s - (len1 - fadeSamples))))))
                    frm s p c { mode := mode, log := log } stats2).frm s))
        ∧ ((∀ s, 0 ≤ s → s < getFrameSampleCount F n (len1 + len2 - fadeSamples) →
              len1 - fadeSamples ≤ frameToFirstSample F n + s →
              frameToFirstSample F n + s < len1 →
              -1 ≤ fl64 (fl64
                  (((CrossFade.new F len1 len2 st fadeSamples fadeType mode log).scales cosD
                      (frameToFirstSample F n + s - (len1 - fadeSamples))).1
                    * convSampleToDouble st
                      (if (getSampleBitShift st).required = true then
                        shiftRight (audio1 (frameToFirstSample F n + s))
                          (getSampleBitShift st).count
                      else audio1 (frameToFirstSample F n + s)))
                + fl64
                  (((CrossFade.new F len1 len2 st fadeSamples fadeType mode log).scales cosD
                      (frameToFirstSample F n + s - (len1 - fadeSamples))).2
                    * convSampleToDouble st
                      (if (getSampleBitShift st).required = true then
                        shiftRight (audio2 (frameToFirstSample F n + s - (len1 - fadeSamples)))
                          (getSampleBitShift st).count
                      else audio2 (frameToFirstSample F n + s - (len1 - fadeSamples)))))
                ∧ fl64 (fl64
                  (((CrossFade.new F len1 len2 st fadeSamples fadeType mode log).scales cosD
                      (frameToFirstSample F n + s - (len1 - fadeSamples))).1
                    * convSampleToDouble st
                      (if (getSampleBitShift st).required = true then
                        shiftRight (audio1 (frameToFirstSample F n + s))
                          (getSampleBitShift st).count
                      else audio1 (frameToFirstSample F n + s)))
                + fl64
                  (((CrossFade.new F len1 len2 st fadeSamples fadeType mode log).scales cosD
                      (frameToFirstSample F n + s - (len1 - fadeSamples))).2
                    * convSampleToDouble st
                      (if (getSampleBitShift st).required = true then
                        shiftRight (audio2 (frameToFirstSample F n + s - (len1 - fadeSamples)))
                          (getSampleBitShift st).count
                      else audio2 (frameToFirstSample F n + s - (len1 - fadeSamples))))) ≤ 1) →
            r.ok = true ∧ r.calls = []
              ∧ r.stats = (if n = 0 then { count := 0, peak := 0 } else stats))) := by
  have hmax : max fadeSamples 0 = fadeSamples := max_eq_left hfs0
  refine ⟨by simp only [CrossFade.new, hmax], by simp only [CrossFade.new, hmax], ?_,
    crossfadeGetFrame_native cosD F len1 len2 fadeSamples st fadeType mode log audio1 audio2
      ch n outFrm stats hF hn hfs0 hnative1 hnative2 hrange1 hrange2⟩
  intro k hk
  have hsc : (CrossFade.new F len1 len2 st fadeSamples fadeType mode log).scales cosD k
      = ((newTransition fadeType 0 1 (fl64 ((fadeSamples - 1 : Int) : ℚ)) 0).calcY cosD
          (fl64 (k : ℚ)),
        fl64 (1 - (newTransition fadeType 0 1 (fl64 ((fadeSamples - 1 : Int) : ℚ))
          0).calcY cosD (fl64 (k : ℚ)))) := by
    simp only [CrossFade.scales, CrossFade.new, hmax, if_pos hk]
  refine ⟨hsc, ?_⟩
  intro hw
  rw [hsc]
  simp only
  have herr := fl64_error (k := 1) (by simpa using hw) (by norm_num)
  have e : (newTransition fadeType 0 1 (fl64 ((fadeSamples - 1 : Int) : ℚ)) 0).calcY cosD
        (fl64 (k : ℚ))
      + fl64 (1 - (newTransition fadeType 0 1 (fl64 ((fadeSamples - 1 : Int) : ℚ)) 0).calcY
        cosD (fl64 (k : ℚ))) - 1
      = fl64 (1 - (newTransition fadeType 0 1 (fl64 ((fadeSamples - 1 : Int) : ℚ)) 0).calcY
          cosD (fl64 (k : ℚ)))
        - (1 - (newTransition fadeType 0 1 (fl64 ((fadeSamples - 1 : Int) : ℚ)) 0).calcY
          cosD (fl64 (k : ℚ))) := by ring
  rw [e]
  norm_num at herr ⊢
  exact herr

/-- Witness for C15: two 10-sample Int16 streams of values 1000 and 2000 with
`fadeSamples = 2` and frame size 8; the output has 18 samples. -/
theorem crossfade_output_witness :
    (CrossFade.new 8 10 10 .Int16 2 .Linear .Error .Once).outNumSamples = 10 + 10 - 2
      ∧ (CrossFade.new 8 10 10 .Int16 2 .Linear .Error .Once).outPosFadeStart = 10 - 2 :=
  have h := crossfade_output (fun x => x) 8 10 10 2 .Int16 .Linear .Error .Once
    (fun _ => .int 1000) (fun _ => .int 2000) 0 0 (fun _ => .int 0) { count := 0, peak := 0 }
    (by decide) (by decide) (by decide)
    (fun _ => by show isNativeSample .Int16 (.int _) = true; decide)
    (fun _ => by show isNativeSample .Int16 (.int _) = true; decide)
    (fun _ q h => by simp at h) (fun _ q h => by simp at h)
  ⟨h.1, h.2.1⟩

/-- C16, counterexample: with `fadeSamples = 1` the position `fadeEnd - 1` is the position
`fadeStart`, where for each transition type stream 1 has weight 1 and stream 2 weight 0; and
with `fadeSamples = 50` and the linear type the weights at `fadeEnd - 1` are `2^-53` and
`1 - 2^-53`, not 0 and 1. -/
theorem crossfade_end_weights_ne :
    (CrossFade.new 8 10 10 .Int16 1 .Linear .Error .Once).scales (fun x => x) (1 - 1) = (1, 0)
      ∧ (CrossFade.new 8 10 10 .Int16 1 .Cubic .Error .Once).scales (fun x => x) (1 - 1)
        = (1, 0)
      ∧ (CrossFade.new 8 10 10 .Int16 1 .Sine .Error .Once).scales (fun x => x) (1 - 1)
        = (1, 0)
      ∧ (CrossFade.new 8 100 100 .Int16 50 .Linear .Error .Once).scales (fun x => x) (50 - 1)
        = (1 / 9007199254740992, 9007199254740991 / 9007199254740992) := by
  refine ⟨?_, ?_, ?_, ?_⟩
  · simp [CrossFade.scales, CrossFade.new, newTransition, Transition.calcY,
      LinearTransition.new, LinearTransition.calcY, fl64_zero]
  · simp [CrossFade.scales, CrossFade.new, newTransition, Transition.calcY,
      CubicTransition.new, CubicTransition.calcY, fl64_zero]
  · simp [CrossFade.scales, CrossFade.new, newTransition, Transition.calcY,
      SineTransition.new, SineTransition.calcY, fl64_zero]
  · have h49 : fl64 (49 : ℚ) = 49 := by
      have := fl64_intCast (n := 49) (by norm_num)
      simpa using this
    have hg : fl64 (-1 / 49 : ℚ) = (-5882252574524729 / 288230376151711744 : ℚ) := by
      have h := @fl64_eq_of_binade (-1 / 49 : ℚ) (-6) (-5882252574524729)
        (by norm_num [abs_div]) (by norm_num [abs_div]) (by norm_num) (by
          apply roundHalfEven_eq_of_close
          norm_num [abs_lt])
      rw [h]
      norm_num
    have hv : fl64 (-288230376151711721 / 288230376151711744 : ℚ)
        = (-9007199254740991 / 9007199254740992 : ℚ) := by
      have h := @fl64_eq_of_binade (-288230376151711721 / 288230376151711744 : ℚ) (-1)
        (-9007199254740991) (by norm_num [abs_div]) (by norm_num [abs_div]) (by norm_num) (by
          apply roundHalfEven_eq_of_close
          norm_num [abs_lt])
      rw [h]
      norm_num
    have hw : fl64 (1 / 9007199254740992 : ℚ) = 1 / 9007199254740992 := by
      have h := fl64_of_dyadic 1 (-53) (by norm_num) (by norm_num)
      norm_num at h
      simpa using h
    have hw2 : fl64 (9007199254740991 / 9007199254740992 : ℚ)
        = 9007199254740991 / 9007199254740992 := by
      have h := fl64_of_dyadic 9007199254740991 (-53) (by norm_num) (by norm_num)
      have e : ((9007199254740991 : Int) : ℚ) * (2 : ℚ) ^ (-53 : Int)
          = 9007199254740991 / 9007199254740992 := by norm_num
      rwa [e] at h
    have hcalc : (newTransition .Linear 0 1 (fl64 ((50 - 1 : Int) : ℚ)) 0).calcY (fun x => x)
        (fl64 ((50 - 1 : Int) : ℚ)) = 1 / 9007199254740992 := by
      have e49 : ((50 - 1 : Int) : ℚ) = 49 := by norm_num
      simp only [newTransition, Transition.calcY, LinearTransition.new,
        LinearTransition.calcY, e49, h49]
      have hne : (0 : ℚ) ≠ 49 := by norm_num
      rw [if_pos hne]
      simp only
      rw [if_neg hne]
      simp only [sub_zero, zero_sub, mul_zero, fl64_zero, fl64_one, fl64_neg_one, h49, hg]
      have e2 : (-5882252574524729 / 288230376151711744 : ℚ) * 49
          = -288230376151711721 / 288230376151711744 := by norm_num
      have e3 : (-9007199254740991 / 9007199254740992 : ℚ) + 1
          = 1 / 9007199254740992 := by norm_num
      rw [e2, hv, e3, hw]
    have hsc : (CrossFade.new 8 100 100 .Int16 50 .Linear .Error .Once).scales (fun x => x)
          (50 - 1)
        = ((newTransition .Linear 0 1 (fl64 ((50 - 1 : Int) : ℚ)) 0).calcY (fun x => x)
            (fl64 ((50 - 1 : Int) : ℚ)),
          fl64 (1 - (newTransition .Linear 0 1 (fl64 ((50 - 1 : Int) : ℚ)) 0).calcY
            (fun x => x) (fl64 ((50 - 1 : Int) : ℚ)))) := by
      simp only [CrossFade.scales, CrossFade.new]
      rfl
    rw [hsc, hcalc]
    have e4 : (1 : ℚ) - 1 / 9007199254740992 = 9007199254740991 / 9007199254740992 := by
      norm_num
    rw [e4, hw2]

/-- C16: for CrossFade with `1 ≤ fadeSamples ≤ 2^53`, each transition type and a cosine with
`cos 0 = 1`: at `pos = fadeStart` the weight of stream 1 is `trans(0) = 1` and the weight of
stream 2 is 0, so the output written there, when the frame is produced from native samples,
is stream 1's sample (the most negative integer written as `-maxInt`).  With
`fadeSamples = 1` the position `fadeEnd - 1` is that same position and the weights are 1
and 0.  With `fadeSamples ≥ 2` the weights at `pos = fadeEnd - 1` are
`t = trans(fadeSamples - 1)` and the `double` `1 - t`, where `t` is 0 up to rounding:
`0 ≤ t ≤ 2^-53` for the linear type, `|t| ≤ 2^-49` for the cubic type and `t = 0` for the
sine type when the cosine returns `-1` at the argument reached; and the weight of stream 2
is within `|t| + 2^-53` of 1. -/
theorem crossfade_endpoints (cosD : ℚ → ℚ) (F len1 len2 fadeSamples : Int)
    (st : SampleType) (fadeType : TransitionType) (mode : OverflowMode) (log : OverflowLog)
    (audio1 audio2 : Int → Sample) (ch n s : Int) (outFrm : Int → Sample)
    (stats : OverflowStats) (hF : 0 < F) (hn : 0 ≤ n) (hfs1 : 1 ≤ fadeSamples)
    (hfs2 : fadeSamples ≤ 2 ^ 53) (hcos0 : cosD 0 = 1) (hs0 : 0 ≤ s)
    (hs : s < getFrameSampleCount F n (len1 + len2 - fadeSamples))
    (hp : frameToFirstSample F n + s = len1 - fadeSamples)
    (hnative1 : ∀ i, isNativeSample st (audio1 i) = true)
    (hnative2 : ∀ i, isNativeSample st (audio2 i) = true)
    (hrange1 : ∀ i q, audio1 i = .flt q → -1 ≤ q ∧ q ≤ 1)
    (hrange2 : ∀ i q, audio2 i = .flt q → -1 ≤ q ∧ q ≤ 1) :
    (CrossFade.new F len1 len2 st fadeSamples fadeType mode log).scales cosD 0 = (1, 0)
      ∧ (∃ r, crossfadeGetFrame F cosD
            (CrossFade.new F len1 len2 st fadeSamples fadeType mode log) audio1 audio2 ch n
            outFrm stats = some r
          ∧ (r.ok = true →
              r.frm s
                = if audio1 (len1 - fadeSamples) = .int (minInt (bitwidth st)) then
                    .int (-maxInt (intSampleBits st) * 2 ^ (bitwidth st - intSampleBits st))
                  else audio1 (len1 - fadeSamples)))
      ∧ (fadeSamples = 1 →
          (CrossFade.new F len1 len2 st fadeSamples fadeType mode log).scales cosD
            (fadeSamples - 1) = (1, 0))
      ∧ (2 ≤ fadeSamples →
          (CrossFade.new F len1 len2 st fadeSamples fadeType mode log).scales cosD
              (fadeSamples - 1)
            = ((newTransition fadeType 0 1 (fl64 ((fadeSamples - 1 : Int) : ℚ)) 0).calcY cosD
                (fl64 ((fadeSamples - 1 : Int) : ℚ)),
              fl64 (1 - (newTransition fadeType 0 1 (fl64 ((fadeSamples - 1 : Int) : ℚ))
                0).calcY cosD (fl64 ((fadeSamples - 1 : Int) : ℚ))))
          ∧ (fadeType = .Linear →
              0 ≤ (newTransition fadeType 0 1 (fl64 ((fadeSamples - 1 : Int) : ℚ)) 0).calcY
                  cosD (fl64 ((fadeSamples - 1 : Int) : ℚ))
                ∧ (newTransition fadeType 0 1 (fl64 ((fadeSamples - 1 : Int) : ℚ)) 0).calcY
                  cosD (fl64 ((fadeSamples - 1 : Int) : ℚ)) ≤ (2 : ℚ) ^ (-53 : Int))
          ∧ (fadeType = .Cubic →
              |(newTransition fadeType 0 1 (fl64 ((fadeSamples - 1 : Int) : ℚ)) 0).calcY
                  cosD (fl64 ((fadeSamples - 1 : Int) : ℚ))| ≤ (2 : ℚ) ^ (-49 : Int))
          ∧ (fadeType = .Sine →
              cosD (fl64 (((fadeSamples - 1 : Int) : ℚ)
                * fl64 (piDouble / ((fadeSamples - 1 : Int) : ℚ)))) = -1 →
              (newTransition fadeType 0 1 (fl64 ((fadeSamples - 1 : Int) : ℚ)) 0).calcY
                  cosD (fl64 ((fadeSamples - 1 : Int) : ℚ)) = 0)
          ∧ (|(newTransition fadeType 0 1 (fl64 ((fadeSamples - 1 : Int) : ℚ)) 0).calcY
                  cosD (fl64 ((fadeSamples - 1 : Int) : ℚ))| < 1 →
              |fl64 (1 - (newTransition fadeType 0 1 (fl64 ((fadeSamples - 1 : Int) : ℚ))
                    0).calcY cosD (fl64 ((fadeSamples - 1 : Int) : ℚ))) - 1|
                ≤ |(newTransition fadeType 0 1 (fl64 ((fadeSamples - 1 : Int) : ℚ))
                    0).calcY cosD (fl64 ((fadeSamples - 1 : Int) : ℚ))|
                  + (2 : ℚ) ^ (-53 : Int))) := by
  have hfs0 : 0 ≤ fadeSamples := by omega
  have hmax : max fadeSamples 0 = fadeSamples := max_eq_left hfs0
  have hpos : 0 < fadeSamples := by omega
  have hsc : ∀ k : Int,
      (CrossFade.new F len1 len2 st fadeSamples fadeType mode log).scales cosD k
        = ((newTransition fadeType 0 1 (fl64 ((fadeSamples - 1 : Int) : ℚ)) 0).calcY cosD
            (fl64 (k : ℚ)),
          fl64 (1 - (newTransition fadeType 0 1 (fl64 ((fadeSamples - 1 : Int) : ℚ))
            0).calcY cosD (fl64 (k : ℚ)))) := by
    intro k
    simp only [CrossFade.scales, CrossFade.new, hmax, if_pos hpos]
  have hstart : (CrossFade.new F len1 len2 st fadeSamples fadeType mode log).scales cosD 0
      = (1, 0) := by
    rw [hsc 0, fadeout_calcY_zero cosD hcos0, sub_self, fl64_zero]
  refine ⟨hstart, ?_, ?_, ?_⟩
  · obtain ⟨r, hr, hin, -⟩ := crossfadeGetFrame_native cosD F len1 len2 fadeSamples st fadeType
      mode log audio1 audio2 ch n outFrm stats hF hn hfs0 hnative1 hnative2 hrange1 hrange2
    refine ⟨r, hr, fun hok => ?_⟩
    have h3 := (hin hok s hs0 hs).2.2 (by omega) (by omega) outFrm 0 ch stats
    rw [h3, hp, sub_self, hstart]
    simp only
    rw [mixed_one_zero _ (convSampleToDouble_isDouble st _ (hnative1 _))]
    exact (safeWriteSample_copy st _ (hnative1 _) (hrange1 _) outFrm s 0 ch
      { mode := mode, log := log } stats).2
  · intro h1
    rw [h1]
    simp only [sub_self]
    rw [← h1]
    exact hstart
  · intro h2
    refine ⟨hsc _, ?_, ?_, ?_, ?_⟩
    · intro hty
      rw [hty]
      exact linear_fadeout_end cosD (by omega) (by omega)
    · intro hty
      rw [hty]
      exact cubic_fadeout_end cosD (by omega) (by omega)
    · intro hty hcos
      rw [hty]
      exact sine_fadeout_end cosD (by omega) (by omega) hcos
    · intro ht
      generalize (newTransition fadeType 0 1 (fl64 ((fadeSamples - 1 : Int) : ℚ)) 0).calcY
        cosD (fl64 ((fadeSamples - 1 : Int) : ℚ)) = t at ht ⊢
      have habs : |1 - t| < (2 : ℚ) ^ (1 : Int) := by
        rw [abs_lt] at ht ⊢
        norm_num
        constructor <;> linarith [ht.1, ht.2]
      have herr := fl64_error habs (by norm_num)
      have hu : (2 : ℚ) ^ ((1 : Int) - 54) = (2 : ℚ) ^ (-53 : Int) := by norm_num
      rw [hu, abs_le] at herr
      have h1 := neg_abs_le t
      have h2 := le_abs_self t
      rw [abs_le]
      constructor <;> linarith [herr.1, herr.2]

/-- Witness for C16: two 10-sample Int16 streams with `fadeSamples = 2`, linear type and frame
size 8; the crossfade starts at position 8, the first sample of output frame 1. -/
theorem crossfade_endpoints_witness :
    (CrossFade.new 8 10 10 .Int16 2 .Linear .Error .Once).scales (fun x => 1 - x) 0 = (1, 0)
      ∧ ∃ r, crossfadeGetFrame 8 (fun x => 1 - x)
            (CrossFade.new 8 10 10 .Int16 2 .Linear .Error .Once) (fun _ => .int 1000)
            (fun _ => .int 2000) 0 1 (fun _ => .int 0) { count := 0, peak := 0 } = some r
          ∧ (r.ok = true →
              r.frm 0
                = if (fun _ : Int => Sample.int 1000) (10 - 2)
                      = .int (minInt (bitwidth .Int16)) then
                    .int (-maxInt (intSampleBits .Int16)
                      * 2 ^ (bitwidth .Int16 - intSampleBits .Int16))
                  else (fun _ : Int => Sample.int 1000) (10 - 2)) :=
  have h := crossfade_endpoints (fun x => 1 - x) 8 10 10 2 .Int16 .Linear .Error .Once
    (fun _ => .int 1000) (fun _ => .int 2000) 0 1 0 (fun _ => .int 0) { count := 0, peak := 0 }
    (by decide) (by decide) (by decide) (by decide) (by norm_num) (by decide) (by decide)
    (by decide)
    (fun _ => by show isNativeSample .Int16 (.int _) = true; decide)
    (fun _ => by show isNativeSample .Int16 (.int _) = true; decide)
    (fun _ q h => by simp at h) (fun _ q h => by simp at h)
  ⟨h.1, h.2.1⟩

/-- C17: for Mix with `extendEnd = false` and (`0 ≤ offset` or `extendStart = false`), for
every offset and so for every validated one: the output length is `len1`, stream 1 occupies
`[0, len1)` unshifted and untrimmed, and the trim window of stream 2 is its span
`[offset, offset + len2)` cut to `[0, len1)`, so it is contained in `[0, len1)`. -/
theorem mix_trims_to_audio1 (F len1 len2 offset fadeinSamples fadeoutSamples : Int)
    (g1 g2 : ℚ) (st : SampleType) (relativeGain extendStart extendEnd : Bool)
    (fadeType : TransitionType) (editChannels : List Int) (mode : OverflowMode)
    (log : OverflowLog) (hend : extendEnd = false) (hstart : 0 ≤ offset ∨ extendStart = false) :
    (Mix.new F len1 g1 len2 g2 st offset relativeGain fadeinSamples fadeoutSamples fadeType
        extendStart extendEnd editChannels mode log).outNumSamples = len1
      ∧ (Mix.new F len1 g1 len2 g2 st offset relativeGain fadeinSamples fadeoutSamples fadeType
          extendStart extendEnd editChannels mode log).outPosAudio1Start = 0
      ∧ (Mix.new F len1 g1 len2 g2 st offset relativeGain fadeinSamples fadeoutSamples fadeType
          extendStart extendEnd editChannels mode log).outPosAudio1End = len1
      ∧ (Mix.new F len1 g1 len2 g2 st offset relativeGain fadeinSamples fadeoutSamples fadeType
          extendStart extendEnd editChannels mode log).outPosAudio1TrimStart = 0
      ∧ (Mix.new F len1 g1 len2 g2 st offset relativeGain fadeinSamples fadeoutSamples fadeType
          extendStart extendEnd editChannels mode log).outPosAudio1TrimEnd = len1
      ∧ (Mix.new F len1 g1 len2 g2 st offset relativeGain fadeinSamples fadeoutSamples fadeType
          extendStart extendEnd editChannels mode log).outPosAudio2Start = offset
      ∧ (Mix.new F len1 g1 len2 g2 st offset relativeGain fadeinSamples fadeoutSamples fadeType
          extendStart extendEnd editChannels mode log).outPosAudio2TrimStart = max offset 0
      ∧ (Mix.new F len1 g1 len2 g2 st offset relativeGain fadeinSamples fadeoutSamples fadeType
          extendStart extendEnd editChannels mode log).outPosAudio2TrimEnd
          = min (offset + len2) len1
      ∧ 0 ≤ (Mix.new F len1 g1 len2 g2 st offset relativeGain fadeinSamples fadeoutSamples
          fadeType extendStart extendEnd editChannels mode log).outPosAudio2TrimStart
      ∧ (Mix.new F len1 g1 len2 g2 st offset relativeGain fadeinSamples fadeoutSamples fadeType
          extendStart extendEnd editChannels mode log).outPosAudio2TrimEnd ≤ len1 := by
  subst hend
  have hcases : (offset < 0 ∧ extendStart = false) ∨ 0 ≤ offset := by
    rcases hstart with h | h
    · exact Or.inr h
    · by_cases ho : offset < 0
      · exact Or.inl ⟨ho, h⟩
      · exact Or.inr (not_lt.mp ho)
  rcases hcases with ⟨ho, hs⟩ | ho
  · subst hs
    simp only [Mix.new, if_pos ho, Bool.false_eq_true, if_false, zero_add]
    by_cases h12 : len1 < offset + len2
    · simp only [if_pos h12, max_def, min_def]
      refine ⟨?_, trivial, trivial, trivial, trivial, trivial, ?_, ?_, ?_, ?_⟩ <;>
        omega
    · simp only [if_neg h12, max_def, min_def]
      refine ⟨?_, trivial, trivial, trivial, trivial, trivial, ?_, ?_, ?_, ?_⟩ <;>
        omega
  · simp only [Mix.new, if_neg (not_lt.mpr ho), Bool.false_eq_true, if_false, zero_add]
    by_cases h12 : len1 < offset + len2
    · simp only [if_pos h12, max_def, min_def]
      refine ⟨?_, trivial, trivial, trivial, trivial, trivial, ?_, ?_, ?_, ?_⟩ <;>
        omega
    · simp only [if_neg h12, max_def, min_def]
      refine ⟨?_, trivial, trivial, trivial, trivial, trivial, ?_, ?_, ?_, ?_⟩ <;>
        omega

/-- Witness for C17: streams of 10 and 8 samples, offset 5, no extension. -/
theorem mix_trims_to_audio1_witness :
    (Mix.new 3072 10 1 8 1 .Int16 5 false 0 0 .Linear false false [0] .Error
        .Once).outNumSamples = 10
      ∧ (Mix.new 3072 10 1 8 1 .Int16 5 false 0 0 .Linear false false [0] .Error
          .Once).outPosAudio2TrimStart = max 5 0
      ∧ (Mix.new 3072 10 1 8 1 .Int16 5 false 0 0 .Linear false false [0] .Error
          .Once).outPosAudio2TrimEnd = min (5 + 8) 10 :=
  have h := mix_trims_to_audio1 3072 10 8 5 0 0 1 1 .Int16 false false false .Linear [0]
    .Error .Once rfl (Or.inl (by decide))
  ⟨h.1, h.2.2.2.2.2.2.1, h.2.2.2.2.2.2.2.1⟩

/-- C18: for Mix with `extendStart = extendEnd = true`, for every offset and so for every
validated one, neither stream is truncated: the trim window of each stream is its full span
(`trimStart_k = start_k`, `trimEnd_k = start_k + len_k`), the earlier stream starts at output
position 0 and the other at `|offset|`, and the output length is
`max(end1, end2) - min(start1, start2)`. -/
theorem mix_extends_both (F len1 len2 offset fadeinSamples fadeoutSamples : Int)
    (g1 g2 : ℚ) (st : SampleType) (relativeGain : Bool) (fadeType : TransitionType)
    (editChannels : List Int) (mode : OverflowMode) (log : OverflowLog) :
    (Mix.new F len1 g1 len2 g2 st offset relativeGain fadeinSamples fadeoutSamples fadeType
        true true editChannels mode log).outPosAudio1TrimStart
        = (Mix.new F len1 g1 len2 g2 st offset relativeGain fadeinSamples fadeoutSamples
            fadeType true true editChannels mode log).outPosAudio1Start
      ∧ (Mix.new F len1 g1 len2 g2 st offset relativeGain fadeinSamples fadeoutSamples fadeType
          true true editChannels mode log).outPosAudio1TrimEnd
          = (Mix.new F len1 g1 len2 g2 st offset relativeGain fadeinSamples fadeoutSamples
              fadeType true true editChannels mode log).outPosAudio1Start + len1
      ∧ (Mix.new F len1 g1 len2 g2 st offset relativeGain fadeinSamples fadeoutSamples fadeType
          true true editChannels mode log).outPosAudio2TrimStart
          = (Mix.new F len1 g1 len2 g2 st offset relativeGain fadeinSamples fadeoutSamples
              fadeType true true editChannels mode log).outPosAudio2Start
      ∧ (Mix.new F len1 g1 len2 g2 st offset relativeGain fadeinSamples fadeoutSamples fadeType
          true true editChannels mode log).outPosAudio2TrimEnd
          = (Mix.new F len1 g1 len2 g2 st offset relativeGain fadeinSamples fadeoutSamples
              fadeType true true editChannels mode log).outPosAudio2Start + len2
      ∧ (Mix.new F len1 g1 len2 g2 st offset relativeGain fadeinSamples fadeoutSamples fadeType
          true true editChannels mode log).outPosAudio1Start = max (-offset) 0
      ∧ (Mix.new F len1 g1 len2 g2 st offset relativeGain fadeinSamples fadeoutSamples fadeType
          true true editChannels mode log).outPosAudio2Start = max offset 0
      ∧ min
          (Mix.new F len1 g1 len2 g2 st offset relativeGain fadeinSamples fadeoutSamples
            fadeType true true editChannels mode log).outPosAudio1Start
          (Mix.new F len1 g1 len2 g2 st offset relativeGain fadeinSamples fadeoutSamples
            fadeType true true editChannels mode log).outPosAudio2Start = 0
      ∧ (Mix.new F len1 g1 len2 g2 st offset relativeGain fadeinSamples fadeoutSamples fadeType
          true true editChannels mode log).outNumSamples
          = max
              (Mix.new F len1 g1 len2 g2 st offset relativeGain fadeinSamples fadeoutSamples
                fadeType true true editChannels mode log).outPosAudio1End
              (Mix.new F len1 g1 len2 g2 st offset relativeGain fadeinSamples fadeoutSamples
                fadeType true true editChannels mode log).outPosAudio2End
            - min
              (Mix.new F len1 g1 len2 g2 st offset relativeGain fadeinSamples fadeoutSamples
                fadeType true true editChannels mode log).outPosAudio1Start
              (Mix.new F len1 g1 len2 g2 st offset relativeGain fadeinSamples fadeoutSamples
                fadeType true true editChannels mode log).outPosAudio2Start := by
  by_cases ho : offset < 0
  · simp only [Mix.new, if_pos ho, if_true, zero_add]
    refine ⟨trivial, ?_, trivial, ?_, ?_, ?_, ?_, ?_⟩ <;>
      first | trivial | omega
  · simp only [Mix.new, if_neg ho, if_true, zero_add]
    refine ⟨trivial, ?_, trivial, ?_, ?_, ?_, ?_, ?_⟩ <;>
      first | trivial | omega

/-- C20 counterexample: with relative gain and the gains `0.1` and `0.3` (as `double`s) the
applied scales are `0.25` and `0.7499999999999999`; their sum is `1 - 2^-53`, not 1, and it
is a `double`, so the `double` sum of the two scales is not 1 either.  With the gains `2^1023`
and `2^1023` the sum of the gains overflows and both scales are 0. -/
theorem mix_relative_scales_sum_ne_one :
    (Mix.new 3072 10 (3602879701896397 / 36028797018963968) 10
        (5404319552844595 / 18014398509481984) .Float64 0 true 0 0 .Linear false false [0]
        .Error .Once).audio1Scale = 1 / 4
      ∧ (Mix.new 3072 10 (3602879701896397 / 36028797018963968) 10
          (5404319552844595 / 18014398509481984) .Float64 0 true 0 0 .Linear false false [0]
          .Error .Once).audio2Scale = 6755399441055743 / 9007199254740992
      ∧ (Mix.new 3072 10 (3602879701896397 / 36028797018963968) 10
            (5404319552844595 / 18014398509481984) .Float64 0 true 0 0 .Linear false false [0]
            .Error .Once).audio1Scale
          + (Mix.new 3072 10 (3602879701896397 / 36028797018963968) 10
            (5404319552844595 / 18014398509481984) .Float64 0 true 0 0 .Linear false false [0]
            .Error .Once).audio2Scale ≠ 1
      ∧ fl64
          ((Mix.new 3072 10 (3602879701896397 / 36028797018963968) 10
              (5404319552844595 / 18014398509481984) .Float64 0 true 0 0 .Linear false false
              [0] .Error .Once).audio1Scale
            + (Mix.new 3072 10 (3602879701896397 / 36028797018963968) 10
              (5404319552844595 / 18014398509481984) .Float64 0 true 0 0 .Linear false false
              [0] .Error .Once).audio2Scale) ≠ 1
      ∧ (Mix.new 3072 10 ((2 : ℚ) ^ 1023) 10 ((2 : ℚ) ^ 1023) .Float64 0 true 0 0 .Linear false
          false [0] .Error .Once).audio1Scale = 0
      ∧ (Mix.new 3072 10 ((2 : ℚ) ^ 1023) 10 ((2 : ℚ) ^ 1023) .Float64 0 true 0 0 .Linear false
          false [0] .Error .Once).audio2Scale = 0 := by
  have hbig : fl64 ((2 : ℚ) ^ 1023 + (2 : ℚ) ^ 1023) = (2 : ℚ) ^ 1024 := by
    have h := fl64_of_dyadic 1 1024 (by norm_num) (by norm_num)
    have e : ((1 : Int) : ℚ) * (2 : ℚ) ^ (1024 : Int) = (2 : ℚ) ^ 1023 + (2 : ℚ) ^ 1023 := by
      norm_num
    have e2 : (2 : ℚ) ^ 1023 + (2 : ℚ) ^ 1023 = (2 : ℚ) ^ 1024 := by norm_num
    rw [e] at h
    rw [h, e2]
  have hbig0 : (2 : ℚ) ^ 1024 ≠ 0 := pow_ne_zero _ (by norm_num)
  have hbigabs : (2 : ℚ) ^ 1024 ≤ |(2 : ℚ) ^ 1024| := le_abs_self _
  have hsum : (3602879701896397 / 36028797018963968 : ℚ)
      + 5404319552844595 / 18014398509481984 = 14411518807585587 / 36028797018963968 := by
    norm_num
  have hT : fl64 (14411518807585587 / 36028797018963968 : ℚ)
      = (3602879701896397 / 9007199254740992 : ℚ) := by
    have h := @fl64_eq_of_binade (14411518807585587 / 36028797018963968 : ℚ) (-2)
      7205759403792794 (by norm_num [abs_of_pos]) (by norm_num [abs_of_pos]) (by norm_num) (by
        have e : (14411518807585587 / 36028797018963968 : ℚ) / (2 : ℚ) ^ ((-2 : Int) - 52)
            = ((7205759403792793 : Int) : ℚ) + 1 / 2 := by
          norm_num
        rw [e, roundHalfEven_tie]
        norm_num)
    rw [h]
    norm_num
  have hq1 : (3602879701896397 / 36028797018963968 : ℚ)
      / (3602879701896397 / 9007199254740992) = 1 / 4 := by
    norm_num
  have hs1 : fl64 (1 / 4 : ℚ) = (1 / 4 : ℚ) := by
    have h := @fl64_eq_of_binade (1 / 4 : ℚ) (-2) 4503599627370496
      (by norm_num [abs_of_pos]) (by norm_num [abs_of_pos]) (by norm_num) (by
        apply roundHalfEven_eq_of_close
        norm_num [abs_lt])
    rw [h]
    norm_num
  have hq2 : (5404319552844595 / 18014398509481984 : ℚ)
      / (3602879701896397 / 9007199254740992) = 5404319552844595 / 7205759403792794 := by
    norm_num
  have hs2 : fl64 (5404319552844595 / 7205759403792794 : ℚ)
      = (6755399441055743 / 9007199254740992 : ℚ) := by
    have h := @fl64_eq_of_binade (5404319552844595 / 7205759403792794 : ℚ) (-1)
      6755399441055743 (by norm_num [abs_of_pos]) (by norm_num [abs_of_pos]) (by norm_num) (by
        apply roundHalfEven_eq_of_close
        norm_num [abs_lt])
    rw [h]
    norm_num
  have hadd : (1 / 4 : ℚ) + 6755399441055743 / 9007199254740992
      = 9007199254740991 / 9007199254740992 := by
    norm_num
  have hss : fl64 (9007199254740991 / 9007199254740992 : ℚ)
      = (9007199254740991 / 9007199254740992 : ℚ) := by
    have h := @fl64_eq_of_binade (9007199254740991 / 9007199254740992 : ℚ) (-1)
      9007199254740991 (by norm_num [abs_of_pos]) (by norm_num [abs_of_pos]) (by norm_num) (by
        apply roundHalfEven_eq_of_close
        norm_num [abs_lt])
    rw [h]
    norm_num
  have hne : (3602879701896397 / 9007199254740992 : ℚ) ≠ 0 := by norm_num
  have hfin : ¬ (2 : ℚ) ^ 1024 ≤ |(3602879701896397 / 9007199254740992 : ℚ)| := by
    rw [abs_of_pos (by norm_num)]
    have : (1 : ℚ) ≤ (2 : ℚ) ^ 1024 := one_le_pow₀ (by norm_num)
    intro hc
    have h1 : (3602879701896397 / 9007199254740992 : ℚ) < 1 := by norm_num
    linarith
  have h1 : (Mix.new 3072 10 (3602879701896397 / 36028797018963968) 10
      (5404319552844595 / 18014398509481984) .Float64 0 true 0 0 .Linear false false [0]
      .Error .Once).audio1Scale = 1 / 4 := by
    simp only [Mix.new, if_true]
    rw [hsum, hT, if_neg hne, if_neg hfin, hq1, hs1]
  have h2 : (Mix.new 3072 10 (3602879701896397 / 36028797018963968) 10
      (5404319552844595 / 18014398509481984) .Float64 0 true 0 0 .Linear false false [0]
      .Error .Once).audio2Scale = 6755399441055743 / 9007199254740992 := by
    simp only [Mix.new, if_true]
    rw [hsum, hT, if_neg hne, if_neg hfin, hq2, hs2]
  refine ⟨h1, h2, ?_, ?_, ?_, ?_⟩
  · rw [h1, h2, hadd]
    norm_num
  · rw [h1, h2, hadd, hss]
    norm_num
  · simp only [Mix.new, if_true]
    rw [hbig, if_neg hbig0, if_pos hbigabs]
  · simp only [Mix.new, if_true]
    rw [hbig, if_neg hbig0, if_pos hbigabs]

/-- C20, amended: for Mix with relative gain and gains `g1 ≥ 0`, `g2 ≥ 0` that are finite
`double`s (`fl64 g = g` and `g < 2^1024`): if `g1 + g2 ≠ 0` and the `double` sum of the gains is finite (below `2^1024`), the
applied scales are the `double` quotients of `g1` and `g2` by the `double` sum `g1 + g2`,
each in `[0, 1]`, and for `g1 + g2 ≥ 2^-1022` their sum differs from 1 by at most `2^-51`; if
the sum of the gains overflows both scales are 0; if `g1 + g2 = 0` both scales are 0.
Without relative gain the scales are `g1` and `g2`. -/
theorem mix_relative_scales (F len1 len2 offset fadeinSamples fadeoutSamples : Int)
    (g1 g2 : ℚ) (st : SampleType) (extendStart extendEnd : Bool) (fadeType : TransitionType)
    (editChannels : List Int) (mode : OverflowMode) (log : OverflowLog)
    (hg1 : 0 ≤ g1) (hg2 : 0 ≤ g2) (hd1 : fl64 g1 = g1) (hd2 : fl64 g2 = g2)
    (hf1 : g1 < (2 : ℚ) ^ 1024) (hf2 : g2 < (2 : ℚ) ^ 1024) :
    (g1 + g2 ≠ 0 → fl64 (g1 + g2) < (2 : ℚ) ^ 1024 →
        (Mix.new F len1 g1 len2 g2 st offset true fadeinSamples fadeoutSamples fadeType
            extendStart extendEnd editChannels mode log).audio1Scale
            = fl64 (g1 / fl64 (g1 + g2))
          ∧ (Mix.new F len1 g1 len2 g2 st offset true fadeinSamples fadeoutSamples fadeType
              extendStart extendEnd editChannels mode log).audio2Scale
              = fl64 (g2 / fl64 (g1 + g2))
          ∧ 0 ≤ fl64 (g1 / fl64 (g1 + g2)) ∧ fl64 (g1 / fl64 (g1 + g2)) ≤ 1
          ∧ 0 ≤ fl64 (g2 / fl64 (g1 + g2)) ∧ fl64 (g2 / fl64 (g1 + g2)) ≤ 1
          ∧ ((2 : ℚ) ^ (-1022 : Int) ≤ g1 + g2 →
              |fl64 (g1 / fl64 (g1 + g2)) + fl64 (g2 / fl64 (g1 + g2)) - 1|
                ≤ (2 : ℚ) ^ (-51 : Int)))
      ∧ ((2 : ℚ) ^ 1024 ≤ fl64 (g1 + g2) →
          (Mix.new F len1 g1 len2 g2 st offset true fadeinSamples fadeoutSamples fadeType
              extendStart extendEnd editChannels mode log).audio1Scale = 0
            ∧ (Mix.new F len1 g1 len2 g2 st offset true fadeinSamples fadeoutSamples fadeType
                extendStart extendEnd editChannels mode log).audio2Scale = 0)
      ∧ (g1 + g2 = 0 →
          (Mix.new F len1 g1 len2 g2 st offset true fadeinSamples fadeoutSamples fadeType
              extendStart extendEnd editChannels mode log).audio1Scale = 0
            ∧ (Mix.new F len1 g1 len2 g2 st offset true fadeinSamples fadeoutSamples fadeType
                extendStart extendEnd editChannels mode log).audio2Scale = 0)
      ∧ (Mix.new F len1 g1 len2 g2 st offset false fadeinSamples fadeoutSamples fadeType
          extendStart extendEnd editChannels mode log).audio1Scale = g1
      ∧ (Mix.new F len1 g1 len2 g2 st offset false fadeinSamples fadeoutSamples fadeType
          extendStart extendEnd editChannels mode log).audio2Scale = g2 := by
  have hTabs : |fl64 (g1 + g2)| = fl64 (g1 + g2) :=
    abs_of_nonneg (fl64_nonneg (by linarith))
  refine ⟨?_, ?_, ?_, ?_, ?_⟩
  · intro hne hfin
    have hT : fl64 (g1 + g2) ≠ 0 := by
      have hpos : 0 < g1 ∨ 0 < g2 := by
        by_contra hc
        push_neg at hc
        exact hne (by linarith [hc.1, hc.2])
      rcases hpos with hp | hp
      · have := fl64_mono (show g1 ≤ g1 + g2 by linarith)
        rw [hd1] at this
        linarith
      · have := fl64_mono (show g2 ≤ g1 + g2 by linarith)
        rw [hd2] at this
        linarith
    have hT2 : fl64 (g2 + g1) ≠ 0 := by rwa [add_comm]
    have hfin2 : ¬ (2 : ℚ) ^ 1024 ≤ |fl64 (g1 + g2)| := by
      rw [hTabs]
      exact not_le.mpr hfin
    obtain ⟨a0, a1, a2, a3, a4⟩ := relative_scale_bounds hg1 hg2 hd1 hT
    obtain ⟨b0, b1, b2, b3, b4⟩ := relative_scale_bounds hg2 hg1 hd2 hT2
    rw [add_comm g2 g1] at b0 b1 b2 b3 b4
    refine ⟨?_, ?_, a2, a3, b2, b3, ?_⟩
    · simp only [Mix.new, if_true]
      rw [if_neg hT, if_neg hfin2]
    · simp only [Mix.new, if_true]
      rw [if_neg hT, if_neg hfin2]
    · intro hS
      have hTpos : 0 < fl64 (g1 + g2) := lt_of_le_of_ne (fl64_nonneg (by linarith)) (Ne.symm hT)
      have hSpos : 0 < g1 + g2 := lt_of_lt_of_le (two_zpow_pos _) hS
      have hrel := fl64_rel_error (show (2 : ℚ) ^ (-1022 : Int) ≤ |g1 + g2| by
        rwa [abs_of_pos hSpos])
      rw [abs_of_pos hSpos] at hrel
      have hu : (2 : ℚ) ^ (-53 : Int) = 1 / 9007199254740992 := by norm_num
      have hu2 : (2 : ℚ) ^ (-51 : Int) = 4 / 9007199254740992 := by norm_num
      rw [hu] at hrel a4 b4
      rw [hu2]
      rw [abs_le] at hrel a4 b4
      have hquot : g1 / fl64 (g1 + g2) + g2 / fl64 (g1 + g2) - 1
          = (g1 + g2 - fl64 (g1 + g2)) / fl64 (g1 + g2) := by
        field_simp
      have hS2 : g1 + g2 ≤ 2 * fl64 (g1 + g2) := by linarith [hrel.1, hrel.2]
      have hq : |g1 / fl64 (g1 + g2) + g2 / fl64 (g1 + g2) - 1| ≤ 2 / 9007199254740992 := by
        rw [hquot, abs_div, abs_of_pos hTpos, div_le_iff₀ hTpos, abs_le]
        constructor <;> linarith [hrel.1, hrel.2]
      rw [abs_le] at hq ⊢
      constructor <;> linarith [hq.1, hq.2, a4.1, a4.2, b4.1, b4.2]
  · intro hov
    have hov2 : (2 : ℚ) ^ 1024 ≤ |fl64 (g1 + g2)| := by rwa [hTabs]
    have hT : fl64 (g1 + g2) ≠ 0 :=
      ne_of_gt (lt_of_lt_of_le (pow_pos (by norm_num) 1024) hov)
    simp only [Mix.new, if_true]
    rw [if_neg hT, if_pos hov2]
    exact ⟨rfl, by rw [if_neg hT, if_pos hov2]⟩
  · intro h0
    have hT : fl64 (g1 + g2) = 0 := by rw [h0, fl64_zero]
    simp only [Mix.new, if_true]
    rw [if_pos hT]
    exact ⟨rfl, if_pos hT⟩
  · simp only [Mix.new, Bool.false_eq_true, if_false]
  · simp only [Mix.new, Bool.false_eq_true, if_false]

/-- Witness for C20: the gains 1 and 3. -/
theorem mix_relative_scales_witness :
    (Mix.new 3072 10 1 10 3 .Int16 0 true 0 0 .Linear false false [0] .Error
        .Once).audio1Scale = fl64 (1 / fl64 (1 + 3))
      ∧ 0 ≤ fl64 ((1 : ℚ) / fl64 (1 + 3)) ∧ fl64 ((1 : ℚ) / fl64 (1 + 3)) ≤ 1 :=
  have h4 : fl64 ((1 : ℚ) + 3) = 4 := by
    have := fl64_intCast (n := 4) (by norm_num)
    norm_num at this ⊢
    exact this
  have hp : (1 : ℚ) < (2 : ℚ) ^ 1024 := by norm_num
  have hp3 : (3 : ℚ) < (2 : ℚ) ^ 1024 := by norm_num
  have hp4 : fl64 ((1 : ℚ) + 3) < (2 : ℚ) ^ 1024 := by
    rw [h4]
    norm_num
  have h := (mix_relative_scales 3072 10 10 0 0 0 1 3 .Int16 false false .Linear [0] .Error
    .Once (by norm_num) (by norm_num) fl64_one
    (by have := fl64_intCast (n := 3) (by norm_num); simpa using this) hp hp3).1
    (by norm_num) hp4
  ⟨h.1, h.2.2.1, h.2.2.2.1⟩

/-! ## Frames read by a Mix -/

/-- Which offset frame `getOffsetSample` reads, and that this frame spans the position. -/
theorem getOffsetSample_frame_spans (F n d offsetTotal baseTotal s : Int)
    (hF : 0 < F) (hn : 0 ≤ n) (hs0 : 0 ≤ s)
    (hs : s < getFrameSampleCount F n baseTotal)
    (hp0 : 0 ≤ frameToFirstSample F n + s - d)
    (hp : frameToFirstSample F n + s - d < offsetTotal) :
    ((getFrameSampleOffsets F d).left = 0 ∨ ¬ -(getFrameSampleOffsets F d).right ≤ s →
        0 ≤ (baseFrameToOffsetFrames F n d offsetTotal baseTotal).left
          ∧ d + (baseFrameToOffsetFrames F n d offsetTotal baseTotal).left * F
              ≤ frameToFirstSample F n + s
          ∧ frameToFirstSample F n + s
              < d + (baseFrameToOffsetFrames F n d offsetTotal baseTotal).left * F + F)
      ∧ (¬ (getFrameSampleOffsets F d).left = 0 ∧ -(getFrameSampleOffsets F d).right ≤ s →
        0 ≤ (baseFrameToOffsetFrames F n d offsetTotal baseTotal).right
          ∧ d + (baseFrameToOffsetFrames F n d offsetTotal baseTotal).right * F
              ≤ frameToFirstSample F n + s
          ∧ frameToFirstSample F n + s
              < d + (baseFrameToOffsetFrames F n d offsetTotal baseTotal).right * F + F) := by
  have hb : 0 ≤ baseTotal := by
    by_contra hc
    push_neg at hc
    rcases getFrameSampleCount_of_neg hF hn hc with h | ⟨-, h⟩ <;> rw [h] at hs <;> linarith
  have ho : 1 ≤ offsetTotal := by linarith
  rw [getFrameSampleCount_eq hF hn hb] at hs
  unfold frameToFirstSample at hp0 hp ⊢
  have hm := Int.emod_add_ediv d F
  have hr0 := Int.emod_nonneg d hF.ne'
  have hr1 := Int.emod_lt_of_pos d hF
  have hN := ediv_bounds hF (offsetTotal - 1)
  by_cases h1 : baseTotal ≤ n * F
  · rw [if_pos h1] at hs; linarith
  rw [if_neg h1] at hs
  have hsF : s < F := lt_of_lt_of_le hs (min_le_left _ _)
  rw [baseFrameToOffsetFrames_eq hF hn hb ho, getFrameSampleOffsets_eq hF]
  rw [if_neg h1]
  have h2 : ¬ (d + offsetTotal ≤ n * F ∨ n * F + min F (baseTotal - n * F) ≤ d) := by
    rintro (h | h) <;> linarith
  rw [if_neg h2]
  by_cases h3 : n * F < d
  · rw [if_pos h3]
    have hk : d / F = n := by
      apply ediv_unique hF <;> nlinarith
    have hr : d % F = d - n * F := by rw [hk] at hm; linarith
    have hrne : ¬ d % F = 0 := by rw [hr]; linarith
    rw [if_neg hrne]
    dsimp only
    constructor
    · rintro (h | h)
      · exfalso; linarith
      · exfalso; apply h; linarith
    · intro _
      refine ⟨le_rfl, by linarith, by linarith⟩
  · rw [if_neg h3]
    push_neg at h3
    have hq0 : 0 ≤ (n * F - d) / F := Int.ediv_nonneg (by linarith) hF.le
    by_cases hr : d % F = 0
    · have hq := ediv_sub_of_emod_eq_zero hF (n := n) hr
      rw [if_pos hr]
      dsimp only
      constructor
      · intro _
        have hl : (if d % F = 0 ∧ 0 ≤ d then
              ({ left := (n * F - d) / F, right := -1 } : OffsetFramePos)
            else if (n * F - d) / F = (offsetTotal - 1) / F then
              { left := (n * F - d) / F, right := -1 }
            else { left := (n * F - d) / F, right := (n * F - d) / F + 1 }).left
            = (n * F - d) / F := by
          split_ifs <;> rfl
        rw [hl]
        refine ⟨hq0, by nlinarith, by nlinarith⟩
      · rintro ⟨h, -⟩
        exact absurd rfl h
    · have hq := ediv_sub_of_emod_ne_zero hF (n := n) hr
      have hpos : 0 < d % F := lt_of_le_of_ne hr0 (Ne.symm hr)
      have h4 : ¬ (d % F = 0 ∧ 0 ≤ d) := fun h => hr h.1
      rw [if_neg h4, if_neg hr]
      dsimp only
      have hl : ¬ F - d % F = 0 := by linarith
      constructor
      · rintro (h | h)
        · exact absurd h hl
        · rw [neg_neg] at h
          push_neg at h
          have hl2 : (if (n * F - d) / F = (offsetTotal - 1) / F then
                ({ left := (n * F - d) / F, right := -1 } : OffsetFramePos)
              else { left := (n * F - d) / F, right := (n * F - d) / F + 1 }).left
              = (n * F - d) / F := by
            split_ifs <;> rfl
          rw [hl2]
          refine ⟨hq0, by nlinarith, by nlinarith⟩
      · rintro ⟨-, hside⟩
        rw [neg_neg] at hside
        have h5 : ¬ (n * F - d) / F = (offsetTotal - 1) / F := by
          intro hc
          rw [hc] at hq
          linarith [hN.2]
        rw [if_neg h5]
        dsimp only
        refine ⟨by linarith, by nlinarith, by nlinarith⟩

/-- The trim test keeps a frame that spans a position of the trim window. -/
theorem trim_keeps_frame {F : Int} (hF : 0 < F) {f total d ts te q : Int} (hf : 0 ≤ f)
    (hq0 : d + f * F ≤ q) (hq1 : q < d + f * F + F) (hq2 : q < d + total) (hts : ts ≤ q)
    (hte : q < te) :
    ¬ (te ≤ d + frameToFirstSample F f ∨ d + frameToLastSample F f total ≤ ts) := by
  have hfF : 0 ≤ f * F := mul_nonneg hf hF.le
  have ht : 0 ≤ total := by linarith
  unfold frameToLastSample frameToFirstSample
  simp only [getFrameSampleCount_eq hF hf ht]
  have h1 : ¬ total ≤ f * F := by linarith
  rw [if_neg h1]
  have hmin : q - d - f * F < min F (total - f * F) := lt_min (by linarith) (by linarith)
  have hne : ¬ min F (total - f * F) = 0 := by
    intro hc; rw [hc] at hmin; linarith
  rw [if_neg hne]
  rintro (h | h) <;> linarith

/-- The offset stream's sample is read through the frames of `baseFrameToOffsetFramesTrim`
when the position lies in the trim window. -/
theorem getOffsetSample_eq_stream_trim {α : Type}
    (F n d offsetTotal trimStart trimEnd baseTotal s : Int)
    (stream : Int → α) (hF : 0 < F) (hn : 0 ≤ n) (hs0 : 0 ≤ s)
    (hs : s < getFrameSampleCount F n baseTotal)
    (hp0 : 0 ≤ frameToFirstSample F n + s - d)
    (hp : frameToFirstSample F n + s - d < offsetTotal)
    (ht0 : trimStart ≤ frameToFirstSample F n + s)
    (ht1 : frameToFirstSample F n + s < trimEnd) :
    getOffsetSample s (getFrameSampleOffsets F d)
        (frameReadPtr F stream offsetTotal
          (baseFrameToOffsetFramesTrim F n d offsetTotal trimStart trimEnd baseTotal).left)
        (frameReadPtr F stream offsetTotal
          (baseFrameToOffsetFramesTrim F n d offsetTotal trimStart trimEnd baseTotal).right)
      = some (stream (frameToFirstSample F n + s - d))
    ∧ 0 ≤ (if (getFrameSampleOffsets F d).left = 0 ∨ ¬ -(getFrameSampleOffsets F d).right ≤ s
        then (baseFrameToOffsetFramesTrim F n d offsetTotal trimStart trimEnd baseTotal).left
        else (baseFrameToOffsetFramesTrim F n d offsetTotal trimStart trimEnd baseTotal).right)
      := by
  have hspan := getOffsetSample_frame_spans F n d offsetTotal baseTotal s hF hn hs0 hs hp0 hp
  have hread := getOffsetSample_eq_stream F n d offsetTotal baseTotal s stream hF hn hs0 hs hp0 hp
  have hq2 : frameToFirstSample F n + s < d + offsetTotal := by linarith
  by_cases hside : (getFrameSampleOffsets F d).left = 0 ∨ ¬ -(getFrameSampleOffsets F d).right ≤ s
  · obtain ⟨hf, hq0, hq1⟩ := hspan.1 hside
    have hkeep := trim_keeps_frame hF hf hq0 hq1 hq2 ht0 ht1
    have hL : (baseFrameToOffsetFramesTrim F n d offsetTotal trimStart trimEnd baseTotal).left
        = (baseFrameToOffsetFrames F n d offsetTotal baseTotal).left := by
      unfold baseFrameToOffsetFramesTrim
      simp only [if_pos hf, if_neg hkeep]
    rw [if_pos hside, hL]
    refine ⟨?_, hf⟩
    rw [← hread]
    unfold getOffsetSample
    rcases hside with h | h
    · rw [if_pos h, if_pos h]
    · by_cases h0 : (getFrameSampleOffsets F d).left = 0
      · rw [if_pos h0, if_pos h0]
      · rw [if_neg h0, if_neg h0, if_neg h, if_neg h]
  · have hside2 : ¬ (getFrameSampleOffsets F d).left = 0
        ∧ -(getFrameSampleOffsets F d).right ≤ s := by
      push_neg at hside
      exact ⟨hside.1, hside.2⟩
    obtain ⟨hf, hq0, hq1⟩ := hspan.2 hside2
    have hkeep := trim_keeps_frame hF hf hq0 hq1 hq2 ht0 ht1
    have hR : (baseFrameToOffsetFramesTrim F n d offsetTotal trimStart trimEnd baseTotal).right
        = (baseFrameToOffsetFrames F n d offsetTotal baseTotal).right := by
      unfold baseFrameToOffsetFramesTrim
      simp only [if_pos hf, if_neg hkeep]
    rw [if_neg hside, hR]
    refine ⟨?_, hf⟩
    rw [← hread]
    unfold getOffsetSample
    rw [if_neg hside2.1, if_neg hside2.1, if_pos hside2.2, if_pos hside2.2]

/-- The trim window of each stream of a Mix lies inside the stream's span. -/
theorem mix_trim_inside_span (F len1 len2 offset fadeinSamples fadeoutSamples : Int)
    (g1 g2 : ℚ) (st : SampleType) (relativeGain extendStart extendEnd : Bool)
    (fadeType : TransitionType) (editChannels : List Int) (mode : OverflowMode)
    (log : OverflowLog) :
    (Mix.new F len1 g1 len2 g2 st offset relativeGain fadeinSamples fadeoutSamples fadeType
        extendStart extendEnd editChannels mode log).outPosAudio1Start
        ≤ (Mix.new F len1 g1 len2 g2 st offset relativeGain fadeinSamples fadeoutSamples
            fadeType extendStart extendEnd editChannels mode log).outPosAudio1TrimStart
      ∧ (Mix.new F len1 g1 len2 g2 st offset relativeGain fadeinSamples fadeoutSamples fadeType
          extendStart extendEnd editChannels mode log).outPosAudio1TrimEnd
        ≤ (Mix.new F len1 g1 len2 g2 st offset relativeGain fadeinSamples fadeoutSamples
            fadeType extendStart extendEnd editChannels mode log).outPosAudio1Start + len1
      ∧ (Mix.new F len1 g1 len2 g2 st offset relativeGain fadeinSamples fadeoutSamples fadeType
          extendStart extendEnd editChannels mode log).outPosAudio2Start
        ≤ (Mix.new F len1 g1 len2 g2 st offset relativeGain fadeinSamples fadeoutSamples
            fadeType extendStart extendEnd editChannels mode log).outPosAudio2TrimStart
      ∧ (Mix.new F len1 g1 len2 g2 st offset relativeGain fadeinSamples fadeoutSamples fadeType
          extendStart extendEnd editChannels mode log).outPosAudio2TrimEnd
        ≤ (Mix.new F len1 g1 len2 g2 st offset relativeGain fadeinSamples fadeoutSamples
            fadeType extendStart extendEnd editChannels mode log).outPosAudio2Start + len2 := by
  simp only [Mix.new]
  refine ⟨le_rfl, le_rfl, ?_, ?_⟩
  · split_ifs <;> omega
  · split_ifs <;> omega

/-! ## Seconds to samples -/

/-- The cast to `int64_t` has a value for a `double` of magnitude below `2^63`. -/
theorem truncToInt_of_lt {d : ℚ} (h : |d| < 2 ^ 63) :
    truncToInt d = some (if 0 ≤ d then ⌊d⌋ else ⌈d⌉) := by
  have e1 : minInt 64 = -9223372036854775808 := by decide
  have e2 : maxInt 64 = 9223372036854775807 := by decide
  have e3 : (2 : ℚ) ^ 63 = 9223372036854775808 := by norm_num
  rw [e3, abs_lt] at h
  unfold truncToInt
  simp only
  rw [if_pos]
  rw [e1, e2]
  split_ifs with h0
  · have ha : 0 ≤ ⌊d⌋ := Int.floor_nonneg.mpr h0
    have hb : ⌊d⌋ < 9223372036854775808 := Int.floor_lt.mpr (by push_cast; exact h.2)
    constructor <;> omega
  · push_neg at h0
    have ha : ⌈d⌉ ≤ 0 := Int.ceil_le.mpr (by simpa using h0.le)
    have hb : -9223372036854775808 < ⌈d⌉ := Int.lt_ceil.mpr (by push_cast; exact h.1)
    constructor <;> omega

/-- The cast of an integer in the range of `int64_t` is the integer. -/
theorem truncToInt_intCast {r : Int} (h : |(r : ℚ)| < 2 ^ 63) :
    truncToInt (r : ℚ) = some r := by
  rw [truncToInt_of_lt h]
  split_ifs
  · rw [Int.floor_intCast]
  · rw [Int.ceil_intCast]

theorem trunc_abs_le (d : ℚ) : |(((if 0 ≤ d then ⌊d⌋ else ⌈d⌉ : Int)) : ℚ)| ≤ |d| := by
  split_ifs with h
  · rw [abs_of_nonneg h, abs_of_nonneg (by exact_mod_cast Int.floor_nonneg.mpr h)]
    exact Int.floor_le d
  · push_neg at h
    have h1 : (⌈d⌉ : ℚ) ≤ 0 := by exact_mod_cast Int.ceil_le.mpr (by simpa using h.le)
    rw [abs_of_neg h, abs_of_nonpos h1]
    linarith [Int.le_ceil d]

theorem trunc_eq_roundHalfAway_iff (d : ℚ) :
    (if 0 ≤ d then ⌊d⌋ else ⌈d⌉) = roundHalfAway d ↔ |d| - ⌊|d|⌋ < 1 / 2 := by
  unfold roundHalfAway
  by_cases h : 0 ≤ d
  · rw [if_pos h, if_pos h, abs_of_nonneg h]
    have h1 := Int.floor_le d
    have h2 := Int.lt_floor_add_one d
    constructor
    · intro he
      have : d + 1 / 2 < ⌊d⌋ + 1 := by
        have := Int.lt_floor_add_one (d + 1 / 2)
        rw [← he] at this
        exact this
      linarith
    · intro hl
      symm
      rw [Int.floor_eq_iff]
      constructor <;> linarith
  · rw [if_neg h, if_neg h]
    push_neg at h
    rw [abs_of_neg h]
    have hc : ⌈d⌉ = -⌊-d⌋ := by rw [Int.floor_neg]; ring
    rw [hc]
    have h1 := Int.floor_le (-d)
    have h2 := Int.lt_floor_add_one (-d)
    constructor
    · intro he
      have he2 : ⌊-d⌋ = ⌊-d + 1 / 2⌋ := by linarith
      have : -d + 1 / 2 < ⌊-d⌋ + 1 := by
        have := Int.lt_floor_add_one (-d + 1 / 2)
        rw [← he2] at this
        exact this
      linarith
    · intro hl
      have : ⌊-d + 1 / 2⌋ = ⌊-d⌋ := by
        rw [Int.floor_eq_iff]
        constructor <;> linarith
      rw [this]

/-- With the sample-count argument absent and the seconds given, for a `double` product
`sampleRate * seconds` of magnitude below `2^62`: `getOptSamples` returns the product truncated
towards zero, of magnitude at most the product's, and the result is that of `secondsToSamples`
(the rounded product) exactly when the fractional part of the product's magnitude is below one
half.  A present sample count is returned as it is, and the default when both arguments are
absent. -/
theorem getOptSamples_seconds (seconds : ℚ) (defaultValue sampleRate : Int)
    (hr : |fl64 ((sampleRate : ℚ) * seconds)| < 2 ^ 62) :
    vsmap.getOptSamples none (some seconds) defaultValue sampleRate
        = some (if 0 ≤ fl64 ((sampleRate : ℚ) * seconds) then
            ⌊fl64 ((sampleRate : ℚ) * seconds)⌋
          else ⌈fl64 ((sampleRate : ℚ) * seconds)⌉)
      ∧ |(((if 0 ≤ fl64 ((sampleRate : ℚ) * seconds) then
            ⌊fl64 ((sampleRate : ℚ) * seconds)⌋
          else ⌈fl64 ((sampleRate : ℚ) * seconds)⌉ : Int)) : ℚ)|
        ≤ |fl64 ((sampleRate : ℚ) * seconds)|
      ∧ secondsToSamples seconds sampleRate
        = some (roundHalfAway (fl64 ((sampleRate : ℚ) * seconds)))
      ∧ (vsmap.getOptSamples none (some seconds) defaultValue sampleRate
          = secondsToSamples seconds sampleRate
        ↔ |fl64 ((sampleRate : ℚ) * seconds)| - ⌊|fl64 ((sampleRate : ℚ) * seconds)|⌋ < 1 / 2)
      ∧ (∀ s : Int, ∀ sec : Option ℚ,
          vsmap.getOptSamples (some s) sec defaultValue sampleRate = some s)
      ∧ vsmap.getOptSamples none none defaultValue sampleRate = some defaultValue := by
  obtain ⟨p, hp⟩ : ∃ p : ℚ, p = fl64 ((sampleRate : ℚ) * seconds) := ⟨_, rfl⟩
  rw [← hp] at hr ⊢
  have e62 : (2 : ℚ) ^ 62 = 4611686018427387904 := by norm_num
  have e63 : (2 : ℚ) ^ 63 = 9223372036854775808 := by norm_num
  have hlt : |p| < 2 ^ 63 := by
    rw [e63]
    rw [e62] at hr
    linarith
  have h1 : vsmap.getOptSamples none (some seconds) defaultValue sampleRate
      = some (if 0 ≤ p then ⌊p⌋ else ⌈p⌉) := by
    simp only [vsmap.getOptSamples]
    rw [← hp]
    exact truncToInt_of_lt hlt
  have h2 : secondsToSamples seconds sampleRate = some (roundHalfAway p) := by
    simp only [secondsToSamples]
    rw [mul_comm seconds, ← hp]
    apply truncToInt_intCast
    rw [e62, abs_lt] at hr
    have hb := @roundHalfAway_bounds p 4611686018427387904 (by norm_num)
      (by push_cast; linarith [hr.1]) (by push_cast; linarith [hr.2])
    rw [e63, abs_lt]
    have hb1 : ((-4611686018427387904 : Int) : ℚ) ≤ (roundHalfAway p : ℚ) := by
      exact_mod_cast hb.1
    have hb2 : (roundHalfAway p : ℚ) ≤ ((4611686018427387904 : Int) : ℚ) := by
      exact_mod_cast hb.2
    push_cast at hb1 hb2
    constructor <;> linarith
  refine ⟨h1, trunc_abs_le p, h2, ?_, fun _ _ => rfl, rfl⟩
  rw [h1, h2, Option.some_inj]
  exact trunc_eq_roundHalfAway_iff p

/-! ## The transitions in exact arithmetic: end values, shape of the cubic -/

theorem linear_calcYExact_ends {K : Type} [LinearOrderedField K] (x1 y1 x2 y2 : K)
    (h : x1 ≠ x2) :
    LinearTransition.calcYExact x1 y1 x2 y2 x1 = y1
      ∧ LinearTransition.calcYExact x1 y1 x2 y2 x2 = y2 := by
  have hd : x2 - x1 ≠ 0 := sub_ne_zero.mpr (Ne.symm h)
  unfold LinearTransition.calcYExact
  simp only [if_neg h]
  constructor
  · ring
  · field_simp
    ring

theorem cubic_calcYExact_eq {K : Type} [LinearOrderedField K] (x1 y1 x2 y2 x : K)
    (h : x1 ≠ x2) :
    CubicTransition.calcYExact x1 y1 x2 y2 x
      = y1 + (y2 - y1) * (3 * ((x - x1) / (x2 - x1)) ^ 2 - 2 * ((x - x1) / (x2 - x1)) ^ 3) := by
  have hd : x2 - x1 ≠ 0 := sub_ne_zero.mpr (Ne.symm h)
  unfold CubicTransition.calcYExact
  simp only [if_neg h]
  field_simp
  ring

theorem cubic_calcYExact_ends {K : Type} [LinearOrderedField K] (x1 y1 x2 y2 : K)
    (h : x1 ≠ x2) :
    CubicTransition.calcYExact x1 y1 x2 y2 x1 = y1
      ∧ CubicTransition.calcYExact x1 y1 x2 y2 x2 = y2 := by
  have hd : x2 - x1 ≠ 0 := sub_ne_zero.mpr (Ne.symm h)
  rw [cubic_calcYExact_eq x1 y1 x2 y2 x1 h, cubic_calcYExact_eq x1 y1 x2 y2 x2 h]
  constructor
  · simp
  · rw [div_self hd]
    ring

theorem calcYExact_degenerate {K : Type} [LinearOrderedField K] (cos : K → K) (pi : K)
    (x1 y1 y2 x : K) :
    LinearTransition.calcYExact x1 y1 x1 y2 x = y1
      ∧ CubicTransition.calcYExact x1 y1 x1 y2 x = y1
      ∧ SineTransition.calcYExact cos pi x1 y1 x1 y2 x = y1 := by
  simp [LinearTransition.calcYExact, CubicTransition.calcYExact, SineTransition.calcYExact]

/-- The smoothstep `3 t² - 2 t³` is monotone on `[0, 1]`. -/
theorem smoothstep_mono {K : Type} [LinearOrderedField K] {s t : K} (hs : 0 ≤ s) (hst : s ≤ t)
    (ht : t ≤ 1) : 3 * s ^ 2 - 2 * s ^ 3 ≤ 3 * t ^ 2 - 2 * t ^ 3 := by
  have h1 : 0 ≤ t - s := sub_nonneg.mpr hst
  have h2 : 0 ≤ 1 - t := sub_nonneg.mpr ht
  have h3 : 0 ≤ 1 - s := by linarith
  have h4 : 0 ≤ t := le_trans hs hst
  have e : 3 * t ^ 2 - 2 * t ^ 3 - (3 * s ^ 2 - 2 * s ^ 3)
      = (t - s) * (2 * (t * (1 - t)) + 2 * (s * (1 - s)) + t * (1 - s) + s * (1 - t)) := by
    ring
  have hp : 0 ≤ (t - s) * (2 * (t * (1 - t)) + 2 * (s * (1 - s)) + t * (1 - s) + s * (1 - t)) := by
    apply mul_nonneg h1
    have := mul_nonneg h4 h2
    have := mul_nonneg hs h3
    have := mul_nonneg h4 h3
    have := mul_nonneg hs h2
    linarith
  linarith

theorem smoothstep_bounds {K : Type} [LinearOrderedField K] {t : K} (h0 : 0 ≤ t) (h1 : t ≤ 1) :
    0 ≤ 3 * t ^ 2 - 2 * t ^ 3 ∧ 3 * t ^ 2 - 2 * t ^ 3 ≤ 1 := by
  have a := smoothstep_mono (le_refl (0 : K)) h0 h1
  have b := smoothstep_mono h0 h1 (le_refl (1 : K))
  norm_num at a b
  exact ⟨by linarith, by linarith⟩

/-- Position of `x` in the span, as a number in `[0, 1]`. -/
theorem span_param {K : Type} [LinearOrderedField K] {x1 x2 x : K} (h : x1 ≠ x2)
    (hx : x ∈ Set.uIcc x1 x2) :
    0 ≤ (x - x1) / (x2 - x1) ∧ (x - x1) / (x2 - x1) ≤ 1 := by
  rw [Set.mem_uIcc] at hx
  rcases lt_or_gt_of_ne h with hlt | hgt
  · have hd : 0 < x2 - x1 := sub_pos.mpr hlt
    rcases hx with ⟨ha, hb⟩ | ⟨ha, hb⟩
    · exact ⟨div_nonneg (by linarith) hd.le, (div_le_one hd).mpr (by linarith)⟩
    · exfalso; linarith
  · have hd : x2 - x1 < 0 := sub_neg.mpr hgt
    rcases hx with ⟨ha, hb⟩ | ⟨ha, hb⟩
    · exfalso; linarith
    · constructor
      · exact div_nonneg_of_nonpos (by linarith) hd.le
      · rw [div_le_one_of_neg hd]
        linarith

theorem cubic_calcYExact_between {K : Type} [LinearOrderedField K] (x1 y1 x2 y2 x : K)
    (h : x1 ≠ x2) (hx : x ∈ Set.uIcc x1 x2) :
    CubicTransition.calcYExact x1 y1 x2 y2 x ∈ Set.uIcc y1 y2 := by
  obtain ⟨t0, t1⟩ := span_param h hx
  obtain ⟨b0, b1⟩ := smoothstep_bounds t0 t1
  rw [cubic_calcYExact_eq x1 y1 x2 y2 x h, Set.mem_uIcc]
  generalize 3 * ((x - x1) / (x2 - x1)) ^ 2 - 2 * ((x - x1) / (x2 - x1)) ^ 3 = w at b0 b1
  rcases le_total y1 y2 with hy | hy
  · left
    have := mul_nonneg (sub_nonneg.mpr hy) b0
    have := mul_nonneg (sub_nonneg.mpr hy) (sub_nonneg.mpr b1)
    constructor <;> nlinarith
  · right
    have := mul_nonneg (sub_nonneg.mpr hy) b0
    have := mul_nonneg (sub_nonneg.mpr hy) (sub_nonneg.mpr b1)
    constructor <;> nlinarith

/-- Along the span from `x1` to `x2` the exact cubic moves from `y1` towards `y2`: of two
points of the span, the one farther from `x1` has its value on the side of `y2`. -/
theorem cubic_calcYExact_mono {K : Type} [LinearOrderedField K] (x1 y1 x2 y2 a b : K)
    (h : x1 ≠ x2) (ha : a ∈ Set.uIcc x1 x2) (hb : b ∈ Set.uIcc x1 x2)
    (hab : (a - x1) / (x2 - x1) ≤ (b - x1) / (x2 - x1)) :
    (y1 ≤ y2 → CubicTransition.calcYExact x1 y1 x2 y2 a
        ≤ CubicTransition.calcYExact x1 y1 x2 y2 b)
      ∧ (y2 ≤ y1 → CubicTransition.calcYExact x1 y1 x2 y2 b
        ≤ CubicTransition.calcYExact x1 y1 x2 y2 a) := by
  obtain ⟨a0, -⟩ := span_param h ha
  obtain ⟨-, b1⟩ := span_param h hb
  have hm := smoothstep_mono a0 hab b1
  rw [cubic_calcYExact_eq x1 y1 x2 y2 a h, cubic_calcYExact_eq x1 y1 x2 y2 b h]
  constructor
  · intro hy
    have := mul_le_mul_of_nonneg_left hm (sub_nonneg.mpr hy)
    linarith
  · intro hy
    have := mul_le_mul_of_nonneg_left hm (sub_nonneg.mpr hy)
    linarith

theorem cubic_calcYExact_monotoneOn {K : Type} [LinearOrderedField K] (x1 y1 x2 y2 : K)
    (h : x1 ≠ x2) :
    MonotoneOn (CubicTransition.calcYExact x1 y1 x2 y2) (Set.uIcc x1 x2)
      ∨ AntitoneOn (CubicTransition.calcYExact x1 y1 x2 y2) (Set.uIcc x1 x2) := by
  rcases lt_or_gt_of_ne h with hlt | hgt
  · have hd : 0 < x2 - x1 := sub_pos.mpr hlt
    rcases le_total y1 y2 with hy | hy
    · left
      intro a ha b hb hab
      exact (cubic_calcYExact_mono x1 y1 x2 y2 a b h ha hb
        (div_le_div_of_nonneg_right (by linarith) hd.le)).1 hy
    · right
      intro a ha b hb hab
      exact (cubic_calcYExact_mono x1 y1 x2 y2 a b h ha hb
        (div_le_div_of_nonneg_right (by linarith) hd.le)).2 hy
  · have hd : x2 - x1 < 0 := sub_neg.mpr hgt
    rcases le_total y1 y2 with hy | hy
    · right
      intro a ha b hb hab
      exact (cubic_calcYExact_mono x1 y1 x2 y2 b a h hb ha
        (div_le_div_of_nonpos_of_le hd.le (by linarith))).1 hy
    · left
      intro a ha b hb hab
      exact (cubic_calcYExact_mono x1 y1 x2 y2 b a h hb ha
        (div_le_div_of_nonpos_of_le hd.le (by linarith))).2 hy

/-- The polynomial that the exact cubic evaluates. -/
theorem cubic_calcYExact_polynomial {K : Type} [LinearOrderedField K] (x1 y1 x2 y2 : K)
    (h : x1 ≠ x2) :
    ∃ p : Polynomial K, p.natDegree ≤ 3
      ∧ (∀ x, CubicTransition.calcYExact x1 y1 x2 y2 x = p.eval x)
      ∧ (Polynomial.derivative p).eval x1 = 0 ∧ (Polynomial.derivative p).eval x2 = 0 := by
  have hd : x2 - x1 ≠ 0 := sub_ne_zero.mpr (Ne.symm h)
  refine ⟨Polynomial.C (-2 * (y2 - y1) / ((x2 - x1) * (x2 - x1) * (x2 - x1)))
        * (Polynomial.X - Polynomial.C x1) ^ 3
      + Polynomial.C (3 * (y2 - y1) / ((x2 - x1) * (x2 - x1)))
        * (Polynomial.X - Polynomial.C x1) ^ 2
      + Polynomial.C y1, ?_, ?_, ?_, ?_⟩
  · apply Polynomial.natDegree_add_le_of_degree_le
    · apply Polynomial.natDegree_add_le_of_degree_le
      · apply (Polynomial.natDegree_C_mul_le _ _).trans
        apply (Polynomial.natDegree_pow_le).trans
        have := Polynomial.natDegree_X_sub_C_le x1
        omega
      · apply (Polynomial.natDegree_C_mul_le _ _).trans
        apply (Polynomial.natDegree_pow_le).trans
        have := Polynomial.natDegree_X_sub_C_le x1
        omega
    · simp
  · intro x
    unfold CubicTransition.calcYExact
    simp only [if_neg h]
    simp only [Polynomial.eval_add, Polynomial.eval_mul, Polynomial.eval_C, Polynomial.eval_pow,
      Polynomial.eval_sub, Polynomial.eval_X]
    ring
  · simp only [Polynomial.derivative_add, Polynomial.derivative_mul, Polynomial.derivative_C,
      Polynomial.derivative_pow, Polynomial.derivative_sub, Polynomial.derivative_X,
      Polynomial.eval_add, Polynomial.eval_mul, Polynomial.eval_C, Polynomial.eval_pow,
      Polynomial.eval_sub, Polynomial.eval_X]
    simp
  · simp only [Polynomial.derivative_add, Polynomial.derivative_mul, Polynomial.derivative_C,
      Polynomial.derivative_pow, Polynomial.derivative_sub, Polynomial.derivative_X,
      Polynomial.eval_add, Polynomial.eval_mul, Polynomial.eval_C, Polynomial.eval_pow,
      Polynomial.eval_sub, Polynomial.eval_X]
    simp
    field_simp
    ring

theorem sine_calcYExact_real (x1 y1 x2 y2 x : ℝ) (h : x1 ≠ x2) :
    SineTransition.calcYExact Real.cos Real.pi x1 y1 x2 y2 x
        = (y1 + y2) / 2 + (y1 - y2) / 2 * Real.cos (Real.pi * (x - x1) / (x2 - x1))
      ∧ SineTransition.calcYExact Real.cos Real.pi x1 y1 x2 y2 x1 = y1
      ∧ SineTransition.calcYExact Real.cos Real.pi x1 y1 x2 y2 x2 = y2
      ∧ SineTransition.calcYExact Real.cos Real.pi x1 y1 x2 y2 x ∈ Set.uIcc y1 y2 := by
  have hd : x2 - x1 ≠ 0 := sub_ne_zero.mpr (Ne.symm h)
  have hform : ∀ z, SineTransition.calcYExact Real.cos Real.pi x1 y1 x2 y2 z
      = (y1 + y2) / 2 + (y1 - y2) / 2 * Real.cos (Real.pi * (z - x1) / (x2 - x1)) := by
    intro z
    unfold SineTransition.calcYExact
    simp only [if_neg h]
    have e : (z - x1) * (Real.pi / (x2 - x1)) = Real.pi * (z - x1) / (x2 - x1) := by ring
    rw [e]
    ring
  refine ⟨hform x, ?_, ?_, ?_⟩
  · rw [hform]
    simp
    ring
  · rw [hform]
    have e : Real.pi * (x2 - x1) / (x2 - x1) = Real.pi := by field_simp
    rw [e, Real.cos_pi]
    ring
  · rw [hform, Set.mem_uIcc]
    have c1 := Real.neg_one_le_cos (Real.pi * (x - x1) / (x2 - x1))
    have c2 := Real.cos_le_one (Real.pi * (x - x1) / (x2 - x1))
    generalize Real.cos (Real.pi * (x - x1) / (x2 - x1)) = c at c1 c2
    rcases le_total y1 y2 with hy | hy
    · left
      constructor <;> nlinarith
    · right
      constructor <;> nlinarith

/-! ## The ends of the transitions in `double` arithmetic -/

set_option maxHeartbeats 1600000 in
/-- The cubic transition from `(0, 0)` to `(m, 1)` at `m` is within `2^-49` of 1. -/
theorem cubic_fadein_end (cosD : ℚ → ℚ) {m : Int} (hm1 : 1 ≤ m) (hm2 : m < 2 ^ 53) :
    |(newTransition .Cubic 0 0 (fl64 (m : ℚ)) 1).calcY cosD (fl64 (m : ℚ)) - 1|
      ≤ (2 : ℚ) ^ (-49 : Int) := by
  have hfm : fl64 (m : ℚ) = m := fl64_intCast (by rw [abs_of_nonneg (by omega)]; exact hm2)
  have hmq1 : (1 : ℚ) ≤ (m : ℚ) := by exact_mod_cast hm1
  have hmq2 : (m : ℚ) < (2 : ℚ) ^ (53 : Int) := by
    have : (m : ℚ) < ((2 ^ 53 : Int) : ℚ) := by exact_mod_cast hm2
    norm_num at this ⊢
    exact this
  have hmpos : (0 : ℚ) < (m : ℚ) := by linarith
  have hmne : (0 : ℚ) ≠ (m : ℚ) := hmpos.ne
  have hval : (newTransition .Cubic 0 0 (fl64 (m : ℚ)) 1).calcY cosD (fl64 (m : ℚ))
      = fl64 (fl64 (fl64 (fl64 (-2 / fl64 (fl64 ((m : ℚ) * m) * m)) * fl64 (fl64 ((m : ℚ) * m) * m))
          + fl64 (fl64 (3 / fl64 ((m : ℚ) * m)) * fl64 ((m : ℚ) * m))) + 0) := by
    have h3 : fl64 (3 : ℚ) = 3 := by
      have := fl64_intCast (n := 3) (by norm_num)
      simpa using this
    have h2 : fl64 (-2 : ℚ) = -2 := by
      have := fl64_intCast (n := -2) (by norm_num)
      simpa using this
    simp only [newTransition, Transition.calcY, CubicTransition.new, CubicTransition.calcY]
    rw [hfm, if_pos hmne]
    simp only
    rw [if_neg hmne]
    simp only [sub_zero, zero_sub, fl64_one, hfm]
    norm_num [h3, h2]
  rw [hval]
  -- the powers
  have hP2lo : (1 : ℚ) ≤ fl64 ((m : ℚ) * m) := by
    have := fl64_mono (show (1 : ℚ) ≤ (m : ℚ) * m by nlinarith)
    rwa [fl64_one] at this
  have hP2hi : fl64 ((m : ℚ) * m) ≤ (2 : ℚ) ^ (106 : Int) := by
    have h := fl64_mono (show (m : ℚ) * m ≤ (2 : ℚ) ^ (106 : Int) by
      have e : (2 : ℚ) ^ (106 : Int) = (2 : ℚ) ^ (53 : Int) * (2 : ℚ) ^ (53 : Int) := by
        rw [← zpow_add₀ (by norm_num : (2 : ℚ) ≠ 0)]
        norm_num
      rw [e]
      nlinarith)
    have hd := fl64_of_dyadic 1 106 (by norm_num) (by norm_num)
    simp only [Int.cast_one, one_mul] at hd
    rwa [hd] at h
  have hP3lo : (1 : ℚ) ≤ fl64 (fl64 ((m : ℚ) * m) * m) := by
    have := fl64_mono (show (1 : ℚ) ≤ fl64 ((m : ℚ) * m) * m by nlinarith)
    rwa [fl64_one] at this
  have hP3hi : fl64 (fl64 ((m : ℚ) * m) * m) ≤ (2 : ℚ) ^ (159 : Int) := by
    have h := fl64_mono (show fl64 ((m : ℚ) * m) * m ≤ (2 : ℚ) ^ (159 : Int) by
      have e : (2 : ℚ) ^ (159 : Int) = (2 : ℚ) ^ (106 : Int) * (2 : ℚ) ^ (53 : Int) := by
        rw [← zpow_add₀ (by norm_num : (2 : ℚ) ≠ 0)]
        norm_num
      rw [e]
      have : (0 : ℚ) < (2 : ℚ) ^ (53 : Int) := two_zpow_pos _
      nlinarith)
    have hd := fl64_of_dyadic 1 159 (by norm_num) (by norm_num)
    simp only [Int.cast_one, one_mul] at hd
    rwa [hd] at h
  generalize fl64 ((m : ℚ) * m) = P2 at hP2lo hP2hi hP3lo hP3hi ⊢
  generalize fl64 (P2 * (m : ℚ)) = P3 at hP3lo hP3hi ⊢
  have hP2pos : (0 : ℚ) < P2 := by linarith
  have hP3pos : (0 : ℚ) < P3 := by linarith
  have hu : (2 : ℚ) ^ (-53 : Int) = 1 / 9007199254740992 := by norm_num
  -- the factors
  have hq3 : (2 : ℚ) ^ (-1022 : Int) ≤ |-2 / P3| := by
    rw [abs_div, abs_neg, abs_of_pos (by norm_num : (0 : ℚ) < 2), abs_of_pos hP3pos]
    have h1 : (2 : ℚ) ^ (-159 : Int) ≤ 2 / P3 := by
      rw [le_div_iff₀ hP3pos]
      have e : (2 : ℚ) ^ (-159 : Int) * (2 : ℚ) ^ (159 : Int) = 1 := by
        rw [← zpow_add₀ (by norm_num : (2 : ℚ) ≠ 0)]
        norm_num
      have : (0 : ℚ) < (2 : ℚ) ^ (-159 : Int) := two_zpow_pos _
      nlinarith
    exact le_trans (zpow_le_zpow_right₀ (by norm_num) (by norm_num)) h1
  have hf3 := fl64_rel_error hq3
  rw [abs_div, abs_neg, abs_of_pos (by norm_num : (0 : ℚ) < 2), abs_of_pos hP3pos, hu, abs_le]
    at hf3
  have hq2 : (2 : ℚ) ^ (-1022 : Int) ≤ |3 / P2| := by
    rw [abs_of_pos (by positivity)]
    have h1 : (2 : ℚ) ^ (-106 : Int) ≤ 3 / P2 := by
      rw [le_div_iff₀ hP2pos]
      have e : (2 : ℚ) ^ (-106 : Int) * (2 : ℚ) ^ (106 : Int) = 1 := by
        rw [← zpow_add₀ (by norm_num : (2 : ℚ) ≠ 0)]
        norm_num
      have : (0 : ℚ) < (2 : ℚ) ^ (-106 : Int) := two_zpow_pos _
      nlinarith
    exact le_trans (zpow_le_zpow_right₀ (by norm_num) (by norm_num)) h1
  have hf2 := fl64_rel_error hq2
  rw [abs_of_pos (show (0 : ℚ) < 3 / P2 by positivity), hu, abs_le] at hf2
  -- the two products
  have e3 : -2 / P3 * P3 = -2 := by field_simp
  have e3' : 2 / P3 * P3 = 2 := by field_simp
  have e2 : 3 / P2 * P2 = 3 := by field_simp
  have ha : |fl64 (-2 / P3) * P3 - -2| ≤ 2 / 9007199254740992 := by
    rw [abs_le]
    constructor <;> nlinarith [hf3.1, hf3.2]
  have hb : |fl64 (3 / P2) * P2 - 3| ≤ 3 / 9007199254740992 := by
    rw [abs_le]
    constructor <;> nlinarith [hf2.1, hf2.2]
  rw [abs_le] at ha hb
  have hA := fl64_error (k := 2) (q := fl64 (-2 / P3) * P3) (by
    rw [abs_lt]
    norm_num
    constructor <;> linarith [ha.1, ha.2]) (by norm_num)
  have hB := fl64_error (k := 2) (q := fl64 (3 / P2) * P2) (by
    rw [abs_lt]
    norm_num
    constructor <;> linarith [hb.1, hb.2]) (by norm_num)
  norm_num at hA hB
  rw [abs_le] at hA hB
  -- the sum
  have hS := fl64_error (k := 1)
    (q := fl64 (fl64 (-2 / P3) * P3) + fl64 (fl64 (3 / P2) * P2)) (by
      rw [abs_lt]
      norm_num
      constructor <;> linarith [ha.1, ha.2, hb.1, hb.2, hA.1, hA.2, hB.1, hB.2])
    (by norm_num)
  norm_num at hS
  rw [abs_le] at hS
  rw [add_zero, fl64_idem]
  norm_num
  rw [abs_le]
  constructor <;> linarith [ha.1, ha.2, hb.1, hb.2, hA.1, hA.2, hB.1, hB.2, hS.1, hS.2]

/-- For `x1 == x2` every transition is the constant `y1`, in `double` arithmetic too. -/
theorem calcY_degenerate (cosD : ℚ → ℚ) (type : TransitionType) (x1 y1 y2 x : ℚ) :
    (newTransition type x1 y1 x1 y2).calcY cosD x = y1 := by
  cases type <;>
    simp [newTransition, Transition.calcY, LinearTransition.new, LinearTransition.calcY,
      CubicTransition.new, CubicTransition.calcY, SineTransition.new, SineTransition.calcY]

/-- The cubic transition returns `y1` at `x1`, for finite factors: the products with
`x1 - x1 = 0` are 0. -/
theorem cubic_calcY_x1 (cosD : ℚ → ℚ) (x1 y1 x2 y2 : ℚ) (hy1 : fl64 y1 = y1) :
    (newTransition .Cubic x1 y1 x2 y2).calcY cosD x1 = y1 := by
  by_cases h : x1 = x2
  · subst h
    exact calcY_degenerate cosD .Cubic x1 y1 y2 x1
  · simp only [newTransition, Transition.calcY, CubicTransition.new, CubicTransition.calcY]
    rw [if_pos h]
    simp only
    rw [if_neg h]
    simp only [sub_self, fl64_zero, mul_zero, zero_mul, add_zero, zero_add, hy1]

/-- The linear transition that starts at `x1 = 0` returns `y1` there, for a finite
gradient. -/
theorem linear_calcY_zero (cosD : ℚ → ℚ) (y1 x2 y2 : ℚ) (hy1 : fl64 y1 = y1) :
    (newTransition .Linear 0 y1 x2 y2).calcY cosD 0 = y1 := by
  by_cases h : (0 : ℚ) = x2
  · subst h
    exact calcY_degenerate cosD .Linear 0 y1 y2 0
  · simp only [newTransition, Transition.calcY, LinearTransition.new, LinearTransition.calcY]
    rw [if_pos h]
    simp only
    rw [if_neg h]
    simp only [mul_zero, fl64_zero, sub_zero, zero_add, hy1]

/-- The linear transition from `(0, 0)` to `(49, 1)` at 49. -/
theorem linear_49_end (cosD : ℚ → ℚ) :
    (newTransition .Linear 0 0 49 1).calcY cosD 49 = 9007199254740991 / 9007199254740992 := by
  have hg : fl64 (1 / 49 : ℚ) = (5882252574524729 / 288230376151711744 : ℚ) := by
    have h := @fl64_eq_of_binade (1 / 49 : ℚ) (-6) 5882252574524729
      (by norm_num [abs_of_pos]) (by norm_num [abs_of_pos]) (by norm_num) (by
        apply roundHalfEven_eq_of_close
        norm_num [abs_lt])
    rw [h]
    norm_num
  have hv : fl64 (288230376151711721 / 288230376151711744 : ℚ)
      = (9007199254740991 / 9007199254740992 : ℚ) := by
    have h := @fl64_eq_of_binade (288230376151711721 / 288230376151711744 : ℚ) (-1)
      9007199254740991 (by norm_num [abs_of_pos]) (by norm_num [abs_of_pos]) (by norm_num) (by
        apply roundHalfEven_eq_of_close
        norm_num [abs_lt])
    rw [h]
    norm_num
  have h49 : fl64 (49 : ℚ) = 49 := by
    have := fl64_intCast (n := 49) (by norm_num)
    simpa using this
  have hne : (0 : ℚ) ≠ 49 := by norm_num
  simp only [newTransition, Transition.calcY, LinearTransition.new, LinearTransition.calcY]
  rw [if_pos hne]
  simp only
  rw [if_neg hne]
  simp only [sub_zero, mul_zero, fl64_zero, fl64_one, h49, hg, add_zero]
  rw [fl64_idem]
  norm_num [hv]

/-- The cubic transition from `(0, 0)` to `(9, 1)` at 9. -/
theorem cubic_9_fadein_end (cosD : ℚ → ℚ) :
    (newTransition .Cubic 0 0 9 1).calcY cosD 9 = 4503599627370497 / 4503599627370496 := by
  have hf2 : fl64 (1 / 27 : ℚ) = (667199944795629 / 18014398509481984 : ℚ) := by
    have h := @fl64_eq_of_binade (1 / 27 : ℚ) (-5) (5337599558365032)
      (by norm_num [abs_of_pos]) (by norm_num [abs_of_pos]) (by norm_num) (by
        apply roundHalfEven_eq_of_close
        norm_num [abs_lt])
    rw [h]
    norm_num
  have hf3 : fl64 (-2 / 729 : ℚ) = (-6326043921025223 / 2305843009213693952 : ℚ) := by
    have h := @fl64_eq_of_binade (-2 / 729 : ℚ) (-9) (-6326043921025223)
      (by norm_num [abs_div]) (by norm_num [abs_div]) (by norm_num) (by
        apply roundHalfEven_eq_of_close
        norm_num [abs_lt])
    rw [h]
    norm_num
  have ha : fl64 (-4611686018427387567 / 2305843009213693952 : ℚ)
      = (-9007199254740991 / 4503599627370496 : ℚ) := by
    have h := @fl64_eq_of_binade (-4611686018427387567 / 2305843009213693952 : ℚ) (0)
      (-9007199254740991) (by norm_num [abs_div]) (by norm_num [abs_div]) (by norm_num) (by
        apply roundHalfEven_eq_of_close
        norm_num [abs_lt])
    rw [h]
    norm_num
  have hb : fl64 (54043195528445949 / 18014398509481984 : ℚ) = (3 : ℚ) := by
    have h := @fl64_eq_of_binade (54043195528445949 / 18014398509481984 : ℚ) (1)
      (6755399441055744) (by norm_num [abs_of_pos]) (by norm_num [abs_of_pos]) (by norm_num) (by
        apply roundHalfEven_eq_of_close
        norm_num [abs_lt])
    rw [h]
    norm_num
  have hs : fl64 (4503599627370497 / 4503599627370496 : ℚ)
      = (4503599627370497 / 4503599627370496 : ℚ) := by
    have h := @fl64_eq_of_binade (4503599627370497 / 4503599627370496 : ℚ) (0)
      (4503599627370497) (by norm_num [abs_of_pos]) (by norm_num [abs_of_pos]) (by norm_num) (by
        apply roundHalfEven_eq_of_close
        norm_num [abs_lt])
    rw [h]
    norm_num
  have h9 : fl64 (9 : ℚ) = 9 := by
    have := fl64_intCast (n := 9) (by norm_num)
    simpa using this
  have h81 : fl64 (81 : ℚ) = 81 := by
    have := fl64_intCast (n := 81) (by norm_num)
    simpa using this
  have h729 : fl64 (729 : ℚ) = 729 := by
    have := fl64_intCast (n := 729) (by norm_num)
    simpa using this
  have h3 : fl64 (3 : ℚ) = 3 := by
    have := fl64_intCast (n := 3) (by norm_num)
    simpa using this
  have hm2 : fl64 (-2 : ℚ) = -2 := by
    have := fl64_intCast (n := -2) (by norm_num)
    simpa using this
  have hne : (0 : ℚ) ≠ 9 := by norm_num
  simp only [newTransition, Transition.calcY, CubicTransition.new, CubicTransition.calcY]
  rw [if_pos hne]
  simp only
  rw [if_neg hne]
  simp only [sub_zero, fl64_one, h9, add_zero]
  have e1 : (9 : ℚ) * 9 = 81 := by norm_num
  have e2 : (81 : ℚ) * 9 = 729 := by norm_num
  have e3 : (3 : ℚ) * 1 = 3 := by norm_num
  have e4 : (-2 : ℚ) * 1 = -2 := by norm_num
  rw [e1, h81, e2, h729, e3, e4, h3, hm2]
  have e5 : (3 : ℚ) / 81 = 1 / 27 := by norm_num
  rw [e5, hf2, hf3]
  have e6 : (-6326043921025223 / 2305843009213693952 : ℚ) * 729
      = -4611686018427387567 / 2305843009213693952 := by norm_num
  have e7 : (667199944795629 / 18014398509481984 : ℚ) * 81
      = 54043195528445949 / 18014398509481984 := by norm_num
  rw [e6, e7, ha, hb]
  have e8 : (-9007199254740991 / 4503599627370496 : ℚ) + 3
      = 4503599627370497 / 4503599627370496 := by norm_num
  rw [e8, hs, hs]

/-- The cubic transition from `(0, 1)` to `(9, 0)` at 9. -/
theorem cubic_9_fadeout_end (cosD : ℚ → ℚ) :
    (newTransition .Cubic 0 1 9 0).calcY cosD 9 = -1 / 4503599627370496 := by
  have hf2 : fl64 (-1 / 27 : ℚ) = (-667199944795629 / 18014398509481984 : ℚ) := by
    have h := @fl64_eq_of_binade (-1 / 27 : ℚ) (-5) (-5337599558365032)
      (by norm_num [abs_div]) (by norm_num [abs_div]) (by norm_num) (by
        apply roundHalfEven_eq_of_close
        norm_num [abs_lt])
    rw [h]
    norm_num
  have hf3 : fl64 (2 / 729 : ℚ) = (6326043921025223 / 2305843009213693952 : ℚ) := by
    have h := @fl64_eq_of_binade (2 / 729 : ℚ) (-9) (6326043921025223)
      (by norm_num [abs_of_pos]) (by norm_num [abs_of_pos]) (by norm_num) (by
        apply roundHalfEven_eq_of_close
        norm_num [abs_lt])
    rw [h]
    norm_num
  have ha : fl64 (4611686018427387567 / 2305843009213693952 : ℚ)
      = (9007199254740991 / 4503599627370496 : ℚ) := by
    have h := @fl64_eq_of_binade (4611686018427387567 / 2305843009213693952 : ℚ) (0)
      (9007199254740991) (by norm_num [abs_of_pos]) (by norm_num [abs_of_pos]) (by norm_num) (by
        apply roundHalfEven_eq_of_close
        norm_num [abs_lt])
    rw [h]
    norm_num
  have hb : fl64 (-54043195528445949 / 18014398509481984 : ℚ) = (-3 : ℚ) := by
    have h := @fl64_eq_of_binade (-54043195528445949 / 18014398509481984 : ℚ) (1)
      (-6755399441055744) (by norm_num [abs_div]) (by norm_num [abs_div]) (by norm_num) (by
        apply roundHalfEven_eq_of_close
        norm_num [abs_lt])
    rw [h]
    norm_num
  have hs : fl64 (-4503599627370497 / 4503599627370496 : ℚ)
      = (-4503599627370497 / 4503599627370496 : ℚ) := by
    have h := @fl64_eq_of_binade (-4503599627370497 / 4503599627370496 : ℚ) (0)
      (-4503599627370497) (by norm_num [abs_div]) (by norm_num [abs_div]) (by norm_num) (by
        apply roundHalfEven_eq_of_close
        norm_num [abs_lt])
    rw [h]
    norm_num
  have hr : fl64 (-1 / 4503599627370496 : ℚ) = (-1 / 4503599627370496 : ℚ) := by
    have h := @fl64_eq_of_binade (-1 / 4503599627370496 : ℚ) (-52) (-4503599627370496)
      (by norm_num [abs_div]) (by norm_num [abs_div]) (by norm_num) (by
        apply roundHalfEven_eq_of_close
        norm_num [abs_lt])
    rw [h]
    norm_num
  have h9 : fl64 (9 : ℚ) = 9 := by
    have := fl64_intCast (n := 9) (by norm_num)
    simpa using this
  have h81 : fl64 (81 : ℚ) = 81 := by
    have := fl64_intCast (n := 81) (by norm_num)
    simpa using this
  have h729 : fl64 (729 : ℚ) = 729 := by
    have := fl64_intCast (n := 729) (by norm_num)
    simpa using this
  have h3 : fl64 (-3 : ℚ) = -3 := by
    have := fl64_intCast (n := -3) (by norm_num)
    simpa using this
  have hm2 : fl64 (2 : ℚ) = 2 := by
    have := fl64_intCast (n := 2) (by norm_num)
    simpa using this
  have hne : (0 : ℚ) ≠ 9 := by norm_num
  simp only [newTransition, Transition.calcY, CubicTransition.new, CubicTransition.calcY]
  rw [if_pos hne]
  simp only
  rw [if_neg hne]
  simp only [sub_zero, zero_sub, fl64_neg_one, h9]
  have e1 : (9 : ℚ) * 9 = 81 := by norm_num
  have e2 : (81 : ℚ) * 9 = 729 := by norm_num
  have e3 : (3 : ℚ) * -1 = -3 := by norm_num
  have e4 : (-2 : ℚ) * -1 = 2 := by norm_num
  rw [e1, h81, e2, h729, e3, e4, h3, hm2]
  have e5 : (-3 : ℚ) / 81 = -1 / 27 := by norm_num
  rw [e5, hf2, hf3]
  have e6 : (6326043921025223 / 2305843009213693952 : ℚ) * 729
      = 4611686018427387567 / 2305843009213693952 := by norm_num
  have e7 : (-667199944795629 / 18014398509481984 : ℚ) * 81
      = -54043195528445949 / 18014398509481984 := by norm_num
  rw [e6, e7, ha, hb]
  have e8 : (9007199254740991 / 4503599627370496 : ℚ) + -3
      = -4503599627370497 / 4503599627370496 := by norm_num
  rw [e8, hs]
  have e9 : (-4503599627370497 / 4503599627370496 : ℚ) + 1 = -1 / 4503599627370496 := by
    norm_num
  rw [e9, hr]

/-- The linear transition from `(1, 1)` to `(2, 0.1)` at `x1 = 1`; 0.1 is the `double`
`3602879701896397 / 2^55`. -/
theorem linear_x1_inexact (cosD : ℚ → ℚ) :
    (newTransition .Linear 1 1 2 (3602879701896397 / 36028797018963968)).calcY cosD 1
      = 9007199254740991 / 9007199254740992 := by
  have hd : fl64 (-32425917317067571 / 36028797018963968 : ℚ)
      = (-8106479329266893 / 9007199254740992 : ℚ) := by
    have h := @fl64_eq_of_binade (-32425917317067571 / 36028797018963968 : ℚ) (-1)
      (-8106479329266893) (by norm_num [abs_div]) (by norm_num [abs_div]) (by norm_num) (by
        apply roundHalfEven_eq_of_close
        norm_num [abs_lt])
    rw [h]
    norm_num
  have hg : fl64 (-8106479329266893 / 9007199254740992 : ℚ)
      = (-8106479329266893 / 9007199254740992 : ℚ) := by
    have h := @fl64_eq_of_binade (-8106479329266893 / 9007199254740992 : ℚ) (-1)
      (-8106479329266893) (by norm_num [abs_div]) (by norm_num [abs_div]) (by norm_num) (by
        apply roundHalfEven_eq_of_close
        norm_num [abs_lt])
    rw [h]
    norm_num
  have hyo : fl64 (17113678584007885 / 9007199254740992 : ℚ)
      = (4278419646001971 / 2251799813685248 : ℚ) := by
    have h := @fl64_eq_of_binade (17113678584007885 / 9007199254740992 : ℚ) (0)
      (8556839292003942) (by norm_num [abs_of_pos]) (by norm_num [abs_of_pos]) (by norm_num) (by
        have e : (17113678584007885 / 9007199254740992 : ℚ) / (2 : ℚ) ^ ((0 : Int) - 52)
            = ((8556839292003942 : Int) : ℚ) + 1 / 2 := by
          norm_num
        rw [e, roundHalfEven_tie]
        norm_num)
    rw [h]
    norm_num
  have hv : fl64 (9007199254740991 / 9007199254740992 : ℚ)
      = (9007199254740991 / 9007199254740992 : ℚ) := by
    have h := @fl64_eq_of_binade (9007199254740991 / 9007199254740992 : ℚ) (-1)
      (9007199254740991) (by norm_num [abs_of_pos]) (by norm_num [abs_of_pos]) (by norm_num) (by
        apply roundHalfEven_eq_of_close
        norm_num [abs_lt])
    rw [h]
    norm_num
  have hne : (1 : ℚ) ≠ 2 := by norm_num
  simp only [newTransition, Transition.calcY, LinearTransition.new, LinearTransition.calcY]
  rw [if_pos hne]
  simp only
  rw [if_neg hne]
  have e1 : (3602879701896397 / 36028797018963968 : ℚ) - 1
      = -32425917317067571 / 36028797018963968 := by norm_num
  have e2 : (2 : ℚ) - 1 = 1 := by norm_num
  rw [e1, e2, hd, fl64_one, div_one, hg, mul_one, hg]
  have e3 : (1 : ℚ) - -8106479329266893 / 9007199254740992
      = 17113678584007885 / 9007199254740992 := by norm_num
  rw [e3, hyo]
  have e4 : (-8106479329266893 / 9007199254740992 : ℚ) + 4278419646001971 / 2251799813685248
      = 9007199254740991 / 9007199254740992 := by norm_num
  rw [e4, hv]

/-! ## The peak scan -/

/-- The logical sample of a native sample of an integer type is an integer in the range of
the logical bit width. -/
theorem logical_of_native_int {st : SampleType} (hst : isFloatSampleType st = false)
    {x : Sample} (hn : isNativeSample st x = true) :
    ∃ v, (if (getSampleBitShift st).required = true then shiftRight (x) (getSampleBitShift st).count else x) = .int v
      ∧ minInt (intSampleBits st) ≤ v ∧ v ≤ maxInt (intSampleBits st) := by
  cases x with
  | int w =>
    simp only [isNativeSample, Bool.and_eq_true, Bool.not_eq_true', decide_eq_true_eq] at hn
    obtain ⟨⟨⟨-, hmod⟩, hlo⟩, hhi⟩ := hn
    refine ⟨w / 2 ^ (bitwidth st - intSampleBits st), ?_, ?_⟩
    · cases st <;> simp [isFloatSampleType] at hst <;>
        simp [getSampleBitShift, shiftRight, bitwidth, intSampleBits, isFloatSampleType]
    · cases st <;> simp [isFloatSampleType] at hst <;>
        simp [bitwidth, intSampleBits, minInt, maxInt] at hlo hhi hmod ⊢ <;> omega
  | flt q =>
    simp only [isNativeSample, Bool.and_eq_true, decide_eq_true_eq] at hn
    rw [hst] at hn
    simp at hn

/-- The logical sample of a native sample of a floating point type is the sample. -/
theorem logical_of_native_flt {st : SampleType} (hst : isFloatSampleType st = true)
    {x : Sample} (hn : isNativeSample st x = true) :
    ∃ q, x = .flt q ∧ (if (getSampleBitShift st).required = true then shiftRight (x) (getSampleBitShift st).count else x) = .flt q := by
  cases x with
  | int w =>
    simp only [isNativeSample, Bool.and_eq_true, Bool.not_eq_true', decide_eq_true_eq] at hn
    rw [hst] at hn
    simp at hn
  | flt q =>
    refine ⟨q, rfl, ?_⟩
    cases st <;> simp [isFloatSampleType] at hst <;>
      simp [getSampleBitShift, isFloatSampleType]

/-- One pass of the integer scan on the logical sample `v`. -/
theorem findFramePeakIntStep_eq (st : SampleType) (normalize : Bool) (read : Sample) (v : Int)
    (acc : PeakScan) (hread : (if (getSampleBitShift st).required = true then shiftRight (read) (getSampleBitShift st).count else read) = .int v) :
    findFramePeakIntStep st normalize read acc
      = if v < acc.negPeak then
          if v ≤ -maxInt (intSampleBits st)
              ∧ (v = minInt (intSampleBits st) ∨ normalize = true) then
            { posPeak := acc.posPeak, negPeak := v, foundMaxPeak := true }
          else { posPeak := acc.posPeak, negPeak := v, foundMaxPeak := acc.foundMaxPeak }
        else if acc.posPeak < v then
          if v = maxInt (intSampleBits st) ∧ normalize = true then
            { posPeak := v, negPeak := acc.negPeak, foundMaxPeak := true }
          else { posPeak := v, negPeak := acc.negPeak, foundMaxPeak := acc.foundMaxPeak }
        else acc := by
  unfold findFramePeakIntStep
  simp only [hread]

/-- Invariant of one pass of the integer scan: the peaks bracket the samples seen (`P`) while
no maximal sample was found, each peak is 0 or a sample seen, and `foundMaxPeak` is set only
by a sample of maximal magnitude. -/
theorem findFramePeakIntStep_inv (st : SampleType) (normalize : Bool) (read : Sample) (v : Int)
    (acc : PeakScan) (P : Int → Prop) (hread : (if (getSampleBitShift st).required = true then shiftRight (read) (getSampleBitShift st).count else read) = .int v)
    (h1 : acc.negPeak ≤ 0) (h2 : 0 ≤ acc.posPeak)
    (h3 : acc.posPeak = 0 ∨ P acc.posPeak) (h4 : acc.negPeak = 0 ∨ P acc.negPeak)
    (h5 : ∀ w, P w → acc.negPeak ≤ w ∧ w ≤ acc.posPeak) (h6 : acc.foundMaxPeak = false) :
    (findFramePeakIntStep st normalize read acc).negPeak ≤ 0
      ∧ 0 ≤ (findFramePeakIntStep st normalize read acc).posPeak
      ∧ ((findFramePeakIntStep st normalize read acc).posPeak = 0
          ∨ (P (findFramePeakIntStep st normalize read acc).posPeak
            ∨ (findFramePeakIntStep st normalize read acc).posPeak = v))
      ∧ ((findFramePeakIntStep st normalize read acc).negPeak = 0
          ∨ (P (findFramePeakIntStep st normalize read acc).negPeak
            ∨ (findFramePeakIntStep st normalize read acc).negPeak = v))
      ∧ (∀ w, (P w ∨ w = v) →
          (findFramePeakIntStep st normalize read acc).negPeak ≤ w
            ∧ w ≤ (findFramePeakIntStep st normalize read acc).posPeak)
      ∧ ((findFramePeakIntStep st normalize read acc).foundMaxPeak = true →
          ((findFramePeakIntStep st normalize read acc).negPeak ≤ -maxInt (intSampleBits st)
              ∧ ((findFramePeakIntStep st normalize read acc).negPeak
                    = minInt (intSampleBits st) ∨ normalize = true))
            ∨ ((findFramePeakIntStep st normalize read acc).posPeak = maxInt (intSampleBits st)
              ∧ normalize = true)) := by
  rw [findFramePeakIntStep_eq st normalize read v acc hread]
  by_cases c1 : v < acc.negPeak
  · rw [if_pos c1]
    by_cases c2 : v ≤ -maxInt (intSampleBits st)
        ∧ (v = minInt (intSampleBits st) ∨ normalize = true)
    · rw [if_pos c2]
      refine ⟨by dsimp only; omega, h2, ?_, Or.inr (Or.inr rfl), ?_, fun _ => Or.inl c2⟩
      · rcases h3 with h | h
        · exact Or.inl h
        · exact Or.inr (Or.inl h)
      · rintro w (hw | hw)
        · have := h5 w hw
          dsimp only
          constructor <;> omega
        · dsimp only
          constructor <;> omega
    · rw [if_neg c2]
      refine ⟨by dsimp only; omega, h2, ?_, Or.inr (Or.inr rfl), ?_, ?_⟩
      · rcases h3 with h | h
        · exact Or.inl h
        · exact Or.inr (Or.inl h)
      · rintro w (hw | hw)
        · have := h5 w hw
          dsimp only
          constructor <;> omega
        · dsimp only
          constructor <;> omega
      · intro hf
        dsimp only at hf
        rw [h6] at hf
        exact absurd hf (by decide)
  · rw [if_neg c1]
    by_cases c3 : acc.posPeak < v
    · rw [if_pos c3]
      by_cases c4 : v = maxInt (intSampleBits st) ∧ normalize = true
      · rw [if_pos c4]
        refine ⟨h1, by dsimp only; omega, Or.inr (Or.inr rfl), ?_, ?_, fun _ => Or.inr c4⟩
        · rcases h4 with h | h
          · exact Or.inl h
          · exact Or.inr (Or.inl h)
        · rintro w (hw | hw)
          · have := h5 w hw
            dsimp only
            constructor <;> omega
          · dsimp only
            constructor <;> omega
      · rw [if_neg c4]
        refine ⟨h1, by dsimp only; omega, Or.inr (Or.inr rfl), ?_, ?_, ?_⟩
        · rcases h4 with h | h
          · exact Or.inl h
          · exact Or.inr (Or.inl h)
        · rintro w (hw | hw)
          · have := h5 w hw
            dsimp only
            constructor <;> omega
          · dsimp only
            constructor <;> omega
        · intro hf
          dsimp only at hf
          rw [h6] at hf
          exact absurd hf (by decide)
    · rw [if_neg c3]
      refine ⟨h1, h2, ?_, ?_, ?_, ?_⟩
      · rcases h3 with h | h
        · exact Or.inl h
        · exact Or.inr (Or.inl h)
      · rcases h4 with h | h
        · exact Or.inl h
        · exact Or.inr (Or.inl h)
      · rintro w (hw | hw)
        · exact h5 w hw
        · constructor <;> omega
      · intro hf
        rw [h6] at hf
        exact absurd hf (by decide)

/-- Invariant of the inner loop of the integer scan over the indices `[s, s + todo)`. -/
theorem findFramePeakIntSamples_inv (st : SampleType) (normalize : Bool)
    (frmPtr : Int → Sample) :
    ∀ (todo : Nat) (s : Int) (acc : PeakScan) (P : Int → Prop),
      (∀ i, s ≤ i → i < s + todo → ∃ v, (if (getSampleBitShift st).required = true then shiftRight (frmPtr i) (getSampleBitShift st).count else frmPtr i) = .int v) →
      acc.negPeak ≤ 0 → 0 ≤ acc.posPeak →
      (acc.posPeak = 0 ∨ P acc.posPeak) → (acc.negPeak = 0 ∨ P acc.negPeak) →
      (∀ w, P w → acc.negPeak ≤ w ∧ w ≤ acc.posPeak) → acc.foundMaxPeak = false →
      (findFramePeakIntSamples st normalize frmPtr todo s acc).negPeak ≤ 0
        ∧ 0 ≤ (findFramePeakIntSamples st normalize frmPtr todo s acc).posPeak
        ∧ ((findFramePeakIntSamples st normalize frmPtr todo s acc).posPeak = 0
            ∨ (P (findFramePeakIntSamples st normalize frmPtr todo s acc).posPeak
              ∨ ∃ i, s ≤ i ∧ i < s + todo ∧ (if (getSampleBitShift st).required = true then shiftRight (frmPtr i) (getSampleBitShift st).count else frmPtr i)
                = .int (findFramePeakIntSamples st normalize frmPtr todo s acc).posPeak))
        ∧ ((findFramePeakIntSamples st normalize frmPtr todo s acc).negPeak = 0
            ∨ (P (findFramePeakIntSamples st normalize frmPtr todo s acc).negPeak
              ∨ ∃ i, s ≤ i ∧ i < s + todo ∧ (if (getSampleBitShift st).required = true then shiftRight (frmPtr i) (getSampleBitShift st).count else frmPtr i)
                = .int (findFramePeakIntSamples st normalize frmPtr todo s acc).negPeak))
        ∧ ((findFramePeakIntSamples st normalize frmPtr todo s acc).foundMaxPeak = false →
            ∀ w, (P w ∨ ∃ i, s ≤ i ∧ i < s + todo ∧ (if (getSampleBitShift st).required = true then shiftRight (frmPtr i) (getSampleBitShift st).count else frmPtr i) = .int w) →
              (findFramePeakIntSamples st normalize frmPtr todo s acc).negPeak ≤ w
                ∧ w ≤ (findFramePeakIntSamples st normalize frmPtr todo s acc).posPeak)
        ∧ ((findFramePeakIntSamples st normalize frmPtr todo s acc).foundMaxPeak = true →
            ((findFramePeakIntSamples st normalize frmPtr todo s acc).negPeak
                  ≤ -maxInt (intSampleBits st)
                ∧ ((findFramePeakIntSamples st normalize frmPtr todo s acc).negPeak
                      = minInt (intSampleBits st) ∨ normalize = true))
              ∨ ((findFramePeakIntSamples st normalize frmPtr todo s acc).posPeak
                    = maxInt (intSampleBits st)
                ∧ normalize = true)) := by
  intro todo
  induction todo with
  | zero =>
    intro s acc P _ h1 h2 h3 h4 h5 h6
    simp only [findFramePeakIntSamples]
    refine ⟨h1, h2, ?_, ?_, ?_, ?_⟩
    · rcases h3 with h | h
      · exact Or.inl h
      · exact Or.inr (Or.inl h)
    · rcases h4 with h | h
      · exact Or.inl h
      · exact Or.inr (Or.inl h)
    · intro _ w hw
      rcases hw with hw | ⟨i, hi1, hi2, -⟩
      · exact h5 w hw
      · exfalso
        simp at hi2
        omega
    · intro hf
      rw [h6] at hf
      exact absurd hf (by decide)
  | succ todo ih =>
    intro s acc P hall h1 h2 h3 h4 h5 h6
    obtain ⟨v, hv⟩ := hall s le_rfl (by push_cast; omega)
    obtain ⟨a1, a2, a3, a4, a5, a6⟩ :=
      findFramePeakIntStep_inv st normalize (frmPtr s) v acc P hv h1 h2 h3 h4 h5 h6
    simp only [findFramePeakIntSamples]
    by_cases hf : (findFramePeakIntStep st normalize (frmPtr s) acc).foundMaxPeak = true
    · rw [if_pos hf]
      refine ⟨a1, a2, ?_, ?_, ?_, fun _ => a6 hf⟩
      · rcases a3 with h | h | h
        · exact Or.inl h
        · exact Or.inr (Or.inl h)
        · exact Or.inr (Or.inr ⟨s, le_rfl, by push_cast; omega, by rw [h]; exact hv⟩)
      · rcases a4 with h | h | h
        · exact Or.inl h
        · exact Or.inr (Or.inl h)
        · exact Or.inr (Or.inr ⟨s, le_rfl, by push_cast; omega, by rw [h]; exact hv⟩)
      · intro hc
        rw [hf] at hc
        exact absurd hc (by decide)
    · rw [if_neg hf]
      have hf' : (findFramePeakIntStep st normalize (frmPtr s) acc).foundMaxPeak = false := by
        simpa using hf
      obtain ⟨b1, b2, b3, b4, b5, b6⟩ := ih (s + 1)
        (findFramePeakIntStep st normalize (frmPtr s) acc) (fun w => P w ∨ w = v)
        (fun i hi1 hi2 => hall i (by omega) (by push_cast; omega)) a1 a2 a3 a4 a5 hf'
      refine ⟨b1, b2, ?_, ?_, ?_, b6⟩
      · rcases b3 with h | (h | h) | ⟨i, hi1, hi2, hi3⟩
        · exact Or.inl h
        · exact Or.inr (Or.inl h)
        · exact Or.inr (Or.inr ⟨s, le_rfl, by push_cast; omega, by rw [h]; exact hv⟩)
        · exact Or.inr (Or.inr ⟨i, by omega, by push_cast; omega, hi3⟩)
      · rcases b4 with h | (h | h) | ⟨i, hi1, hi2, hi3⟩
        · exact Or.inl h
        · exact Or.inr (Or.inl h)
        · exact Or.inr (Or.inr ⟨s, le_rfl, by push_cast; omega, by rw [h]; exact hv⟩)
        · exact Or.inr (Or.inr ⟨i, by omega, by push_cast; omega, hi3⟩)
      · intro hc w hw
        apply b5 hc w
        rcases hw with hw | ⟨i, hi1, hi2, hi3⟩
        · exact Or.inl (Or.inl hw)
        · by_cases hi : i = s
          · subst hi
            rw [hv] at hi3
            exact Or.inl (Or.inr (by injection hi3 with h; exact h.symm))
          · exact Or.inr ⟨i, by omega, by push_cast at hi2; omega, hi3⟩

/-- Invariant of the outer loop of the integer scan over the channels `chs`. -/
theorem findFramePeakIntChannels_inv (st : SampleType) (normalize : Bool) (frame : AudioFrame) :
    ∀ (chs : List Int) (acc : PeakScan) (P : Int → Prop),
      (∀ ch ∈ chs, ∀ i, 0 ≤ i → i < frame.length → ∃ v, (if (getSampleBitShift st).required = true then shiftRight (frame.data ch i) (getSampleBitShift st).count else frame.data ch i) = .int v) →
      acc.negPeak ≤ 0 → 0 ≤ acc.posPeak →
      (acc.posPeak = 0 ∨ P acc.posPeak) → (acc.negPeak = 0 ∨ P acc.negPeak) →
      (∀ w, P w → acc.negPeak ≤ w ∧ w ≤ acc.posPeak) → acc.foundMaxPeak = false →
      (findFramePeakIntChannels st normalize frame chs acc).negPeak ≤ 0
        ∧ 0 ≤ (findFramePeakIntChannels st normalize frame chs acc).posPeak
        ∧ ((findFramePeakIntChannels st normalize frame chs acc).posPeak = 0
            ∨ (P (findFramePeakIntChannels st normalize frame chs acc).posPeak
              ∨ ∃ ch ∈ chs, ∃ i, 0 ≤ i ∧ i < frame.length ∧ (if (getSampleBitShift st).required = true then shiftRight (frame.data ch i) (getSampleBitShift st).count else frame.data ch i)
                = .int (findFramePeakIntChannels st normalize frame chs acc).posPeak))
        ∧ ((findFramePeakIntChannels st normalize frame chs acc).negPeak = 0
            ∨ (P (findFramePeakIntChannels st normalize frame chs acc).negPeak
              ∨ ∃ ch ∈ chs, ∃ i, 0 ≤ i ∧ i < frame.length ∧ (if (getSampleBitShift st).required = true then shiftRight (frame.data ch i) (getSampleBitShift st).count else frame.data ch i)
                = .int (findFramePeakIntChannels st normalize frame chs acc).negPeak))
        ∧ ((findFramePeakIntChannels st normalize frame chs acc).foundMaxPeak = false →
            ∀ w, (P w ∨ ∃ ch ∈ chs, ∃ i, 0 ≤ i ∧ i < frame.length
                ∧ (if (getSampleBitShift st).required = true then shiftRight (frame.data ch i) (getSampleBitShift st).count else frame.data ch i) = .int w) →
              (findFramePeakIntChannels st normalize frame chs acc).negPeak ≤ w
                ∧ w ≤ (findFramePeakIntChannels st normalize frame chs acc).posPeak)
        ∧ ((findFramePeakIntChannels st normalize frame chs acc).foundMaxPeak = true →
            ((findFramePeakIntChannels st normalize frame chs acc).negPeak
                  ≤ -maxInt (intSampleBits st)
                ∧ ((findFramePeakIntChannels st normalize frame chs acc).negPeak
                      = minInt (intSampleBits st) ∨ normalize = true))
              ∨ ((findFramePeakIntChannels st normalize frame chs acc).posPeak
                    = maxInt (intSampleBits st)
                ∧ normalize = true)) := by
  intro chs
  induction chs with
  | nil =>
    intro acc P _ h1 h2 h3 h4 h5 h6
    simp only [findFramePeakIntChannels]
    refine ⟨h1, h2, ?_, ?_, ?_, ?_⟩
    · rcases h3 with h | h
      · exact Or.inl h
      · exact Or.inr (Or.inl h)
    · rcases h4 with h | h
      · exact Or.inl h
      · exact Or.inr (Or.inl h)
    · intro _ w hw
      rcases hw with hw | ⟨ch, hch, -⟩
      · exact h5 w hw
      · exact absurd hch (List.not_mem_nil ch)
    · intro hf
      rw [h6] at hf
      exact absurd hf (by decide)
  | cons c rest ih =>
    intro acc P hall h1 h2 h3 h4 h5 h6
    have hin : ∀ i, (0 : Int) ≤ i → i < 0 + (frame.length.toNat : Int) →
        ∃ v, (if (getSampleBitShift st).required = true then shiftRight (frame.data c i) (getSampleBitShift st).count else frame.data c i) = .int v := by
      intro i hi1 hi2
      exact hall c (List.mem_cons_self c rest) i hi1 (by omega)
    obtain ⟨a1, a2, a3, a4, a5, a6⟩ := findFramePeakIntSamples_inv st normalize (frame.data c)
      frame.length.toNat 0 acc P hin h1 h2 h3 h4 h5 h6
    simp only [findFramePeakIntChannels]
    by_cases hf : (findFramePeakIntSamples st normalize (frame.data c) frame.length.toNat 0
        acc).foundMaxPeak = true
    · rw [if_pos hf]
      refine ⟨a1, a2, ?_, ?_, ?_, fun _ => a6 hf⟩
      · rcases a3 with h | h | ⟨i, hi1, hi2, hi3⟩
        · exact Or.inl h
        · exact Or.inr (Or.inl h)
        · exact Or.inr (Or.inr ⟨c, List.mem_cons_self c rest, i, hi1, by omega, hi3⟩)
      · rcases a4 with h | h | ⟨i, hi1, hi2, hi3⟩
        · exact Or.inl h
        · exact Or.inr (Or.inl h)
        · exact Or.inr (Or.inr ⟨c, List.mem_cons_self c rest, i, hi1, by omega, hi3⟩)
      · intro hc
        rw [hf] at hc
        exact absurd hc (by decide)
    · rw [if_neg hf]
      have hf' : (findFramePeakIntSamples st normalize (frame.data c) frame.length.toNat 0
          acc).foundMaxPeak = false := by
        simpa using hf
      obtain ⟨b1, b2, b3, b4, b5, b6⟩ := ih
        (findFramePeakIntSamples st normalize (frame.data c) frame.length.toNat 0 acc)
        (fun w => P w ∨ ∃ i, (0 : Int) ≤ i ∧ i < 0 + (frame.length.toNat : Int)
          ∧ (if (getSampleBitShift st).required = true then shiftRight (frame.data c i) (getSampleBitShift st).count else frame.data c i) = .int w)
        (fun ch hch => hall ch (List.mem_cons_of_mem c hch)) a1 a2 a3 a4 (a5 hf') hf'
      refine ⟨b1, b2, ?_, ?_, ?_, b6⟩
      · rcases b3 with h | (h | ⟨i, hi1, hi2, hi3⟩) | ⟨ch, hch, i, hi1, hi2, hi3⟩
        · exact Or.inl h
        · exact Or.inr (Or.inl h)
        · exact Or.inr (Or.inr ⟨c, List.mem_cons_self c rest, i, hi1, by omega, hi3⟩)
        · exact Or.inr (Or.inr ⟨ch, List.mem_cons_of_mem c hch, i, hi1, hi2, hi3⟩)
      · rcases b4 with h | (h | ⟨i, hi1, hi2, hi3⟩) | ⟨ch, hch, i, hi1, hi2, hi3⟩
        · exact Or.inl h
        · exact Or.inr (Or.inl h)
        · exact Or.inr (Or.inr ⟨c, List.mem_cons_self c rest, i, hi1, by omega, hi3⟩)
        · exact Or.inr (Or.inr ⟨ch, List.mem_cons_of_mem c hch, i, hi1, hi2, hi3⟩)
      · intro hc w hw
        apply b5 hc w
        rcases hw with hw | ⟨ch, hch, i, hi1, hi2, hi3⟩
        · exact Or.inl (Or.inl hw)
        · rcases List.mem_cons.mp hch with h | h
          · subst h
            exact Or.inl (Or.inr ⟨i, hi1, by omega, hi3⟩)
          · exact Or.inr ⟨ch, h, i, hi1, hi2, hi3⟩

/-- The conversion of an integer sample to `double` is monotone on the range of the type. -/
theorem convSampleToDouble_int_mono {st : SampleType} (hst : isFloatSampleType st = false)
    {v w : Int} (hvw : v ≤ w) (hv : minInt (intSampleBits st) ≤ v) :
    convSampleToDouble st (.int v) ≤ convSampleToDouble st (.int w) := by
  obtain ⟨hM1, -, hmin⟩ := maxInt_bounds_of_int hst
  simp only [convSampleToDouble]
  apply fl64_mono
  apply div_le_div_of_nonneg_right _ (by exact_mod_cast (by omega : (0 : Int) ≤ maxInt (intSampleBits st)))
  have : clampSymIntSample (intSampleBits st) v ≤ clampSymIntSample (intSampleBits st) w := by
    unfold clampSymIntSample
    split_ifs <;> omega
  exact_mod_cast this

theorem convSampleToDouble_int_zero {st : SampleType} (hst : isFloatSampleType st = false) :
    convSampleToDouble st (.int 0) = 0 := by
  obtain ⟨hM1, -, hmin⟩ := maxInt_bounds_of_int hst
  simp only [convSampleToDouble]
  have : clampSymIntSample (intSampleBits st) 0 = 0 := by
    unfold clampSymIntSample
    rw [if_neg (by omega)]
  rw [this]
  simp [fl64_zero]

theorem convSampleToDouble_int_max {st : SampleType} (hst : isFloatSampleType st = false) :
    convSampleToDouble st (.int (maxInt (intSampleBits st))) = 1 := by
  obtain ⟨hM1, -, hmin⟩ := maxInt_bounds_of_int hst
  simp only [convSampleToDouble]
  have : clampSymIntSample (intSampleBits st) (maxInt (intSampleBits st))
      = maxInt (intSampleBits st) := by
    unfold clampSymIntSample
    rw [if_neg (by omega)]
  rw [this, div_self (by exact_mod_cast (by omega : maxInt (intSampleBits st) ≠ 0)), fl64_one]

theorem convSampleToDouble_int_low {st : SampleType} (hst : isFloatSampleType st = false)
    {v : Int} (hv : v ≤ -maxInt (intSampleBits st)) (hlo : minInt (intSampleBits st) ≤ v) :
    convSampleToDouble st (.int v) = -1 := by
  obtain ⟨hM1, -, hmin⟩ := maxInt_bounds_of_int hst
  simp only [convSampleToDouble]
  have : clampSymIntSample (intSampleBits st) v = -maxInt (intSampleBits st) := by
    unfold clampSymIntSample
    split_ifs <;> omega
  rw [this]
  push_cast
  rw [neg_div, div_self (by exact_mod_cast (by omega : maxInt (intSampleBits st) ≠ 0)),
    fl64_neg_one]

/-- The integer scan of one frame of native samples: what `posPeak`, `negPeak` and
`foundMaxPeak` hold when the loops are left. -/
theorem findFramePeakIntChannels_frame (st : SampleType) (normalize : Bool) (frame : AudioFrame)
    (channels : List Int) (hst : isFloatSampleType st = false)
    (hnat : ∀ ch ∈ channels, ∀ i, 0 ≤ i → i < frame.length →
      isNativeSample st (frame.data ch i) = true) :
    (minInt (intSampleBits st) ≤ (findFramePeakIntChannels st normalize frame channels
          { posPeak := 0, negPeak := 0, foundMaxPeak := false }).negPeak
        ∧ (findFramePeakIntChannels st normalize frame channels
          { posPeak := 0, negPeak := 0, foundMaxPeak := false }).negPeak ≤ 0)
      ∧ (0 ≤ (findFramePeakIntChannels st normalize frame channels
          { posPeak := 0, negPeak := 0, foundMaxPeak := false }).posPeak
        ∧ (findFramePeakIntChannels st normalize frame channels
          { posPeak := 0, negPeak := 0, foundMaxPeak := false }).posPeak
            ≤ maxInt (intSampleBits st))
      ∧ ((findFramePeakIntChannels st normalize frame channels
            { posPeak := 0, negPeak := 0, foundMaxPeak := false }).posPeak = 0
          ∨ ∃ ch ∈ channels, ∃ i, 0 ≤ i ∧ i < frame.length ∧ (if (getSampleBitShift st).required = true then shiftRight (frame.data ch i) (getSampleBitShift st).count else frame.data ch i)
              = .int (findFramePeakIntChannels st normalize frame channels
                { posPeak := 0, negPeak := 0, foundMaxPeak := false }).posPeak)
      ∧ ((findFramePeakIntChannels st normalize frame channels
            { posPeak := 0, negPeak := 0, foundMaxPeak := false }).negPeak = 0
          ∨ ∃ ch ∈ channels, ∃ i, 0 ≤ i ∧ i < frame.length ∧ (if (getSampleBitShift st).required = true then shiftRight (frame.data ch i) (getSampleBitShift st).count else frame.data ch i)
              = .int (findFramePeakIntChannels st normalize frame channels
                { posPeak := 0, negPeak := 0, foundMaxPeak := false }).negPeak)
      ∧ ((findFramePeakIntChannels st normalize frame channels
            { posPeak := 0, negPeak := 0, foundMaxPeak := false }).foundMaxPeak = false →
          ∀ ch ∈ channels, ∀ i, 0 ≤ i → i < frame.length → ∀ w,
            (if (getSampleBitShift st).required = true then shiftRight (frame.data ch i) (getSampleBitShift st).count else frame.data ch i) = .int w →
              (findFramePeakIntChannels st normalize frame channels
                  { posPeak := 0, negPeak := 0, foundMaxPeak := false }).negPeak ≤ w
                ∧ w ≤ (findFramePeakIntChannels st normalize frame channels
                  { posPeak := 0, negPeak := 0, foundMaxPeak := false }).posPeak)
      ∧ ((findFramePeakIntChannels st normalize frame channels
            { posPeak := 0, negPeak := 0, foundMaxPeak := false }).foundMaxPeak = true →
          ((findFramePeakIntChannels st normalize frame channels
                  { posPeak := 0, negPeak := 0, foundMaxPeak := false }).negPeak
                ≤ -maxInt (intSampleBits st)
              ∧ ((findFramePeakIntChannels st normalize frame channels
                    { posPeak := 0, negPeak := 0, foundMaxPeak := false }).negPeak
                  = minInt (intSampleBits st) ∨ normalize = true))
            ∨ ((findFramePeakIntChannels st normalize frame channels
                  { posPeak := 0, negPeak := 0, foundMaxPeak := false }).posPeak
                = maxInt (intSampleBits st)
              ∧ normalize = true)) := by
  obtain ⟨hM1, -, hmin⟩ := maxInt_bounds_of_int hst
  have hlog : ∀ ch ∈ channels, ∀ i, 0 ≤ i → i < frame.length →
      ∃ v, (if (getSampleBitShift st).required = true then shiftRight (frame.data ch i) (getSampleBitShift st).count else frame.data ch i) = .int v := by
    intro ch hch i hi1 hi2
    obtain ⟨v, hv, -⟩ := logical_of_native_int hst (hnat ch hch i hi1 hi2)
    exact ⟨v, hv⟩
  have hrange : ∀ ch ∈ channels, ∀ i, 0 ≤ i → i < frame.length → ∀ w,
      (if (getSampleBitShift st).required = true then shiftRight (frame.data ch i) (getSampleBitShift st).count else frame.data ch i) = .int w →
        minInt (intSampleBits st) ≤ w ∧ w ≤ maxInt (intSampleBits st) := by
    intro ch hch i hi1 hi2 w hw
    obtain ⟨v, hv, hv1, hv2⟩ := logical_of_native_int hst (hnat ch hch i hi1 hi2)
    rw [hv] at hw
    injection hw with h
    subst h
    exact ⟨hv1, hv2⟩
  obtain ⟨a1, a2, a3, a4, a5, a6⟩ := findFramePeakIntChannels_inv st normalize frame channels
    { posPeak := 0, negPeak := 0, foundMaxPeak := false } (fun _ => False) hlog le_rfl le_rfl
    (Or.inl rfl) (Or.inl rfl) (fun w hw => absurd hw id) rfl
  have a3' : (findFramePeakIntChannels st normalize frame channels
        { posPeak := 0, negPeak := 0, foundMaxPeak := false }).posPeak = 0
      ∨ ∃ ch ∈ channels, ∃ i, 0 ≤ i ∧ i < frame.length ∧ (if (getSampleBitShift st).required = true then shiftRight (frame.data ch i) (getSampleBitShift st).count else frame.data ch i)
          = .int (findFramePeakIntChannels st normalize frame channels
            { posPeak := 0, negPeak := 0, foundMaxPeak := false }).posPeak := by
    rcases a3 with h | h | h
    · exact Or.inl h
    · exact absurd h id
    · exact Or.inr h
  have a4' : (findFramePeakIntChannels st normalize frame channels
        { posPeak := 0, negPeak := 0, foundMaxPeak := false }).negPeak = 0
      ∨ ∃ ch ∈ channels, ∃ i, 0 ≤ i ∧ i < frame.length ∧ (if (getSampleBitShift st).required = true then shiftRight (frame.data ch i) (getSampleBitShift st).count else frame.data ch i)
          = .int (findFramePeakIntChannels st normalize frame channels
            { posPeak := 0, negPeak := 0, foundMaxPeak := false }).negPeak := by
    rcases a4 with h | h | h
    · exact Or.inl h
    · exact absurd h id
    · exact Or.inr h
  refine ⟨⟨?_, a1⟩, ⟨a2, ?_⟩, a3', a4', ?_, a6⟩
  · rcases a4' with h | ⟨ch, hch, i, hi1, hi2, hi3⟩
    · rw [h]; omega
    · exact (hrange ch hch i hi1 hi2 _ hi3).1
  · rcases a3' with h | ⟨ch, hch, i, hi1, hi2, hi3⟩
    · rw [h]; omega
    · exact (hrange ch hch i hi1 hi2 _ hi3).2
  · intro hf ch hch i hi1 hi2 w hw
    exact a5 hf w (Or.inr ⟨ch, hch, i, hi1, hi2, hw⟩)

/-- The peak of one frame of native integer samples with normalization: it bounds the
normalized magnitude of every selected sample of the frame, it is 0 or attained by one of them,
it lies in `[0, 1]`, and it is 1 when the scan reports the maximum. -/
theorem findFramePeakImpl_int_norm (st : SampleType) (frame : AudioFrame)
    (channels : List Int) (hst : isFloatSampleType st = false)
    (hnat : ∀ ch ∈ channels, ∀ i, 0 ≤ i → i < frame.length →
      isNativeSample st (frame.data ch i) = true) :
    (∀ ch ∈ channels, ∀ i, 0 ≤ i → i < frame.length →
        |convSampleToDouble st (if (getSampleBitShift st).required = true then shiftRight (frame.data ch i) (getSampleBitShift st).count else frame.data ch i)|
          ≤ |(findFramePeakImpl st frame channels true).value|)
      ∧ ((findFramePeakImpl st frame channels true).isMax = true →
          (findFramePeakImpl st frame channels true).value = 1)
      ∧ ((findFramePeakImpl st frame channels true).value = 0
          ∨ ∃ ch ∈ channels, ∃ i, 0 ≤ i ∧ i < frame.length
            ∧ |convSampleToDouble st (if (getSampleBitShift st).required = true then shiftRight (frame.data ch i) (getSampleBitShift st).count else frame.data ch i)|
              = |(findFramePeakImpl st frame channels true).value|)
      ∧ 0 ≤ (findFramePeakImpl st frame channels true).value
      ∧ (findFramePeakImpl st frame channels true).value ≤ 1 := by
  obtain ⟨hM1, -, hmin⟩ := maxInt_bounds_of_int hst
  obtain ⟨⟨n1, n2⟩, ⟨p1, p2⟩, hp, hn, hbr, htop⟩ :=
    findFramePeakIntChannels_frame st true frame channels hst hnat
  have hval : (findFramePeakImpl st frame channels true).value
      = max (convSampleToDouble st (.int (findFramePeakIntChannels st true frame channels
            { posPeak := 0, negPeak := 0, foundMaxPeak := false }).posPeak))
          |convSampleToDouble st (.int (findFramePeakIntChannels st true frame channels
            { posPeak := 0, negPeak := 0, foundMaxPeak := false }).negPeak)| := by
    simp [findFramePeakImpl, hst]
  have hmax : (findFramePeakImpl st frame channels true).isMax
      = (findFramePeakIntChannels st true frame channels
            { posPeak := 0, negPeak := 0, foundMaxPeak := false }).foundMaxPeak := by
    simp [findFramePeakImpl, hst]
  generalize findFramePeakIntChannels st true frame channels
    { posPeak := 0, negPeak := 0, foundMaxPeak := false } = sc at n1 n2 p1 p2 hp hn hbr htop hval hmax
  rw [hval, hmax]
  have hcp0 : 0 ≤ convSampleToDouble st (.int sc.posPeak) := by
    have := convSampleToDouble_int_mono hst p1 (by omega)
    rwa [convSampleToDouble_int_zero hst] at this
  have hcn0 : convSampleToDouble st (.int sc.negPeak) ≤ 0 := by
    have := convSampleToDouble_int_mono hst n2 n1
    rwa [convSampleToDouble_int_zero hst] at this
  have hcp1 := (convSampleToDouble_int_bounds hst (by omega : minInt (intSampleBits st) ≤ sc.posPeak) p2).2
  have hcn1 := (convSampleToDouble_int_bounds hst n1 (by omega : sc.negPeak ≤ maxInt (intSampleBits st))).1
  have hv0 : 0 ≤ max (convSampleToDouble st (.int sc.posPeak))
      |convSampleToDouble st (.int sc.negPeak)| := le_max_of_le_left hcp0
  have hv1 : max (convSampleToDouble st (.int sc.posPeak))
      |convSampleToDouble st (.int sc.negPeak)| ≤ 1 := by
    apply max_le hcp1
    rw [abs_of_nonpos hcn0]
    linarith
  have htopv : sc.foundMaxPeak = true → max (convSampleToDouble st (.int sc.posPeak))
      |convSampleToDouble st (.int sc.negPeak)| = 1 := by
    intro hf
    apply le_antisymm hv1
    rcases htop hf with ⟨h, -⟩ | ⟨h, -⟩
    · rw [convSampleToDouble_int_low hst h n1]
      apply le_max_of_le_right
      norm_num
    · rw [h, convSampleToDouble_int_max hst]
      exact le_max_left _ _
  refine ⟨?_, htopv, ?_, hv0, hv1⟩
  · intro ch hch i hi1 hi2
    obtain ⟨w, hw, hw1, hw2⟩ := logical_of_native_int hst (hnat ch hch i hi1 hi2)
    rw [hw, abs_of_nonneg hv0]
    by_cases hf : sc.foundMaxPeak = true
    · rw [htopv hf]
      obtain ⟨b1, b2⟩ := convSampleToDouble_int_bounds hst hw1 hw2
      rw [abs_le]
      exact ⟨b1, b2⟩
    · have hf' : sc.foundMaxPeak = false := by simpa using hf
      obtain ⟨c1, c2⟩ := hbr hf' ch hch i hi1 hi2 w hw
      rcases le_total 0 (convSampleToDouble st (.int w)) with h0 | h0
      · rw [abs_of_nonneg h0]
        exact le_max_of_le_left (convSampleToDouble_int_mono hst c2 hw1)
      · rw [abs_of_nonpos h0]
        apply le_max_of_le_right
        rw [abs_of_nonpos hcn0]
        have := convSampleToDouble_int_mono hst c1 n1
        linarith
  · rw [abs_of_nonneg hv0]
    rcases le_total |convSampleToDouble st (.int sc.negPeak)|
        (convSampleToDouble st (.int sc.posPeak)) with hle | hle
    · rw [max_eq_left hle]
      rcases hp with h | ⟨ch, hch, i, hi1, hi2, hi3⟩
      · left
        rw [h, convSampleToDouble_int_zero hst]
      · right
        refine ⟨ch, hch, i, hi1, hi2, ?_⟩
        rw [hi3, abs_of_nonneg hcp0]
    · rw [max_eq_right hle]
      rcases hn with h | ⟨ch, hch, i, hi1, hi2, hi3⟩
      · left
        rw [h, convSampleToDouble_int_zero hst]
        simp
      · right
        refine ⟨ch, hch, i, hi1, hi2, ?_⟩
        rw [hi3]

/-- The peak of one frame of native integer samples without normalization: its magnitude
bounds the magnitude of every selected sample of the frame, it is 0 or a sample's, and it is
the largest possible when the scan reports the maximum. -/
theorem findFramePeakImpl_int_abs (st : SampleType) (frame : AudioFrame)
    (channels : List Int) (hst : isFloatSampleType st = false)
    (hnat : ∀ ch ∈ channels, ∀ i, 0 ≤ i → i < frame.length →
      isNativeSample st (frame.data ch i) = true) :
    (∀ ch ∈ channels, ∀ i, 0 ≤ i → i < frame.length → ∀ w,
        (if (getSampleBitShift st).required = true then shiftRight (frame.data ch i) (getSampleBitShift st).count else frame.data ch i) = .int w →
          |(w : ℚ)| ≤ |(findFramePeakImpl st frame channels false).value|)
      ∧ ((findFramePeakImpl st frame channels false).isMax = true →
          |(findFramePeakImpl st frame channels false).value|
            = (maxInt (intSampleBits st) : ℚ) + 1)
      ∧ ((findFramePeakImpl st frame channels false).value = 0
          ∨ ∃ ch ∈ channels, ∃ i, 0 ≤ i ∧ i < frame.length ∧ ∃ w,
            (if (getSampleBitShift st).required = true then shiftRight (frame.data ch i) (getSampleBitShift st).count else frame.data ch i) = .int w
              ∧ |(w : ℚ)| = |(findFramePeakImpl st frame channels false).value|) := by
  obtain ⟨hM1, -, hmin⟩ := maxInt_bounds_of_int hst
  obtain ⟨⟨n1, n2⟩, ⟨p1, p2⟩, hp, hn, hbr, htop⟩ :=
    findFramePeakIntChannels_frame st false frame channels hst hnat
  have hval : (findFramePeakImpl st frame channels false).value
      = if ((findFramePeakIntChannels st false frame channels
            { posPeak := 0, negPeak := 0, foundMaxPeak := false }).posPeak : ℚ)
          < |((findFramePeakIntChannels st false frame channels
            { posPeak := 0, negPeak := 0, foundMaxPeak := false }).negPeak : ℚ)|
        then ((findFramePeakIntChannels st false frame channels
            { posPeak := 0, negPeak := 0, foundMaxPeak := false }).negPeak : ℚ)
        else ((findFramePeakIntChannels st false frame channels
            { posPeak := 0, negPeak := 0, foundMaxPeak := false }).posPeak : ℚ) := by
    simp [findFramePeakImpl, hst]
  have hmax : (findFramePeakImpl st frame channels false).isMax
      = (findFramePeakIntChannels st false frame channels
            { posPeak := 0, negPeak := 0, foundMaxPeak := false }).foundMaxPeak := by
    simp [findFramePeakImpl, hst]
  generalize findFramePeakIntChannels st false frame channels
    { posPeak := 0, negPeak := 0, foundMaxPeak := false } = sc at n1 n2 p1 p2 hp hn hbr htop hval hmax
  rw [hval, hmax]
  have hpq : (0 : ℚ) ≤ (sc.posPeak : ℚ) := by exact_mod_cast p1
  have hnq : (sc.negPeak : ℚ) ≤ 0 := by exact_mod_cast n2
  have habs : |(if (sc.posPeak : ℚ) < |(sc.negPeak : ℚ)| then (sc.negPeak : ℚ)
      else (sc.posPeak : ℚ))| = max (sc.posPeak : ℚ) (-(sc.negPeak : ℚ)) := by
    rw [abs_of_nonpos hnq]
    split_ifs with h
    · rw [abs_of_nonpos hnq, max_eq_right h.le]
    · rw [abs_of_nonneg hpq, max_eq_left (not_lt.mp h)]
  rw [habs]
  refine ⟨?_, ?_, ?_⟩
  · intro ch hch i hi1 hi2 w hw
    obtain ⟨v, hv, hv1, hv2⟩ := logical_of_native_int hst (hnat ch hch i hi1 hi2)
    have hwv : w = v := by
      rw [hv] at hw
      injection hw with h
      exact h.symm
    subst hwv
    by_cases hf : sc.foundMaxPeak = true
    · rcases htop hf with ⟨h1, h2⟩ | ⟨-, h⟩
      · rcases h2 with h2 | h2
        · apply le_max_of_le_right
          rw [h2, abs_le]
          have e1 : ((minInt (intSampleBits st) : Int) : ℚ) ≤ (w : ℚ) := by exact_mod_cast hv1
          have e2 : (w : ℚ) ≤ ((maxInt (intSampleBits st) : Int) : ℚ) := by exact_mod_cast hv2
          have e3 : ((minInt (intSampleBits st) : Int) : ℚ)
              = -((maxInt (intSampleBits st) : Int) : ℚ) - 1 := by
            rw [hmin]; push_cast; ring
          constructor <;> linarith
        · exact absurd h2 (by decide)
      · exact absurd h (by decide)
    · have hf' : sc.foundMaxPeak = false := by simpa using hf
      obtain ⟨c1, c2⟩ := hbr hf' ch hch i hi1 hi2 w hw
      have e1 : (sc.negPeak : ℚ) ≤ (w : ℚ) := by exact_mod_cast c1
      have e2 : (w : ℚ) ≤ (sc.posPeak : ℚ) := by exact_mod_cast c2
      rw [abs_le]
      constructor
      · have := le_max_right (sc.posPeak : ℚ) (-(sc.negPeak : ℚ))
        linarith
      · exact le_trans e2 (le_max_left _ _)
  · intro hf
    rcases htop hf with ⟨h1, h2⟩ | ⟨-, h⟩
    · rcases h2 with h2 | h2
      · have e2 : (sc.posPeak : ℚ) ≤ ((maxInt (intSampleBits st) : Int) : ℚ) := by
          exact_mod_cast p2
        rw [h2, hmin]
        push_cast
        rw [max_eq_right (by linarith)]
        ring
      · exact absurd h2 (by decide)
    · exact absurd h (by decide)
  · rcases le_total (-(sc.negPeak : ℚ)) (sc.posPeak : ℚ) with hle | hle
    · have hif : ¬ (sc.posPeak : ℚ) < |(sc.negPeak : ℚ)| := by
        rw [abs_of_nonpos hnq]
        exact not_lt.mpr hle
      rw [if_neg hif, max_eq_left hle]
      rcases hp with h | ⟨ch, hch, i, hi1, hi2, hi3⟩
      · left
        rw [h]
        simp
      · right
        exact ⟨ch, hch, i, hi1, hi2, sc.posPeak, hi3, abs_of_nonneg hpq⟩
    · rw [max_eq_right hle]
      rcases hn with h | ⟨ch, hch, i, hi1, hi2, hi3⟩
      · left
        have hp0 : sc.posPeak = 0 := by
          rw [h] at hle
          simp at hle
          omega
        rw [h, hp0]
        simp
      · right
        exact ⟨ch, hch, i, hi1, hi2, sc.negPeak, hi3, abs_of_nonpos hnq⟩

/-- The loop of `findPeak`, for a magnitude `μ` of the logical samples: if every frame's peak
bounds the magnitudes of the frame's selected samples, is 0 or attained in the frame, and
bounds the magnitude of every sample of the type (`R`) when the frame reports the maximum,
then the magnitude of the result bounds the magnitude of every selected sample of the frames
`[n, n + todo)` and of the samples `P` seen before, and it is 0 or attained by one of them. -/
theorem findPeakLoop_inv (getFrame : Int → Option AudioFrame) (st : SampleType)
    (channels : List Int) (normalize : Bool) (μ : Sample → ℚ) (R : Sample → Prop)
    (hframe : ∀ j frame, getFrame j = some frame →
      (∀ ch ∈ channels, ∀ i, 0 ≤ i → i < frame.length →
          μ (if (getSampleBitShift st).required = true then shiftRight (frame.data ch i) (getSampleBitShift st).count else frame.data ch i) ≤ |(findFramePeakImpl st frame channels normalize).value|)
        ∧ ((findFramePeakImpl st frame channels normalize).isMax = true →
            ∀ x, R x → μ x ≤ |(findFramePeakImpl st frame channels normalize).value|)
        ∧ ((findFramePeakImpl st frame channels normalize).value = 0
            ∨ ∃ ch ∈ channels, ∃ i, 0 ≤ i ∧ i < frame.length
              ∧ μ (if (getSampleBitShift st).required = true then shiftRight (frame.data ch i) (getSampleBitShift st).count else frame.data ch i)
                = |(findFramePeakImpl st frame channels normalize).value|)
        ∧ (normalize = true → 0 ≤ (findFramePeakImpl st frame channels normalize).value))
    (hR : ∀ j frame, getFrame j = some frame → ∀ ch ∈ channels, ∀ i, 0 ≤ i →
      i < frame.length → R (if (getSampleBitShift st).required = true then shiftRight (frame.data ch i) (getSampleBitShift st).count else frame.data ch i)) :
    ∀ (todo : Nat) (n : Int) (peak : ℚ) (isMax : Bool) (P : Sample → Prop),
      (isMax = false → ∀ x, P x → μ x ≤ |peak|) →
      (isMax = true → ∀ x, R x → μ x ≤ |peak|) →
      (∀ x, P x → R x) →
      (peak = 0 ∨ ∃ x, P x ∧ μ x = |peak|) →
      (normalize = true → 0 ≤ peak) →
      (∀ x, (P x ∨ ∃ j frame, n ≤ j ∧ j < n + todo ∧ getFrame j = some frame
            ∧ ∃ ch ∈ channels, ∃ i, 0 ≤ i ∧ i < frame.length ∧ (if (getSampleBitShift st).required = true then shiftRight (frame.data ch i) (getSampleBitShift st).count else frame.data ch i) = x) →
          μ x ≤ |findPeakLoop getFrame st channels normalize todo n peak isMax|)
        ∧ (findPeakLoop getFrame st channels normalize todo n peak isMax = 0
          ∨ ∃ x, (P x ∨ ∃ j frame, n ≤ j ∧ j < n + todo ∧ getFrame j = some frame
              ∧ ∃ ch ∈ channels, ∃ i, 0 ≤ i ∧ i < frame.length
                ∧ (if (getSampleBitShift st).required = true then shiftRight (frame.data ch i) (getSampleBitShift st).count else frame.data ch i) = x)
            ∧ μ x = |findPeakLoop getFrame st channels normalize todo n peak isMax|)
        ∧ (normalize = true →
          0 ≤ findPeakLoop getFrame st channels normalize todo n peak isMax) := by
  intro todo
  induction todo with
  | zero =>
    intro n peak isMax P h1 h2 h3 h4 h5
    simp only [findPeakLoop]
    refine ⟨?_, ?_, h5⟩
    · rintro x (hx | ⟨j, frame, hj1, hj2, -⟩)
      · cases isMax with
        | false => exact h1 rfl x hx
        | true => exact h2 rfl x (h3 x hx)
      · exfalso
        simp at hj2
        omega
    · rcases h4 with h | ⟨x, hx1, hx2⟩
      · exact Or.inl h
      · exact Or.inr ⟨x, Or.inl hx1, hx2⟩
  | succ todo ih =>
    intro n peak isMax P h1 h2 h3 h4 h5
    simp only [findPeakLoop]
    cases isMax with
    | true =>
      simp only [if_true]
      refine ⟨?_, ?_, h5⟩
      · rintro x (hx | ⟨j, frame, hj1, hj2, hj3, ch, hch, i, hi1, hi2, hi3⟩)
        · exact h2 rfl x (h3 x hx)
        · rw [← hi3]
          exact h2 rfl _ (hR j frame hj3 ch hch i hi1 hi2)
      · rcases h4 with h | ⟨x, hx1, hx2⟩
        · exact Or.inl h
        · exact Or.inr ⟨x, Or.inl hx1, hx2⟩
    | false =>
      simp only [Bool.false_eq_true, if_false, Bool.false_or]
      cases hg : getFrame n with
      | none =>
        simp only
        obtain ⟨b1, b2, b3⟩ := ih (n + 1) peak false P h1 h2 h3 h4 h5
        refine ⟨?_, ?_, b3⟩
        · rintro x (hx | ⟨j, frame, hj1, hj2, hj3, hrest⟩)
          · exact b1 x (Or.inl hx)
          · by_cases hjn : j = n
            · rw [hjn, hg] at hj3
              exact absurd hj3 (by simp)
            · exact b1 x (Or.inr ⟨j, frame, by omega, by push_cast at hj2; omega, hj3, hrest⟩)
        · rcases b2 with h | ⟨x, hx1, hx2⟩
          · exact Or.inl h
          · refine Or.inr ⟨x, ?_, hx2⟩
            rcases hx1 with hx | ⟨j, frame, hj1, hj2, hj3, hrest⟩
            · exact Or.inl hx
            · exact Or.inr ⟨j, frame, by omega, by push_cast; omega, hj3, hrest⟩
      | some frame =>
        simp only
        obtain ⟨f1, f2, f3, f4⟩ := hframe n frame hg
        generalize (findFramePeakImpl st frame channels normalize).value = v at f1 f2 f3 f4
        generalize (findFramePeakImpl st frame channels normalize).isMax = mx at f2
        have hpk : |peak| ≤ |if |peak| < |v| then v else peak|
            ∧ |v| ≤ |if |peak| < |v| then v else peak| := by
          split_ifs with h
          · exact ⟨h.le, le_rfl⟩
          · exact ⟨le_rfl, not_lt.mp h⟩
        obtain ⟨b1, b2, b3⟩ := ih (n + 1) (if |peak| < |v| then v else peak) mx
          (fun x => P x ∨ ∃ ch ∈ channels, ∃ i, 0 ≤ i ∧ i < frame.length
            ∧ (if (getSampleBitShift st).required = true then shiftRight (frame.data ch i) (getSampleBitShift st).count else frame.data ch i) = x)
          (by
            rintro - x (hx | ⟨ch, hch, i, hi1, hi2, hi3⟩)
            · exact le_trans (h1 rfl x hx) hpk.1
            · rw [← hi3]
              exact le_trans (f1 ch hch i hi1 hi2) hpk.2)
          (by
            intro hmx x hx
            exact le_trans (f2 hmx x hx) hpk.2)
          (by
            rintro x (hx | ⟨ch, hch, i, hi1, hi2, hi3⟩)
            · exact h3 x hx
            · rw [← hi3]
              exact hR n frame hg ch hch i hi1 hi2)
          (by
            by_cases h : |peak| < |v|
            · simp only [if_pos h]
              rcases f3 with h0 | ⟨ch, hch, i, hi1, hi2, hi3⟩
              · exact Or.inl h0
              · exact Or.inr ⟨_, Or.inr ⟨ch, hch, i, hi1, hi2, rfl⟩, hi3⟩
            · simp only [if_neg h]
              rcases h4 with h0 | ⟨x, hx1, hx2⟩
              · exact Or.inl h0
              · exact Or.inr ⟨x, Or.inl hx1, hx2⟩)
          (by
            intro hn
            by_cases h : |peak| < |v|
            · simp only [if_pos h]
              exact f4 hn
            · simp only [if_neg h]
              exact h5 hn)
        refine ⟨?_, ?_, b3⟩
        · rintro x (hx | ⟨j, frame2, hj1, hj2, hj3, hrest⟩)
          · exact b1 x (Or.inl (Or.inl hx))
          · by_cases hjn : j = n
            · rw [hjn, hg] at hj3
              injection hj3 with hj3
              subst hj3
              exact b1 x (Or.inl (Or.inr hrest))
            · exact b1 x (Or.inr ⟨j, frame2, by omega, by push_cast at hj2; omega, hj3, hrest⟩)
        · rcases b2 with h | ⟨x, hx1, hx2⟩
          · exact Or.inl h
          · refine Or.inr ⟨x, ?_, hx2⟩
            rcases hx1 with (hx | hx) | ⟨j, frame2, hj1, hj2, hj3, hrest⟩
            · exact Or.inl hx
            · exact Or.inr ⟨n, frame, le_rfl, by push_cast; omega, hg, hx⟩
            · exact Or.inr ⟨j, frame2, by omega, by push_cast; omega, hj3, hrest⟩

/-- The inner loop of the floating point scan over the indices `[s, s + todo)`. -/
theorem findFramePeakFltSamples_inv (frmPtr : Int → Sample) :
    ∀ (todo : Nat) (s : Int) (peak : ℚ),
      (∀ i, s ≤ i → i < s + todo → ∃ q, frmPtr i = .flt q) →
      |peak| ≤ |findFramePeakFltSamples frmPtr todo s peak|
        ∧ (∀ i, s ≤ i → i < s + todo → ∀ q, frmPtr i = .flt q →
            |q| ≤ |findFramePeakFltSamples frmPtr todo s peak|)
        ∧ (findFramePeakFltSamples frmPtr todo s peak = peak
          ∨ ∃ i, s ≤ i ∧ i < s + todo
            ∧ frmPtr i = .flt (findFramePeakFltSamples frmPtr todo s peak)) := by
  intro todo
  induction todo with
  | zero =>
    intro s peak _
    simp only [findFramePeakFltSamples]
    refine ⟨le_rfl, ?_, Or.inl trivial⟩
    intro i hi1 hi2
    exfalso
    simp at hi2
    omega
  | succ todo ih =>
    intro s peak hall
    obtain ⟨q0, hq0⟩ := hall s le_rfl (by push_cast; omega)
    simp only [findFramePeakFltSamples]
    have hstep : findFramePeakFltStep (frmPtr s) peak = if |peak| < |q0| then q0 else peak := by
      simp only [findFramePeakFltStep, hq0]
    rw [hstep]
    obtain ⟨b1, b2, b3⟩ := ih (s + 1) (if |peak| < |q0| then q0 else peak)
      (fun i hi1 hi2 => hall i (by omega) (by push_cast; omega))
    have hpk : |peak| ≤ |if |peak| < |q0| then q0 else peak|
        ∧ |q0| ≤ |if |peak| < |q0| then q0 else peak| := by
      split_ifs with h
      · exact ⟨h.le, le_rfl⟩
      · exact ⟨le_rfl, not_lt.mp h⟩
    refine ⟨le_trans hpk.1 b1, ?_, ?_⟩
    · intro i hi1 hi2 q hq
      by_cases hi : i = s
      · subst hi
        rw [hq0] at hq
        injection hq with hq
        subst hq
        exact le_trans hpk.2 b1
      · exact b2 i (by omega) (by push_cast at hi2; omega) q hq
    · rcases b3 with h | ⟨i, hi1, hi2, hi3⟩
      · rw [h]
        by_cases hc : |peak| < |q0|
        · rw [if_pos hc]
          exact Or.inr ⟨s, le_rfl, by push_cast; omega, hq0⟩
        · rw [if_neg hc]
          exact Or.inl rfl
      · exact Or.inr ⟨i, by omega, by push_cast; omega, hi3⟩

/-- The outer loop of the floating point scan over the channels `chs`. -/
theorem findFramePeakFltChannels_inv (frame : AudioFrame) :
    ∀ (chs : List Int) (peak : ℚ),
      (∀ ch ∈ chs, ∀ i, 0 ≤ i → i < frame.length → ∃ q, frame.data ch i = .flt q) →
      |peak| ≤ |findFramePeakFltChannels frame chs peak|
        ∧ (∀ ch ∈ chs, ∀ i, 0 ≤ i → i < frame.length → ∀ q, frame.data ch i = .flt q →
            |q| ≤ |findFramePeakFltChannels frame chs peak|)
        ∧ (findFramePeakFltChannels frame chs peak = peak
          ∨ ∃ ch ∈ chs, ∃ i, 0 ≤ i ∧ i < frame.length
            ∧ frame.data ch i = .flt (findFramePeakFltChannels frame chs peak)) := by
  intro chs
  induction chs with
  | nil =>
    intro peak _
    simp only [findFramePeakFltChannels]
    refine ⟨le_rfl, ?_, Or.inl trivial⟩
    intro ch hch
    exact absurd hch (List.not_mem_nil ch)
  | cons c rest ih =>
    intro peak hall
    simp only [findFramePeakFltChannels]
    obtain ⟨a1, a2, a3⟩ := findFramePeakFltSamples_inv (frame.data c) frame.length.toNat 0 peak
      (fun i hi1 hi2 => hall c (List.mem_cons_self c rest) i hi1 (by omega))
    obtain ⟨b1, b2, b3⟩ := ih (findFramePeakFltSamples (frame.data c) frame.length.toNat 0 peak)
      (fun ch hch => hall ch (List.mem_cons_of_mem c hch))
    refine ⟨le_trans a1 b1, ?_, ?_⟩
    · intro ch hch i hi1 hi2 q hq
      rcases List.mem_cons.mp hch with h | h
      · subst h
        exact le_trans (a2 i hi1 (by omega) q hq) b1
      · exact b2 ch h i hi1 hi2 q hq
    · rcases b3 with h | ⟨ch, hch, i, hi1, hi2, hi3⟩
      · rw [h]
        rcases a3 with h2 | ⟨i, hi1, hi2, hi3⟩
        · exact Or.inl h2
        · exact Or.inr ⟨c, List.mem_cons_self c rest, i, hi1, by omega, hi3⟩
      · exact Or.inr ⟨ch, List.mem_cons_of_mem c hch, i, hi1, hi2, hi3⟩

/-- The peak of one frame of native floating point samples: its magnitude bounds the
magnitude of every selected sample of the frame, it is 0 or attained by one of them, and the
scan never reports the maximum. -/
theorem findFramePeakImpl_flt (st : SampleType) (frame : AudioFrame) (channels : List Int)
    (normalize : Bool) (hst : isFloatSampleType st = true)
    (hnat : ∀ ch ∈ channels, ∀ i, 0 ≤ i → i < frame.length →
      isNativeSample st (frame.data ch i) = true) :
    (∀ ch ∈ channels, ∀ i, 0 ≤ i → i < frame.length →
        |convSampleToDouble st (if (getSampleBitShift st).required = true then shiftRight (frame.data ch i) (getSampleBitShift st).count else frame.data ch i)|
          ≤ |(findFramePeakImpl st frame channels normalize).value|)
      ∧ (findFramePeakImpl st frame channels normalize).isMax = false
      ∧ ((findFramePeakImpl st frame channels normalize).value = 0
          ∨ ∃ ch ∈ channels, ∃ i, 0 ≤ i ∧ i < frame.length
            ∧ |convSampleToDouble st (if (getSampleBitShift st).required = true then shiftRight (frame.data ch i) (getSampleBitShift st).count else frame.data ch i)|
              = |(findFramePeakImpl st frame channels normalize).value|)
      ∧ (normalize = true → 0 ≤ (findFramePeakImpl st frame channels normalize).value) := by
  have hflt : ∀ ch ∈ channels, ∀ i, 0 ≤ i → i < frame.length →
      ∃ q, frame.data ch i = .flt q := by
    intro ch hch i hi1 hi2
    obtain ⟨q, hq, -⟩ := logical_of_native_flt hst (hnat ch hch i hi1 hi2)
    exact ⟨q, hq⟩
  obtain ⟨-, a2, a3⟩ := findFramePeakFltChannels_inv frame channels 0 hflt
  have hval : |(findFramePeakImpl st frame channels normalize).value|
      = |findFramePeakFltChannels frame channels 0| := by
    cases normalize <;> simp [findFramePeakImpl, hst]
  have hmax : (findFramePeakImpl st frame channels normalize).isMax = false := by
    cases normalize <;> simp [findFramePeakImpl, hst]
  have hzero : findFramePeakFltChannels frame channels 0 = 0 →
      (findFramePeakImpl st frame channels normalize).value = 0 := by
    intro h
    cases normalize <;> simp [findFramePeakImpl, hst, h]
  have hnn : normalize = true → 0 ≤ (findFramePeakImpl st frame channels normalize).value := by
    intro h
    subst h
    simp [findFramePeakImpl, hst]
  rw [hval]
  refine ⟨?_, hmax, ?_, hnn⟩
  · intro ch hch i hi1 hi2
    obtain ⟨q, hq, hl⟩ := logical_of_native_flt hst (hnat ch hch i hi1 hi2)
    rw [hl]
    simp only [convSampleToDouble]
    exact a2 ch hch i hi1 hi2 q hq
  · rcases a3 with h | ⟨ch, hch, i, hi1, hi2, hi3⟩
    · exact Or.inl (hzero h)
    · right
      refine ⟨ch, hch, i, hi1, hi2, ?_⟩
      obtain ⟨q, hq, hl⟩ := logical_of_native_flt hst (hnat ch hch i hi1 hi2)
      rw [hl]
      simp only [convSampleToDouble]
      rw [hq] at hi3
      injection hi3 with hi3
      rw [hi3]

/-- The result of `findPeak` with normalization on a stream of native samples: it is not
negative, it bounds the normalized magnitude of every selected sample of every frame, and it
is 0 or the normalized magnitude of one of them. -/
theorem findPeak_norm (getFrame : Int → Option AudioFrame) (numFrames : Int)
    (st : SampleType) (channels : List Int)
    (hnat : ∀ j frame, getFrame j = some frame → ∀ ch ∈ channels, ∀ i, 0 ≤ i →
      i < frame.length → isNativeSample st (frame.data ch i) = true) :
    0 ≤ findPeak getFrame numFrames st channels true
      ∧ (∀ j frame, 0 ≤ j → j < numFrames → getFrame j = some frame →
          ∀ ch ∈ channels, ∀ i, 0 ≤ i → i < frame.length →
            |convSampleToDouble st (if (getSampleBitShift st).required = true then shiftRight (frame.data ch i) (getSampleBitShift st).count else frame.data ch i)|
              ≤ findPeak getFrame numFrames st channels true)
      ∧ (findPeak getFrame numFrames st channels true = 0
        ∨ ∃ j frame, 0 ≤ j ∧ j < numFrames ∧ getFrame j = some frame
          ∧ ∃ ch ∈ channels, ∃ i, 0 ≤ i ∧ i < frame.length
            ∧ |convSampleToDouble st (if (getSampleBitShift st).required = true then shiftRight (frame.data ch i) (getSampleBitShift st).count else frame.data ch i)|
              = findPeak getFrame numFrames st channels true) := by
  have key := findPeakLoop_inv getFrame st channels true
    (fun x => |convSampleToDouble st x|)
    (fun x => isFloatSampleType st = false
      → ∃ v, x = .int v ∧ minInt (intSampleBits st) ≤ v ∧ v ≤ maxInt (intSampleBits st))
    (by
      intro j frame hj
      cases hst : isFloatSampleType st with
      | false =>
        obtain ⟨c1, c2, c3, c4, c5⟩ := findFramePeakImpl_int_norm st frame channels hst
          (hnat j frame hj)
        refine ⟨c1, ?_, c3, fun _ => c4⟩
        intro hmx x hx
        obtain ⟨v, hv, hv1, hv2⟩ := hx rfl
        rw [c2 hmx, hv]
        obtain ⟨b1, b2⟩ := convSampleToDouble_int_bounds hst hv1 hv2
        simp only [abs_one]
        rw [abs_le]
        exact ⟨b1, b2⟩
      | true =>
        obtain ⟨c1, c2, c3, c4⟩ := findFramePeakImpl_flt st frame channels true hst
          (hnat j frame hj)
        refine ⟨c1, ?_, c3, c4⟩
        intro hmx
        rw [c2] at hmx
        exact absurd hmx (by decide))
    (by
      intro j frame hj ch hch i hi1 hi2
      cases hst : isFloatSampleType st with
      | false =>
        obtain ⟨v, hv, hv1, hv2⟩ := logical_of_native_int hst (hnat j frame hj ch hch i hi1 hi2)
        exact fun _ => ⟨v, hv, hv1, hv2⟩
      | true =>
        intro h
        exact absurd h (by decide))
    numFrames.toNat 0 0 false (fun _ => False)
    (fun _ x hx => absurd hx id) (fun h => absurd h (by decide)) (fun x hx => absurd hx id)
    (Or.inl rfl) (fun _ => le_rfl)
  obtain ⟨k1, k2, k3⟩ := key
  have hnn := k3 rfl
  have hfp : findPeak getFrame numFrames st channels true
      = findPeakLoop getFrame st channels true numFrames.toNat 0 0 false := rfl
  rw [hfp]
  refine ⟨hnn, ?_, ?_⟩
  · intro j frame hj1 hj2 hj ch hch i hi1 hi2
    have h := k1 _ (Or.inr ⟨j, frame, by omega, by omega, hj, ch, hch, i, hi1, hi2, rfl⟩)
    rwa [abs_of_nonneg hnn] at h
  · rcases k2 with h | ⟨x, hx | ⟨j, frame, hj1, hj2, hj, ch, hch, i, hi1, hi2, hi3⟩, hx2⟩
    · exact Or.inl h
    · exact absurd hx id
    · right
      refine ⟨j, frame, by omega, by omega, hj, ch, hch, i, hi1, hi2, ?_⟩
      rw [hi3]
      rw [abs_of_nonneg hnn] at hx2
      exact hx2

/-- The result of `findPeak` without normalization on a stream of native integer samples: its
magnitude bounds the magnitude of every selected sample of every frame, and it is 0 or the
magnitude of one of them. -/
theorem findPeak_abs (getFrame : Int → Option AudioFrame) (numFrames : Int)
    (st : SampleType) (channels : List Int) (hst : isFloatSampleType st = false)
    (hnat : ∀ j frame, getFrame j = some frame → ∀ ch ∈ channels, ∀ i, 0 ≤ i →
      i < frame.length → isNativeSample st (frame.data ch i) = true) :
    (∀ j frame, 0 ≤ j → j < numFrames → getFrame j = some frame →
          ∀ ch ∈ channels, ∀ i, 0 ≤ i → i < frame.length →
            ∀ w, (if (getSampleBitShift st).required = true then shiftRight (frame.data ch i) (getSampleBitShift st).count else frame.data ch i) = .int w →
              |(w : ℚ)| ≤ |findPeak getFrame numFrames st channels false|)
      ∧ (findPeak getFrame numFrames st channels false = 0
        ∨ ∃ j frame, 0 ≤ j ∧ j < numFrames ∧ getFrame j = some frame
          ∧ ∃ ch ∈ channels, ∃ i, 0 ≤ i ∧ i < frame.length
            ∧ ∃ w, (if (getSampleBitShift st).required = true then shiftRight (frame.data ch i) (getSampleBitShift st).count else frame.data ch i) = .int w
              ∧ |(w : ℚ)| = |findPeak getFrame numFrames st channels false|) := by
  obtain ⟨hM1, -, hmin⟩ := maxInt_bounds_of_int hst
  have key := findPeakLoop_inv getFrame st channels false
    (fun x => match x with
      | .int v => |(v : ℚ)|
      | .flt q => |q|)
    (fun x => ∃ v, x = .int v ∧ minInt (intSampleBits st) ≤ v ∧ v ≤ maxInt (intSampleBits st))
    (by
      intro j frame hj
      obtain ⟨c1, c2, c3⟩ := findFramePeakImpl_int_abs st frame channels hst (hnat j frame hj)
      refine ⟨?_, ?_, ?_, fun h => absurd h (by decide)⟩
      · intro ch hch i hi1 hi2
        obtain ⟨v, hv, -, -⟩ := logical_of_native_int hst (hnat j frame hj ch hch i hi1 hi2)
        have h := c1 ch hch i hi1 hi2 v hv
        rw [hv]
        exact h
      · rintro hmx x ⟨v, hv, hv1, hv2⟩
        rw [c2 hmx, hv]
        show |(v : ℚ)| ≤ _
        rw [abs_le]
        constructor
        · have : ((minInt (intSampleBits st) : Int) : ℚ) ≤ (v : ℚ) := by exact_mod_cast hv1
          rw [hmin] at this
          push_cast at this
          linarith
        · have : (v : ℚ) ≤ ((maxInt (intSampleBits st) : Int) : ℚ) := by exact_mod_cast hv2
          linarith
      · rcases c3 with h | ⟨ch, hch, i, hi1, hi2, w, hw1, hw2⟩
        · exact Or.inl h
        · right
          refine ⟨ch, hch, i, hi1, hi2, ?_⟩
          rw [hw1]
          exact hw2)
    (by
      intro j frame hj ch hch i hi1 hi2
      exact logical_of_native_int hst (hnat j frame hj ch hch i hi1 hi2))
    numFrames.toNat 0 0 false (fun _ => False)
    (fun _ x hx => absurd hx id) (fun h => absurd h (by decide)) (fun x hx => absurd hx id)
    (Or.inl rfl) (fun h => absurd h (by decide))
  obtain ⟨k1, k2, -⟩ := key
  have hfp : findPeak getFrame numFrames st channels false
      = findPeakLoop getFrame st channels false numFrames.toNat 0 0 false := rfl
  rw [hfp]
  refine ⟨?_, ?_⟩
  · intro j frame hj1 hj2 hj ch hch i hi1 hi2 w hw
    have h := k1 _ (Or.inr ⟨j, frame, by omega, by omega, hj, ch, hch, i, hi1, hi2, rfl⟩)
    rw [hw] at h
    exact h
  · rcases k2 with h | ⟨x, hx | ⟨j, frame, hj1, hj2, hj, ch, hch, i, hi1, hi2, hi3⟩, hx2⟩
    · exact Or.inl h
    · exact absurd hx id
    · right
      obtain ⟨v, hv, -, -⟩ := logical_of_native_int hst (hnat j frame hj ch hch i hi1 hi2)
      refine ⟨j, frame, by omega, by omega, hj, ch, hch, i, hi1, hi2, v, hv, ?_⟩
      rw [← hi3, hv] at hx2
      exact hx2

/-- The running maximum from `a` over a list: it is at least `a` and every element, and it
is `a` or an element. -/
theorem foldl_max_spec (l : List ℚ) :
    ∀ a : ℚ, a ≤ l.foldl max a ∧ (∀ x ∈ l, x ≤ l.foldl max a)
      ∧ (l.foldl max a = a ∨ l.foldl max a ∈ l) := by
  induction l with
  | nil =>
    intro a
    simp
  | cons y rest ih =>
    intro a
    obtain ⟨h1, h2, h3⟩ := ih (max a y)
    simp only [List.foldl_cons]
    refine ⟨le_trans (le_max_left a y) h1, ?_, ?_⟩
    · intro x hx
      rcases List.mem_cons.mp hx with h | h
      · rw [h]
        exact le_trans (le_max_right a y) h1
      · exact h2 x h
    · rcases h3 with h | h
      · rw [h]
        rcases max_choice a y with hc | hc
        · exact Or.inl hc
        · right
          rw [hc]
          exact List.mem_cons_self y rest
      · exact Or.inr (List.mem_cons_of_mem y h)

/-- The running maximum from 0 is the only value that is not negative, bounds the list, and
is 0 or an element of the list. -/
theorem foldl_max_eq (l : List ℚ) (v : ℚ) (h0 : 0 ≤ v) (hle : ∀ x ∈ l, x ≤ v)
    (hat : v = 0 ∨ v ∈ l) : l.foldl max 0 = v := by
  obtain ⟨h1, h2, h3⟩ := foldl_max_spec l 0
  apply le_antisymm
  · rcases h3 with h | h
    · rw [h]
      exact h0
    · exact hle _ h
  · rcases hat with h | h
    · rw [h]
      exact h1
    · exact h2 _ h

/-- The samples listed by `allSelectedSamples` are the logical samples of the selected
channels of the frames `0 ≤ j < numFrames` that exist. -/
theorem mem_allSelectedSamples (getFrame : Int → Option AudioFrame) (numFrames : Int)
    (st : SampleType) (channels : List Int) (x : Sample) :
    x ∈ allSelectedSamples getFrame numFrames st channels
      ↔ ∃ j frame, 0 ≤ j ∧ j < numFrames ∧ getFrame j = some frame
          ∧ ∃ ch ∈ channels, ∃ i, 0 ≤ i ∧ i < frame.length ∧ (if (getSampleBitShift st).required = true then shiftRight (frame.data ch i) (getSampleBitShift st).count else frame.data ch i) = x := by
  simp only [allSelectedSamples, List.mem_flatMap, List.mem_filterMap, List.mem_range,
    List.mem_map]
  constructor
  · rintro ⟨frame, ⟨n, hn, hfr⟩, ch, hch, s, hs, hx⟩
    exact ⟨(n : Int), frame, by omega, by omega, hfr, ch, hch, (s : Int), by omega, by omega, hx⟩
  · rintro ⟨j, frame, hj1, hj2, hfr, ch, hch, i, hi1, hi2, hx⟩
    refine ⟨frame, ⟨j.toNat, by omega, ?_⟩, ch, hch, i.toNat, by omega, ?_⟩
    · rw [Int.toNat_of_nonneg hj1]
      exact hfr
    · rw [Int.toNat_of_nonneg hi1]
      exact hx

/-- The peak scan with normalization equals the naive full scan, for native samples of any
sample type. -/
theorem findPeak_norm_eq_naive (getFrame : Int → Option AudioFrame) (numFrames : Int)
    (st : SampleType) (channels : List Int)
    (hnat : ∀ j frame, getFrame j = some frame → ∀ ch ∈ channels, ∀ i, 0 ≤ i →
      i < frame.length → isNativeSample st (frame.data ch i) = true) :
    findPeak getFrame numFrames st channels true
      = naiveNormPeak getFrame numFrames st channels := by
  obtain ⟨h0, h1, h2⟩ := findPeak_norm getFrame numFrames st channels hnat
  symm
  apply foldl_max_eq _ _ h0
  · intro y hy
    obtain ⟨x, hx, rfl⟩ := List.mem_map.mp hy
    obtain ⟨j, frame, hj1, hj2, hfr, ch, hch, i, hi1, hi2, hxe⟩ :=
      (mem_allSelectedSamples getFrame numFrames st channels x).mp hx
    rw [← hxe]
    exact h1 j frame hj1 hj2 hfr ch hch i hi1 hi2
  · rcases h2 with h | ⟨j, frame, hj1, hj2, hfr, ch, hch, i, hi1, hi2, he⟩
    · exact Or.inl h
    · right
      rw [← he]
      exact List.mem_map.mpr ⟨_, (mem_allSelectedSamples getFrame numFrames st channels _).mpr
        ⟨j, frame, hj1, hj2, hfr, ch, hch, i, hi1, hi2, rfl⟩, rfl⟩

/-- The magnitude of the peak scan without normalization equals the naive full scan, for
native samples of an integer sample type. -/
theorem findPeak_abs_eq_naive (getFrame : Int → Option AudioFrame) (numFrames : Int)
    (st : SampleType) (channels : List Int) (hst : isFloatSampleType st = false)
    (hnat : ∀ j frame, getFrame j = some frame → ∀ ch ∈ channels, ∀ i, 0 ≤ i →
      i < frame.length → isNativeSample st (frame.data ch i) = true) :
    |findPeak getFrame numFrames st channels false|
      = naiveAbsPeak getFrame numFrames st channels := by
  obtain ⟨h1, h2⟩ := findPeak_abs getFrame numFrames st channels hst hnat
  symm
  apply foldl_max_eq _ _ (abs_nonneg _)
  · intro y hy
    obtain ⟨x, hx, rfl⟩ := List.mem_map.mp hy
    obtain ⟨j, frame, hj1, hj2, hfr, ch, hch, i, hi1, hi2, hxe⟩ :=
      (mem_allSelectedSamples getFrame numFrames st channels x).mp hx
    obtain ⟨v, hv, -, -⟩ := logical_of_native_int hst (hnat j frame hfr ch hch i hi1 hi2)
    have h := h1 j frame hj1 hj2 hfr ch hch i hi1 hi2 v hv
    rw [← hxe, hv]
    exact h
  · rcases h2 with h | ⟨j, frame, hj1, hj2, hfr, ch, hch, i, hi1, hi2, w, hw, he⟩
    · left
      rw [h]
      exact abs_zero
    · right
      rw [← he]
      refine List.mem_map.mpr ⟨_, (mem_allSelectedSamples getFrame numFrames st channels _).mpr
        ⟨j, frame, hj1, hj2, hfr, ch, hch, i, hi1, hi2, rfl⟩, ?_⟩
      rw [hw]

/-- The normalized peak of a stream of an integer type whose selected samples are all 0
is 0. -/
theorem findPeak_silent (getFrame : Int → Option AudioFrame) (numFrames : Int)
    (st : SampleType) (channels : List Int) (hst : isFloatSampleType st = false)
    (hsil : ∀ j frame, getFrame j = some frame → ∀ ch ∈ channels, ∀ i, 0 ≤ i →
      i < frame.length → frame.data ch i = .int 0) :
    findPeak getFrame numFrames st channels true = 0 := by
  have hnat : ∀ j frame, getFrame j = some frame → ∀ ch ∈ channels, ∀ i, 0 ≤ i →
      i < frame.length → isNativeSample st (frame.data ch i) = true := by
    intro j frame hj ch hch i hi1 hi2
    rw [hsil j frame hj ch hch i hi1 hi2]
    cases st <;> first | decide | exact absurd hst (by decide)
  obtain ⟨-, -, h2⟩ := findPeak_norm getFrame numFrames st channels hnat
  rcases h2 with h | ⟨j, frame, -, -, hj, ch, hch, i, hi1, hi2, he⟩
  · exact h
  · have hd := hsil j frame hj ch hch i hi1 hi2
    have hlog : (if (getSampleBitShift st).required = true then shiftRight (frame.data ch i) (getSampleBitShift st).count else frame.data ch i) = Sample.int 0 := by
      rw [hd]
      by_cases hr : (getSampleBitShift st).required = true
      · rw [if_pos hr]
        simp only [shiftRight]
        congr 1
        exact Int.zero_ediv _
      · rw [if_neg hr]
    rw [hlog, convSampleToDouble_int_zero hst, abs_zero] at he
    exact he.symm

/-- The result of `adjustNormPeak` has the sign of its argument: it is not negative for a
target that is not negative. -/
theorem adjustNormPeak_nonneg (p : ℚ) (st : SampleType) (hp : 0 ≤ p) :
    0 ≤ adjustNormPeak p st := by
  have h : ¬ p < 0 := not_lt.mpr hp
  unfold adjustNormPeak
  dsimp only
  rw [if_neg h]
  exact abs_nonneg _

/-- The definition of `adjustNormPeak` for an integer sample type. -/
theorem adjustNormPeak_int {st : SampleType} (hst : isFloatSampleType st = false) (p : ℚ) :
    adjustNormPeak p st
      = if p < 0 then
          -|fl64 ((⌊fl64 (|p| * (maxInt (intSampleBits st) : ℚ))⌋ : ℚ)
            / (maxInt (intSampleBits st) : ℚ))|
        else
          |fl64 ((⌊fl64 (|p| * (maxInt (intSampleBits st) : ℚ))⌋ : ℚ)
            / (maxInt (intSampleBits st) : ℚ))| := by
  unfold adjustNormPeak
  cases st <;> first | rfl | exact absurd hst (by decide)

/-- The frames `[sampleToFrame start, sampleToFrame (stop - 1) + 1)` are the frames whose
window of `F` positions meets `[start, stop)`. -/
theorem frame_window_meets_range {F start stop n : Int} (hF : 0 < F) (hs : 0 ≤ start)
    (hlen : start < stop) :
    (n < sampleToFrame F start ∨ sampleToFrame F (stop - 1) + 1 ≤ n)
      ↔ ¬ ∃ p, start ≤ p ∧ p < stop ∧ n * F ≤ p ∧ p < n * F + F := by
  unfold sampleToFrame
  rw [tdiv_of_nonneg hF hs, tdiv_of_nonneg hF (by omega : 0 ≤ stop - 1)]
  obtain ⟨a1, a2⟩ := ediv_bounds hF start
  obtain ⟨b1, b2⟩ := ediv_bounds hF (stop - 1)
  rw [Int.mul_comm n F]
  constructor
  · rintro (h | h) ⟨p, hp1, hp2, hp3, hp4⟩
    · have : F * (n + 1) ≤ F * (start / F) := mul_le_mul_of_nonneg_left (by omega) hF.le
      rw [mul_add, mul_one] at this
      omega
    · have : F * ((stop - 1) / F + 1) ≤ F * n := mul_le_mul_of_nonneg_left h hF.le
      rw [mul_add, mul_one] at this
      omega
  · intro h
    by_contra hc
    push_neg at hc
    obtain ⟨hc1, hc2⟩ := hc
    apply h
    have h1 : F * (start / F) ≤ F * n := mul_le_mul_of_nonneg_left hc1 hF.le
    have h2 : F * n ≤ F * ((stop - 1) / F) := mul_le_mul_of_nonneg_left (by omega) hF.le
    exact ⟨max start (F * n), by omega, by omega, by omega, by omega⟩

/-- The positions of the samples of frame `n` lie in the frame's window of `F` positions,
and they are the positions of the window that are below the stream length. -/
theorem frame_samples_in_window {F total n : Int} (hF : 0 < F) (hn : 0 ≤ n) (ht : 0 ≤ total)
    (p : Int) :
    (frameToFirstSample F n ≤ p ∧ p < frameToLastSample F n total)
      ↔ (n * F ≤ p ∧ p < n * F + F ∧ p < total) := by
  unfold frameToLastSample frameToFirstSample
  simp only
  rw [getFrameSampleCount_eq hF hn ht]
  have h0 : 0 ≤ n * F := mul_nonneg hn hF.le
  by_cases h : total ≤ n * F
  · rw [if_pos h, if_pos rfl]
    omega
  · rw [if_neg h, if_neg (by omega)]
    omega

/-- Rounding half away from zero moves a value by at most one half. -/
theorem roundHalfAway_error (t : ℚ) : |(roundHalfAway t : ℚ) - t| ≤ 1 / 2 := by
  unfold roundHalfAway
  rw [abs_le]
  split_ifs with h0
  · have h1 : (⌊t + 1 / 2⌋ : ℚ) ≤ t + 1 / 2 := Int.floor_le _
    have h2 : t + 1 / 2 < ⌊t + 1 / 2⌋ + 1 := Int.lt_floor_add_one _
    constructor <;> linarith
  · have h1 : (⌊-t + 1 / 2⌋ : ℚ) ≤ -t + 1 / 2 := Int.floor_le _
    have h2 : -t + 1 / 2 < ⌊-t + 1 / 2⌋ + 1 := Int.lt_floor_add_one _
    push_cast
    constructor <;> linarith

/-- One direction of the codec on a value close to a quotient: for `c` within `2^-53` of
`a / m` the rounded product `fl64 (c * n)` is within `2^-21` of `a * n / m`. -/
theorem scaled_close {n : Int} (hn1 : 1 ≤ n) (hn2 : n ≤ 2 ^ 31) {c q : ℚ}
    (hc : -1 ≤ c ∧ c ≤ 1) (hq : |c - q| ≤ (2 : ℚ) ^ (-53 : Int)) :
    |fl64 (c * n) - q * n| ≤ (2 : ℚ) ^ (-21 : Int) := by
  have hnq1 : (1 : ℚ) ≤ n := by exact_mod_cast hn1
  have hnq2 : (n : ℚ) ≤ 2 ^ 31 := by exact_mod_cast hn2
  have e1 := fl64_scaled_close hn1 hn2 hc
  have e2 : |c * n - q * n| ≤ (2 : ℚ) ^ (-22 : Int) := by
    have h : c * n - q * n = (c - q) * n := by ring
    rw [h, abs_mul, abs_of_pos (by linarith : (0 : ℚ) < n)]
    calc |c - q| * n ≤ (2 : ℚ) ^ (-53 : Int) * 2 ^ 31 :=
          mul_le_mul hq hnq2 (by linarith) (two_zpow_pos _).le
      _ = (2 : ℚ) ^ (-22 : Int) := by norm_num
  have h : fl64 (c * n) - q * n = (fl64 (c * n) - c * n) + (c * n - q * n) := by ring
  rw [h]
  calc |fl64 (c * n) - c * n + (c * n - q * n)|
      ≤ |fl64 (c * n) - c * n| + |c * n - q * n| := abs_add _ _
    _ ≤ (2 : ℚ) ^ (-22 : Int) + (2 : ℚ) ^ (-22 : Int) := add_le_add e1 e2
    _ = (2 : ℚ) ^ (-21 : Int) := by norm_num

/-- The clamped `double` quotient of an integer in `[-m, m]` by `m` is within `2^-53` of the
exact quotient. -/
theorem quotient_close {m : Int} (hm1 : 1 ≤ m) {x : Int} (hlo : -m ≤ x) (hhi : x ≤ m) :
    |clampFloatSample (fl64 ((x : ℚ) / (m : ℚ))) - (x : ℚ) / (m : ℚ)| ≤ (2 : ℚ) ^ (-53 : Int) := by
  have hmq1 : (1 : ℚ) ≤ m := by exact_mod_cast hm1
  have hmpos : (0 : ℚ) < m := by linarith
  have hxlo : (-(m : ℚ)) ≤ x := by exact_mod_cast hlo
  have hxhi : (x : ℚ) ≤ m := by exact_mod_cast hhi
  have hq1 : -1 ≤ (x : ℚ) / m ∧ (x : ℚ) / m ≤ 1 := by
    constructor
    · rw [le_div_iff₀ hmpos]; linarith
    · rw [div_le_iff₀ hmpos]; linarith
  have habs1 : |(x : ℚ) / m| < (2 : ℚ) ^ (1 : Int) := by
    have : |(x : ℚ) / m| ≤ 1 := abs_le.mpr hq1
    norm_num
    linarith
  have e1 := fl64_error habs1 (by norm_num)
  have e2 := clampFloatSample_close (fl64 ((x : ℚ) / m)) hq1.1 hq1.2
  have : (2 : ℚ) ^ ((1 : Int) - 54) = (2 : ℚ) ^ (-53 : Int) := by norm_num
  rw [this] at e1
  exact le_trans e2 e1

/-- The codec from scale `m1` to a scale `m2` at least 256 times finer and back returns the
integer it started from. -/
theorem widen_core {m1 m2 : Int} (hm1 : 1 ≤ m1) (hm12 : 256 * m1 ≤ m2) (hm2 : m2 ≤ 2 ^ 31)
    {x : Int} (hlo : -m1 ≤ x) (hhi : x ≤ m1) :
    -m2 ≤ roundHalfAway (fl64 (clampFloatSample (fl64 ((x : ℚ) / (m1 : ℚ))) * (m2 : ℚ)))
      ∧ roundHalfAway (fl64 (clampFloatSample (fl64 ((x : ℚ) / (m1 : ℚ))) * (m2 : ℚ))) ≤ m2
      ∧ roundHalfAway (fl64 (clampFloatSample
          (fl64 (((roundHalfAway (fl64 (clampFloatSample (fl64 ((x : ℚ) / (m1 : ℚ)))
            * (m2 : ℚ))) : Int) : ℚ) / (m2 : ℚ))) * (m1 : ℚ))) = x := by
  have hm2' : 1 ≤ m2 := by omega
  have hm1' : m1 ≤ 2 ^ 31 := by omega
  have hq1 : (1 : ℚ) ≤ m1 := by exact_mod_cast hm1
  have hq2 : (1 : ℚ) ≤ m2 := by exact_mod_cast hm2'
  have hq12 : (256 : ℚ) * m1 ≤ m2 := by exact_mod_cast hm12
  have hp1 : (0 : ℚ) < m1 := by linarith
  have hp2 : (0 : ℚ) < m2 := by linarith
  have hm2q : (m2 : ℚ) ≤ 2 ^ 31 := by exact_mod_cast hm2
  -- first leg
  have c1b := clampFloatSample_bounds (fl64 ((x : ℚ) / (m1 : ℚ)))
  have c1e := quotient_close hm1 hlo hhi
  have t1 := scaled_close hm2' hm2 c1b c1e
  set c1 := clampFloatSample (fl64 ((x : ℚ) / (m1 : ℚ))) with hc1
  set t := fl64 (c1 * (m2 : ℚ)) with ht
  have ys := fl64_scaled_close hm2' hm2 c1b
  rw [← ht] at ys
  have yr : -m2 ≤ roundHalfAway t ∧ roundHalfAway t ≤ m2 := by
    rw [abs_le] at ys
    norm_num at ys
    have hp1 := mul_le_mul_of_nonneg_right c1b.1 hp2.le
    have hp2 := mul_le_mul_of_nonneg_right c1b.2 hp2.le
    apply roundHalfAway_bounds (by omega)
    · linarith [ys.1]
    · linarith [ys.2]
  have ye := roundHalfAway_error t
  set y := roundHalfAway t with hy
  -- second leg
  have c2b := clampFloatSample_bounds (fl64 ((y : ℚ) / (m2 : ℚ)))
  have c2e := quotient_close hm2' yr.1 yr.2
  have t2 := scaled_close hm1 hm1' c2b c2e
  set c2 := clampFloatSample (fl64 ((y : ℚ) / (m2 : ℚ))) with hc2
  refine ⟨yr.1, yr.2, ?_⟩
  apply roundHalfAway_eq_of_close
  -- y is within 1/2 + 2^-21 of x * m2 / m1
  have hy1 : |(y : ℚ) - (x : ℚ) / m1 * m2| ≤ 1 / 2 + (2 : ℚ) ^ (-21 : Int) := by
    have h : (y : ℚ) - (x : ℚ) / m1 * m2 = ((y : ℚ) - t) + (t - (x : ℚ) / m1 * m2) := by ring
    rw [h]
    exact le_trans (abs_add _ _) (add_le_add ye t1)
  have hy2 : |(y : ℚ) / m2 * m1 - x| ≤ (1 / 2 + (2 : ℚ) ^ (-21 : Int)) / 256 := by
    have h : (y : ℚ) / m2 * m1 - x = ((y : ℚ) - (x : ℚ) / m1 * m2) * (m1 / m2) := by
      field_simp
      ring
    rw [h, abs_mul, abs_of_pos (div_pos hp1 hp2)]
    have hr : (m1 : ℚ) / m2 ≤ 1 / 256 := by
      rw [div_le_iff₀ hp2]
      linarith
    calc |(y : ℚ) - (x : ℚ) / m1 * m2| * ((m1 : ℚ) / m2)
        ≤ (1 / 2 + (2 : ℚ) ^ (-21 : Int)) * (1 / 256) :=
          mul_le_mul hy1 hr (div_pos hp1 hp2).le (by positivity)
      _ = (1 / 2 + (2 : ℚ) ^ (-21 : Int)) / 256 := by ring
  have h : fl64 (c2 * (m1 : ℚ)) - x
      = (fl64 (c2 * (m1 : ℚ)) - (y : ℚ) / m2 * m1) + ((y : ℚ) / m2 * m1 - x) := by ring
  rw [h]
  calc |fl64 (c2 * (m1 : ℚ)) - (y : ℚ) / m2 * m1 + ((y : ℚ) / m2 * m1 - x)|
      ≤ |fl64 (c2 * (m1 : ℚ)) - (y : ℚ) / m2 * m1| + |(y : ℚ) / m2 * m1 - x| := abs_add _ _
    _ ≤ (2 : ℚ) ^ (-21 : Int) + (1 / 2 + (2 : ℚ) ^ (-21 : Int)) / 256 := add_le_add t2 hy2
    _ < 1 / 2 := by norm_num

/-- The `double` value of a native sample of an integer type lies in `[-1, 1]`. -/
theorem native_int_in_range {st : SampleType} (hst : isFloatSampleType st = false)
    {x : Sample} (hx : isNativeSample st x = true) :
    -1 ≤ convSampleToDouble st (if (getSampleBitShift st).required = true then shiftRight (x) (getSampleBitShift st).count else x) ∧ convSampleToDouble st (if (getSampleBitShift st).required = true then shiftRight (x) (getSampleBitShift st).count else x) ≤ 1 := by
  obtain ⟨v, hv, hv1, hv2⟩ := logical_of_native_int hst hx
  rw [hv]
  exact convSampleToDouble_int_bounds hst hv1 hv2

/-- A write of a value in `[-1, 1]` succeeds for every output type and overflow mode, and it
leaves the statistics alone and does not call the host. -/
theorem safeWriteSample_ok_of_range (stOut : SampleType) {v : ℚ} (h1 : -1 ≤ v) (h2 : v ≤ 1)
    (frm : Int → Sample) (s pos ch : Int) (ofCtx : OverflowContext) (stats : OverflowStats) :
    (safeWriteSample stOut v frm s pos ch ofCtx stats).ok = true
      ∧ (safeWriteSample stOut v frm s pos ch ofCtx stats).stats = stats
      ∧ (safeWriteSample stOut v frm s pos ch ofCtx stats).calls = [] := by
  obtain ⟨w1, w2, w3, -⟩ := safeWriteSample_of_not_overflowing stOut frm s pos ch ofCtx stats
    (v := v) (by
      rintro (h | h)
      · linarith
      · linarith)
  exact ⟨w1, w2, w3⟩

/-- The ready phase of `convertGetFrame` off the passthrough path, for an input frame of
native samples of an integer type: a frame is written, the write loop returns `true`, and
the statistics are those of the start of the frame. -/
theorem convertGetFrame_int (F : Int) (st stOut : SampleType) (mode : OverflowMode)
    (log : OverflowLog) (getFrame : Int → Option AudioFrame) (frame : AudioFrame)
    (ch n : Int) (outFrm : Int → Sample) (stats : OverflowStats)
    (hst : isFloatSampleType st = false) (hne : st ≠ stOut) (hfr : getFrame n = some frame)
    (hnat : ∀ i, 0 ≤ i → i < frame.length → isNativeSample st (frame.data ch i) = true) :
    ∃ r, convertGetFrame F (Convert.new st stOut mode log) getFrame ch n outFrm stats
        = some (.written r)
      ∧ r.ok = true
      ∧ r.stats = (if n = 0 then { count := 0, peak := 0 } else stats)
      ∧ r.calls = [] := by
  obtain ⟨r, hr, -, -, hclean⟩ := sampleLoop_spec stOut ch { mode := mode, log := log }
    ((Convert.new st stOut mode log).writeFrameChannelStep ch (frameToFirstSample F n)
      (some { length := frame.length, data := frame.data ch }) { mode := mode, log := log })
    (fun s => convSampleToDouble st (if (getSampleBitShift st).required = true then shiftRight (frame.data ch s) (getSampleBitShift st).count else frame.data ch s))
    (fun s => frameToFirstSample F n + s)
    frame.length.toNat 0
    { ok := true, frm := outFrm,
      stats := (if n = 0 then { count := 0, peak := 0 } else stats), calls := [] }
    rfl
    (by
      intro s hs1 hs2 frm st2
      have hs3 : s < frame.length := by omega
      simp only [Convert.writeFrameChannelStep, Convert.new, readSample]
      rw [if_pos ⟨hs1, hs3⟩])
  have hok := hclean (by
    intro j hj1 hj2
    have hj3 : j < frame.length := by omega
    obtain ⟨b1, b2⟩ := native_int_in_range hst (hnat j hj1 hj3)
    rintro (h | h)
    · linarith
    · linarith)
  refine ⟨r, ?_, hok.1, hok.2.1, hok.2.2⟩
  have hp : (Convert.new st stOut mode log).isPassthrough = false := by
    simp [Convert.isPassthrough, Convert.new, hne]
  simp only [convertGetFrame, hp, hfr]
  simp only [Convert.writeFrameChannel, Convert.new] at hr ⊢
  rw [hr]
  simp

/-- The copy path of `Fade::writeFrameChannel` (no transition, or a position outside the fade
range) on a native sample of an integer type. -/
theorem fade_copy_step_ok (cosD : ℚ → ℚ) (f : Fade) (st : SampleType) (x : Sample)
    (ch start s : Int) (inFrmPtr : Option (FrameBuffer Sample)) (ofCtx : OverflowContext)
    (outFrm : Int → Sample) (stats : OverflowStats) (hf : f.outSampleType = st)
    (hst : isFloatSampleType st = false) (hx : isNativeSample st x = true)
    (hread : readSample inFrmPtr s = some x)
    (hcopy : f.fadeTrans = none ∨ start + s < f.outPosFadeStart
      ∨ f.outPosFadeEnd ≤ start + s) :
    ∃ r, f.writeFrameChannelStep cosD ch start inFrmPtr ofCtx s outFrm stats = some r
      ∧ r.ok = true ∧ r.stats = stats ∧ r.calls = [] := by
  obtain ⟨b1, b2⟩ := native_int_in_range hst hx
  have hw := safeWriteSample_ok_of_range st b1 b2 outFrm s (start + s) ch ofCtx stats
  subst hf
  simp only [Fade.writeFrameChannelStep, hread]
  cases ht : f.fadeTrans with
  | none => exact ⟨_, rfl, hw⟩
  | some t =>
    simp only
    rw [if_neg]
    · exact ⟨_, rfl, hw⟩
    · rcases hcopy with h | h | h
      · rw [ht] at h
        exact absurd h (by simp)
      · omega
      · omega

/-- The two copy paths of `CrossFade::writeFrameChannel` (before and after the crossfade) on
a native sample of an integer type. -/
theorem crossfade_copy_step_ok (cosD : ℚ → ℚ) (c : CrossFade) (st : SampleType) (x : Sample)
    (ch start s : Int) (a1FrmPtr a2FrmLPtr a2FrmRPtr : Option (FrameBuffer Sample))
    (ofCtx : OverflowContext) (outFrm : Int → Sample) (stats : OverflowStats)
    (hc : c.outSampleType = st) (hst : isFloatSampleType st = false)
    (hx : isNativeSample st x = true)
    (hcopy : (start + s < c.outPosFadeStart ∧ readSample a1FrmPtr s = some x)
      ∨ (c.outPosFadeStart ≤ start + s ∧ c.outPosFadeEnd ≤ start + s
        ∧ getOffsetSample s c.audio2FrameSampleOffsets a2FrmLPtr a2FrmRPtr = some x)) :
    ∃ r, c.writeFrameChannelStep cosD ch start a1FrmPtr a2FrmLPtr a2FrmRPtr ofCtx s outFrm
          stats = some r
      ∧ r.ok = true ∧ r.stats = stats ∧ r.calls = [] := by
  obtain ⟨b1, b2⟩ := native_int_in_range hst hx
  have hw := safeWriteSample_ok_of_range st b1 b2 outFrm s (start + s) ch ofCtx stats
  subst hc
  simp only [CrossFade.writeFrameChannelStep]
  rcases hcopy with ⟨h1, h2⟩ | ⟨h1, h2, h3⟩
  · rw [if_pos h1, h2]
    exact ⟨_, rfl, hw⟩
  · rw [if_neg (by omega), if_pos h2, h3]
    exact ⟨_, rfl, hw⟩

/-- The copy path of `SetSamples::writeFrameChannel` (a position outside the range that is
overwritten) on a native sample of an integer type. -/
theorem setsamples_copy_step_ok (d : SetSamples) (st : SampleType) (x : Sample)
    (ch start s : Int) (inFrmPtr : Option (FrameBuffer Sample)) (ofCtx : OverflowContext)
    (outFrm : Int → Sample) (stats : OverflowStats) (hd : d.outSampleType = st)
    (hst : isFloatSampleType st = false) (hx : isNativeSample st x = true)
    (hread : readSample inFrmPtr s = some x)
    (hcopy : start + s < d.outPosStart ∨ d.outPosEnd ≤ start + s) :
    ∃ r, d.writeFrameChannelStep ch start inFrmPtr ofCtx s outFrm stats = some r
      ∧ r.ok = true ∧ r.stats = stats ∧ r.calls = [] := by
  obtain ⟨b1, b2⟩ := native_int_in_range hst hx
  have hw := safeWriteSample_ok_of_range st b1 b2 outFrm s (start + s) ch ofCtx stats
  subst hd
  simp only [SetSamples.writeFrameChannelStep]
  rw [if_neg (by omega), hread]
  exact ⟨_, rfl, hw⟩

/-- A power of two with an exponent that is a difference of naturals. -/
theorem two_zpow_nat_sub (a c : ℕ) :
    (2 : ℚ) ^ ((a : Int) - (c : Int)) = (2 : ℚ) ^ a / (2 : ℚ) ^ c := by
  rw [zpow_sub₀ (by norm_num : (2 : ℚ) ≠ 0), zpow_natCast, zpow_natCast]

/-- A `double` of magnitude at least `2^L` is an integer multiple of `2^(L-52)`. -/
theorem double_on_grid {x : ℚ} (hx : fl64 x = x) {L : Int} (h : (2 : ℚ) ^ L ≤ |x|) :
    ∃ m : Int, x = (m : ℚ) * (2 : ℚ) ^ (L - 52) := by
  obtain ⟨n, E, hn, -, hr⟩ := fl64_isDouble x
  rw [hx] at hr
  have hnq : |(n : ℚ)| ≤ 2 ^ 53 := by
    have : ((|n| : Int) : ℚ) ≤ ((2 ^ 53 : Int) : ℚ) := by exact_mod_cast hn
    simpa using this
  by_cases hE : L - 52 ≤ E
  · obtain ⟨j, hj⟩ := Int.eq_ofNat_of_zero_le (sub_nonneg.mpr hE)
    refine ⟨n * 2 ^ j, ?_⟩
    have hE2 : E = (L - 52) + (j : Int) := by omega
    rw [hr, hE2, zpow_add₀ (by norm_num : (2 : ℚ) ≠ 0), zpow_natCast]
    push_cast
    ring
  · push_neg at hE
    have hE2 : E ≤ L - 53 := by omega
    have hpow : (2 : ℚ) ^ E ≤ (2 : ℚ) ^ (L - 53) := zpow_le_zpow_right₀ (by norm_num) hE2
    have hsplit : (2 : ℚ) ^ L = 2 ^ 53 * (2 : ℚ) ^ (L - 53) := by
      have : L = 53 + (L - 53) := by ring
      conv_lhs => rw [this]
      rw [zpow_add₀ (by norm_num : (2 : ℚ) ≠ 0)]
      norm_num
    have hsplit2 : (2 : ℚ) ^ (L - 52) = 2 * (2 : ℚ) ^ (L - 53) := by
      have : L - 52 = 1 + (L - 53) := by ring
      rw [this, zpow_add₀ (by norm_num : (2 : ℚ) ≠ 0)]
      norm_num
    have hEpos := two_zpow_pos E
    have hLpos := two_zpow_pos (L - 53)
    have habs : |x| = |(n : ℚ)| * (2 : ℚ) ^ E := by
      rw [hr, abs_mul, abs_of_pos hEpos]
    have hle : |x| ≤ 2 ^ 53 * (2 : ℚ) ^ (L - 53) := by
      rw [habs]
      exact mul_le_mul hnq hpow hEpos.le (by norm_num)
    have heq : |x| = 2 ^ 53 * (2 : ℚ) ^ (L - 53) := le_antisymm hle (by rw [← hsplit]; exact h)
    rcases abs_cases x with ⟨h1, -⟩ | ⟨h1, -⟩
    · refine ⟨2 ^ 52, ?_⟩
      rw [← h1, heq, hsplit2]
      push_cast
      ring
    · refine ⟨-2 ^ 52, ?_⟩
      have : x = -|x| := by rw [h1]; ring
      rw [this, heq, hsplit2]
      push_cast
      ring

/-- A value in the binade `[2^L, 2^(L+1))` that is closer than half a grid step to a grid
point rounds to that grid point. -/
theorem fl64_eq_of_close {q : ℚ} {L m : Int} (h1 : (2 : ℚ) ^ L ≤ |q|)
    (h2 : |q| < (2 : ℚ) ^ (L + 1)) (hL : -1022 ≤ L)
    (hm : |q - (m : ℚ) * (2 : ℚ) ^ (L - 52)| < (2 : ℚ) ^ (L - 52) / 2) :
    fl64 q = (m : ℚ) * (2 : ℚ) ^ (L - 52) := by
  have hu := two_zpow_pos (L - 52)
  apply fl64_eq_of_binade h1 h2 hL
  apply roundHalfEven_eq_of_close
  have h : q / (2 : ℚ) ^ (L - 52) - m
      = (q - (m : ℚ) * (2 : ℚ) ^ (L - 52)) / (2 : ℚ) ^ (L - 52) := by
    field_simp
    ring
  rw [h, abs_div, abs_of_pos hu, div_lt_iff₀ hu]
  linarith

/-- If `2^b - 1` divides `k * 2^j - 1` for `1 <= k < 2^b - 1`, then `k` is a power of two. -/
theorem pow_two_of_dvd (b : ℕ) (hb : 1 ≤ b) :
    ∀ (j : ℕ) (k : Int), 1 ≤ k → k < 2 ^ b - 1 → ((2 : Int) ^ b - 1) ∣ k * 2 ^ j - 1 →
      ∃ i : ℕ, i < b ∧ k = 2 ^ i := by
  have hb2 : (2 : Int) ^ b = 2 * 2 ^ (b - 1) := by
    have : b = (b - 1) + 1 := by omega
    conv_lhs => rw [this]
    rw [pow_succ]
    ring
  intro j
  induction j with
  | zero =>
    intro k hk1 hk2 hd
    simp only [pow_zero, mul_one] at hd
    have h0 : k - 1 = 0 := Int.eq_zero_of_dvd_of_nonneg_of_lt (by omega) (by omega) hd
    exact ⟨0, by omega, by simp; omega⟩
  | succ j ih =>
    intro k hk1 hk2 hd
    have hd2 : ((2 : Int) ^ b - 1) ∣ (2 * k) * 2 ^ j - 1 := by
      have : k * 2 ^ (j + 1) - 1 = (2 * k) * 2 ^ j - 1 := by
        rw [pow_succ]
        ring
      rwa [this] at hd
    by_cases hlt : 2 * k < 2 ^ b - 1
    · obtain ⟨i, hi, hki⟩ := ih (2 * k) (by omega) hlt hd2
      have hi1 : 1 ≤ i := by
        by_contra hc
        have : i = 0 := by omega
        rw [this] at hki
        simp at hki
        omega
      refine ⟨i - 1, by omega, ?_⟩
      have : (2 : Int) ^ i = 2 * 2 ^ (i - 1) := by
        have h : i = (i - 1) + 1 := by omega
        conv_lhs => rw [h]
        rw [pow_succ]
        ring
      rw [this] at hki
      omega
    · have hd3 : ((2 : Int) ^ b - 1) ∣ (2 * k - (2 ^ b - 1)) * 2 ^ j - 1 := by
        have : (2 * k - (2 ^ b - 1)) * 2 ^ j - 1
            = ((2 * k) * 2 ^ j - 1) - (2 ^ b - 1) * 2 ^ j := by ring
        rw [this]
        exact dvd_sub hd2 (dvd_mul_right _ _)
      obtain ⟨i, hi, hki⟩ := ih (2 * k - (2 ^ b - 1)) (by omega) (by omega) hd3
      have hi0 : i = 0 := by
        by_contra hc
        have : (2 : Int) ^ i = 2 * 2 ^ (i - 1) := by
          have h : i = (i - 1) + 1 := by omega
          conv_lhs => rw [h]
          rw [pow_succ]
          ring
        rw [this] at hki
        omega
      rw [hi0] at hki
      simp only [pow_zero] at hki
      refine ⟨b - 1, by omega, ?_⟩
      omega

/-- The `double` quotient `k / M` for `M = 2^b - 1` and `2^e <= k <= M`: it is a multiple
`n * 2^(e-b-52)` of the grid step of its binade, and `n * M` differs from
`k * 2^(52+b-e)` by at most `(M - 1) / 2`. -/
theorem quotient_on_grid (b e : ℕ) (M k : Int) (hM : M = 2 ^ b - 1) (hb : 2 ≤ b)
    (hb2 : b ≤ 31) (hk1 : 2 ^ e ≤ k) (hk2 : k < 2 ^ (e + 1)) (hkM : k ≤ M) :
    e + 1 ≤ b
      ∧ ∃ n : Int, fl64 ((k : ℚ) / (M : ℚ))
          = (n : ℚ) * (2 : ℚ) ^ ((e : Int) - (b : Int) - 52)
        ∧ -(M - 1) ≤ 2 * (n * M - k * 2 ^ (52 + b - e))
        ∧ 2 * (n * M - k * 2 ^ (52 + b - e)) ≤ M - 1 := by
  have heb : e < b := by
    have h : (2 : Int) ^ e < 2 ^ b := by omega
    exact (pow_lt_pow_iff_right₀ (by norm_num : (1 : Int) < 2)).mp h
  have hb4 : (4 : Int) ≤ 2 ^ b := by
    have : (2 : Int) ^ 2 ≤ 2 ^ b := pow_le_pow_right₀ (by norm_num) hb
    simpa using this
  have hMpos : (0 : Int) < M := by omega
  have hMq : (0 : ℚ) < (M : ℚ) := by exact_mod_cast hMpos
  have hbodd : (2 : Int) ^ b = 2 * 2 ^ (b - 1) := by
    have : b = (b - 1) + 1 := by omega
    conv_lhs => rw [this]
    rw [pow_succ]
    ring
  refine ⟨by omega, ?_⟩
  have hP : (2 : Int) ^ (52 + b - e) * 2 ^ e = 2 ^ 52 * 2 ^ b := by
    rw [← pow_add, ← pow_add]
    congr 1
    omega
  have hPq : ((2 : ℚ) ^ (52 + b - e)) * (2 : ℚ) ^ e = 2 ^ 52 * (2 : ℚ) ^ b := by
    exact_mod_cast hP
  have he0 : (0 : ℚ) < (2 : ℚ) ^ e := by positivity
  have hb0 : (0 : ℚ) < (2 : ℚ) ^ b := by positivity
  have hu : (2 : ℚ) ^ ((e : Int) - (b : Int) - 52) = (2 : ℚ) ^ e / ((2 : ℚ) ^ b * 2 ^ 52) := by
    have : (e : Int) - (b : Int) - 52 = (e : Int) - ((b + 52 : ℕ) : Int) := by
      push_cast
      ring
    rw [this, two_zpow_nat_sub, pow_add]
  by_cases hkeq : k = M
  · -- the quotient is 1
    have hbe : b = e + 1 := by
      have h : (2 : Int) ^ b ≤ 2 ^ (e + 1) := by omega
      have := (pow_le_pow_iff_right₀ (by norm_num : (1 : Int) < 2)).mp h
      omega
    refine ⟨2 ^ 53, ?_, ?_, ?_⟩
    · rw [hkeq, div_self hMq.ne', fl64_one, hu, hbe]
      push_cast
      field_simp
      ring
    · have : 52 + b - e = 53 := by omega
      rw [this, hkeq]
      ring_nf
      omega
    · have : 52 + b - e = 53 := by omega
      rw [this, hkeq]
      ring_nf
      omega
  · have hklt : k < M := by omega
    have hkq1 : (2 : ℚ) ^ e ≤ (k : ℚ) := by exact_mod_cast hk1
    have hkq2 : (k : ℚ) < (2 : ℚ) ^ (e + 1) := by exact_mod_cast hk2
    have hMb : (M : ℚ) = (2 : ℚ) ^ b - 1 := by
      rw [hM]
      push_cast
      ring
    have hkpos : (0 : ℚ) < (k : ℚ) := lt_of_lt_of_le he0 hkq1
    have hqpos : (0 : ℚ) < (k : ℚ) / (M : ℚ) := div_pos hkpos hMq
    have h1 : (2 : ℚ) ^ ((e : Int) - (b : Int)) ≤ |(k : ℚ) / (M : ℚ)| := by
      rw [abs_of_pos hqpos, two_zpow_nat_sub, div_le_div_iff₀ hb0 hMq]
      have : (2 : ℚ) ^ e * (M : ℚ) ≤ (k : ℚ) * (M : ℚ) :=
        mul_le_mul_of_nonneg_right hkq1 hMq.le
      have : (k : ℚ) * (M : ℚ) ≤ (k : ℚ) * (2 : ℚ) ^ b :=
        mul_le_mul_of_nonneg_left (by rw [hMb]; linarith) hkpos.le
      linarith
    have h2 : |(k : ℚ) / (M : ℚ)| < (2 : ℚ) ^ ((e : Int) - (b : Int) + 1) := by
      have hexp : (e : Int) - (b : Int) + 1 = ((e + 1 : ℕ) : Int) - (b : Int) := by
        push_cast
        ring
      rw [abs_of_pos hqpos, hexp, two_zpow_nat_sub, div_lt_div_iff₀ hMq hb0]
      -- integer inequality `k * 2^b < 2^(e+1) * M`
      have hint : k * 2 ^ b < 2 ^ (e + 1) * M := by
        by_cases hc : e + 1 = b
        · rw [hc] at hk2 ⊢
          have hk3 : k ≤ 2 ^ b - 2 := by omega
          have : k * 2 ^ b ≤ (2 ^ b - 2) * 2 ^ b :=
            mul_le_mul_of_nonneg_right hk3 (by positivity)
          rw [hM]
          nlinarith
        · have hlt : e + 1 < b := by omega
          have hT : (2 : Int) ^ (e + 1) < 2 ^ b :=
            (pow_lt_pow_iff_right₀ (by norm_num : (1 : Int) < 2)).mpr hlt
          have hk3 : k ≤ 2 ^ (e + 1) - 1 := by omega
          have : k * 2 ^ b ≤ (2 ^ (e + 1) - 1) * 2 ^ b :=
            mul_le_mul_of_nonneg_right hk3 (by positivity)
          rw [hM]
          nlinarith
      exact_mod_cast hint
    have hfl := fl64_eq_of_binade h1 h2 (by omega) rfl
    have herr := roundHalfEven_error ((k : ℚ) / (M : ℚ) / (2 : ℚ) ^ ((e : Int) - (b : Int) - 52))
    refine ⟨roundHalfEven ((k : ℚ) / (M : ℚ) / (2 : ℚ) ^ ((e : Int) - (b : Int) - 52)), hfl, ?_⟩
    set n := roundHalfEven ((k : ℚ) / (M : ℚ) / (2 : ℚ) ^ ((e : Int) - (b : Int) - 52)) with hn
    have hscaled : (k : ℚ) / (M : ℚ) / (2 : ℚ) ^ ((e : Int) - (b : Int) - 52)
        = (k : ℚ) * (2 : ℚ) ^ (52 + b - e) / (M : ℚ) := by
      rw [hu]
      field_simp
      linear_combination (-(k : ℚ) * (M : ℚ)) * hPq
    rw [hscaled] at herr
    have hkey : (n : ℚ) * (M : ℚ) - (k : ℚ) * (2 : ℚ) ^ (52 + b - e)
        = ((n : ℚ) - (k : ℚ) * (2 : ℚ) ^ (52 + b - e) / (M : ℚ)) * (M : ℚ) := by
      field_simp
    have habs : |(n : ℚ) * (M : ℚ) - (k : ℚ) * (2 : ℚ) ^ (52 + b - e)| ≤ 1 / 2 * (M : ℚ) := by
      rw [hkey, abs_mul, abs_of_pos hMq]
      exact mul_le_mul_of_nonneg_right herr hMq.le
    rw [abs_le] at habs
    have i1 : -M ≤ 2 * (n * M - k * 2 ^ (52 + b - e)) := by
      have : (-(M : ℚ)) ≤ 2 * ((n : ℚ) * (M : ℚ) - (k : ℚ) * (2 : ℚ) ^ (52 + b - e)) := by
        linarith [habs.1]
      exact_mod_cast this
    have i2 : 2 * (n * M - k * 2 ^ (52 + b - e)) ≤ M := by
      have : 2 * ((n : ℚ) * (M : ℚ) - (k : ℚ) * (2 : ℚ) ^ (52 + b - e)) ≤ (M : ℚ) := by
        linarith [habs.2]
      exact_mod_cast this
    generalize n * M - k * 2 ^ (52 + b - e) = Z at i1 i2 ⊢
    constructor <;> omega

/-- The product of the `double` nearest to `k / M` with `M` rounds back to `k`: with
`c = n * 2^(e-b-52)` as in `quotient_on_grid`, `fl64 (c * M) = k`.  For `k = 2^e` the
remainder `n * M - k * 2^(52+b-e)` has to be above `-(M + 1) / 4`. -/
theorem scaled_back (b e : ℕ) (M k n : Int) (hM : M = 2 ^ b - 1) (hb : 2 ≤ b) (hb2 : b ≤ 31)
    (heb : e + 1 ≤ b) (hk1 : 2 ^ e ≤ k) (hk2 : k < 2 ^ (e + 1))
    (ht1 : -(M - 1) ≤ 2 * (n * M - k * 2 ^ (52 + b - e)))
    (ht2 : 2 * (n * M - k * 2 ^ (52 + b - e)) ≤ M - 1)
    (hpow : k = 2 ^ e → -(M + 1) < 4 * (n * M - k * 2 ^ (52 + b - e))) :
    fl64 ((n : ℚ) * (2 : ℚ) ^ ((e : Int) - (b : Int) - 52) * (M : ℚ)) = (k : ℚ)
      ∧ |(n : ℚ) * (2 : ℚ) ^ ((e : Int) - (b : Int) - 52) * (M : ℚ) - (k : ℚ)|
        ≤ ((M : ℚ) - 1) / 2 * (2 : ℚ) ^ ((e : Int) - (b : Int) - 52) := by
  have hP : (2 : Int) ^ (52 + b - e) * 2 ^ e = 2 ^ 52 * 2 ^ b := by
    rw [← pow_add, ← pow_add]
    congr 1
    omega
  have hPq : ((2 : ℚ) ^ (52 + b - e)) * (2 : ℚ) ^ e = 2 ^ 52 * (2 : ℚ) ^ b := by
    exact_mod_cast hP
  have hA : (0 : ℚ) < (2 : ℚ) ^ e := by positivity
  have hB : (0 : ℚ) < (2 : ℚ) ^ b := by positivity
  have hu : (2 : ℚ) ^ ((e : Int) - (b : Int) - 52) = (2 : ℚ) ^ e / ((2 : ℚ) ^ b * 2 ^ 52) := by
    have : (e : Int) - (b : Int) - 52 = (e : Int) - ((b + 52 : ℕ) : Int) := by
      push_cast
      ring
    rw [this, two_zpow_nat_sub, pow_add]
  have hMb : (M : ℚ) = (2 : ℚ) ^ b - 1 := by
    rw [hM]
    push_cast
    ring
  have hkq1 : (2 : ℚ) ^ e ≤ (k : ℚ) := by exact_mod_cast hk1
  have hkq2 : (k : ℚ) + 1 ≤ 2 * (2 : ℚ) ^ e := by
    have : k + 1 ≤ 2 * 2 ^ e := by
      rw [pow_succ] at hk2
      omega
    exact_mod_cast this
  have hA52 : (2 : ℚ) ^ e ≤ 2 ^ 52 := pow_le_pow_right₀ (by norm_num) (by omega)
  have hB4 : (4 : ℚ) ≤ (2 : ℚ) ^ b := by
    have : (2 : ℚ) ^ 2 ≤ 2 ^ b := pow_le_pow_right₀ (by norm_num) hb
    norm_num at this
    exact this
  -- the remainder
  have htq1 : -((M : ℚ) - 1) ≤ 2 * ((n : ℚ) * (M : ℚ) - (k : ℚ) * (2 : ℚ) ^ (52 + b - e)) := by
    exact_mod_cast ht1
  have htq2 : 2 * ((n : ℚ) * (M : ℚ) - (k : ℚ) * (2 : ℚ) ^ (52 + b - e)) ≤ (M : ℚ) - 1 := by
    exact_mod_cast ht2
  obtain ⟨u, hudef⟩ : ∃ u : ℚ, u = (2 : ℚ) ^ ((e : Int) - (b : Int) - 52) := ⟨_, rfl⟩
  rw [← hudef] at hu ⊢
  have hupos : 0 < u := by
    rw [hudef]
    exact two_zpow_pos _
  have huA : u * ((2 : ℚ) ^ b * 2 ^ 52) = (2 : ℚ) ^ e := by
    rw [hu]
    field_simp
  have hPu : (2 : ℚ) ^ (52 + b - e) * u = 1 := by
    rw [hu]
    field_simp
    linear_combination hPq
  obtain ⟨t, htdef⟩ : ∃ t : ℚ, t = (n : ℚ) * (M : ℚ) - (k : ℚ) * (2 : ℚ) ^ (52 + b - e) :=
    ⟨_, rfl⟩
  rw [← htdef] at htq1 htq2
  have hq : (n : ℚ) * u * (M : ℚ) = (k : ℚ) + t * u := by
    rw [htdef]
    linear_combination (k : ℚ) * hPu
  have htabs : |t| ≤ ((M : ℚ) - 1) / 2 := by
    rw [abs_le]
    constructor <;> linarith
  have hclose : |(n : ℚ) * u * (M : ℚ) - (k : ℚ)| ≤ ((M : ℚ) - 1) / 2 * u := by
    rw [hq]
    have : (k : ℚ) + t * u - (k : ℚ) = t * u := by ring
    rw [this, abs_mul, abs_of_pos hupos]
    exact mul_le_mul_of_nonneg_right htabs hupos.le
  refine ⟨?_, hclose⟩
  -- grid steps
  have hg : (2 : ℚ) ^ ((e : Int) - 52) = (2 : ℚ) ^ b * u := by
    have h1 : (2 : ℚ) ^ ((e : Int) - 52) = (2 : ℚ) ^ e / 2 ^ 52 := by
      rw [zpow_sub₀ (by norm_num : (2 : ℚ) ≠ 0), zpow_natCast]
      norm_num
    rw [h1, ← huA]
    field_simp
    ring
  have hze : (2 : ℚ) ^ (e : Int) = (2 : ℚ) ^ e := zpow_natCast 2 e
  have hze1 : (2 : ℚ) ^ ((e : Int) + 1) = 2 * (2 : ℚ) ^ e := by
    rw [zpow_add₀ (by norm_num : (2 : ℚ) ≠ 0), hze]
    norm_num
    ring
  have hgle : (2 : ℚ) ^ b * u ≤ 1 := by
    rw [← hg, zpow_sub₀ (by norm_num : (2 : ℚ) ≠ 0), zpow_natCast]
    rw [div_le_one (by positivity)]
    norm_num
    norm_num at hA52
    exact hA52
  rw [abs_le] at hclose
  have hMu : (M : ℚ) * u = (2 : ℚ) ^ b * u - u := by
    rw [hMb]
    ring
  have hhalf : ((M : ℚ) - 1) / 2 * u = ((2 : ℚ) ^ b * u - 2 * u) / 2 := by
    rw [hMb]
    ring
  rw [hhalf] at hclose
  have hA1 : (1 : ℚ) ≤ (2 : ℚ) ^ e := one_le_pow₀ (by norm_num)
  by_cases hcase : (2 : ℚ) ^ e ≤ (n : ℚ) * u * (M : ℚ)
  · -- the product lies in the binade of `k`
    have hqpos : 0 < (n : ℚ) * u * (M : ℚ) := lt_of_lt_of_le hA hcase
    obtain ⟨m, hmdef⟩ : ∃ m : Int, (m : ℚ) = (k : ℚ) * (2 : ℚ) ^ (52 - e) :=
      ⟨k * 2 ^ (52 - e), by push_cast; ring⟩
    have hm : (m : ℚ) * (2 : ℚ) ^ ((e : Int) - 52) = (k : ℚ) := by
      have h52 : ((2 : ℚ) ^ (52 - e)) * (2 : ℚ) ^ e = 2 ^ 52 := by
        rw [← pow_add]
        congr 1
        omega
      rw [hg, hmdef]
      have h3 : (2 : ℚ) ^ b * u * 2 ^ 52 = (2 : ℚ) ^ e := by linarith [huA]
      have h4 : (k : ℚ) * (2 : ℚ) ^ (52 - e) * ((2 : ℚ) ^ b * u) * 2 ^ 52
          = (k : ℚ) * 2 ^ 52 := by
        calc (k : ℚ) * (2 : ℚ) ^ (52 - e) * ((2 : ℚ) ^ b * u) * 2 ^ 52
            = (k : ℚ) * ((2 : ℚ) ^ (52 - e) * ((2 : ℚ) ^ b * u * 2 ^ 52)) := by ring
          _ = (k : ℚ) * 2 ^ 52 := by rw [h3, h52]
      have h5 : (0 : ℚ) < 2 ^ 52 := by norm_num
      exact mul_right_cancel₀ h5.ne' h4
    have s1 : (2 : ℚ) ^ (e : Int) ≤ |(n : ℚ) * u * (M : ℚ)| := by
      rw [abs_of_pos hqpos, hze]
      exact hcase
    have s2 : |(n : ℚ) * u * (M : ℚ)| < (2 : ℚ) ^ ((e : Int) + 1) := by
      rw [abs_of_pos hqpos, hze1]
      linarith [hclose.2]
    have s3 : (-1022 : Int) ≤ (e : Int) := le_trans (by norm_num) (Int.natCast_nonneg e)
    have s4 : |(n : ℚ) * u * (M : ℚ) - (m : ℚ) * (2 : ℚ) ^ ((e : Int) - 52)|
        < (2 : ℚ) ^ ((e : Int) - 52) / 2 := by
      rw [hm, hg, abs_lt]
      constructor <;> linarith [hclose.1, hclose.2]
    have := fl64_eq_of_close s1 s2 s3 s4
    rw [this, hm]
  · -- the product is below `2^e`, so `k = 2^e`
    have hcase := not_le.mp hcase
    have hk : k = 2 ^ e := by
      have h1 : (k : ℚ) < (2 : ℚ) ^ e + 1 := by linarith [hclose.1]
      have h2 : k < 2 ^ e + 1 := by exact_mod_cast h1
      omega
    have hp := hpow hk
    have hpq : -((M : ℚ) + 1) < 4 * t := by
      rw [htdef]
      exact_mod_cast hp
    have hkq : (k : ℚ) = (2 : ℚ) ^ e := by
      rw [hk]
      push_cast
      ring
    have htneg : t * u < 0 := by
      have : (k : ℚ) + t * u < (2 : ℚ) ^ e := by
        rw [← hq]
        exact hcase
      linarith
    have htlow : -((2 : ℚ) ^ b * u) / 4 < t * u := by
      have : (-((M : ℚ) + 1)) * u < 4 * t * u := mul_lt_mul_of_pos_right hpq hupos
      have h2 : (-((M : ℚ) + 1)) * u = -((2 : ℚ) ^ b * u) := by
        rw [hMb]
        ring
      rw [h2] at this
      linarith
    have hqv : (n : ℚ) * u * (M : ℚ) = (2 : ℚ) ^ e + t * u := by rw [hq, hkq]
    have hqpos : 0 < (n : ℚ) * u * (M : ℚ) := by
      rw [hqv]
      linarith
    have hz1 : (2 : ℚ) ^ ((e : Int) - 1) = (2 : ℚ) ^ e / 2 := by
      rw [zpow_sub₀ (by norm_num : (2 : ℚ) ≠ 0), hze]
      norm_num
    have hz2 : (2 : ℚ) ^ ((e : Int) - 1 + 1) = (2 : ℚ) ^ e := by
      rw [sub_add_cancel, hze]
    have hz3 : (2 : ℚ) ^ ((e : Int) - 1 - 52) = (2 : ℚ) ^ b * u / 2 := by
      have : (e : Int) - 1 - 52 = ((e : Int) - 52) - 1 := by ring
      rw [this, zpow_sub₀ (by norm_num : (2 : ℚ) ≠ 0), hg]
      norm_num
    obtain ⟨m, hmdef⟩ : ∃ m : Int, (m : ℚ) = 2 ^ 53 := ⟨2 ^ 53, by norm_num⟩
    have hm : (m : ℚ) * (2 : ℚ) ^ ((e : Int) - 1 - 52) = (2 : ℚ) ^ e := by
      rw [hz3, ← huA, hmdef]
      ring
    have s1 : (2 : ℚ) ^ ((e : Int) - 1) ≤ |(n : ℚ) * u * (M : ℚ)| := by
      rw [abs_of_pos hqpos, hz1, hqv]
      linarith
    have s2 : |(n : ℚ) * u * (M : ℚ)| < (2 : ℚ) ^ ((e : Int) - 1 + 1) := by
      rw [abs_of_pos hqpos, hz2]
      exact hcase
    have s3 : (-1022 : Int) ≤ (e : Int) - 1 := by
      have := Int.natCast_nonneg e
      linarith
    have s4 : |(n : ℚ) * u * (M : ℚ) - (m : ℚ) * (2 : ℚ) ^ ((e : Int) - 1 - 52)|
        < (2 : ℚ) ^ ((e : Int) - 1 - 52) / 2 := by
      rw [hm, hz3, hqv, abs_lt]
      constructor <;> linarith
    have := fl64_eq_of_close s1 s2 s3 s4
    rw [this, hm, hkq]

/-- The `double` nearest to `k / M` is not above a `double` `p` whose product with `M`
rounds to at least `k`: with `c = n * 2^(e-b-52)` as in `quotient_on_grid`, `c <= p`. -/
theorem adjusted_le (b e : ℕ) (M k n : Int) (p : ℚ) (hM : M = 2 ^ b - 1) (hb : 2 ≤ b)
    (hb2 : b ≤ 31) (heb : e + 1 ≤ b) (hk1 : 2 ^ e ≤ k) (hk2 : k < 2 ^ (e + 1)) (hkM : k ≤ M)
    (ht1 : -(M - 1) ≤ 2 * (n * M - k * 2 ^ (52 + b - e)))
    (ht2 : 2 * (n * M - k * 2 ^ (52 + b - e)) ≤ M - 1)
    (hp : fl64 p = p) (hp0 : 0 ≤ p) (hfloor : (k : ℚ) ≤ fl64 (p * (M : ℚ))) :
    (n : ℚ) * (2 : ℚ) ^ ((e : Int) - (b : Int) - 52) ≤ p := by
  by_contra hcon
  have hcon := not_le.mp hcon
  have hP : (2 : Int) ^ (52 + b - e) * 2 ^ e = 2 ^ 52 * 2 ^ b := by
    rw [← pow_add, ← pow_add]
    congr 1
    omega
  have hPq : ((2 : ℚ) ^ (52 + b - e)) * (2 : ℚ) ^ e = 2 ^ 52 * (2 : ℚ) ^ b := by
    exact_mod_cast hP
  have hA : (0 : ℚ) < (2 : ℚ) ^ e := by positivity
  have hB : (0 : ℚ) < (2 : ℚ) ^ b := by positivity
  have hu : (2 : ℚ) ^ ((e : Int) - (b : Int) - 52) = (2 : ℚ) ^ e / ((2 : ℚ) ^ b * 2 ^ 52) := by
    have : (e : Int) - (b : Int) - 52 = (e : Int) - ((b + 52 : ℕ) : Int) := by
      push_cast
      ring
    rw [this, two_zpow_nat_sub, pow_add]
  have hMb : (M : ℚ) = (2 : ℚ) ^ b - 1 := by
    rw [hM]
    push_cast
    ring
  have hB4 : (4 : ℚ) ≤ (2 : ℚ) ^ b := by
    have : (2 : ℚ) ^ 2 ≤ 2 ^ b := pow_le_pow_right₀ (by norm_num) hb
    norm_num at this
    exact this
  have hb4 : (4 : Int) ≤ 2 ^ b := by exact_mod_cast hB4
  have hMpos : (0 : Int) < M := by omega
  have hMq : (0 : ℚ) < (M : ℚ) := by exact_mod_cast hMpos
  have hkq1 : (2 : ℚ) ^ e ≤ (k : ℚ) := by exact_mod_cast hk1
  have htq1 : -((M : ℚ) - 1) ≤ 2 * ((n : ℚ) * (M : ℚ) - (k : ℚ) * (2 : ℚ) ^ (52 + b - e)) := by
    exact_mod_cast ht1
  have htq2 : 2 * ((n : ℚ) * (M : ℚ) - (k : ℚ) * (2 : ℚ) ^ (52 + b - e)) ≤ (M : ℚ) - 1 := by
    exact_mod_cast ht2
  have hklt53 : |k| < 2 ^ 53 := by
    have h31 : (2 : Int) ^ b ≤ 2 ^ 31 := pow_le_pow_right₀ (by norm_num) hb2
    have hkpos : 0 < k := lt_of_lt_of_le (by positivity) hk1
    rw [abs_of_pos hkpos]
    have : (2 : Int) ^ 31 < 2 ^ 53 := by norm_num
    omega
  -- `n` is above `2^52`
  have hn52 : 2 ^ 52 + 1 ≤ n := by
    by_contra hc
    have hc2 : n ≤ 2 ^ 52 := by omega
    have h1 : n * M ≤ 2 ^ 52 * M := mul_le_mul_of_nonneg_right hc2 hMpos.le
    have h2 : 2 ^ e * 2 ^ (52 + b - e) ≤ k * 2 ^ (52 + b - e) :=
      mul_le_mul_of_nonneg_right hk1 (by positivity)
    have h3 : (2 : Int) ^ e * 2 ^ (52 + b - e) = 2 ^ 52 * 2 ^ b := by
      rw [mul_comm]
      exact hP
    rw [h3] at h2
    have h4 : (2 : Int) ^ 52 * 2 ^ b = 2 ^ 52 * M + 2 ^ 52 := by
      rw [hM]
      ring
    have h5 : M ≤ 2 ^ 52 := by
      have h31 : (2 : Int) ^ b ≤ 2 ^ 31 := pow_le_pow_right₀ (by norm_num) hb2
      have : (2 : Int) ^ 31 < 2 ^ 52 := by norm_num
      omega
    generalize n * M = X at *
    generalize k * 2 ^ (52 + b - e) = Y at *
    generalize (2 : Int) ^ 52 * 2 ^ b = Z at *
    generalize (2 : Int) ^ 52 * M = W at *
    omega
  obtain ⟨u, hudef⟩ : ∃ u : ℚ, u = (2 : ℚ) ^ ((e : Int) - (b : Int) - 52) := ⟨_, rfl⟩
  rw [← hudef] at hu hcon
  have hupos : 0 < u := by
    rw [hudef]
    exact two_zpow_pos _
  have huA : u * ((2 : ℚ) ^ b * 2 ^ 52) = (2 : ℚ) ^ e := by
    rw [hu]
    field_simp
  have hPu : (2 : ℚ) ^ (52 + b - e) * u = 1 := by
    rw [hu]
    field_simp
    linear_combination hPq
  obtain ⟨t, htdef⟩ : ∃ t : ℚ, t = (n : ℚ) * (M : ℚ) - (k : ℚ) * (2 : ℚ) ^ (52 + b - e) :=
    ⟨_, rfl⟩
  rw [← htdef] at htq1 htq2
  have hq : (n : ℚ) * u * (M : ℚ) = (k : ℚ) + t * u := by
    rw [htdef]
    linear_combination (k : ℚ) * hPu
  have hMu : (M : ℚ) * u = (2 : ℚ) ^ b * u - u := by
    rw [hMb]
    ring
  have htu2 : 2 * (t * u) ≤ (2 : ℚ) ^ b * u - 2 * u := by
    have : 2 * t * u ≤ ((M : ℚ) - 1) * u := mul_le_mul_of_nonneg_right htq2 hupos.le
    have h2 : ((M : ℚ) - 1) * u = (2 : ℚ) ^ b * u - 2 * u := by
      rw [hMb]
      ring
    linarith
  -- `p` is at most `c - u`
  have hL : (2 : ℚ) ^ ((e : Int) - (b : Int)) = 2 ^ 52 * u := by
    rw [two_zpow_nat_sub, ← huA]
    field_simp
    ring
  have hgrid : (2 : ℚ) ^ ((e : Int) - (b : Int) - 52) = u := hudef.symm
  have hnq : ((2 : ℚ) ^ 52 + 1) ≤ (n : ℚ) := by exact_mod_cast hn52
  have hpc : p ≤ ((n : ℚ) - 1) * u := by
    by_cases hlow : p < (2 : ℚ) ^ ((e : Int) - (b : Int))
    · rw [hL] at hlow
      have : (2 : ℚ) ^ 52 * u ≤ ((n : ℚ) - 1) * u :=
        mul_le_mul_of_nonneg_right (by linarith) hupos.le
      linarith
    · have hlow := not_lt.mp hlow
      obtain ⟨m, hm⟩ := double_on_grid hp (L := (e : Int) - (b : Int))
        (by rw [abs_of_nonneg hp0]; exact hlow)
      rw [hgrid] at hm
      have hmn : m < n := by
        have : (m : ℚ) * u < (n : ℚ) * u := by
          rw [← hm]
          exact hcon
        have := lt_of_mul_lt_mul_right this hupos.le
        exact_mod_cast this
      have hmn2 : (m : ℚ) ≤ (n : ℚ) - 1 := by
        have : m ≤ n - 1 := by omega
        exact_mod_cast this
      rw [hm]
      exact mul_le_mul_of_nonneg_right hmn2 hupos.le
  -- the product `p * M` is at least `2^b * u / 2` below `k`
  have hpM : p * (M : ℚ) ≤ (k : ℚ) + t * u - ((2 : ℚ) ^ b * u - u) := by
    have : p * (M : ℚ) ≤ ((n : ℚ) - 1) * u * (M : ℚ) :=
      mul_le_mul_of_nonneg_right hpc hMq.le
    have h2 : ((n : ℚ) - 1) * u * (M : ℚ) = (n : ℚ) * u * (M : ℚ) - (M : ℚ) * u := by ring
    rw [h2, hq, hMu] at this
    exact this
  have hgap : (2 : ℚ) ^ b * u / 2 ≤ (k : ℚ) - p * (M : ℚ) := by linarith
  have hBu : 0 < (2 : ℚ) ^ b * u := mul_pos hB hupos
  -- `fl64 (p * M) = k`
  have hx : fl64 (p * (M : ℚ)) = (k : ℚ) := by
    apply le_antisymm _ hfloor
    have := fl64_mono (x := p * (M : ℚ)) (y := (k : ℚ)) (by linarith)
    rwa [fl64_intCast hklt53] at this
  -- grid step of the binade of `k`
  have hg : (2 : ℚ) ^ ((e : Int) - 52) = (2 : ℚ) ^ b * u := by
    have h1 : (2 : ℚ) ^ ((e : Int) - 52) = (2 : ℚ) ^ e / 2 ^ 52 := by
      rw [zpow_sub₀ (by norm_num : (2 : ℚ) ≠ 0), zpow_natCast]
      norm_num
    rw [h1, ← huA]
    field_simp
    ring
  have h52 : ((2 : ℚ) ^ (52 - e)) * (2 : ℚ) ^ e = 2 ^ 52 := by
    rw [← pow_add]
    congr 1
    omega
  have h52i : ((2 : Int) ^ (52 - e)) * (2 : Int) ^ e = 2 ^ 52 := by
    rw [← pow_add]
    congr 1
    omega
  by_cases hkA : k = 2 ^ e
  · -- `k` is a power of two: the `double` below it is `k - 2^(e-53)`
    have hg2 : (2 : ℚ) ^ ((e : Int) - 53) = (2 : ℚ) ^ b * u / 2 := by
      have : (e : Int) - 53 = ((e : Int) - 52) - 1 := by ring
      rw [this, zpow_sub₀ (by norm_num : (2 : ℚ) ≠ 0), hg]
      norm_num
    have hkq : (k : ℚ) = (2 : ℚ) ^ e := by
      rw [hkA]
      push_cast
      ring
    obtain ⟨m, hm1, hm2⟩ : ∃ m : Int, (m : ℚ) = 2 ^ 53 - 1 ∧ |m| ≤ 2 ^ 53 :=
      ⟨2 ^ 53 - 1, by norm_num, by norm_num⟩
    have hd : (m : ℚ) * (2 : ℚ) ^ ((e : Int) - 53) = (k : ℚ) - (2 : ℚ) ^ b * u / 2 := by
      rw [hg2, hm1, hkq, ← huA]
      ring
    have hnear := fl64_nearest (p * (M : ℚ)) m ((e : Int) - 53) hm2
      (by have := Int.natCast_nonneg e; linarith)
    rw [hx, hd, abs_of_nonneg (by linarith)] at hnear
    rcases abs_cases ((k : ℚ) - (2 : ℚ) ^ b * u / 2 - p * (M : ℚ)) with ⟨h1, -⟩ | ⟨h1, -⟩
    · rw [h1] at hnear
      linarith
    · rw [h1] at hnear
      linarith
  · -- `k` is above `2^e`: the `double` below it is `k - 2^(e-52)`
    have hkgt : 2 ^ e + 1 ≤ k := by omega
    obtain ⟨m, hm1, hm2⟩ : ∃ m : Int, (m : ℚ) = (k : ℚ) * (2 : ℚ) ^ (52 - e) - 1
        ∧ |m| ≤ 2 ^ 53 := by
      refine ⟨k * 2 ^ (52 - e) - 1, by push_cast; ring, ?_⟩
      have h1 : 2 ^ e * 2 ^ (52 - e) ≤ k * 2 ^ (52 - e) :=
        mul_le_mul_of_nonneg_right hk1 (by positivity)
      have h2 : k * 2 ^ (52 - e) ≤ (2 ^ (e + 1) - 1) * 2 ^ (52 - e) :=
        mul_le_mul_of_nonneg_right (by omega) (by positivity)
      have h3 : (2 : Int) ^ e * 2 ^ (52 - e) = 2 ^ 52 := by
        rw [mul_comm]
        exact h52i
      have h4 : ((2 : Int) ^ (e + 1) - 1) * 2 ^ (52 - e) = 2 * 2 ^ 52 - 2 ^ (52 - e) := by
        rw [pow_succ]
        linear_combination 2 * h3
      have h5 : (0 : Int) < 2 ^ (52 - e) := by positivity
      rw [h3] at h1
      rw [h4] at h2
      rw [abs_le]
      generalize k * 2 ^ (52 - e) = X at *
      generalize (2 : Int) ^ (52 - e) = Y at *
      constructor <;> norm_num at * <;> omega
    have hd : (m : ℚ) * (2 : ℚ) ^ ((e : Int) - 52) = (k : ℚ) - (2 : ℚ) ^ b * u := by
      rw [hg, hm1]
      have h3 : (2 : ℚ) ^ b * u * 2 ^ 52 = (2 : ℚ) ^ e := by linarith [huA]
      have h4 : (k : ℚ) * (2 : ℚ) ^ (52 - e) * ((2 : ℚ) ^ b * u) * 2 ^ 52
          = (k : ℚ) * 2 ^ 52 := by
        calc (k : ℚ) * (2 : ℚ) ^ (52 - e) * ((2 : ℚ) ^ b * u) * 2 ^ 52
            = (k : ℚ) * ((2 : ℚ) ^ (52 - e) * ((2 : ℚ) ^ b * u * 2 ^ 52)) := by ring
          _ = (k : ℚ) * 2 ^ 52 := by rw [h3, h52]
      have h5 : (0 : ℚ) < 2 ^ 52 := by norm_num
      have h6 : (k : ℚ) * (2 : ℚ) ^ (52 - e) * ((2 : ℚ) ^ b * u) = (k : ℚ) :=
        mul_right_cancel₀ h5.ne' h4
      linear_combination h6
    have hnear := fl64_nearest (p * (M : ℚ)) m ((e : Int) - 52) hm2
      (by have := Int.natCast_nonneg e; linarith)
    rw [hx, hd, abs_of_nonneg (by linarith)] at hnear
    have hle : (k : ℚ) - p * (M : ℚ) ≤ (2 : ℚ) ^ b * u / 2 := by
      rcases abs_cases ((k : ℚ) - (2 : ℚ) ^ b * u - p * (M : ℚ)) with ⟨h1, -⟩ | ⟨h1, -⟩
      · rw [h1] at hnear
        linarith
      · rw [h1] at hnear
        linarith
    -- equality forces the remainder `(M - 1) / 2`
    have ht3 : (2 : ℚ) ^ b * u - 2 * u ≤ 2 * (t * u) := by linarith
    have ht4 : (M : ℚ) - 1 ≤ 2 * t := by
      have h1 : ((M : ℚ) - 1) * u ≤ 2 * t * u := by
        have h2 : ((M : ℚ) - 1) * u = (2 : ℚ) ^ b * u - 2 * u := by
          rw [hMb]
          ring
        linarith
      exact le_of_mul_le_mul_right h1 hupos
    have ht5 : M - 1 ≤ 2 * (n * M - k * 2 ^ (52 + b - e)) := by
      rw [htdef] at ht4
      exact_mod_cast ht4
    have hdvd : M ∣ k * 2 ^ (53 + b - e) - 1 := by
      refine ⟨2 * n - 1, ?_⟩
      have h53 : (2 : Int) ^ (53 + b - e) = 2 * 2 ^ (52 + b - e) := by
        have : 53 + b - e = (52 + b - e) + 1 := by omega
        rw [this, pow_succ]
        ring
      rw [h53]
      have heq : 2 * (n * M - k * 2 ^ (52 + b - e)) = M - 1 := le_antisymm ht2 ht5
      linear_combination (-1 : Int) * heq
    by_cases hkeqM : k = M
    · rw [hkeqM] at hdvd
      have h1 : M ∣ 1 := by
        have h2 : M ∣ M * 2 ^ (53 + b - e) := dvd_mul_right _ _
        have h3 := dvd_sub h2 hdvd
        simpa using h3
      have := Int.le_of_dvd (by norm_num) h1
      omega
    · rw [hM] at hdvd
      obtain ⟨i, hi, hki⟩ := pow_two_of_dvd b (by omega) (53 + b - e) k (by omega) (by omega) hdvd
      rw [hki] at hkgt hk2
      have h1 : (2 : Int) ^ e < 2 ^ i := by omega
      have h2 : e < i := (pow_lt_pow_iff_right₀ (by norm_num : (1 : Int) < 2)).mp h1
      have h3 : i < e + 1 := (pow_lt_pow_iff_right₀ (by norm_num : (1 : Int) < 2)).mp hk2
      omega

/-- A `double` `p` whose product with `M` rounds to less than `k + 1` is less than `1 / M`
above the `double` nearest to `k / M`: with `c = n * 2^(e-b-52)` as in `quotient_on_grid`,
`(p - c) * M < 1`. -/
theorem adjusted_close (b e : ℕ) (M k n : Int) (p : ℚ) (hM : M = 2 ^ b - 1) (hb : 2 ≤ b)
    (hb2 : b ≤ 31) (heb : e + 1 ≤ b) (hk1 : 2 ^ e ≤ k) (hk2 : k < 2 ^ (e + 1))
    (ht1 : -(M - 1) ≤ 2 * (n * M - k * 2 ^ (52 + b - e)))
    (hfloor1 : (k : ℚ) ≤ fl64 (p * (M : ℚ)))
    (hfloor2 : fl64 (p * (M : ℚ)) < (k : ℚ) + 1) :
    (p - (n : ℚ) * (2 : ℚ) ^ ((e : Int) - (b : Int) - 52)) * (M : ℚ) < 1 := by
  have hP : (2 : Int) ^ (52 + b - e) * 2 ^ e = 2 ^ 52 * 2 ^ b := by
    rw [← pow_add, ← pow_add]
    congr 1
    omega
  have hPq : ((2 : ℚ) ^ (52 + b - e)) * (2 : ℚ) ^ e = 2 ^ 52 * (2 : ℚ) ^ b := by
    exact_mod_cast hP
  have hA : (0 : ℚ) < (2 : ℚ) ^ e := by positivity
  have hB : (0 : ℚ) < (2 : ℚ) ^ b := by positivity
  have hu : (2 : ℚ) ^ ((e : Int) - (b : Int) - 52) = (2 : ℚ) ^ e / ((2 : ℚ) ^ b * 2 ^ 52) := by
    have : (e : Int) - (b : Int) - 52 = (e : Int) - ((b + 52 : ℕ) : Int) := by
      push_cast
      ring
    rw [this, two_zpow_nat_sub, pow_add]
  have hMb : (M : ℚ) = (2 : ℚ) ^ b - 1 := by
    rw [hM]
    push_cast
    ring
  have hkq1 : (2 : ℚ) ^ e ≤ (k : ℚ) := by exact_mod_cast hk1
  have htq1 : -((M : ℚ) - 1) ≤ 2 * ((n : ℚ) * (M : ℚ) - (k : ℚ) * (2 : ℚ) ^ (52 + b - e)) := by
    exact_mod_cast ht1
  have hk53 : |k + 1| < 2 ^ 53 := by
    have h31 : (2 : Int) ^ (e + 1) ≤ 2 ^ 31 := pow_le_pow_right₀ (by norm_num) (by omega)
    have hkpos : 0 < k := lt_of_lt_of_le (by positivity) hk1
    rw [abs_of_pos (by omega)]
    have : (2 : Int) ^ 31 < 2 ^ 53 := by norm_num
    omega
  obtain ⟨u, hudef⟩ : ∃ u : ℚ, u = (2 : ℚ) ^ ((e : Int) - (b : Int) - 52) := ⟨_, rfl⟩
  rw [← hudef] at hu ⊢
  have hupos : 0 < u := by
    rw [hudef]
    exact two_zpow_pos _
  have huA : u * ((2 : ℚ) ^ b * 2 ^ 52) = (2 : ℚ) ^ e := by
    rw [hu]
    field_simp
  have hPu : (2 : ℚ) ^ (52 + b - e) * u = 1 := by
    rw [hu]
    field_simp
    linear_combination hPq
  obtain ⟨t, htdef⟩ : ∃ t : ℚ, t = (n : ℚ) * (M : ℚ) - (k : ℚ) * (2 : ℚ) ^ (52 + b - e) :=
    ⟨_, rfl⟩
  rw [← htdef] at htq1
  have hq : (n : ℚ) * u * (M : ℚ) = (k : ℚ) + t * u := by
    rw [htdef]
    linear_combination (k : ℚ) * hPu
  have htu1 : -((2 : ℚ) ^ b * u - 2 * u) ≤ 2 * (t * u) := by
    have : (-((M : ℚ) - 1)) * u ≤ 2 * t * u := mul_le_mul_of_nonneg_right htq1 hupos.le
    have h2 : (-((M : ℚ) - 1)) * u = -((2 : ℚ) ^ b * u - 2 * u) := by
      rw [hMb]
      ring
    linarith
  have hg : (2 : ℚ) ^ ((e : Int) - 52) = (2 : ℚ) ^ b * u := by
    have h1 : (2 : ℚ) ^ ((e : Int) - 52) = (2 : ℚ) ^ e / 2 ^ 52 := by
      rw [zpow_sub₀ (by norm_num : (2 : ℚ) ≠ 0), zpow_natCast]
      norm_num
    rw [h1, ← huA]
    field_simp
    ring
  have h52 : ((2 : ℚ) ^ (52 - e)) * (2 : ℚ) ^ e = 2 ^ 52 := by
    rw [← pow_add]
    congr 1
    omega
  have hBu : 0 < (2 : ℚ) ^ b * u := mul_pos hB hupos
  -- `p * M < k + 1`
  have hlt : p * (M : ℚ) < (k : ℚ) + 1 := by
    by_contra hc
    have hc := not_lt.mp hc
    have := fl64_mono hc
    have h2 : fl64 ((k : ℚ) + 1) = (k : ℚ) + 1 := by
      have := fl64_intCast hk53
      push_cast at this
      exact this
    rw [h2] at this
    linarith
  -- `fl64 (p * M)` lies on the grid of the binade of `k`
  obtain ⟨x, hxdef⟩ : ∃ x : ℚ, x = fl64 (p * (M : ℚ)) := ⟨_, rfl⟩
  rw [← hxdef] at hfloor1 hfloor2
  have hxd : fl64 x = x := by
    rw [hxdef]
    exact fl64_idem _
  have hxpos : 0 < x := lt_of_lt_of_le hA (le_trans hkq1 hfloor1)
  obtain ⟨m, hm⟩ := double_on_grid hxd (L := (e : Int))
    (by rw [abs_of_pos hxpos, zpow_natCast]; exact le_trans hkq1 hfloor1)
  rw [hg] at hm
  have hk1g : ((k : ℚ) + 1) * (2 : ℚ) ^ (52 - e) * ((2 : ℚ) ^ b * u) = (k : ℚ) + 1 := by
    have h3 : (2 : ℚ) ^ b * u * 2 ^ 52 = (2 : ℚ) ^ e := by linarith [huA]
    have h4 : ((k : ℚ) + 1) * (2 : ℚ) ^ (52 - e) * ((2 : ℚ) ^ b * u) * 2 ^ 52
        = ((k : ℚ) + 1) * 2 ^ 52 := by
      calc ((k : ℚ) + 1) * (2 : ℚ) ^ (52 - e) * ((2 : ℚ) ^ b * u) * 2 ^ 52
          = ((k : ℚ) + 1) * ((2 : ℚ) ^ (52 - e) * ((2 : ℚ) ^ b * u * 2 ^ 52)) := by ring
        _ = ((k : ℚ) + 1) * 2 ^ 52 := by rw [h3, h52]
    have h5 : (0 : ℚ) < 2 ^ 52 := by norm_num
    exact mul_right_cancel₀ h5.ne' h4
  have hxle : x ≤ (k : ℚ) + 1 - (2 : ℚ) ^ b * u := by
    have h1 : (m : ℚ) * ((2 : ℚ) ^ b * u)
        < ((k : ℚ) + 1) * (2 : ℚ) ^ (52 - e) * ((2 : ℚ) ^ b * u) := by
      rw [hk1g, ← hm]
      exact hfloor2
    have h2 : (m : ℚ) < (((k + 1) * 2 ^ (52 - e) : Int) : ℚ) := by
      have := lt_of_mul_lt_mul_right h1 hBu.le
      push_cast
      exact this
    have h3 : m < (k + 1) * 2 ^ (52 - e) := by exact_mod_cast h2
    have h4 : (m : ℚ) ≤ ((k : ℚ) + 1) * (2 : ℚ) ^ (52 - e) - 1 := by
      have : m ≤ (k + 1) * 2 ^ (52 - e) - 1 := by omega
      exact_mod_cast this
    have h5 : (m : ℚ) * ((2 : ℚ) ^ b * u)
        ≤ (((k : ℚ) + 1) * (2 : ℚ) ^ (52 - e) - 1) * ((2 : ℚ) ^ b * u) :=
      mul_le_mul_of_nonneg_right h4 hBu.le
    rw [hm]
    linarith
  -- `k + 1` is a `double`
  have hnear := fl64_nearest (p * (M : ℚ)) (k + 1) 0 (le_of_lt hk53) (by norm_num)
  rw [← hxdef] at hnear
  have hcand : ((k + 1 : Int) : ℚ) * (2 : ℚ) ^ (0 : Int) = (k : ℚ) + 1 := by
    push_cast
    simp
  rw [hcand, abs_of_pos (by linarith : 0 < (k : ℚ) + 1 - p * (M : ℚ))] at hnear
  have hpx : p * (M : ℚ) - x ≤ (k : ℚ) + 1 - p * (M : ℚ) := by
    have h2 := neg_abs_le (x - p * (M : ℚ))
    linarith
  have hfin : (p - (n : ℚ) * u) * (M : ℚ) = p * (M : ℚ) - (n : ℚ) * u * (M : ℚ) := by ring
  rw [hfin, hq]
  linarith

/-- The quantization of `adjustNormPeak` for `M = 2^b - 1` and a `double` `p` in `[0, 1]`:
with `k = floor (fl64 (p * M))` and `c = fl64 (k / M)`, `k` lies in `[0, M]`, `c` lies in
`[0, p]`, `p - c < 1 / M`, and `fl64 (c * M) = k`. -/
theorem adjust_core (b : ℕ) (M : Int) (p : ℚ) (hM : M = 2 ^ b - 1) (hb : 2 ≤ b) (hb2 : b ≤ 31)
    (hpow : ∀ n : Int, -(M - 1) ≤ 2 * (n * M - 2 ^ 52 * (M + 1)) →
      2 * (n * M - 2 ^ 52 * (M + 1)) ≤ M - 1 → -(M + 1) < 4 * (n * M - 2 ^ 52 * (M + 1)))
    (hp : fl64 p = p) (hp0 : 0 ≤ p) (hp1 : p ≤ 1) :
    0 ≤ ⌊fl64 (p * (M : ℚ))⌋ ∧ ⌊fl64 (p * (M : ℚ))⌋ ≤ M
      ∧ 0 ≤ fl64 ((⌊fl64 (p * (M : ℚ))⌋ : ℚ) / (M : ℚ))
      ∧ fl64 ((⌊fl64 (p * (M : ℚ))⌋ : ℚ) / (M : ℚ)) ≤ p
      ∧ (p - fl64 ((⌊fl64 (p * (M : ℚ))⌋ : ℚ) / (M : ℚ))) * (M : ℚ) < 1
      ∧ fl64 (fl64 ((⌊fl64 (p * (M : ℚ))⌋ : ℚ) / (M : ℚ)) * (M : ℚ))
        = (⌊fl64 (p * (M : ℚ))⌋ : ℚ) := by
  have hb4 : (4 : Int) ≤ 2 ^ b := by
    have : (2 : Int) ^ 2 ≤ 2 ^ b := pow_le_pow_right₀ (by norm_num) hb
    simpa using this
  have h31 : (2 : Int) ^ b ≤ 2 ^ 31 := pow_le_pow_right₀ (by norm_num) hb2
  have hMpos : (0 : Int) < M := by omega
  have hMq : (0 : ℚ) < (M : ℚ) := by exact_mod_cast hMpos
  have hM53 : |M| < 2 ^ 53 := by
    rw [abs_of_pos hMpos]
    have : (2 : Int) ^ 31 < 2 ^ 53 := by norm_num
    omega
  obtain ⟨x, hxdef⟩ : ∃ x : ℚ, x = fl64 (p * (M : ℚ)) := ⟨_, rfl⟩
  rw [← hxdef]
  have hx0 : 0 ≤ x := by
    rw [hxdef]
    exact fl64_nonneg (mul_nonneg hp0 hMq.le)
  have hxM : x ≤ (M : ℚ) := by
    rw [hxdef]
    have := fl64_mono (x := p * (M : ℚ)) (y := (M : ℚ)) (by nlinarith)
    rwa [fl64_intCast hM53] at this
  have hfloor1 : ((⌊x⌋ : Int) : ℚ) ≤ x := Int.floor_le x
  have hfloor2 : x < ((⌊x⌋ : Int) : ℚ) + 1 := Int.lt_floor_add_one x
  have hk0 : 0 ≤ ⌊x⌋ := Int.floor_nonneg.mpr hx0
  have hkM : ⌊x⌋ ≤ M := by
    have : ((⌊x⌋ : Int) : ℚ) ≤ (M : ℚ) := le_trans hfloor1 hxM
    exact_mod_cast this
  obtain ⟨k, hkdef⟩ : ∃ k : Int, k = ⌊x⌋ := ⟨_, rfl⟩
  rw [← hkdef] at hfloor1 hfloor2 hk0 hkM ⊢
  refine ⟨hk0, hkM, fl64_nonneg (div_nonneg (by exact_mod_cast hk0) hMq.le), ?_⟩
  by_cases hkz : k = 0
  · rw [hkz]
    simp only [Int.cast_zero, zero_div, fl64_zero, sub_zero, zero_mul]
    refine ⟨hp0, ?_, trivial⟩
    by_contra hc
    have hc := not_lt.mp hc
    have := fl64_mono hc
    rw [fl64_one, ← hxdef] at this
    rw [hkz] at hfloor2
    simp at hfloor2
    linarith
  · have hk1 : 1 ≤ k := by omega
    obtain ⟨e, he1, he2⟩ : ∃ e : ℕ, (2 : Int) ^ e ≤ k ∧ k < 2 ^ (e + 1) := by
      refine ⟨Nat.log 2 k.toNat, ?_, ?_⟩
      · have h := Nat.pow_log_le_self 2 (x := k.toNat) (by omega)
        have h2 : ((2 ^ Nat.log 2 k.toNat : ℕ) : Int) ≤ (k.toNat : Int) := by exact_mod_cast h
        rw [Int.toNat_of_nonneg hk0] at h2
        push_cast at h2
        exact h2
      · have h := Nat.lt_pow_succ_log_self (b := 2) (by norm_num) k.toNat
        have h2 : (k.toNat : Int) < ((2 ^ (Nat.log 2 k.toNat).succ : ℕ) : Int) := by
          exact_mod_cast h
        rw [Int.toNat_of_nonneg hk0] at h2
        push_cast at h2
        exact h2
    obtain ⟨heb, n, hc, ht1, ht2⟩ := quotient_on_grid b e M k hM hb hb2 he1 he2 hkM
    have hP : (2 : Int) ^ (52 + b - e) * 2 ^ e = 2 ^ 52 * 2 ^ b := by
      rw [← pow_add, ← pow_add]
      congr 1
      omega
    have hpow2 : k = 2 ^ e → -(M + 1) < 4 * (n * M - k * 2 ^ (52 + b - e)) := by
      intro hk
      have hkP : k * 2 ^ (52 + b - e) = 2 ^ 52 * (M + 1) := by
        rw [hk, mul_comm, hP, hM]
        ring
      rw [hkP] at ht1 ht2 ⊢
      exact hpow n ht1 ht2
    obtain ⟨hback, -⟩ := scaled_back b e M k n hM hb hb2 heb he1 he2 ht1 ht2 hpow2
    have hle := adjusted_le b e M k n p hM hb hb2 heb he1 he2 hkM ht1 ht2 hp hp0
      (by rw [← hxdef]; exact hfloor1)
    have hclose := adjusted_close b e M k n p hM hb hb2 heb he1 he2 ht1
      (by rw [← hxdef]; exact hfloor1) (by rw [← hxdef]; exact hfloor2)
    rw [hc]
    exact ⟨hle, hclose, hback⟩

/-- The quantization of `adjustNormPeak` for an integer sample type and a `double` `p` in
`[0, 1]`, with `M = maxInt`. -/
theorem adjust_int {st : SampleType} (hst : isFloatSampleType st = false) (p : ℚ)
    (hp : fl64 p = p) (hp0 : 0 ≤ p) (hp1 : p ≤ 1) :
    0 ≤ ⌊fl64 (p * (maxInt (intSampleBits st) : ℚ))⌋
      ∧ ⌊fl64 (p * (maxInt (intSampleBits st) : ℚ))⌋ ≤ maxInt (intSampleBits st)
      ∧ 0 ≤ fl64 ((⌊fl64 (p * (maxInt (intSampleBits st) : ℚ))⌋ : ℚ)
          / (maxInt (intSampleBits st) : ℚ))
      ∧ fl64 ((⌊fl64 (p * (maxInt (intSampleBits st) : ℚ))⌋ : ℚ)
          / (maxInt (intSampleBits st) : ℚ)) ≤ p
      ∧ (p - fl64 ((⌊fl64 (p * (maxInt (intSampleBits st) : ℚ))⌋ : ℚ)
          / (maxInt (intSampleBits st) : ℚ))) * (maxInt (intSampleBits st) : ℚ) < 1
      ∧ fl64 (fl64 ((⌊fl64 (p * (maxInt (intSampleBits st) : ℚ))⌋ : ℚ)
          / (maxInt (intSampleBits st) : ℚ)) * (maxInt (intSampleBits st) : ℚ))
        = (⌊fl64 (p * (maxInt (intSampleBits st) : ℚ))⌋ : ℚ) := by
  have key : ∀ (b : ℕ) (M : Int), M = 2 ^ b - 1 → 2 ≤ b → b ≤ 31 →
      (∀ n : Int, -(M - 1) ≤ 2 * (n * M - 2 ^ 52 * (M + 1)) →
        2 * (n * M - 2 ^ 52 * (M + 1)) ≤ M - 1 → -(M + 1) < 4 * (n * M - 2 ^ 52 * (M + 1))) →
      maxInt (intSampleBits st) = M →
      (0 ≤ ⌊fl64 (p * (maxInt (intSampleBits st) : ℚ))⌋
      ∧ ⌊fl64 (p * (maxInt (intSampleBits st) : ℚ))⌋ ≤ maxInt (intSampleBits st)
      ∧ 0 ≤ fl64 ((⌊fl64 (p * (maxInt (intSampleBits st) : ℚ))⌋ : ℚ)
          / (maxInt (intSampleBits st) : ℚ))
      ∧ fl64 ((⌊fl64 (p * (maxInt (intSampleBits st) : ℚ))⌋ : ℚ)
          / (maxInt (intSampleBits st) : ℚ)) ≤ p
      ∧ (p - fl64 ((⌊fl64 (p * (maxInt (intSampleBits st) : ℚ))⌋ : ℚ)
          / (maxInt (intSampleBits st) : ℚ))) * (maxInt (intSampleBits st) : ℚ) < 1
      ∧ fl64 (fl64 ((⌊fl64 (p * (maxInt (intSampleBits st) : ℚ))⌋ : ℚ)
          / (maxInt (intSampleBits st) : ℚ)) * (maxInt (intSampleBits st) : ℚ))
        = (⌊fl64 (p * (maxInt (intSampleBits st) : ℚ))⌋ : ℚ)) := by
    intro b M hM hb hb2 hpow hmax
    rw [hmax]
    exact adjust_core b M p hM hb hb2 hpow hp hp0 hp1
  cases st with
  | Int8 =>
    exact key 7 127 (by norm_num) (by norm_num) (by norm_num)
      (by intro n h1 h2; omega) (by decide)
  | Int16 =>
    exact key 15 32767 (by norm_num) (by norm_num) (by norm_num)
      (by intro n h1 h2; omega) (by decide)
  | Int24 =>
    exact key 23 8388607 (by norm_num) (by norm_num) (by norm_num)
      (by intro n h1 h2; omega) (by decide)
  | Int32 =>
    exact key 31 2147483647 (by norm_num) (by norm_num) (by norm_num)
      (by intro n h1 h2; omega) (by decide)
  | Float32 => exact absurd hst (by decide)
  | Float64 => exact absurd hst (by decide)

/-- The negation of a `double` is a `double`. -/
theorem fl64_neg_of_double {p : ℚ} (hp : fl64 p = p) : fl64 (-p) = -p := by
  obtain ⟨n, e, hn, he, h⟩ := fl64_isDouble p
  rw [hp] at h
  have h2 : -p = ((-n : Int) : ℚ) * (2 : ℚ) ^ e := by
    rw [h]
    push_cast
    ring
  rw [h2]
  exact fl64_of_dyadic (-n) e (by rwa [abs_neg]) he

/-- The magnitude of a `double` is a `double`. -/
theorem fl64_abs_of_double {p : ℚ} (hp : fl64 p = p) : fl64 |p| = |p| := by
  rcases abs_cases p with ⟨h, -⟩ | ⟨h, -⟩
  · rw [h]
    exact hp
  · rw [h]
    exact fl64_neg_of_double hp

/-- The result of `adjustNormPeak` for an integer sample type and a `double` target of
magnitude at most 1, with `c = fl64 (floor (fl64 (|p| * M)) / M)`: the result is `c` with
the sign of `p`, `c` lies in `[0, |p|]` and less than `1 / M` below `|p|`, and
`fl64 (c * M)` is the integer `floor (fl64 (|p| * M))`. -/
theorem adjustNormPeak_int_spec {st : SampleType} (hst : isFloatSampleType st = false)
    (p : ℚ) (hp : fl64 p = p) (hp1 : |p| ≤ 1) :
    adjustNormPeak p st
        = (if p < 0 then
            -fl64 ((⌊fl64 (|p| * (maxInt (intSampleBits st) : ℚ))⌋ : ℚ)
              / (maxInt (intSampleBits st) : ℚ))
          else
            fl64 ((⌊fl64 (|p| * (maxInt (intSampleBits st) : ℚ))⌋ : ℚ)
              / (maxInt (intSampleBits st) : ℚ)))
      ∧ |adjustNormPeak p st|
        = fl64 ((⌊fl64 (|p| * (maxInt (intSampleBits st) : ℚ))⌋ : ℚ)
            / (maxInt (intSampleBits st) : ℚ))
      ∧ 0 ≤ ⌊fl64 (|p| * (maxInt (intSampleBits st) : ℚ))⌋
      ∧ ⌊fl64 (|p| * (maxInt (intSampleBits st) : ℚ))⌋ ≤ maxInt (intSampleBits st)
      ∧ |adjustNormPeak p st| ≤ |p|
      ∧ (|p| - |adjustNormPeak p st|) * (maxInt (intSampleBits st) : ℚ) < 1
      ∧ fl64 (|adjustNormPeak p st| * (maxInt (intSampleBits st) : ℚ))
        = (⌊fl64 (|p| * (maxInt (intSampleBits st) : ℚ))⌋ : ℚ) := by
  obtain ⟨a1, a2, a3, a4, a5, a6⟩ := adjust_int hst |p| (fl64_abs_of_double hp) (abs_nonneg p)
    hp1
  obtain ⟨k, hk⟩ : ∃ k : Int, k = ⌊fl64 (|p| * (maxInt (intSampleBits st) : ℚ))⌋ := ⟨_, rfl⟩
  rw [← hk] at a1 a2 a3 a4 a5 a6 ⊢
  obtain ⟨c, hc⟩ : ∃ c : ℚ, c = fl64 ((k : ℚ) / (maxInt (intSampleBits st) : ℚ)) := ⟨_, rfl⟩
  rw [← hc] at a3 a4 a5 a6 ⊢
  have hadj : adjustNormPeak p st = if p < 0 then -c else c := by
    rw [adjustNormPeak_int hst, ← hk, ← hc, abs_of_nonneg a3]
  have habs : |adjustNormPeak p st| = c := by
    rw [hadj]
    split_ifs
    · rw [abs_neg, abs_of_nonneg a3]
    · exact abs_of_nonneg a3
  rw [habs]
  exact ⟨hadj, rfl, a1, a2, a4, a5, a6⟩

/-- For an integer sample type `adjustNormPeak` maps its result for a `double` target of
magnitude at most 1 to itself. -/
theorem adjustNormPeak_idem {st : SampleType} (hst : isFloatSampleType st = false)
    (p : ℚ) (hp : fl64 p = p) (hp1 : |p| ≤ 1) :
    adjustNormPeak (adjustNormPeak p st) st = adjustNormPeak p st := by
  obtain ⟨h1, h2, h3, -, -, -, h7⟩ := adjustNormPeak_int_spec hst p hp hp1
  obtain ⟨k, hk⟩ : ∃ k : Int, k = ⌊fl64 (|p| * (maxInt (intSampleBits st) : ℚ))⌋ := ⟨_, rfl⟩
  rw [← hk] at h1 h2 h3 h7
  obtain ⟨c, hc⟩ : ∃ c : ℚ, c = fl64 ((k : ℚ) / (maxInt (intSampleBits st) : ℚ)) := ⟨_, rfl⟩
  rw [← hc] at h1 h2
  obtain ⟨a, ha⟩ : ∃ a : ℚ, a = adjustNormPeak p st := ⟨_, rfl⟩
  rw [← ha] at h1 h2 h7 ⊢
  have hc0 : 0 ≤ c := by
    rw [← h2]
    exact abs_nonneg a
  rw [adjustNormPeak_int hst, h7, Int.floor_intCast, ← hc, abs_of_nonneg hc0]
  by_cases hp0 : p < 0
  · rw [if_pos hp0] at h1
    by_cases hcz : c = 0
    · rw [hcz] at h1 ⊢
      rw [h1]
      simp
    · have : a < 0 := by
        rw [h1]
        have : 0 < c := lt_of_le_of_ne hc0 (Ne.symm hcz)
        linarith
      rw [if_pos this, h1]
  · rw [if_neg hp0] at h1
    rw [if_neg (by rw [h1]; exact not_lt.mpr hc0), h1]

/-- For `double` samples `adjustNormPeak` is the identity. -/
theorem adjustNormPeak_float64 (p : ℚ) : adjustNormPeak p .Float64 = p := by
  unfold adjustNormPeak
  dsimp only
  by_cases h : p < 0
  · rw [if_pos h, abs_abs, abs_of_neg h]
    ring
  · rw [if_neg h, abs_abs, abs_of_nonneg (not_lt.mp h)]

/-- Rounding to the nearest integer with ties to even commutes with negation. -/
theorem roundHalfEven_neg (t : ℚ) : roundHalfEven (-t) = -roundHalfEven t := by
  have herr := roundHalfEven_error t
  rcases lt_or_eq_of_le herr with hlt | heq
  · apply roundHalfEven_eq_of_close
    have : -t - ((-roundHalfEven t : Int) : ℚ) = -(t - (roundHalfEven t : ℚ)) := by
      push_cast
      ring
    rw [this, abs_neg, abs_sub_comm]
    exact hlt
  · -- a tie: `t = j + 1/2`
    obtain ⟨j, hj⟩ : ∃ j : Int, t = (j : ℚ) + 1 / 2 := by
      rcases abs_cases ((roundHalfEven t : ℚ) - t) with ⟨h, -⟩ | ⟨h, -⟩
      · refine ⟨roundHalfEven t - 1, ?_⟩
        push_cast
        linarith
      · refine ⟨roundHalfEven t, ?_⟩
        linarith
    have h1 : -t = ((-j - 1 : Int) : ℚ) + 1 / 2 := by
      rw [hj]
      push_cast
      ring
    rw [h1, roundHalfEven_tie, hj, roundHalfEven_tie]
    split_ifs <;> omega

/-- Rounding to `double` commutes with negation. -/
theorem fl64_neg (q : ℚ) : fl64 (-q) = -fl64 q := by
  by_cases hq : q = 0
  · rw [hq]
    simp [fl64_zero]
  · have hq2 : -q ≠ 0 := neg_ne_zero.mpr hq
    have hu : ulpExponent 53 (-1074) (-q) = ulpExponent 53 (-1074) q := by
      unfold ulpExponent
      rw [abs_neg]
    unfold fl64 roundToFormat
    rw [if_neg hq, if_neg hq2, hu, neg_div, roundHalfEven_neg]
    push_cast
    ring

/-- The magnitude of a rounded value is the rounded magnitude. -/
theorem fl64_abs (q : ℚ) : |fl64 q| = fl64 |q| := by
  rcases le_or_lt 0 q with h | h
  · rw [abs_of_nonneg h, abs_of_nonneg (fl64_nonneg h)]
  · rw [abs_of_neg h, fl64_neg, abs_of_nonpos (fl64_nonpos h.le)]

/-- The stored form of an integer sample `o` in `[-maxInt, maxInt]`: the readers' right shift
recovers `o`, and the stored value is a native sample. -/
theorem logical_of_written {st : SampleType} (hst : isFloatSampleType st = false) (o : Int)
    (h1 : -maxInt (intSampleBits st) ≤ o) (h2 : o ≤ maxInt (intSampleBits st)) :
    (if (getSampleBitShift st).required = true then
        shiftRight (.int (o * 2 ^ (bitwidth st - intSampleBits st))) (getSampleBitShift st).count
      else Sample.int (o * 2 ^ (bitwidth st - intSampleBits st))) = .int o
      ∧ isNativeSample st (.int (o * 2 ^ (bitwidth st - intSampleBits st))) = true := by
  cases st with
  | Int8 =>
    have hM : maxInt (intSampleBits .Int8) = 127 := by decide
    rw [hM] at h1 h2
    constructor
    · simp [getSampleBitShift, bitwidth, intSampleBits, isFloatSampleType]
    · simp [isNativeSample, bitwidth, intSampleBits, isFloatSampleType, minInt, maxInt]
      omega
  | Int16 =>
    have hM : maxInt (intSampleBits .Int16) = 32767 := by decide
    rw [hM] at h1 h2
    constructor
    · simp [getSampleBitShift, bitwidth, intSampleBits, isFloatSampleType]
    · simp [isNativeSample, bitwidth, intSampleBits, isFloatSampleType, minInt, maxInt]
      omega
  | Int24 =>
    have hM : maxInt (intSampleBits .Int24) = 8388607 := by decide
    rw [hM] at h1 h2
    constructor
    · simp [getSampleBitShift, bitwidth, intSampleBits, isFloatSampleType, shiftRight]
    · simp [isNativeSample, bitwidth, intSampleBits, isFloatSampleType, minInt, maxInt]
      omega
  | Int32 =>
    have hM : maxInt (intSampleBits .Int32) = 2147483647 := by decide
    rw [hM] at h1 h2
    constructor
    · simp [getSampleBitShift, bitwidth, intSampleBits, isFloatSampleType]
    · simp [isNativeSample, bitwidth, intSampleBits, isFloatSampleType, minInt, maxInt]
      omega
  | Float32 => exact absurd hst (by decide)
  | Float64 => exact absurd hst (by decide)

/-- The sample that `safeWriteSample` stores for a value `v` of magnitude at most `c`, where
`c = fl64 (k / M)` and `fl64 (c * M) = k`: its logical value lies in `[-k, k]` and its
normalized magnitude is at most `c`. -/
theorem written_bound {st : SampleType} (hst : isFloatSampleType st = false) (k : Int)
    (hk0 : 0 ≤ k) (hkM : k ≤ maxInt (intSampleBits st))
    (hback : fl64 (fl64 ((k : ℚ) / (maxInt (intSampleBits st) : ℚ))
      * (maxInt (intSampleBits st) : ℚ)) = (k : ℚ))
    (hc1 : fl64 ((k : ℚ) / (maxInt (intSampleBits st) : ℚ)) ≤ 1)
    (v : ℚ) (hv : |v| ≤ fl64 ((k : ℚ) / (maxInt (intSampleBits st) : ℚ))) :
    -k ≤ roundHalfAway (fl64 (clampFloatSample v * (maxInt (intSampleBits st) : ℚ)))
      ∧ roundHalfAway (fl64 (clampFloatSample v * (maxInt (intSampleBits st) : ℚ))) ≤ k
      ∧ |convSampleToDouble st
          (.int (roundHalfAway (fl64 (clampFloatSample v * (maxInt (intSampleBits st) : ℚ)))))|
        ≤ fl64 ((k : ℚ) / (maxInt (intSampleBits st) : ℚ)) := by
  obtain ⟨hM1, hM2, hmin⟩ := maxInt_bounds_of_int hst
  obtain ⟨M, hMdef⟩ : ∃ M : Int, M = maxInt (intSampleBits st) := ⟨_, rfl⟩
  rw [← hMdef] at hM1 hM2 hmin hkM hback hc1 hv ⊢
  have hMq : (0 : ℚ) < (M : ℚ) := by
    have : (1 : ℚ) ≤ (M : ℚ) := by exact_mod_cast hM1
    linarith
  obtain ⟨c, hcdef⟩ : ∃ c : ℚ, c = fl64 ((k : ℚ) / (M : ℚ)) := ⟨_, rfl⟩
  rw [← hcdef] at hback hc1 hv ⊢
  rw [abs_le] at hv
  have hvc : clampFloatSample v = v := clampFloatSample_of_mem (by linarith) (by linarith)
  rw [hvc]
  have hup : fl64 (v * (M : ℚ)) ≤ (k : ℚ) := by
    have := fl64_mono (mul_le_mul_of_nonneg_right hv.2 hMq.le)
    rwa [hback] at this
  have hlo : -(k : ℚ) ≤ fl64 (v * (M : ℚ)) := by
    have := fl64_mono (mul_le_mul_of_nonneg_right hv.1 hMq.le)
    rw [neg_mul, fl64_neg, hback] at this
    exact this
  have hr := @roundHalfAway_bounds (fl64 (v * (M : ℚ))) k hk0 (by linarith) (by linarith)
  refine ⟨hr.1, hr.2, ?_⟩
  obtain ⟨o, hodef⟩ : ∃ o : Int, o = roundHalfAway (fl64 (v * (M : ℚ))) := ⟨_, rfl⟩
  rw [← hodef] at hr ⊢
  simp only [convSampleToDouble]
  rw [← hMdef]
  have hco : clampSymIntSample (intSampleBits st) o = o := by
    unfold clampSymIntSample
    rw [if_neg]
    omega
  rw [hco, hcdef, abs_le]
  have ho1 : (-(k : ℚ)) ≤ (o : ℚ) := by exact_mod_cast hr.1
  have ho2 : (o : ℚ) ≤ (k : ℚ) := by exact_mod_cast hr.2
  constructor
  · have := fl64_mono (div_le_div_of_nonneg_right ho1 hMq.le)
    rw [neg_div, fl64_neg] at this
    exact this
  · exact fl64_mono (div_le_div_of_nonneg_right ho2 hMq.le)

/-- The result of `std::clamp` lies between the bounds. -/
theorem clamp_bounds (v lo hi : ℚ) (h : lo ≤ hi) :
    lo ≤ Normalize.clamp v lo hi ∧ Normalize.clamp v lo hi ≤ hi := by
  unfold Normalize.clamp
  split_ifs with h1 h2
  · exact ⟨le_rfl, h⟩
  · exact ⟨h, le_rfl⟩
  · exact ⟨not_lt.mp h1, not_lt.mp h2⟩

/-- The call `std::clamp` returns a value between the bounds unchanged. -/
theorem clamp_of_mem {v lo hi : ℚ} (h1 : lo ≤ v) (h2 : v ≤ hi) :
    Normalize.clamp v lo hi = v := by
  unfold Normalize.clamp
  rw [if_neg (not_lt.mpr h1), if_neg (not_lt.mpr h2)]

/-- The ready phase of `normalizeGetFrame` on an input frame: the function returns, every
index of the frame holds what `safeWriteSample` writes for the clamped scaled sample, and
when no clamped scaled sample lies outside `[-1, 1]` the write loop returns `true` without
touching the statistics or calling the host. -/
theorem normalizeGetFrame_spec (F : Int) (nz : Normalize) (st : SampleType)
    (hnz : nz.outSampleType = st) (getFrame : Int → Option AudioFrame) (frame : AudioFrame)
    (ch n : Int) (outFrm : Int → Sample) (stats : OverflowStats)
    (hfr : getFrame n = some frame) :
    ∃ r, normalizeGetFrame F nz getFrame ch n outFrm stats = some r
      ∧ (r.ok = true → ∀ s, 0 ≤ s → s < frame.length → ∀ frm p c stats2,
          r.frm s = (safeWriteSample st
            (Normalize.clamp (fl64 (nz.gain * convSampleToDouble st (if (getSampleBitShift st).required = true then shiftRight (frame.data ch s) (getSampleBitShift st).count else frame.data ch s)))
              (-nz.outNormPeak) nz.outNormPeak)
            frm s p c { mode := nz.overflowMode, log := nz.overflowLog } stats2).frm s)
      ∧ ((∀ s, 0 ≤ s → s < frame.length →
            ¬ (Normalize.clamp (fl64 (nz.gain * convSampleToDouble st (if (getSampleBitShift st).required = true then shiftRight (frame.data ch s) (getSampleBitShift st).count else frame.data ch s)))
                  (-nz.outNormPeak) nz.outNormPeak < -1
              ∨ 1 < Normalize.clamp
                  (fl64 (nz.gain * convSampleToDouble st (if (getSampleBitShift st).required = true then shiftRight (frame.data ch s) (getSampleBitShift st).count else frame.data ch s)))
                  (-nz.outNormPeak) nz.outNormPeak)) →
          r.ok = true
            ∧ r.stats = (if n = 0 then { count := 0, peak := 0 } else stats)
            ∧ r.calls = []) := by
  subst hnz
  obtain ⟨r, hr, -, hin, hclean⟩ := sampleLoop_spec nz.outSampleType ch
    { mode := nz.overflowMode, log := nz.overflowLog }
    (nz.writeFrameChannelStep ch (frameToFirstSample F n)
      (some { length := frame.length, data := frame.data ch })
      { mode := nz.overflowMode, log := nz.overflowLog })
    (fun s => Normalize.clamp
      (fl64 (nz.gain * convSampleToDouble nz.outSampleType
        (if (getSampleBitShift nz.outSampleType).required = true then
          shiftRight (frame.data ch s) (getSampleBitShift nz.outSampleType).count
        else frame.data ch s)))
      (-nz.outNormPeak) nz.outNormPeak)
    (fun s => frameToFirstSample F n + s)
    frame.length.toNat 0
    { ok := true, frm := outFrm,
      stats := (if n = 0 then { count := 0, peak := 0 } else stats), calls := [] }
    rfl
    (by
      intro s hs1 hs2 frm st2
      have hs3 : s < frame.length := by omega
      simp only [Normalize.writeFrameChannelStep, readSample]
      rw [if_pos ⟨hs1, hs3⟩])
  refine ⟨r, ?_, ?_, ?_⟩
  · simp only [normalizeGetFrame, hfr]
    simp only [Normalize.writeFrameChannel] at hr ⊢
    exact hr
  · intro hok s hs1 hs2 frm p c stats2
    exact hin hok s hs1 (by omega) frm p c stats2
  · intro hno
    exact hclean (fun j hj1 hj2 => hno j hj1 (by omega))

/-- The peak scan of a stream of native samples whose selected samples all have normalized
magnitude at most `B`. -/
theorem findPeak_le_of_bound (getFrame : Int → Option AudioFrame) (numFrames : Int)
    (st : SampleType) (channels : List Int) (B : ℚ) (hB : 0 ≤ B)
    (hnat : ∀ j frame, getFrame j = some frame → ∀ ch ∈ channels, ∀ i, 0 ≤ i →
      i < frame.length → isNativeSample st (frame.data ch i) = true)
    (hle : ∀ j frame, getFrame j = some frame → ∀ ch ∈ channels, ∀ i, 0 ≤ i →
      i < frame.length → |convSampleToDouble st (if (getSampleBitShift st).required = true then shiftRight (frame.data ch i) (getSampleBitShift st).count else frame.data ch i)| ≤ B) :
    findPeak getFrame numFrames st channels true ≤ B := by
  obtain ⟨-, -, h2⟩ := findPeak_norm getFrame numFrames st channels hnat
  rcases h2 with h | ⟨j, frame, -, -, hj, ch, hch, i, hi1, hi2, he⟩
  · rw [h]
    exact hB
  · rw [← he]
    exact hle j frame hj ch hch i hi1 hi2

/-- The peak scan of a stream of native samples whose selected samples all have normalized
magnitude at most `B`, one of them with magnitude `B`. -/
theorem findPeak_eq_of_attained (getFrame : Int → Option AudioFrame) (numFrames : Int)
    (st : SampleType) (channels : List Int) (B : ℚ) (hB : 0 ≤ B)
    (hnat : ∀ j frame, getFrame j = some frame → ∀ ch ∈ channels, ∀ i, 0 ≤ i →
      i < frame.length → isNativeSample st (frame.data ch i) = true)
    (hle : ∀ j frame, getFrame j = some frame → ∀ ch ∈ channels, ∀ i, 0 ≤ i →
      i < frame.length → |convSampleToDouble st (if (getSampleBitShift st).required = true then shiftRight (frame.data ch i) (getSampleBitShift st).count else frame.data ch i)| ≤ B)
    (hat : ∃ j frame, 0 ≤ j ∧ j < numFrames ∧ getFrame j = some frame
      ∧ ∃ ch ∈ channels, ∃ i, 0 ≤ i ∧ i < frame.length
        ∧ |convSampleToDouble st (if (getSampleBitShift st).required = true then shiftRight (frame.data ch i) (getSampleBitShift st).count else frame.data ch i)| = B) :
    findPeak getFrame numFrames st channels true = B := by
  apply le_antisymm (findPeak_le_of_bound getFrame numFrames st channels B hB hnat hle)
  obtain ⟨-, h1, -⟩ := findPeak_norm getFrame numFrames st channels hnat
  obtain ⟨j, frame, hj1, hj2, hj, ch, hch, i, hi1, hi2, he⟩ := hat
  rw [← he]
  exact h1 j frame hj1 hj2 hj ch hch i hi1 hi2

/-- A frame written by `normalizeGetFrame` when the target of Normalize is
`outNormPeak = fl64 (k / M)` with `fl64 (outNormPeak * M) = k`: the write loop returns `true`
with unchanged statistics, and every sample of the frame is a native sample whose logical
value lies in `[-k, k]` and whose normalized magnitude is at most `outNormPeak`. -/
theorem normalize_frame_bounded (F : Int) (nz : Normalize) (st : SampleType)
    (hnz : nz.outSampleType = st) (hst : isFloatSampleType st = false) (k : Int)
    (hk0 : 0 ≤ k) (hkM : k ≤ maxInt (intSampleBits st))
    (hout : nz.outNormPeak = fl64 ((k : ℚ) / (maxInt (intSampleBits st) : ℚ)))
    (hback : fl64 (nz.outNormPeak * (maxInt (intSampleBits st) : ℚ)) = (k : ℚ))
    (hc0 : 0 ≤ nz.outNormPeak) (hc1 : nz.outNormPeak ≤ 1)
    (getFrame : Int → Option AudioFrame) (frame : AudioFrame) (ch n : Int)
    (outFrm : Int → Sample) (stats : OverflowStats) (hfr : getFrame n = some frame) :
    ∃ r, normalizeGetFrame F nz getFrame ch n outFrm stats = some r
      ∧ r.ok = true
      ∧ r.stats = (if n = 0 then { count := 0, peak := 0 } else stats)
      ∧ r.calls = []
      ∧ ∀ s, 0 ≤ s → s < frame.length →
          isNativeSample st (r.frm s) = true
            ∧ |convSampleToDouble st (if (getSampleBitShift st).required = true then shiftRight (r.frm s) (getSampleBitShift st).count else r.frm s)| ≤ nz.outNormPeak
            ∧ ∃ o : Int, -k ≤ o ∧ o ≤ k ∧ (if (getSampleBitShift st).required = true then shiftRight (r.frm s) (getSampleBitShift st).count else r.frm s) = .int o
              ∧ o = roundHalfAway (fl64 (clampFloatSample
                  (Normalize.clamp
                    (fl64 (nz.gain * convSampleToDouble st (if (getSampleBitShift st).required = true then shiftRight (frame.data ch s) (getSampleBitShift st).count else frame.data ch s)))
                    (-nz.outNormPeak) nz.outNormPeak)
                  * (maxInt (intSampleBits st) : ℚ))) := by
  obtain ⟨r, hr, hin, hclean⟩ :=
    normalizeGetFrame_spec F nz st hnz getFrame frame ch n outFrm stats hfr
  have hvb : ∀ s, -nz.outNormPeak
        ≤ Normalize.clamp (fl64 (nz.gain * convSampleToDouble st (if (getSampleBitShift st).required = true then shiftRight (frame.data ch s) (getSampleBitShift st).count else frame.data ch s)))
          (-nz.outNormPeak) nz.outNormPeak
      ∧ Normalize.clamp (fl64 (nz.gain * convSampleToDouble st (if (getSampleBitShift st).required = true then shiftRight (frame.data ch s) (getSampleBitShift st).count else frame.data ch s)))
          (-nz.outNormPeak) nz.outNormPeak ≤ nz.outNormPeak :=
    fun s => clamp_bounds _ _ _ (by linarith)
  have hno : ∀ s, 0 ≤ s → s < frame.length →
      ¬ (Normalize.clamp (fl64 (nz.gain * convSampleToDouble st (if (getSampleBitShift st).required = true then shiftRight (frame.data ch s) (getSampleBitShift st).count else frame.data ch s)))
            (-nz.outNormPeak) nz.outNormPeak < -1
        ∨ 1 < Normalize.clamp (fl64 (nz.gain * convSampleToDouble st (if (getSampleBitShift st).required = true then shiftRight (frame.data ch s) (getSampleBitShift st).count else frame.data ch s)))
            (-nz.outNormPeak) nz.outNormPeak) := by
    intro s _ _
    obtain ⟨b1, b2⟩ := hvb s
    rintro (h | h)
    · linarith
    · linarith
  obtain ⟨hok, hstats, hcalls⟩ := hclean hno
  refine ⟨r, hr, hok, hstats, hcalls, ?_⟩
  intro s hs1 hs2
  obtain ⟨b1, b2⟩ := hvb s
  obtain ⟨v, hvdef⟩ : ∃ v : ℚ, v = Normalize.clamp
      (fl64 (nz.gain * convSampleToDouble st (if (getSampleBitShift st).required = true then shiftRight (frame.data ch s) (getSampleBitShift st).count else frame.data ch s)))
      (-nz.outNormPeak) nz.outNormPeak := ⟨_, rfl⟩
  have hw := hin hok s hs1 hs2 outFrm 0 ch stats
  rw [← hvdef] at hw b1 b2 ⊢
  have hnov : ¬ (v < -1 ∨ 1 < v) := by
    rw [hvdef]
    exact hno s hs1 hs2
  obtain ⟨-, -, -, w4⟩ := safeWriteSample_of_not_overflowing st outFrm s 0 ch
    { mode := nz.overflowMode, log := nz.overflowLog } stats hnov
  rw [w4, convSampleFromDouble_int_eq hst, shiftLeft_int_of_int st hst] at hw
  have habs : |v| ≤ fl64 ((k : ℚ) / (maxInt (intSampleBits st) : ℚ)) := by
    rw [← hout, abs_le]
    exact ⟨b1, b2⟩
  obtain ⟨q1, q2, q3⟩ := written_bound hst k hk0 hkM (by rw [← hout]; exact hback)
    (by rw [← hout]; exact hc1) v habs
  obtain ⟨o, hodef⟩ : ∃ o : Int, o = roundHalfAway
      (fl64 (clampFloatSample v * (maxInt (intSampleBits st) : ℚ))) := ⟨_, rfl⟩
  rw [← hodef] at hw q1 q2 q3 ⊢
  obtain ⟨l1, l2⟩ := logical_of_written hst o (by omega) (by omega)
  rw [hw, l1]
  refine ⟨l2, ?_, o, q1, q2, rfl, rfl⟩
  rw [hout]
  exact q3

/-- For an integer sample type the target 1 is not changed by `adjustNormPeak`. -/
theorem adjustNormPeak_one {st : SampleType} (hst : isFloatSampleType st = false) :
    adjustNormPeak 1 st = 1 := by
  obtain ⟨hM1, hM2, -⟩ := maxInt_bounds_of_int hst
  have hMq : (0 : ℚ) < (maxInt (intSampleBits st) : ℚ) := by
    have : (1 : ℚ) ≤ (maxInt (intSampleBits st) : ℚ) := by exact_mod_cast hM1
    linarith
  have h53 : |maxInt (intSampleBits st)| < 2 ^ 53 := by
    rw [abs_of_pos (by omega)]
    have : (2 : Int) ^ 31 < 2 ^ 53 := by norm_num
    omega
  rw [adjustNormPeak_int hst, if_neg (by norm_num), abs_one, one_mul, fl64_intCast h53,
    Int.floor_intCast, div_self hMq.ne', fl64_one, abs_one]

/-- The stream used in the examples of Normalize: Int8 frames of two samples that all hold
the value `v`. -/
theorem findPeak_constant_stream (v : Int) (hv1 : -128 ≤ v) (hv2 : v ≤ 127) :
    findPeak (fun _ => some { length := 2, data := fun _ _ => .int v }) 1 .Int8 [0] true
      = |convSampleToDouble .Int8 (.int v)| := by
  have hlog : ∀ x : Sample,
      (if (getSampleBitShift .Int8).required = true then
        shiftRight x (getSampleBitShift .Int8).count else x) = x := by
    intro x
    rw [if_neg (by decide)]
  apply findPeak_eq_of_attained _ _ _ _ _ (abs_nonneg _)
  · intro j frame hj ch _ i _ _
    injection hj with hj
    subst hj
    simp [isNativeSample, isFloatSampleType, bitwidth, intSampleBits, minInt, maxInt]
    omega
  · intro j frame hj ch _ i _ _
    injection hj with hj
    subst hj
    rw [hlog]
  · refine ⟨0, _, le_rfl, by norm_num, rfl, 0, List.mem_singleton.mpr rfl, 0, le_rfl,
      by norm_num, ?_⟩
    rw [hlog]

/-- The `double` value of a native sample is a `double`. -/
theorem conv_native_is_double {st : SampleType} {x : Sample}
    (hx : isNativeSample st x = true) :
    fl64 (convSampleToDouble st (if (getSampleBitShift st).required = true then shiftRight (x) (getSampleBitShift st).count else x)) = convSampleToDouble st (if (getSampleBitShift st).required = true then shiftRight (x) (getSampleBitShift st).count else x) := by
  cases hst : isFloatSampleType st with
  | false =>
    obtain ⟨v, hv, -, -⟩ := logical_of_native_int hst hx
    rw [hv]
    simp only [convSampleToDouble]
    exact fl64_idem _
  | true =>
    obtain ⟨q, hq, hl⟩ := logical_of_native_flt hst hx
    rw [hl]
    simp only [convSampleToDouble]
    rw [hq] at hx
    simp [isNativeSample] at hx
    exact hx.2

/-- A frame of Normalize with `lowerOnly = true` when the peak of the input is at most the
adjusted target: the gain is 1, the write loop returns `true` with unchanged statistics, and
every sample is written as it was read, except that an integer sample equal to `minInt` is
written as `-maxInt`.  Floating point samples are taken from `[-1, 1]`. -/
theorem normalize_noop_frame (F numFrames : Int) (st : SampleType) (target : ℚ)
    (channels : List Int) (mode : OverflowMode) (log : OverflowLog)
    (getFrame : Int → Option AudioFrame) (frame : AudioFrame) (ch n : Int)
    (outFrm : Int → Sample) (stats : OverflowStats) (nz : Normalize)
    (hnz : nz = Normalize.new getFrame numFrames st target true channels mode log)
    (hle : findPeak getFrame numFrames st channels true ≤ adjustNormPeak target st)
    (hnat : ∀ j fr, getFrame j = some fr → ∀ c ∈ channels, ∀ i, 0 ≤ i → i < fr.length →
      isNativeSample st (fr.data c i) = true)
    (hrange : ∀ i q, frame.data ch i = .flt q → -1 ≤ q ∧ q ≤ 1)
    (hfr : getFrame n = some frame) (hn0 : 0 ≤ n) (hnN : n < numFrames)
    (hch : ch ∈ channels) :
    nz.gain = 1
      ∧ Normalize.newGain getFrame numFrames st target true channels = some 1
      ∧ ∃ r, normalizeGetFrame F nz getFrame ch n outFrm stats = some r
          ∧ r.ok = true
          ∧ r.stats = (if n = 0 then { count := 0, peak := 0 } else stats)
          ∧ r.calls = []
          ∧ ∀ s, 0 ≤ s → s < frame.length →
              r.frm s
                = if frame.data ch s = .int (minInt (bitwidth st)) then
                    .int (-maxInt (intSampleBits st) * 2 ^ (bitwidth st - intSampleBits st))
                  else frame.data ch s := by
  have hgain : nz.gain = 1 := by
    rw [hnz]
    simp only [Normalize.new]
    rw [if_pos ⟨trivial, hle⟩]
  have hnzt : nz.outSampleType = st := by rw [hnz]; rfl
  have hnzo : nz.outNormPeak = adjustNormPeak target st := by rw [hnz]; rfl
  obtain ⟨-, hbound, -⟩ := findPeak_norm getFrame numFrames st channels hnat
  have hv : ∀ s, 0 ≤ s → s < frame.length →
      Normalize.clamp (fl64 (nz.gain * convSampleToDouble st (if (getSampleBitShift st).required = true then shiftRight (frame.data ch s) (getSampleBitShift st).count else frame.data ch s)))
          (-nz.outNormPeak) nz.outNormPeak
        = convSampleToDouble st (if (getSampleBitShift st).required = true then shiftRight (frame.data ch s) (getSampleBitShift st).count else frame.data ch s) := by
    intro s hs1 hs2
    have hb := hbound n frame hn0 hnN hfr ch hch s hs1 hs2
    rw [hgain, one_mul, conv_native_is_double (hnat n frame hfr ch hch s hs1 hs2), hnzo]
    rw [abs_le] at hb
    exact clamp_of_mem (by linarith) (by linarith)
  obtain ⟨r, hr, hin, hclean⟩ :=
    normalizeGetFrame_spec F nz st hnzt getFrame frame ch n outFrm stats hfr
  have hcopy := fun s (hs1 : 0 ≤ s) (hs2 : s < frame.length) =>
    safeWriteSample_copy st (frame.data ch s) (hnat n frame hfr ch hch s hs1 hs2)
      (hrange s) outFrm s 0 ch { mode := nz.overflowMode, log := nz.overflowLog } stats
  obtain ⟨hok, hstats, hcalls⟩ := hclean (by
    intro s hs1 hs2
    rw [hv s hs1 hs2]
    exact (hcopy s hs1 hs2).1)
  refine ⟨hgain, ?_, r, hr, hok, hstats, hcalls, ?_⟩
  · simp only [Normalize.newGain]
    rw [if_pos ⟨trivial, hle⟩]
  · intro s hs1 hs2
    have hw := hin hok s hs1 hs2 outFrm 0 ch stats
    rw [hv s hs1 hs2] at hw
    rw [hw]
    exact (hcopy s hs1 hs2).2

/-- The call `std::clamp` does not move a value away from a point between the bounds. -/
theorem clamp_close {lo hi q : ℚ} (y : ℚ) (h1 : lo ≤ q) (h2 : q ≤ hi) :
    |Normalize.clamp y lo hi - q| ≤ |y - q| := by
  unfold Normalize.clamp
  split_ifs with h3 h4
  · rw [abs_of_nonpos (by linarith), abs_of_nonpos (by linarith)]
    linarith
  · rw [abs_of_nonneg (by linarith), abs_of_nonneg (by linarith)]
    linarith
  · exact le_rfl

/-- The relative error of rounding to `double`, for zero or a value of magnitude at least
`2^-1022`. -/
theorem fl64_rel_error_or_zero {q : ℚ} (hq : q = 0 ∨ (2 : ℚ) ^ (-1022 : Int) ≤ |q|) :
    |fl64 q - q| ≤ (2 : ℚ) ^ (-53 : Int) * |q| := by
  rcases hq with h | h
  · rw [h, fl64_zero]
    simp
  · exact fl64_rel_error h

/-- The sample that Normalize writes for an input sample whose normalized magnitude is the
peak `P` of the input, with gain `fl64 (T / P)` and `T = fl64 (k / M)`: its logical value is
`k` with the sign of the input. -/
theorem peak_sample_written {st : SampleType} (hst : isFloatSampleType st = false) (k : Int)
    (hk0 : 0 ≤ k) (hkM : k ≤ maxInt (intSampleBits st)) (T P d : ℚ)
    (hT : T = fl64 ((k : ℚ) / (maxInt (intSampleBits st) : ℚ)))
    (hP1 : P ≤ 1) (hPlow : (2 : ℚ) ^ (-31 : Int) ≤ P) (hd : |d| = P) :
    roundHalfAway (fl64 (clampFloatSample (Normalize.clamp (fl64 (fl64 (T / P) * d)) (-T) T)
        * (maxInt (intSampleBits st) : ℚ)))
      = if d < 0 then -k else k := by
  obtain ⟨hM1, hM2, -⟩ := maxInt_bounds_of_int hst
  obtain ⟨M, hMdef⟩ : ∃ M : Int, M = maxInt (intSampleBits st) := ⟨_, rfl⟩
  rw [← hMdef] at hM1 hM2 hkM hT ⊢
  have hMq1 : (1 : ℚ) ≤ (M : ℚ) := by exact_mod_cast hM1
  have hMq2 : (M : ℚ) ≤ 2 ^ 31 := by exact_mod_cast hM2
  have hMq : (0 : ℚ) < (M : ℚ) := by linarith
  have hP0 : 0 < P := lt_of_lt_of_le (two_zpow_pos _) hPlow
  have hkq0 : (0 : ℚ) ≤ (k : ℚ) := by exact_mod_cast hk0
  have hkqM : (k : ℚ) ≤ (M : ℚ) := by exact_mod_cast hkM
  have hT0 : 0 ≤ T := by
    rw [hT]
    exact fl64_nonneg (div_nonneg hkq0 hMq.le)
  have hT1 : T ≤ 1 := by
    rw [hT]
    have := fl64_mono (x := (k : ℚ) / (M : ℚ)) (y := 1) (by rw [div_le_one hMq]; exact hkqM)
    rwa [fl64_one] at this
  by_cases hkz : k = 0
  · -- the target is 0
    have hTz : T = 0 := by
      rw [hT, hkz]
      simp [fl64_zero]
    rw [hTz, hkz, zero_div, fl64_zero, zero_mul, fl64_zero]
    have hc : Normalize.clamp 0 (-0) 0 = 0 := by
      unfold Normalize.clamp
      simp
    rw [hc, clampFloatSample_of_mem (by norm_num) (by norm_num), zero_mul, fl64_zero]
    have hr : roundHalfAway 0 = 0 := roundHalfAway_eq_of_close (by norm_num)
    rw [hr]
    simp
  · have hk1 : (1 : ℚ) ≤ (k : ℚ) := by
      have : 1 ≤ k := by omega
      exact_mod_cast this
    -- `T` is within `2^-53` of `k / M`
    have hTerr : |T - (k : ℚ) / (M : ℚ)| ≤ (2 : ℚ) ^ (-53 : Int) := by
      have habs1 : |(k : ℚ) / (M : ℚ)| < (2 : ℚ) ^ (1 : Int) := by
        rw [abs_of_nonneg (div_nonneg hkq0 hMq.le)]
        have : (k : ℚ) / (M : ℚ) ≤ 1 := by rw [div_le_one hMq]; exact hkqM
        norm_num
        linarith
      have := fl64_error habs1 (by norm_num)
      rw [← hT] at this
      norm_num at this ⊢
      exact this
    have hTM : |T * (M : ℚ) - (k : ℚ)| ≤ (2 : ℚ) ^ (-22 : Int) := by
      have h : T * (M : ℚ) - (k : ℚ) = (T - (k : ℚ) / (M : ℚ)) * (M : ℚ) := by
        field_simp
      rw [h, abs_mul, abs_of_pos hMq]
      calc |T - (k : ℚ) / (M : ℚ)| * (M : ℚ) ≤ (2 : ℚ) ^ (-53 : Int) * 2 ^ 31 :=
            mul_le_mul hTerr hMq2 hMq.le (two_zpow_pos _).le
        _ = (2 : ℚ) ^ (-22 : Int) := by norm_num
    -- `T` is at least `2^-31`
    have hTlow : (2 : ℚ) ^ (-31 : Int) ≤ T := by
      have h1 : (2 : ℚ) ^ (-31 : Int) ≤ (k : ℚ) / (M : ℚ) := by
        rw [le_div_iff₀ hMq]
        have : (2 : ℚ) ^ (-31 : Int) * (M : ℚ) ≤ (2 : ℚ) ^ (-31 : Int) * 2 ^ 31 :=
          mul_le_mul_of_nonneg_left hMq2 (two_zpow_pos _).le
        have h2 : (2 : ℚ) ^ (-31 : Int) * 2 ^ 31 = 1 := by norm_num
        linarith
      have h3 := fl64_mono h1
      have h4 : fl64 ((2 : ℚ) ^ (-31 : Int)) = (2 : ℚ) ^ (-31 : Int) := by
        have := fl64_of_dyadic 1 (-31) (by norm_num) (by norm_num)
        simpa using this
      rw [h4, ← hT] at h3
      exact h3
    have hTpos : 0 < T := lt_of_lt_of_le (two_zpow_pos _) hTlow
    -- the gain
    obtain ⟨g, hgdef⟩ : ∃ g : ℚ, g = fl64 (T / P) := ⟨_, rfl⟩
    rw [← hgdef]
    have hTP : T ≤ T / P := by
      rw [le_div_iff₀ hP0]
      nlinarith
    have hgerr : |g - T / P| ≤ (2 : ℚ) ^ (-53 : Int) * (T / P) := by
      have := @fl64_rel_error (T / P) (by
        rw [abs_of_pos (div_pos hTpos hP0)]
        have : (2 : ℚ) ^ (-1022 : Int) ≤ (2 : ℚ) ^ (-31 : Int) :=
          zpow_le_zpow_right₀ (by norm_num) (by norm_num)
        exact le_trans this (le_trans hTlow hTP))
      rw [abs_of_pos (div_pos hTpos hP0), ← hgdef] at this
      exact this
    have hgP : |g * P - T| ≤ (2 : ℚ) ^ (-53 : Int) * T := by
      have h : g * P - T = (g - T / P) * P := by
        field_simp
      rw [h, abs_mul, abs_of_pos hP0]
      have := mul_le_mul_of_nonneg_right hgerr hP0.le
      have h2 : (2 : ℚ) ^ (-53 : Int) * (T / P) * P = (2 : ℚ) ^ (-53 : Int) * T := by
        field_simp
        ring
      rw [h2] at this
      exact this
    have hg0 : 0 ≤ g := by
      rw [hgdef]
      exact fl64_nonneg (div_pos hTpos hP0).le
    have h53 : (2 : ℚ) ^ (-53 : Int) = 1 / 9007199254740992 := by norm_num
    have h31 : (2 : ℚ) ^ (-31 : Int) = 1 / 2147483648 := by norm_num
    have h22 : (2 : ℚ) ^ (-22 : Int) = 1 / 4194304 := by norm_num
    rw [h53] at hgP hgerr hTerr
    rw [h31] at hTlow hPlow
    rw [h22] at hTM
    have hgPabs := hgP
    rw [abs_le] at hgP
    have hgPlow : 1 / 8589934592 ≤ g * P := by linarith [hgP.1]
    have hgPup : g * P ≤ T * (1 + 1 / 9007199254740992) := by linarith [hgP.2]
    -- the scaled sample
    obtain ⟨w, hwdef⟩ : ∃ w : ℚ, w = fl64 (g * d) := ⟨_, rfl⟩
    rw [← hwdef]
    have hgd : |g * d| = g * P := by
      rw [abs_mul, abs_of_nonneg hg0, hd]
    have hwerr : |w - g * d| ≤ 1 / 9007199254740992 * (g * P) := by
      have := @fl64_rel_error (g * d) (by
        rw [hgd]
        have : (2 : ℚ) ^ (-1022 : Int) ≤ (2 : ℚ) ^ (-33 : Int) :=
          zpow_le_zpow_right₀ (by norm_num) (by norm_num)
        have h33 : (2 : ℚ) ^ (-33 : Int) = 1 / 8589934592 := by norm_num
        rw [h33] at this
        exact le_trans this hgPlow)
      rw [hgd, ← hwdef, h53] at this
      exact this
    obtain ⟨tg, htg⟩ : ∃ tg : ℚ, tg = if d < 0 then -T else T := ⟨_, rfl⟩
    have htgb : -T ≤ tg ∧ tg ≤ T := by
      rw [htg]
      split_ifs <;> constructor <;> linarith
    have hgdt : |g * d - tg| ≤ 1 / 9007199254740992 * T := by
      rw [htg]
      by_cases hdn : d < 0
      · rw [if_pos hdn]
        have hdP : d = -P := by
          rw [abs_of_neg hdn] at hd
          linarith
        have h : g * -P - -T = -(g * P - T) := by ring
        rw [hdP, h, abs_neg]
        exact hgPabs
      · rw [if_neg hdn]
        have hdP : d = P := by
          rw [abs_of_nonneg (not_lt.mp hdn)] at hd
          exact hd
        rw [hdP]
        exact hgPabs
    have hwt : |w - tg| ≤ 1 / 2251799813685248 := by
      have h : w - tg = (w - g * d) + (g * d - tg) := by ring
      rw [h]
      have := abs_add (w - g * d) (g * d - tg)
      have h2 : 1 / 9007199254740992 * (g * P) ≤ 1 / 9007199254740992 * 2 := by
        apply mul_le_mul_of_nonneg_left _ (by norm_num)
        linarith
      linarith
    obtain ⟨v, hvdef⟩ : ∃ v : ℚ, v = Normalize.clamp w (-T) T := ⟨_, rfl⟩
    rw [← hvdef]
    have hvt : |v - tg| ≤ 1 / 2251799813685248 := by
      rw [hvdef]
      exact le_trans (clamp_close w htgb.1 htgb.2) hwt
    have hvb : -T ≤ v ∧ v ≤ T := by
      rw [hvdef]
      exact clamp_bounds w (-T) T (by linarith)
    have hvc : clampFloatSample v = v :=
      clampFloatSample_of_mem (by linarith [hvb.1]) (by linarith [hvb.2])
    rw [hvc]
    have hfl := fl64_scaled_close hM1 hM2 (c := v) ⟨by linarith [hvb.1], by linarith [hvb.2]⟩
    rw [h22] at hfl
    -- distance of `v * M` from the integer
    have htgM : |tg * (M : ℚ) - ((if d < 0 then -k else k : Int) : ℚ)| ≤ 1 / 4194304 := by
      rw [htg]
      by_cases hdn : d < 0
      · rw [if_pos hdn, if_pos hdn]
        push_cast
        have : -T * (M : ℚ) - -(k : ℚ) = -(T * (M : ℚ) - (k : ℚ)) := by ring
        rw [this, abs_neg]
        exact hTM
      · rw [if_neg hdn, if_neg hdn]
        exact hTM
    have hvM : |v * (M : ℚ) - tg * (M : ℚ)| ≤ 1 / 1048576 := by
      have h : v * (M : ℚ) - tg * (M : ℚ) = (v - tg) * (M : ℚ) := by ring
      rw [h, abs_mul, abs_of_pos hMq]
      calc |v - tg| * (M : ℚ) ≤ 1 / 2251799813685248 * 2 ^ 31 :=
            mul_le_mul hvt hMq2 hMq.le (by norm_num)
        _ = 1 / 1048576 := by norm_num
    apply roundHalfAway_eq_of_close
    have h : fl64 (v * (M : ℚ)) - ((if d < 0 then -k else k : Int) : ℚ)
        = (fl64 (v * (M : ℚ)) - v * (M : ℚ)) + (v * (M : ℚ) - tg * (M : ℚ))
          + (tg * (M : ℚ) - ((if d < 0 then -k else k : Int) : ℚ)) := by ring
    rw [h]
    have t1 := abs_add (fl64 (v * (M : ℚ)) - v * (M : ℚ) + (v * (M : ℚ) - tg * (M : ℚ)))
      (tg * (M : ℚ) - ((if d < 0 then -k else k : Int) : ℚ))
    have t2 := abs_add (fl64 (v * (M : ℚ)) - v * (M : ℚ)) (v * (M : ℚ) - tg * (M : ℚ))
    have : (1 : ℚ) / 4194304 + 1 / 1048576 + 1 / 4194304 < 1 / 2 := by norm_num
    linarith

/-- The normalized peak of a stream of native samples of an integer type is 0 or lies in
`[2^-31, 1]`. -/
theorem int_peak_bounds (getFrame : Int → Option AudioFrame) (numFrames : Int)
    (st : SampleType) (channels : List Int) (hst : isFloatSampleType st = false)
    (hnat : ∀ j frame, getFrame j = some frame → ∀ ch ∈ channels, ∀ i, 0 ≤ i →
      i < frame.length → isNativeSample st (frame.data ch i) = true)
    (hpeak : findPeak getFrame numFrames st channels true ≠ 0) :
    (2 : ℚ) ^ (-31 : Int) ≤ findPeak getFrame numFrames st channels true
      ∧ findPeak getFrame numFrames st channels true ≤ 1
      ∧ ∃ j frame, 0 ≤ j ∧ j < numFrames ∧ getFrame j = some frame
          ∧ ∃ ch ∈ channels, ∃ i, 0 ≤ i ∧ i < frame.length
            ∧ |convSampleToDouble st (if (getSampleBitShift st).required = true then shiftRight (frame.data ch i) (getSampleBitShift st).count else frame.data ch i)|
              = findPeak getFrame numFrames st channels true := by
  obtain ⟨hM1, hM2, hmin⟩ := maxInt_bounds_of_int hst
  obtain ⟨-, -, h2⟩ := findPeak_norm getFrame numFrames st channels hnat
  rcases h2 with h | ⟨j, frame, hj1, hj2, hj, ch, hch, i, hi1, hi2, he⟩
  · exact absurd h hpeak
  · refine ⟨?_, ?_, j, frame, hj1, hj2, hj, ch, hch, i, hi1, hi2, he⟩
    · obtain ⟨v, hv, hv1, hv2⟩ := logical_of_native_int hst (hnat j frame hj ch hch i hi1 hi2)
      rw [← he] at hpeak ⊢
      rw [hv] at hpeak ⊢
      simp only [convSampleToDouble] at hpeak ⊢
      obtain ⟨w, hw⟩ : ∃ w : Int, w = clampSymIntSample (intSampleBits st) v := ⟨_, rfl⟩
      rw [← hw] at hpeak ⊢
      have hw0 : w ≠ 0 := by
        intro h0
        rw [h0] at hpeak
        simp [fl64_zero] at hpeak
      have hMq1 : (1 : ℚ) ≤ (maxInt (intSampleBits st) : ℚ) := by exact_mod_cast hM1
      have hMq2 : (maxInt (intSampleBits st) : ℚ) ≤ 2 ^ 31 := by exact_mod_cast hM2
      have hMq : (0 : ℚ) < (maxInt (intSampleBits st) : ℚ) := by linarith
      have hwabs : (1 : ℚ) ≤ |(w : ℚ)| := by
        have : (1 : Int) ≤ |w| := Int.one_le_abs hw0
        exact_mod_cast this
      rw [fl64_abs, abs_div, abs_of_pos hMq]
      have h1 : (2 : ℚ) ^ (-31 : Int) ≤ |(w : ℚ)| / (maxInt (intSampleBits st) : ℚ) := by
        rw [le_div_iff₀ hMq]
        have : (2 : ℚ) ^ (-31 : Int) * (maxInt (intSampleBits st) : ℚ)
            ≤ (2 : ℚ) ^ (-31 : Int) * 2 ^ 31 :=
          mul_le_mul_of_nonneg_left hMq2 (two_zpow_pos _).le
        have h2 : (2 : ℚ) ^ (-31 : Int) * 2 ^ 31 = 1 := by norm_num
        linarith
      have h3 := fl64_mono h1
      have h4 : fl64 ((2 : ℚ) ^ (-31 : Int)) = (2 : ℚ) ^ (-31 : Int) := by
        have := fl64_of_dyadic 1 (-31) (by norm_num) (by norm_num)
        simpa using this
      rw [h4] at h3
      exact h3
    · rw [← he]
      obtain ⟨b1, b2⟩ := native_int_in_range hst (hnat j frame hj ch hch i hi1 hi2)
      rw [abs_le]
      exact ⟨b1, b2⟩

/-- The gain `fl64 (T / P)` of Normalize times the peak `P` is within the relative error
`2^-53` of the target `T`. -/
theorem gain_times_peak_close {T P : ℚ} (hT : T = 0 ∨ (2 : ℚ) ^ (-31 : Int) ≤ T)
    (hP0 : 0 < P) (hP1 : P ≤ 1) :
    |fl64 (T / P) * P - T| ≤ (2 : ℚ) ^ (-53 : Int) * |T| := by
  have hq : T / P = 0 ∨ (2 : ℚ) ^ (-1022 : Int) ≤ |T / P| := by
    rcases hT with h | h
    · left
      rw [h, zero_div]
    · right
      have hTpos : 0 < T := lt_of_lt_of_le (two_zpow_pos _) h
      rw [abs_of_pos (div_pos hTpos hP0)]
      have h1 : T ≤ T / P := by
        rw [le_div_iff₀ hP0]
        nlinarith
      have h2 : (2 : ℚ) ^ (-1022 : Int) ≤ (2 : ℚ) ^ (-31 : Int) :=
        zpow_le_zpow_right₀ (by norm_num) (by norm_num)
      exact le_trans h2 (le_trans h h1)
  have herr := fl64_rel_error_or_zero hq
  have h : fl64 (T / P) * P - T = (fl64 (T / P) - T / P) * P := by
    field_simp
  rw [h, abs_mul, abs_of_pos hP0]
  have := mul_le_mul_of_nonneg_right herr hP0.le
  have h2 : (2 : ℚ) ^ (-53 : Int) * |T / P| * P = (2 : ℚ) ^ (-53 : Int) * |T| := by
    rw [abs_div, abs_of_pos hP0]
    field_simp
    ring
  rw [h2] at this
  exact this

/-- The normalized magnitude of the integer sample `k` or `-k`, for `0 <= k <= maxInt`. -/
theorem conv_signed_k {st : SampleType} (hst : isFloatSampleType st = false) (k : Int)
    (hk0 : 0 ≤ k) (hkM : k ≤ maxInt (intSampleBits st)) (neg : Bool) :
    |convSampleToDouble st (.int (if neg = true then -k else k))|
      = fl64 ((k : ℚ) / (maxInt (intSampleBits st) : ℚ)) := by
  obtain ⟨hM1, -, hmin⟩ := maxInt_bounds_of_int hst
  have hMq : (0 : ℚ) < (maxInt (intSampleBits st) : ℚ) := by
    have : (1 : ℚ) ≤ (maxInt (intSampleBits st) : ℚ) := by exact_mod_cast hM1
    linarith
  have hkq : (0 : ℚ) ≤ (k : ℚ) := by exact_mod_cast hk0
  simp only [convSampleToDouble]
  have hc : clampSymIntSample (intSampleBits st) (if neg = true then -k else k)
      = if neg = true then -k else k := by
    unfold clampSymIntSample
    rw [if_neg]
    split_ifs <;> omega
  rw [hc, fl64_abs, abs_div, abs_of_pos hMq]
  congr 2
  split_ifs
  · push_cast
    rw [abs_neg, abs_of_nonneg hkq]
  · exact abs_of_nonneg hkq

/-! ## Transitions, peak scan, normalization, conversion (claims C21 to C30) -/

/-- C21: in a Mix, for each of the two streams, every output frame `n` and every local index
`s` of that frame whose output position lies in the stream's trim window: the frame that
`getOffsetSample` reads for `s` (left or right, chosen by the stream's frame sample offsets)
is present in the result of `baseFrameToOffsetFramesTrim` (its number is not negative), the
index read lies inside that frame, and the value read is the stream's sample at the output
position minus the stream's start.  This holds for every offset, validated or not. -/
theorem mix_reads_present_frames (F len1 len2 offset fadeinSamples fadeoutSamples : Int)
    (g1 g2 : ℚ) (st : SampleType) (relativeGain extendStart extendEnd : Bool)
    (fadeType : TransitionType) (editChannels : List Int) (mode : OverflowMode)
    (log : OverflowLog) (audio1 audio2 : Int → Sample) (n s : Int) (m : Mix)
    (hm : m = Mix.new F len1 g1 len2 g2 st offset relativeGain fadeinSamples fadeoutSamples
      fadeType extendStart extendEnd editChannels mode log)
    (hF : 0 < F) (hn : 0 ≤ n) (hs0 : 0 ≤ s)
    (hs : s < getFrameSampleCount F n m.outNumSamples) :
    (m.outPosAudio1TrimStart ≤ frameToFirstSample F n + s →
      frameToFirstSample F n + s < m.outPosAudio1TrimEnd →
        getOffsetSample s m.audio1FrameSampleOffsets
            (frameReadPtr F audio1 m.audio1NumSamples (m.outFrameToAudio1Frames F n).left)
            (frameReadPtr F audio1 m.audio1NumSamples (m.outFrameToAudio1Frames F n).right)
          = some (audio1 (frameToFirstSample F n + s - m.outPosAudio1Start))
        ∧ 0 ≤ (if m.audio1FrameSampleOffsets.left = 0 ∨ ¬ -m.audio1FrameSampleOffsets.right ≤ s
            then (m.outFrameToAudio1Frames F n).left else (m.outFrameToAudio1Frames F n).right))
      ∧ (m.outPosAudio2TrimStart ≤ frameToFirstSample F n + s →
        frameToFirstSample F n + s < m.outPosAudio2TrimEnd →
          getOffsetSample s m.audio2FrameSampleOffsets
              (frameReadPtr F audio2 m.audio2NumSamples (m.outFrameToAudio2Frames F n).left)
              (frameReadPtr F audio2 m.audio2NumSamples (m.outFrameToAudio2Frames F n).right)
            = some (audio2 (frameToFirstSample F n + s - m.outPosAudio2Start))
          ∧ 0 ≤ (if m.audio2FrameSampleOffsets.left = 0
                ∨ ¬ -m.audio2FrameSampleOffsets.right ≤ s
              then (m.outFrameToAudio2Frames F n).left
              else (m.outFrameToAudio2Frames F n).right)) := by
  have hin := mix_trim_inside_span F len1 len2 offset fadeinSamples fadeoutSamples g1 g2 st
    relativeGain extendStart extendEnd fadeType editChannels mode log
  rw [← hm] at hin
  have ho1 : m.audio1FrameSampleOffsets = getFrameSampleOffsets F m.outPosAudio1Start := by
    rw [hm]; rfl
  have ho2 : m.audio2FrameSampleOffsets = getFrameSampleOffsets F m.outPosAudio2Start := by
    rw [hm]; rfl
  have hl1 : m.audio1NumSamples = len1 := by rw [hm]; rfl
  have hl2 : m.audio2NumSamples = len2 := by rw [hm]; rfl
  constructor
  · intro ht0 ht1
    rw [ho1]
    unfold Mix.outFrameToAudio1Frames
    exact getOffsetSample_eq_stream_trim F n m.outPosAudio1Start m.audio1NumSamples
      m.outPosAudio1TrimStart m.outPosAudio1TrimEnd m.outNumSamples s audio1 hF hn hs0 hs
      (by linarith [hin.1]) (by rw [hl1]; linarith [hin.2.1]) ht0 ht1
  · intro ht0 ht1
    rw [ho2]
    unfold Mix.outFrameToAudio2Frames
    exact getOffsetSample_eq_stream_trim F n m.outPosAudio2Start m.audio2NumSamples
      m.outPosAudio2TrimStart m.outPosAudio2TrimEnd m.outNumSamples s audio2 hF hn hs0 hs
      (by linarith [hin.2.2.1]) (by rw [hl2]; linarith [hin.2.2.2]) ht0 ht1

/-- Witness for C21: frames of 8 samples, streams of 10 and 8 samples, stream 2 starting 3
samples before stream 1 and trimmed there; local index 2 of output frame 0 reads sample 2 of
stream 1 and sample 5 of stream 2. -/
theorem mix_reads_present_frames_witness :
    getOffsetSample 2
        (Mix.new 8 10 1 8 1 .Int16 (-3) false 0 0 .Linear false false [0] .Error
          .Once).audio2FrameSampleOffsets
        (frameReadPtr 8 (fun i : Int => Sample.int i) 8
          ((Mix.new 8 10 1 8 1 .Int16 (-3) false 0 0 .Linear false false [0] .Error
            .Once).outFrameToAudio2Frames 8 0).left)
        (frameReadPtr 8 (fun i : Int => Sample.int i) 8
          ((Mix.new 8 10 1 8 1 .Int16 (-3) false 0 0 .Linear false false [0] .Error
            .Once).outFrameToAudio2Frames 8 0).right)
      = some (Sample.int (frameToFirstSample 8 0 + 2 - (-3))) :=
  ((mix_reads_present_frames 8 10 8 (-3) 0 0 1 1 .Int16 false false false .Linear [0] .Error
    .Once (fun i : Int => Sample.int i) (fun i : Int => Sample.int i) 0 2
    (Mix.new 8 10 1 8 1 .Int16 (-3) false 0 0 .Linear false false [0] .Error .Once) rfl
    (by decide) (by decide) (by decide) (by decide)).2 (by decide) (by decide)).1

/-- Claim C22: for Normalize on an integer sample type with a `double` target peak in
`[0, 1]` and an input whose peak over the edit channels is not zero: the gain is a finite
`double`, every frame is written with `true` and unchanged statistics, every output sample is
a native sample whose normalized magnitude is at most `outNormPeak = adjustNormPeak target`,
which is at most `target`, so the peak scan of a stream of such samples is at most
`target`. -/
theorem normalize_output_bounded (F numFrames outNumFrames : Int) (st : SampleType)
    (target : ℚ) (lowerOnly : Bool) (channels : List Int) (mode : OverflowMode)
    (log : OverflowLog) (getFrame outFrames : Int → Option AudioFrame) (frame : AudioFrame)
    (ch n : Int) (outFrm : Int → Sample) (stats : OverflowStats) (nz : Normalize)
    (hnz : nz = Normalize.new getFrame numFrames st target lowerOnly channels mode log)
    (hst : isFloatSampleType st = false) (ht : fl64 target = target) (ht0 : 0 ≤ target)
    (ht1 : target ≤ 1) (hpeak : findPeak getFrame numFrames st channels true ≠ 0)
    (hfr : getFrame n = some frame)
    (hout : ∀ j fr, outFrames j = some fr → ∀ c ∈ channels, ∀ i, 0 ≤ i → i < fr.length →
      isNativeSample st (fr.data c i) = true
        ∧ |convSampleToDouble st (if (getSampleBitShift st).required = true then shiftRight (fr.data c i) (getSampleBitShift st).count else fr.data c i)| ≤ nz.outNormPeak) :
    nz.outNormPeak = adjustNormPeak target st
      ∧ 0 ≤ nz.outNormPeak ∧ nz.outNormPeak ≤ target
      ∧ Normalize.newGain getFrame numFrames st target lowerOnly channels = some nz.gain
      ∧ (∃ r, normalizeGetFrame F nz getFrame ch n outFrm stats = some r
          ∧ r.ok = true
          ∧ r.stats = (if n = 0 then { count := 0, peak := 0 } else stats)
          ∧ r.calls = []
          ∧ ∀ s, 0 ≤ s → s < frame.length →
              isNativeSample st (r.frm s) = true
                ∧ |convSampleToDouble st (if (getSampleBitShift st).required = true then shiftRight (r.frm s) (getSampleBitShift st).count else r.frm s)| ≤ nz.outNormPeak)
      ∧ findPeak outFrames outNumFrames st channels true ≤ target := by
  have habs : |target| = target := abs_of_nonneg ht0
  obtain ⟨a1, a2, a3, a4, a5, -, a7⟩ :=
    adjustNormPeak_int_spec hst target ht (by rw [habs]; exact ht1)
  have hnzt : nz.outSampleType = st := by rw [hnz]; rfl
  have hnzo : nz.outNormPeak = adjustNormPeak target st := by rw [hnz]; rfl
  have hc0 : 0 ≤ nz.outNormPeak := by
    rw [hnzo]
    exact adjustNormPeak_nonneg target st ht0
  have hct : nz.outNormPeak ≤ target := by
    rw [habs, abs_of_nonneg (adjustNormPeak_nonneg target st ht0)] at a5
    rw [hnzo]
    exact a5
  have houtk : nz.outNormPeak
      = fl64 ((⌊fl64 (|target| * (maxInt (intSampleBits st) : ℚ))⌋ : ℚ)
        / (maxInt (intSampleBits st) : ℚ)) := by
    rw [hnzo, ← abs_of_nonneg (adjustNormPeak_nonneg target st ht0)]
    exact a2
  have hback : fl64 (nz.outNormPeak * (maxInt (intSampleBits st) : ℚ))
      = (⌊fl64 (|target| * (maxInt (intSampleBits st) : ℚ))⌋ : ℚ) := by
    rw [hnzo, ← abs_of_nonneg (adjustNormPeak_nonneg target st ht0)]
    exact a7
  obtain ⟨r, hr, hok, hstats, hcalls, hs⟩ := normalize_frame_bounded F nz st hnzt hst
    ⌊fl64 (|target| * (maxInt (intSampleBits st) : ℚ))⌋ a3 a4 houtk hback hc0
    (le_trans hct ht1) getFrame frame ch n outFrm stats hfr
  refine ⟨hnzo, hc0, hct, ?_, ⟨r, hr, hok, hstats, hcalls, fun s h1 h2 =>
    ⟨(hs s h1 h2).1, (hs s h1 h2).2.1⟩⟩, ?_⟩
  · rw [hnz]
    simp only [Normalize.newGain, Normalize.new]
    split_ifs with h
    · rfl
    · rfl
  · apply le_trans _ hct
    exact findPeak_le_of_bound outFrames outNumFrames st channels nz.outNormPeak hc0
      (fun j fr hj c hc i hi1 hi2 => (hout j fr hj c hc i hi1 hi2).1)
      (fun j fr hj c hc i hi1 hi2 => (hout j fr hj c hc i hi1 hi2).2)

/-- Witness for C22: an Int8 stream of one frame whose samples are all 127, target 1; the
output stream that is rescanned holds 127 everywhere. -/
theorem normalize_output_bounded_witness :
    (Normalize.new (fun _ => some { length := 2, data := fun _ _ => .int 127 }) 1 .Int8 1
        false [0] .Error .Once).outNormPeak ≤ 1
      ∧ findPeak (fun _ => some { length := 2, data := fun _ _ => .int 127 }) 1 .Int8 [0]
          true ≤ 1 :=
  have hpk : findPeak (fun _ => some { length := 2, data := fun _ _ => .int 127 }) 1 .Int8
      [0] true = 1 := by
    rw [findPeak_constant_stream 127 (by norm_num) (by norm_num)]
    have := @convSampleToDouble_int_max .Int8 rfl
    have hM : maxInt (intSampleBits .Int8) = 127 := by decide
    rw [hM] at this
    rw [this, abs_one]
  have h := normalize_output_bounded 8 1 1 .Int8 1 false [0] .Error .Once
    (fun _ => some { length := 2, data := fun _ _ => .int 127 })
    (fun _ => some { length := 2, data := fun _ _ => .int 127 })
    { length := 2, data := fun _ _ => .int 127 } 0 0 (fun _ => .int 0)
    { count := 0, peak := 0 }
    (Normalize.new (fun _ => some { length := 2, data := fun _ _ => .int 127 }) 1 .Int8 1
      false [0] .Error .Once) rfl rfl fl64_one (by norm_num) le_rfl
    (by rw [hpk]; norm_num) rfl
    (by
      intro j fr hj c _ i _ _
      injection hj with hj
      subst hj
      constructor
      · show isNativeSample .Int8 (.int 127) = true
        decide
      · have hlog : (if (getSampleBitShift .Int8).required = true then
            shiftRight (Sample.int 127) (getSampleBitShift .Int8).count
            else Sample.int 127) = Sample.int 127 := by
          rw [if_neg (by decide)]
        show |convSampleToDouble .Int8
            (if (getSampleBitShift .Int8).required = true then
              shiftRight (Sample.int 127) (getSampleBitShift .Int8).count
            else Sample.int 127)| ≤ adjustNormPeak 1 .Int8
        rw [hlog, @adjustNormPeak_one .Int8 rfl]
        have := @convSampleToDouble_int_max .Int8 rfl
        have hM : maxInt (intSampleBits .Int8) = 127 := by decide
        rw [hM] at this
        rw [this, abs_one])
  ⟨h.2.2.1, h.2.2.2.2.2⟩

/-- Claim C23, counterexample: Normalize with `lowerOnly = true` is not a no-op on the
sample `minInt`.  For the Int8 stream whose samples are all -128 and target 1 the peak of the
input is at most the adjusted target and the gain is 1, and the sample -128 is written
as -127. -/
theorem normalize_changes_minInt :
    findPeak (fun _ => some { length := 2, data := fun _ _ => .int (-128) }) 1 .Int8 [0] true
        ≤ adjustNormPeak 1 .Int8
      ∧ (Normalize.new (fun _ => some { length := 2, data := fun _ _ => .int (-128) }) 1
          .Int8 1 true [0] .Error .Once).gain = 1
      ∧ ∃ r, normalizeGetFrame 8
            (Normalize.new (fun _ => some { length := 2, data := fun _ _ => .int (-128) }) 1
              .Int8 1 true [0] .Error .Once)
            (fun _ => some { length := 2, data := fun _ _ => .int (-128) }) 0 0
            (fun _ => .int 0) { count := 0, peak := 0 } = some r
          ∧ r.ok = true
          ∧ r.frm 0 = .int (-127) := by
  have hle : findPeak (fun _ => some { length := 2, data := fun _ _ => .int (-128) }) 1
      .Int8 [0] true ≤ adjustNormPeak 1 .Int8 := by
    rw [findPeak_constant_stream (-128) (by norm_num) (by norm_num),
      @adjustNormPeak_one .Int8 rfl, abs_le]
    exact @convSampleToDouble_int_bounds .Int8 rfl (-128) (by decide) (by decide)
  obtain ⟨h1, -, r, hr, hok, -, -, hs⟩ := normalize_noop_frame 8 1 .Int8 1 [0] .Error .Once
    (fun _ => some { length := 2, data := fun _ _ => .int (-128) })
    { length := 2, data := fun _ _ => .int (-128) } 0 0 (fun _ => .int 0)
    { count := 0, peak := 0 }
    (Normalize.new (fun _ => some { length := 2, data := fun _ _ => .int (-128) }) 1
      .Int8 1 true [0] .Error .Once) rfl hle
    (by
      intro j fr hj c _ i _ _
      injection hj with hj
      subst hj
      show isNativeSample .Int8 (.int (-128)) = true
      decide)
    (by
      intro i q hq
      exact absurd hq (by simp))
    rfl le_rfl (by norm_num) (List.mem_singleton.mpr rfl)
  refine ⟨hle, h1, r, hr, hok, ?_⟩
  have h0 := hs 0 le_rfl (by norm_num)
  rw [h0]
  decide

/-- Claim C23, amended: for Normalize with `lowerOnly = true`, whenever the normalized peak
of the input over the edit channels is at most the adjusted target, the gain is 1, every
frame is written with `true` and unchanged statistics, and every output sample of every edit
channel equals the corresponding input sample, for every native input value of an integer
type except `minInt`, which is written as `-maxInt`, and for every native floating point
value in `[-1, 1]`. -/
theorem normalize_lowerOnly_noop (F numFrames : Int) (st : SampleType) (target : ℚ)
    (channels : List Int) (mode : OverflowMode) (log : OverflowLog)
    (getFrame : Int → Option AudioFrame) (frame : AudioFrame) (ch n : Int)
    (outFrm : Int → Sample) (stats : OverflowStats) (nz : Normalize)
    (hnz : nz = Normalize.new getFrame numFrames st target true channels mode log)
    (hle : findPeak getFrame numFrames st channels true ≤ adjustNormPeak target st)
    (hnat : ∀ j fr, getFrame j = some fr → ∀ c ∈ channels, ∀ i, 0 ≤ i → i < fr.length →
      isNativeSample st (fr.data c i) = true)
    (hrange : ∀ i q, frame.data ch i = .flt q → -1 ≤ q ∧ q ≤ 1)
    (hfr : getFrame n = some frame) (hn0 : 0 ≤ n) (hnN : n < numFrames)
    (hch : ch ∈ channels) :
    nz.gain = 1
      ∧ Normalize.newGain getFrame numFrames st target true channels = some 1
      ∧ ∃ r, normalizeGetFrame F nz getFrame ch n outFrm stats = some r
          ∧ r.ok = true
          ∧ r.stats = (if n = 0 then { count := 0, peak := 0 } else stats)
          ∧ r.calls = []
          ∧ ∀ s, 0 ≤ s → s < frame.length →
              (frame.data ch s ≠ .int (minInt (bitwidth st)) → r.frm s = frame.data ch s)
                ∧ (frame.data ch s = .int (minInt (bitwidth st)) →
                  r.frm s
                    = .int (-maxInt (intSampleBits st)
                      * 2 ^ (bitwidth st - intSampleBits st))) := by
  obtain ⟨h1, h2, r, hr, hok, hstats, hcalls, hs⟩ := normalize_noop_frame F numFrames st
    target channels mode log getFrame frame ch n outFrm stats nz hnz hle hnat hrange hfr hn0
    hnN hch
  refine ⟨h1, h2, r, hr, hok, hstats, hcalls, ?_⟩
  intro s hs1 hs2
  have h := hs s hs1 hs2
  constructor
  · intro hne
    rw [h, if_neg hne]
  · intro heq
    rw [h, if_pos heq]

/-- Witness for C23: the Int8 stream whose samples are all 100, target 1; the peak
`fl64 (100 / 127)` is below the target and the samples are written unchanged. -/
theorem normalize_lowerOnly_noop_witness :
    (Normalize.new (fun _ => some { length := 2, data := fun _ _ => .int 100 }) 1 .Int8 1
        true [0] .Error .Once).gain = 1 :=
  (normalize_lowerOnly_noop 8 1 .Int8 1 [0] .Error .Once
    (fun _ => some { length := 2, data := fun _ _ => .int 100 })
    { length := 2, data := fun _ _ => .int 100 } 0 0 (fun _ => .int 0)
    { count := 0, peak := 0 }
    (Normalize.new (fun _ => some { length := 2, data := fun _ _ => .int 100 }) 1 .Int8 1
      true [0] .Error .Once) rfl
    (by
      rw [findPeak_constant_stream 100 (by norm_num) (by norm_num),
        @adjustNormPeak_one .Int8 rfl, abs_le]
      exact @convSampleToDouble_int_bounds .Int8 rfl 100 (by decide) (by decide))
    (by
      intro j fr hj c _ i _ _
      injection hj with hj
      subst hj
      show isNativeSample .Int8 (.int 100) = true
      decide)
    (by
      intro i q hq
      exact absurd hq (by simp))
    rfl le_rfl (by norm_num) (List.mem_singleton.mpr rfl)).1

/-- Claim C24: for every stream of native samples of an integer type and every channel
subset, the early-terminating peak scan equals the naive full scan.  With normalization
`findPeak` returns the maximum of `|convSampleToDouble x|` over all samples of all frames and
selected channels (0 if there are none); without normalization the magnitude of the returned
value is the maximum of `|x|` over the same samples.  The model of `findPeak` stops at the
first frame that reports the maximum and the frame scan stops at the first such sample, so
the equalities say that stopping never changes the result. -/
theorem peak_scan_equals_naive_scan (getFrame : Int → Option AudioFrame) (numFrames : Int)
    (st : SampleType) (channels : List Int) (hst : isFloatSampleType st = false)
    (hnat : ∀ j frame, getFrame j = some frame → ∀ ch ∈ channels, ∀ i, 0 ≤ i →
      i < frame.length → isNativeSample st (frame.data ch i) = true) :
    findPeak getFrame numFrames st channels true
        = naiveNormPeak getFrame numFrames st channels
      ∧ |findPeak getFrame numFrames st channels false|
        = naiveAbsPeak getFrame numFrames st channels :=
  ⟨findPeak_norm_eq_naive getFrame numFrames st channels hnat,
    findPeak_abs_eq_naive getFrame numFrames st channels hst hnat⟩

/-- Witness for C24: two Int8 frames of two samples each, -128 and 5, on channel 0; the scan
stops in the first frame at the sample -128, and the results are those of the full scan. -/
theorem peak_scan_equals_naive_scan_witness :
    findPeak (fun _ => some { length := 2, data := fun _ i => .int (if i = 0 then -128 else 5) })
        2 .Int8 [0] true
        = naiveNormPeak
          (fun _ => some { length := 2, data := fun _ i => .int (if i = 0 then -128 else 5) })
          2 .Int8 [0]
      ∧ |findPeak
          (fun _ => some { length := 2, data := fun _ i => .int (if i = 0 then -128 else 5) })
          2 .Int8 [0] false|
        = naiveAbsPeak
          (fun _ => some { length := 2, data := fun _ i => .int (if i = 0 then -128 else 5) })
          2 .Int8 [0] :=
  peak_scan_equals_naive_scan
    (fun _ => some { length := 2, data := fun _ i => .int (if i = 0 then -128 else 5) })
    2 .Int8 [0] rfl
    (by
      intro j frame hj ch _ i _ _
      injection hj with hj
      subst hj
      by_cases hi : i = 0
      · simp only [if_pos hi]
        decide
      · simp only [if_neg hi]
        decide)

/-- Claim C25, counterexample: for a target above 1 the magnitude of the result of
`adjustNormPeak` can exceed the target.  For Int8 and the `double`
`p = 0x1.1020408102040p+0` (the `double` below `135 / 127`) the product `p * 127` lies
halfway between two `double`s and rounds to 135, and `fl64 (135 / 127)` is the next
`double` above `p`. -/
theorem adjustNormPeak_exceeds_target :
    fl64 (74801420976257 / 70368744177664 : ℚ) = (74801420976257 / 70368744177664 : ℚ)
      ∧ adjustNormPeak (74801420976257 / 70368744177664 : ℚ) .Int8
        = (4787290942480449 / 4503599627370496 : ℚ)
      ∧ (74801420976257 / 70368744177664 : ℚ)
        < adjustNormPeak (74801420976257 / 70368744177664 : ℚ) .Int8 := by
  have hp : fl64 (74801420976257 / 70368744177664 : ℚ) = (74801420976257 / 70368744177664 : ℚ) := by
    have h := @fl64_eq_of_binade (74801420976257 / 70368744177664 : ℚ) (0) (4787290942480448) (by norm_num [abs_of_pos]) (by norm_num [abs_of_pos]) (by norm_num) (by
      apply roundHalfEven_eq_of_close
      norm_num [abs_lt])
    rw [h]
    norm_num
  have hx : fl64 (9499780463984639 / 70368744177664 : ℚ) = (135 : ℚ) := by
    have h := @fl64_eq_of_binade (9499780463984639 / 70368744177664 : ℚ) (7) (4749890231992320) (by norm_num [abs_of_pos]) (by norm_num [abs_of_pos]) (by norm_num) (by
      have e : (9499780463984639 / 70368744177664 : ℚ) / (2 : ℚ) ^ ((7 : Int) - 52) = ((4749890231992319 : Int) : ℚ) + 1 / 2 := by
        norm_num
      rw [e, roundHalfEven_tie]
      norm_num)
    rw [h]
    norm_num
  have hc : fl64 (135 / 127 : ℚ) = (4787290942480449 / 4503599627370496 : ℚ) := by
    have h := @fl64_eq_of_binade (135 / 127 : ℚ) (0) (4787290942480449) (by norm_num [abs_of_pos]) (by norm_num [abs_of_pos]) (by norm_num) (by
      apply roundHalfEven_eq_of_close
      norm_num [abs_lt])
    rw [h]
    norm_num
  have hM : (maxInt (intSampleBits .Int8) : ℚ) = 127 := by
    have : maxInt (intSampleBits .Int8) = 127 := by decide
    rw [this]
    norm_num
  have hadj : adjustNormPeak (74801420976257 / 70368744177664 : ℚ) .Int8
      = (4787290942480449 / 4503599627370496 : ℚ) := by
    rw [@adjustNormPeak_int .Int8 rfl, if_neg (by norm_num), hM,
      abs_of_pos (by norm_num : (0 : ℚ) < 74801420976257 / 70368744177664)]
    have h1 : (74801420976257 / 70368744177664 : ℚ) * 127
        = (9499780463984639 / 70368744177664 : ℚ) := by norm_num
    rw [h1, hx]
    have h2 : ⌊(135 : ℚ)⌋ = 135 := by
      simp
    rw [h2]
    have h3 : (((135 : Int) : ℚ)) / 127 = (135 / 127 : ℚ) := by norm_num
    rw [h3, hc]
    norm_num [abs_of_pos]
  refine ⟨hp, hadj, ?_⟩
  rw [hadj]
  norm_num

/-- Claim C25, amended: for every integer sample type with `maxInt = M` and every `double`
target `p` with `|p| <= 1`, `adjustNormPeak p` is `sign p * fl64 (floor (fl64 (|p| * M)) / M)`
in the `double` arithmetic of the code: its magnitude is at most `|p|` and less than `1 / M`
below `|p|`, the `double` product of its magnitude with `M` is the integer
`floor (fl64 (|p| * M))`, which lies in `[0, M]`, and `adjustNormPeak` maps the result to
itself; for Float64 it is the identity on every target. -/
theorem adjustNormPeak_quantizes (st : SampleType) (p q : ℚ)
    (hst : isFloatSampleType st = false) (hp : fl64 p = p) (hp1 : |p| ≤ 1) :
    adjustNormPeak p st
        = (if p < 0 then
            -fl64 ((⌊fl64 (|p| * (maxInt (intSampleBits st) : ℚ))⌋ : ℚ)
              / (maxInt (intSampleBits st) : ℚ))
          else
            fl64 ((⌊fl64 (|p| * (maxInt (intSampleBits st) : ℚ))⌋ : ℚ)
              / (maxInt (intSampleBits st) : ℚ)))
      ∧ |adjustNormPeak p st| ≤ |p|
      ∧ |p| - |adjustNormPeak p st| < 1 / (maxInt (intSampleBits st) : ℚ)
      ∧ fl64 (|adjustNormPeak p st| * (maxInt (intSampleBits st) : ℚ))
        = (⌊fl64 (|p| * (maxInt (intSampleBits st) : ℚ))⌋ : ℚ)
      ∧ 0 ≤ ⌊fl64 (|p| * (maxInt (intSampleBits st) : ℚ))⌋
      ∧ ⌊fl64 (|p| * (maxInt (intSampleBits st) : ℚ))⌋ ≤ maxInt (intSampleBits st)
      ∧ adjustNormPeak (adjustNormPeak p st) st = adjustNormPeak p st
      ∧ adjustNormPeak q .Float64 = q := by
  obtain ⟨h1, -, h3, h4, h5, h6, h7⟩ := adjustNormPeak_int_spec hst p hp hp1
  obtain ⟨hM1, -, -⟩ := maxInt_bounds_of_int hst
  have hMq : (0 : ℚ) < (maxInt (intSampleBits st) : ℚ) := by
    have : (1 : ℚ) ≤ (maxInt (intSampleBits st) : ℚ) := by exact_mod_cast hM1
    linarith
  refine ⟨h1, h5, ?_, h7, h3, h4, adjustNormPeak_idem hst p hp hp1,
    adjustNormPeak_float64 q⟩
  rw [lt_div_iff₀ hMq]
  exact h6

/-- Witness for C25: the target -1/2 for Int16; the result is
`-fl64 (16383 / 32767)`, of magnitude at most 1/2. -/
theorem adjustNormPeak_quantizes_witness :
    |adjustNormPeak (-1 / 2) .Int16| ≤ |(-1 / 2 : ℚ)|
      ∧ adjustNormPeak (adjustNormPeak (-1 / 2) .Int16) .Int16
        = adjustNormPeak (-1 / 2) .Int16 :=
  have h := adjustNormPeak_quantizes .Int16 (-1 / 2) 0 rfl
    (by
      have h1 : fl64 (1 / 2 : ℚ) = 1 / 2 := by
        have := fl64_of_dyadic 1 (-1) (by norm_num) (by norm_num)
        norm_num at this
        exact this
      have h2 := fl64_neg_of_double h1
      norm_num at h2 ⊢
      exact h2)
    (by norm_num [abs_le])
  ⟨h.2.1, h.2.2.2.2.2.2.1⟩

/-- C26, counterexample: in the `double` arithmetic of the source the end values are not
exact.  The linear transition from `(0, 0)` to `(49, 1)` has `calcY(49) = 1 - 2^-53`, the
cubic transition from `(0, 0)` to `(9, 1)` has `calcY(9) = 1 + 2^-52`, and the linear
transition from `(1, 1)` to `(2, 0.1)` has `calcY(1) = 1 - 2^-53` at its own start. -/
theorem transition_ends_inexact :
    (newTransition .Linear 0 0 49 1).calcY (fun x => x) 49 ≠ 1
      ∧ (newTransition .Cubic 0 0 9 1).calcY (fun x => x) 9 ≠ 1
      ∧ (newTransition .Linear 1 1 2 (3602879701896397 / 36028797018963968)).calcY
          (fun x => x) 1 ≠ 1 := by
  rw [linear_49_end, cubic_9_fadein_end, linear_x1_inexact]
  norm_num

/-- C26, amended: in exact arithmetic the Linear and the Cubic transition built from
`(a1, b1)`, `(a2, b2)` with `a1 ≠ a2` return `b1` at `a1` and `b2` at `a2`.  In the `double`
arithmetic of the source: for `x1 == x2` each of the three transitions returns `y1` for every
`x`; for the transitions that the fades build, from `(0, 0)` to `(m, 1)` and from `(0, 1)` to
`(m, 0)` with an integer `1 ≤ m < 2^53`, where no intermediate result overflows and no divisor
is zero, the Linear and the Cubic transition return `y1` at 0, and the value at the end `m` is
the end value up to rounding, within `2^-51` (Linear) and `2^-49` (Cubic). -/
theorem transition_ends {K : Type} [LinearOrderedField K] (a1 b1 a2 b2 : K) (cosD : ℚ → ℚ)
    (type : TransitionType) (x1 y1 y2 x : ℚ) (m : Int) (ha : a1 ≠ a2)
    (hm1 : 1 ≤ m) (hm2 : m < 2 ^ 53) :
    (LinearTransition.calcYExact a1 b1 a2 b2 a1 = b1
        ∧ LinearTransition.calcYExact a1 b1 a2 b2 a2 = b2
        ∧ CubicTransition.calcYExact a1 b1 a2 b2 a1 = b1
        ∧ CubicTransition.calcYExact a1 b1 a2 b2 a2 = b2)
      ∧ (newTransition type x1 y1 x1 y2).calcY cosD x = y1
      ∧ (newTransition .Linear 0 0 (fl64 (m : ℚ)) 1).calcY cosD 0 = 0
      ∧ (newTransition .Linear 0 1 (fl64 (m : ℚ)) 0).calcY cosD 0 = 1
      ∧ (newTransition .Cubic 0 0 (fl64 (m : ℚ)) 1).calcY cosD 0 = 0
      ∧ (newTransition .Cubic 0 1 (fl64 (m : ℚ)) 0).calcY cosD 0 = 1
      ∧ |(newTransition .Linear 0 0 (fl64 (m : ℚ)) 1).calcY cosD (fl64 (m : ℚ)) - 1|
          ≤ (2 : ℚ) ^ (-51 : Int)
      ∧ |(newTransition .Linear 0 1 (fl64 (m : ℚ)) 0).calcY cosD (fl64 (m : ℚ))|
          ≤ (2 : ℚ) ^ (-51 : Int)
      ∧ |(newTransition .Cubic 0 0 (fl64 (m : ℚ)) 1).calcY cosD (fl64 (m : ℚ)) - 1|
          ≤ (2 : ℚ) ^ (-49 : Int)
      ∧ |(newTransition .Cubic 0 1 (fl64 (m : ℚ)) 0).calcY cosD (fl64 (m : ℚ))|
          ≤ (2 : ℚ) ^ (-49 : Int) := by
  have hl := linear_calcYExact_ends a1 b1 a2 b2 ha
  have hc := cubic_calcYExact_ends a1 b1 a2 b2 ha
  refine ⟨⟨hl.1, hl.2, hc.1, hc.2⟩, calcY_degenerate cosD type x1 y1 y2 x,
    linear_calcY_zero cosD 0 (fl64 (m : ℚ)) 1 fl64_zero,
    linear_calcY_zero cosD 1 (fl64 (m : ℚ)) 0 fl64_one,
    cubic_calcY_x1 cosD 0 0 (fl64 (m : ℚ)) 1 fl64_zero,
    cubic_calcY_x1 cosD 0 1 (fl64 (m : ℚ)) 0 fl64_one, ?_, ?_,
    cubic_fadein_end cosD hm1 hm2, cubic_fadeout_end cosD hm1 hm2⟩
  · rw [linear_fadein_calcY cosD hm1 hm2 (by omega) le_rfl]
    have hb := (linear_fadein_bounds hm1 hm2 (by omega : (0 : Int) ≤ m) le_rfl).2.2
    have hmq : (m : ℚ) ≠ 0 := by
      have : (1 : ℚ) ≤ (m : ℚ) := by exact_mod_cast hm1
      linarith
    rw [div_self hmq, mul_one] at hb
    exact hb
  · have h := linear_fadeout_end cosD hm1 hm2
    rw [abs_of_nonneg h.1]
    exact le_trans h.2 (zpow_le_zpow_right₀ (by norm_num) (by norm_num))

/-- Witness for C26: the transitions from `(0, 0)` to `(9, 1)`. -/
theorem transition_ends_witness :
    CubicTransition.calcYExact (0 : ℚ) 0 9 1 9 = 1
      ∧ (newTransition .Cubic 0 0 (fl64 ((9 : Int) : ℚ)) 1).calcY (fun x => x) 0 = 0 :=
  have h := transition_ends (0 : ℚ) 0 9 1 (fun x => x) .Cubic 0 0 1 0 9 (by norm_num)
    (by norm_num) (by norm_num)
  ⟨h.1.2.2.2, h.2.2.2.2.1⟩

/-- C27, counterexample: in the `double` arithmetic of the source a cubic fade gain leaves
`[0, 1]`: the transition from `(0, 0)` to `(9, 1)` gives `1 + 2^-52` at 9, and the transition
from `(0, 1)` to `(9, 0)` gives `-2^-52` at 9. -/
theorem cubic_gain_leaves_unit_interval :
    1 < (newTransition .Cubic 0 0 9 1).calcY (fun x => x) 9
      ∧ (newTransition .Cubic 0 1 9 0).calcY (fun x => x) 9 < 0 := by
  rw [cubic_9_fadein_end, cubic_9_fadeout_end]
  norm_num

/-- C27: in exact arithmetic, for `x1 ≠ x2`, the Cubic transition is a polynomial of degree at
most 3 in `x` whose derivative is 0 at `x1` and at `x2`; on the span between `x1` and `x2` it
is monotonic, and its values there lie between `y1` and `y2`. -/
theorem cubic_shape {K : Type} [LinearOrderedField K] (x1 y1 x2 y2 : K) (h : x1 ≠ x2) :
    (∃ p : Polynomial K, p.natDegree ≤ 3
        ∧ (∀ x, CubicTransition.calcYExact x1 y1 x2 y2 x = p.eval x)
        ∧ (Polynomial.derivative p).eval x1 = 0 ∧ (Polynomial.derivative p).eval x2 = 0)
      ∧ (MonotoneOn (CubicTransition.calcYExact x1 y1 x2 y2) (Set.uIcc x1 x2)
        ∨ AntitoneOn (CubicTransition.calcYExact x1 y1 x2 y2) (Set.uIcc x1 x2))
      ∧ (∀ x ∈ Set.uIcc x1 x2, CubicTransition.calcYExact x1 y1 x2 y2 x ∈ Set.uIcc y1 y2) :=
  ⟨cubic_calcYExact_polynomial x1 y1 x2 y2 h, cubic_calcYExact_monotoneOn x1 y1 x2 y2 h,
    fun x hx => cubic_calcYExact_between x1 y1 x2 y2 x h hx⟩

/-- Witness for C27: the cubic from `(0, 0)` to `(9, 1)` at 3 lies in `[0, 1]`. -/
theorem cubic_shape_witness :
    CubicTransition.calcYExact (0 : ℚ) 0 9 1 3 ∈ Set.uIcc (0 : ℚ) 1 :=
  (cubic_shape (0 : ℚ) 0 9 1 (by norm_num)).2.2 3 (by
    rw [Set.mem_uIcc]
    left
    constructor <;> norm_num)

/-- C28: over the reals, for `x1 ≠ x2`, the Sine transition is
`(y1 + y2)/2 + ((y1 - y2)/2) * cos(π (x - x1)/(x2 - x1))`; it returns `y1` at `x1` and `y2` at
`x2`, and its value lies between `y1` and `y2` for every `x`, in particular for `x` between
`x1` and `x2`. -/
theorem sine_over_reals (x1 y1 x2 y2 x : ℝ) (h : x1 ≠ x2) :
    SineTransition.calcYExact Real.cos Real.pi x1 y1 x2 y2 x
        = (y1 + y2) / 2 + (y1 - y2) / 2 * Real.cos (Real.pi * (x - x1) / (x2 - x1))
      ∧ SineTransition.calcYExact Real.cos Real.pi x1 y1 x2 y2 x1 = y1
      ∧ SineTransition.calcYExact Real.cos Real.pi x1 y1 x2 y2 x2 = y2
      ∧ SineTransition.calcYExact Real.cos Real.pi x1 y1 x2 y2 x ∈ Set.uIcc y1 y2 :=
  sine_calcYExact_real x1 y1 x2 y2 x h

/-- Witness for C28: the sine transition from `(0, 0)` to `(9, 1)` reaches 1 at 9. -/
theorem sine_over_reals_witness :
    SineTransition.calcYExact Real.cos Real.pi 0 0 9 1 9 = 1 :=
  (sine_over_reals 0 0 9 1 9 (by norm_num)).2.2.1

/-- C29: `isPassthrough` holds exactly when the input and the output sample type are equal,
and a `Convert` whose output sample type is its input sample type `st` returns in the ready
phase of `convertGetFrame`, for every frame number and every channel, the input frame itself:
no sample is converted or written, no host call is made, and the overflow statistics are those
left by the previous frame, reset for frame 0. -/
theorem convert_passthrough (F : Int) (inSampleType outSampleType st : SampleType)
    (mode : OverflowMode) (log : OverflowLog) (getFrame : Int → Option AudioFrame)
    (ch outFrmNum : Int) (outFrm : Int → Sample) (stats : OverflowStats) :
    ((Convert.new inSampleType outSampleType mode log).isPassthrough = true
        ↔ inSampleType = outSampleType)
      ∧ convertGetFrame F (Convert.new st st mode log) getFrame ch outFrmNum outFrm stats
        = some (.returnedInput (getFrame outFrmNum)
            (if outFrmNum = 0 then { count := 0, peak := 0 } else stats)) := by
  constructor
  · simp [Convert.isPassthrough, Convert.new]
  · simp [convertGetFrame, Convert.isPassthrough, Convert.new]

/-- Claim C30, failing input: 0.75 seconds at 22050 samples per second is 16537.5 samples;
`getOptSamples` discards the fractional part and returns 16537, while `round` and
`secondsToSamples`, the function of `vsutils/audio.cpp` that converts seconds to samples, give
16538. -/
theorem getOptSamples_truncates :
    vsmap.getOptSamples none (some (3 / 4)) 0 22050 = some 16537
      ∧ secondsToSamples (3 / 4) 22050 = some 16538
      ∧ roundHalfAway ((3 / 4 : ℚ) * 22050) = 16538 := by
  have h : fl64 (33075 / 2 : ℚ) = 33075 / 2 := by
    have := fl64_of_dyadic 33075 (-1) (by norm_num) (by norm_num)
    norm_num at this
    exact this
  have h1 : fl64 (((22050 : Int) : ℚ) * (3 / 4)) = 33075 / 2 := by
    rw [← h]; norm_num
  have h2 : fl64 ((3 / 4 : ℚ) * ((22050 : Int) : ℚ)) = 33075 / 2 := by
    rw [← h]; norm_num
  have hr : roundHalfAway (33075 / 2 : ℚ) = 16538 := by
    simp only [roundHalfAway]
    norm_num
  refine ⟨?_, ?_, ?_⟩
  · simp only [vsmap.getOptSamples, h1]
    rw [truncToInt_of_lt (by norm_num [abs_of_pos])]
    norm_num
  · simp only [secondsToSamples, h2, hr]
    exact truncToInt_intCast (by norm_num [abs_of_pos])
  · simp only [roundHalfAway]
    norm_num

/-! ## Frames, bit shift, Normalize, Mix, Delay, codec, Fade, channel lists (claims C31 to C40) -/

/-- The sample counts of the first `k` frames of a stream sum to `k * F` as long as none of
them is the last frame. -/
theorem sum_full_frames {F L : Int} (k : Nat) (hk : (k : Int) ≤ samplesToFrames F L - 1) :
    ((List.range k).map fun (f : Nat) => getFrameSampleCount F (f : Int) L).sum
      = (k : Int) * F := by
  induction k with
  | zero => simp
  | succ k ih =>
    rw [List.range_succ, List.map_append, List.sum_append, ih (by push_cast at hk; omega)]
    simp only [List.map_cons, List.map_nil, List.sum_cons, List.sum_nil, add_zero]
    have hc : getFrameSampleCount F (k : Int) L = F := by
      unfold getFrameSampleCount
      simp only
      push_cast at hk
      rw [if_neg (by omega), if_neg (by omega)]
    rw [hc]
    push_cast
    ring

/-- The frame counts in unbounded integers: with `N = (L - 1) / F + 1`, `N` is the least
integer with `N * F >= L`, the frames below `N - 1` hold `F` samples, frame `N - 1` holds
`L - (N - 1) * F` samples, a value in `[1, F]`, and the counts sum to `L`. -/
theorem frame_counts_unbounded (F L : Int) (hF : 0 < F) (hL : 1 ≤ L) :
    L ≤ samplesToFrames F L * F
      ∧ (∀ n : Int, L ≤ n * F → samplesToFrames F L ≤ n)
      ∧ (∀ f, 0 ≤ f → f < samplesToFrames F L - 1 → getFrameSampleCount F f L = F)
      ∧ getFrameSampleCount F (samplesToFrames F L - 1) L
        = L - (samplesToFrames F L - 1) * F
      ∧ 1 ≤ L - (samplesToFrames F L - 1) * F
      ∧ L - (samplesToFrames F L - 1) * F ≤ F
      ∧ ((List.range (samplesToFrames F L).toNat).map fun (f : Nat) =>
          getFrameSampleCount F (f : Int) L).sum = L
      ∧ (∀ f, 0 ≤ f → f < samplesToFrames F L →
          frameToLastSample F f L = frameToFirstSample F f + getFrameSampleCount F f L) := by
  obtain ⟨hb1, hb2⟩ := samplesToFrames_bounds hF hL
  have hN1 : 1 ≤ samplesToFrames F L := by
    by_contra hc
    push_neg at hc
    have : samplesToFrames F L ≤ 0 := by omega
    nlinarith
  have hlast : getFrameSampleCount F (samplesToFrames F L - 1) L
      = L - (samplesToFrames F L - 1) * F := by
    unfold getFrameSampleCount
    simp only
    rw [if_neg (by omega), if_pos trivial]
  have hfull : ∀ f, 0 ≤ f → f < samplesToFrames F L - 1 → getFrameSampleCount F f L = F := by
    intro f _ hf
    unfold getFrameSampleCount
    simp only
    rw [if_neg (by omega), if_neg (by omega)]
  have hl1 : 1 ≤ L - (samplesToFrames F L - 1) * F := by linarith
  have hl2 : L - (samplesToFrames F L - 1) * F ≤ F := by linarith
  refine ⟨by linarith, ?_, hfull, hlast, hl1, hl2, ?_, ?_⟩
  · intro n hn
    by_contra hc
    push_neg at hc
    have h1 : n ≤ samplesToFrames F L - 1 := by omega
    have h2 : n * F ≤ (samplesToFrames F L - 1) * F := mul_le_mul_of_nonneg_right h1 hF.le
    linarith
  · have hsplit : (samplesToFrames F L).toNat = (samplesToFrames F L - 1).toNat + 1 := by
      omega
    rw [hsplit, List.range_succ, List.map_append, List.sum_append,
      sum_full_frames (samplesToFrames F L - 1).toNat (by omega)]
    simp only [List.map_cons, List.map_nil, List.sum_cons, List.sum_nil, add_zero]
    have hcast : (((samplesToFrames F L - 1).toNat : Nat) : Int) = samplesToFrames F L - 1 :=
      Int.toNat_of_nonneg (by omega)
    rw [hcast, hlast]
    ring
  · intro f hf0 hfN
    have hpos : 1 ≤ getFrameSampleCount F f L := by
      by_cases hf : f < samplesToFrames F L - 1
      · rw [hfull f hf0 hf]
        omega
      · have : f = samplesToFrames F L - 1 := by omega
        rw [this, hlast]
        exact hl1
    unfold frameToLastSample
    simp only
    rw [if_neg (by omega)]

/-- The conversion to `int` does not change a value in the range of `int`. -/
theorem toInt32_of_range {v : Int} (h1 : minInt 32 ≤ v) (h2 : v ≤ maxInt 32) :
    machine.toInt32 v = v := by
  have e1 : minInt 32 = -2147483648 := by decide
  have e2 : maxInt 32 = 2147483647 := by decide
  rw [e1] at h1
  rw [e2] at h2
  unfold machine.toInt32
  norm_num
  omega

/-- Claim C31, counterexample: the frame arithmetic of the source is computed in `int`.  With
frames of 3072 samples a stream of `3072 * 2^31` samples needs `2^31` frames, and
`samplesToFrames` returns `-2147483648`, which is not the least `N` with `N * F >= L`.  For a
stream of `3072 * 699052` samples `samplesToFrames` returns 699052, inside the range of `int`,
and the product `699051 * 3072` that `getFrameSampleCount` computes for the last frame is
outside the range of `int`. -/
theorem frame_counts_int_overflow :
    machine.samplesToFrames 3072 (3072 * 2 ^ 31) = -2147483648
      ∧ ¬ (3072 * 2 ^ 31 ≤ machine.samplesToFrames 3072 (3072 * 2 ^ 31) * 3072)
      ∧ machine.samplesToFrames 3072 (3072 * 699052) = 699052
      ∧ maxInt 32 < (699051 : Int) * 3072
      ∧ machine.getFrameSampleCount 3072 699051 (3072 * 699052) = none := by
  decide

/-- Claim C31, amended: for a frame size `F` that is a positive `int` and every stream length
`L >= 1` whose number of frames is in the range of `int` (`L <= (2^31 - 1) * F`, the bound of
the source's assertion "frames out of int range") and for which the first position of the
last frame is in the range of `int` (`((L - 1) / F) * F <= 2^31 - 1`, the `int` product of
`getFrameSampleCount`), with `N = samplesToFrames L` computed in the types of the source:
`N` is the least integer with `N * F >= L`; every frame `0 <= f < N - 1` holds `F` samples and
frame `N - 1` holds `L - (N - 1) * F` samples, a value in `[1, F]`; the counts of the frames
`0 .. N - 1` are all defined and sum to `L`; and for these frames `frameToLastSample` is
`frameToFirstSample` plus the count. -/
theorem frame_counts (F L : Int) (hF : 0 < F) (hF2 : F ≤ maxInt 32) (hL : 1 ≤ L)
    (hN : L ≤ maxInt 32 * F) (hmul : (L - 1).tdiv F * F ≤ maxInt 32) :
    machine.samplesToFrames F L = (L - 1).tdiv F + 1
      ∧ L ≤ machine.samplesToFrames F L * F
      ∧ (∀ n : Int, L ≤ n * F → machine.samplesToFrames F L ≤ n)
      ∧ (∀ f, 0 ≤ f → f < machine.samplesToFrames F L - 1 →
          machine.getFrameSampleCount F f L = some F)
      ∧ machine.getFrameSampleCount F (machine.samplesToFrames F L - 1) L
        = some (L - (machine.samplesToFrames F L - 1) * F)
      ∧ 1 ≤ L - (machine.samplesToFrames F L - 1) * F
      ∧ L - (machine.samplesToFrames F L - 1) * F ≤ F
      ∧ (∀ f, 0 ≤ f → f < machine.samplesToFrames F L →
          ∃ c, machine.getFrameSampleCount F f L = some c ∧ 1 ≤ c
            ∧ machine.frameToLastSample F f L = some (frameToFirstSample F f + c))
      ∧ ((List.range (machine.samplesToFrames F L).toNat).map fun (f : Nat) =>
          (machine.getFrameSampleCount F (f : Int) L).getD 0).sum = L := by
  obtain ⟨u1, u2, u3, u4, u5, u6, u7, -⟩ := frame_counts_unbounded F L hF hL
  have e1 : minInt 32 = -2147483648 := by decide
  have e2 : maxInt 32 = 2147483647 := by decide
  have hNle : samplesToFrames F L ≤ maxInt 32 := u2 _ hN
  have hN1 : 1 ≤ samplesToFrames F L := by
    by_contra hc
    push_neg at hc
    have : samplesToFrames F L ≤ 0 := by omega
    nlinarith
  have hm : machine.samplesToFrames F L = samplesToFrames F L := by
    unfold machine.samplesToFrames
    exact toInt32_of_range (by rw [e1]; unfold samplesToFrames at hN1; omega) hNle
  have hdef : samplesToFrames F L = (L - 1).tdiv F + 1 := rfl
  have hfull : ∀ f, 0 ≤ f → f < samplesToFrames F L - 1 →
      machine.getFrameSampleCount F f L = some F := by
    intro f _ hf
    unfold machine.getFrameSampleCount
    simp only
    rw [hm, if_neg (by omega), if_neg (by omega)]
  have hlast : machine.getFrameSampleCount F (samplesToFrames F L - 1) L
      = some (L - (samplesToFrames F L - 1) * F) := by
    unfold machine.getFrameSampleCount
    simp only
    have hprod : (samplesToFrames F L - 1) * F = (L - 1).tdiv F * F := by
      rw [hdef]
      ring
    have hp0 : 0 ≤ (samplesToFrames F L - 1) * F := mul_nonneg (by omega) hF.le
    rw [hm, if_neg (by omega), if_pos rfl,
      if_pos ⟨by rw [e1]; omega, by rw [hprod]; exact hmul⟩,
      toInt32_of_range (by rw [e1]; omega) (by omega)]
  have hsome : ∀ f : Int, 0 ≤ f → f < samplesToFrames F L →
      machine.getFrameSampleCount F f L = some (getFrameSampleCount F f L) := by
    intro f hf0 hfN
    by_cases hf : f < samplesToFrames F L - 1
    · rw [hfull f hf0 hf, u3 f hf0 hf]
    · have : f = samplesToFrames F L - 1 := by omega
      rw [this, hlast, u4]
  rw [hm]
  refine ⟨hdef, u1, u2, hfull, hlast, u5, u6, ?_, ?_⟩
  · intro f hf0 hfN
    have hpos : 1 ≤ getFrameSampleCount F f L := by
      by_cases hf : f < samplesToFrames F L - 1
      · rw [u3 f hf0 hf]
        omega
      · have : f = samplesToFrames F L - 1 := by omega
        rw [this, u4]
        exact u5
    refine ⟨getFrameSampleCount F f L, hsome f hf0 hfN, hpos, ?_⟩
    unfold machine.frameToLastSample
    rw [hsome f hf0 hfN]
    simp only
    rw [if_neg (by omega)]
  · have hmap : ((List.range (samplesToFrames F L).toNat).map fun (f : Nat) =>
          (machine.getFrameSampleCount F (f : Int) L).getD 0)
        = (List.range (samplesToFrames F L).toNat).map fun (f : Nat) =>
          getFrameSampleCount F (f : Int) L := by
      apply List.map_congr_left
      intro f hf
      rw [List.mem_range] at hf
      rw [hsome (f : Int) (by omega) (by omega)]
      rfl
    rw [hmap]
    exact u7

/-- Witness for C31: a stream of 10 samples in frames of 8 samples has 2 frames, of 8 and 2
samples. -/
theorem frame_counts_witness :
    machine.samplesToFrames 8 10 = 2
      ∧ machine.getFrameSampleCount 8 (machine.samplesToFrames 8 10 - 1) 10
        = some (10 - (machine.samplesToFrames 8 10 - 1) * 8)
      ∧ ((List.range (machine.samplesToFrames 8 10).toNat).map fun (f : Nat) =>
          (machine.getFrameSampleCount 8 (f : Int) 10).getD 0).sum = 10 :=
  ⟨(frame_counts 8 10 (by decide) (by decide) (by decide) (by decide) (by decide)).1,
    (frame_counts 8 10 (by decide) (by decide) (by decide) (by decide) (by decide)).2.2.2.2.1,
    (frame_counts 8 10 (by decide) (by decide) (by decide) (by decide)
      (by decide)).2.2.2.2.2.2.2.2⟩

/-- Claim C32: `getSampleBitShift` yields the count `bitwidth - intSampleBits` and marks it
required only for the integer type with a positive count, Int24 in 32-bit storage (count 8);
Int8, Int16 and Int32 have count 0 and no shift, and the floating point types never shift.
For Int24 every logical value `x` in `[-maxInt, maxInt]` fits the 32-bit storage when shifted
left by 8, the arithmetic right shift by 8 recovers it, and the sample that `safeWriteSample`
stores for the value of `x` is read back as `x` by the right shift of the readers. -/
theorem bitshift_roundtrip (x : Int) (hlo : -maxInt 24 ≤ x) (hhi : x ≤ maxInt 24) :
    (∀ st, (getSampleBitShift st).count = bitwidth st - intSampleBits st)
      ∧ (∀ st, (getSampleBitShift st).required = true ↔ st = .Int24)
      ∧ getSampleBitShift .Int24 = { count := 8, required := true }
      ∧ getSampleBitShift .Int8 = { count := 0, required := false }
      ∧ getSampleBitShift .Int16 = { count := 0, required := false }
      ∧ getSampleBitShift .Int32 = { count := 0, required := false }
      ∧ (getSampleBitShift .Float32).required = false
      ∧ (getSampleBitShift .Float64).required = false
      ∧ minInt 32 ≤ x * 2 ^ 8 ∧ x * 2 ^ 8 ≤ maxInt 32
      ∧ shiftRight (shiftLeft (.int x) 8) 8 = .int x
      ∧ ∀ (frm : Int → Sample) (i p c : Int) (ofCtx : OverflowContext) (s : OverflowStats),
          (safeWriteSample .Int24 (convSampleToDouble .Int24 (.int x)) frm i p c ofCtx s).ok
              = true
            ∧ shiftRight
                ((safeWriteSample .Int24 (convSampleToDouble .Int24 (.int x)) frm i p c ofCtx
                  s).frm i)
                (getSampleBitShift .Int24).count
              = .int x := by
  have hM : maxInt 24 = 8388607 := by decide
  have hm : minInt 24 = -8388608 := by decide
  rw [hM] at hlo hhi
  have hsr : shiftRight (shiftLeft (.int x) 8) 8 = .int x := by
    simp only [shiftLeft, shiftRight]
    congr 1
    exact Int.mul_ediv_cancel x (by norm_num)
  refine ⟨fun st => rfl, ?_, by decide, by decide, by decide, by decide, by decide, by decide,
    ?_, ?_, hsr, ?_⟩
  · intro st
    cases st <;> decide
  · have : minInt 32 = -2147483648 := by decide
    rw [this]
    omega
  · have : maxInt 32 = 2147483647 := by decide
    rw [this]
    omega
  · intro frm i p c ofCtx s
    have hst : isFloatSampleType .Int24 = false := rfl
    have hx1 : minInt (intSampleBits .Int24) ≤ x := by
      show minInt 24 ≤ x
      rw [hm]
      omega
    have hx2 : x ≤ maxInt (intSampleBits .Int24) := by
      show x ≤ maxInt 24
      rw [hM]
      exact hhi
    obtain ⟨b1, b2⟩ := convSampleToDouble_int_bounds hst hx1 hx2
    obtain ⟨w1, -, -, w4⟩ := safeWriteSample_of_not_overflowing .Int24 frm i p c ofCtx s
      (v := convSampleToDouble .Int24 (.int x)) (by
        rintro (h | h)
        · linarith
        · linarith)
    refine ⟨w1, ?_⟩
    rw [w4, convSample_roundtrip_clamped hst hx1 hx2 false]
    have hc : clampSymIntSample (intSampleBits .Int24) x = x := by
      simp only [clampSymIntSample]
      rw [if_neg]
      show ¬ x = minInt 24
      rw [hm]
      omega
    rw [hc]
    exact hsr

/-- Witness for C32: the Int24 value -8388607, stored as -2147483392. -/
theorem bitshift_roundtrip_witness :
    minInt 32 ≤ (-8388607 : Int) * 2 ^ 8
      ∧ shiftRight (shiftLeft (.int (-8388607)) 8) 8 = .int (-8388607) :=
  ⟨(bitshift_roundtrip (-8388607) (by decide) (by decide)).2.2.2.2.2.2.2.2.1,
    (bitshift_roundtrip (-8388607) (by decide) (by decide)).2.2.2.2.2.2.2.2.2.2.1⟩

/-- Claim C33, failing input: for a stream of an integer type whose edit channels are
entirely zero the peak scan returns 0, and with `lowerOnly = false` the constructor of
Normalize evaluates `outNormPeak / inNormPeak` with `inNormPeak = 0`: the gain is not a
finite `double`.  With `lowerOnly = true` and a target that is not negative the test
`inNormPeak <= outNormPeak` holds and the gain is 1. -/
theorem normalize_silent_divides_by_zero (getFrame : Int → Option AudioFrame)
    (numFrames : Int) (st : SampleType) (target : ℚ) (channels : List Int)
    (hst : isFloatSampleType st = false)
    (hsil : ∀ j frame, getFrame j = some frame → ∀ ch ∈ channels, ∀ i, 0 ≤ i →
      i < frame.length → frame.data ch i = .int 0) :
    findPeak getFrame numFrames st channels true = 0
      ∧ Normalize.newGain getFrame numFrames st target false channels = none
      ∧ (0 ≤ target →
          Normalize.newGain getFrame numFrames st target true channels = some 1) := by
  have h0 := findPeak_silent getFrame numFrames st channels hst hsil
  refine ⟨h0, ?_, ?_⟩
  · simp [Normalize.newGain, h0]
  · intro ht
    have := adjustNormPeak_nonneg target st ht
    simp [Normalize.newGain, h0, this]

/-- Witness for C33: one silent Int16 frame of two samples, target peak 1. -/
theorem normalize_silent_divides_by_zero_witness :
    Normalize.newGain (fun _ => some { length := 2, data := fun _ _ => .int 0 }) 1 .Int16 1
      false [0] = none :=
  (normalize_silent_divides_by_zero
    (fun _ => some { length := 2, data := fun _ _ => .int 0 }) 1 .Int16 1 [0] rfl
    (by
      intro j frame hj ch _ i _ _
      injection hj with hj
      subst hj
      rfl)).2.1

/-- Claim C34, counterexample: the product of the gain and the peak is not the adjusted
target.  For the Int8 stream whose samples are all 5 and target 1, the peak is
`P = fl64 (5 / 127)`, the adjusted target is 1 and the gain is `fl64 (1 / P)`; the exact
product `gain * P` differs from 1, and the `double` product is `1 - 2^-53`. -/
theorem normalize_gain_times_peak_ne_target :
    findPeak (fun _ => some { length := 2, data := fun _ _ => .int 5 }) 1 .Int8 [0] true
        = (2836913151099525 / 72057594037927936 : ℚ)
      ∧ (Normalize.new (fun _ => some { length := 2, data := fun _ _ => .int 5 }) 1 .Int8 1
          false [0] .Error .Once).outNormPeak = 1
      ∧ (Normalize.new (fun _ => some { length := 2, data := fun _ _ => .int 5 }) 1 .Int8 1
          false [0] .Error .Once).gain = (3574732204225331 / 140737488355328 : ℚ)
      ∧ (Normalize.new (fun _ => some { length := 2, data := fun _ _ => .int 5 }) 1 .Int8 1
            false [0] .Error .Once).gain
          * findPeak (fun _ => some { length := 2, data := fun _ _ => .int 5 }) 1 .Int8 [0]
            true
        ≠ (Normalize.new (fun _ => some { length := 2, data := fun _ _ => .int 5 }) 1 .Int8 1
            false [0] .Error .Once).outNormPeak
      ∧ fl64 ((Normalize.new (fun _ => some { length := 2, data := fun _ _ => .int 5 }) 1
              .Int8 1 false [0] .Error .Once).gain
            * findPeak (fun _ => some { length := 2, data := fun _ _ => .int 5 }) 1 .Int8
              [0] true)
        = (9007199254740991 / 9007199254740992 : ℚ) := by
  have hP : fl64 (5 / 127 : ℚ) = (2836913151099525 / 72057594037927936 : ℚ) := by
    have h := @fl64_eq_of_binade (5 / 127 : ℚ) (-5) (5673826302199050) (by norm_num [abs_of_pos]) (by norm_num [abs_of_pos]) (by norm_num) (by
      apply roundHalfEven_eq_of_close
      norm_num [abs_lt])
    rw [h]
    norm_num
  have hG : fl64 (72057594037927936 / 2836913151099525 : ℚ) = (3574732204225331 / 140737488355328 : ℚ) := by
    have h := @fl64_eq_of_binade (72057594037927936 / 2836913151099525 : ℚ) (4) (7149464408450662) (by norm_num [abs_of_pos]) (by norm_num [abs_of_pos]) (by norm_num) (by
      apply roundHalfEven_eq_of_close
      norm_num [abs_lt])
    rw [h]
    norm_num
  have hW : fl64 (10141204801825834503853507067775 / 10141204801825835211973625643008 : ℚ) = (9007199254740991 / 9007199254740992 : ℚ) := by
    have h := @fl64_eq_of_binade (10141204801825834503853507067775 / 10141204801825835211973625643008 : ℚ) (-1) (9007199254740991) (by norm_num [abs_of_pos]) (by norm_num [abs_of_pos]) (by norm_num) (by
      apply roundHalfEven_eq_of_close
      norm_num [abs_lt])
    rw [h]
    norm_num
  have hconv : convSampleToDouble .Int8 (.int 5)
      = (2836913151099525 / 72057594037927936 : ℚ) := by
    have hc : clampSymIntSample (intSampleBits .Int8) 5 = 5 := by decide
    have hM : maxInt (intSampleBits .Int8) = 127 := by decide
    simp only [convSampleToDouble]
    rw [hc, hM]
    have : (((5 : Int) : ℚ)) / ((127 : Int) : ℚ) = (5 / 127 : ℚ) := by norm_num
    rw [this, hP]
  have hpk : findPeak (fun _ => some { length := 2, data := fun _ _ => .int 5 }) 1 .Int8 [0]
      true = (2836913151099525 / 72057594037927936 : ℚ) := by
    rw [findPeak_constant_stream 5 (by norm_num) (by norm_num), hconv]
    norm_num [abs_of_pos]
  have hout : (Normalize.new (fun _ => some { length := 2, data := fun _ _ => .int 5 }) 1
      .Int8 1 false [0] .Error .Once).outNormPeak = 1 := @adjustNormPeak_one .Int8 rfl
  have hgain : (Normalize.new (fun _ => some { length := 2, data := fun _ _ => .int 5 }) 1
      .Int8 1 false [0] .Error .Once).gain = (3574732204225331 / 140737488355328 : ℚ) := by
    have h1 : (Normalize.new (fun _ => some { length := 2, data := fun _ _ => .int 5 }) 1
        .Int8 1 false [0] .Error .Once).gain
        = fl64 (adjustNormPeak 1 .Int8
          / findPeak (fun _ => some { length := 2, data := fun _ _ => .int 5 }) 1 .Int8 [0]
            true) := by
      simp [Normalize.new]
    rw [h1, @adjustNormPeak_one .Int8 rfl, hpk]
    have : (1 : ℚ) / (2836913151099525 / 72057594037927936 : ℚ)
        = (72057594037927936 / 2836913151099525 : ℚ) := by norm_num
    rw [this, hG]
  refine ⟨hpk, hout, hgain, ?_, ?_⟩
  · rw [hgain, hpk, hout]
    norm_num
  · rw [hgain, hpk]
    have : (3574732204225331 / 140737488355328 : ℚ)
          * (2836913151099525 / 72057594037927936 : ℚ)
        = (10141204801825834503853507067775 / 10141204801825835211973625643008 : ℚ) := by
      norm_num
    rw [this, hW]

/-- Claim C34, amended: for Normalize on an integer sample type with `lowerOnly = false`, a
`double` target in `[0, 1]` and an input of native samples whose peak `P` over the edit
channels is not zero: the gain is the `double` nearest to `T / P` for the adjusted target
`T = adjustNormPeak target`, so `gain * P` is within the relative error `2^-53` of `T`; the
`double` product `T * maxInt` is the integer `k = floor (fl64 (target * maxInt))`; an input
sample of normalized magnitude `P` is written as the sample of logical value `k` or `-k`,
whose normalized magnitude is `T`; and the peak scan of a stream of native samples of
magnitude at most `T` that holds such a sample is `T` exactly. -/
theorem normalize_peak_sample_exact (F numFrames outNumFrames : Int) (st : SampleType)
    (target : ℚ) (channels : List Int) (mode : OverflowMode) (log : OverflowLog)
    (getFrame outFrames : Int → Option AudioFrame) (frame : AudioFrame) (ch n s : Int)
    (outFrm : Int → Sample) (stats : OverflowStats) (nz : Normalize)
    (hnz : nz = Normalize.new getFrame numFrames st target false channels mode log)
    (hst : isFloatSampleType st = false) (ht : fl64 target = target) (ht0 : 0 ≤ target)
    (ht1 : target ≤ 1)
    (hnat : ∀ j fr, getFrame j = some fr → ∀ c ∈ channels, ∀ i, 0 ≤ i → i < fr.length →
      isNativeSample st (fr.data c i) = true)
    (hpeak : findPeak getFrame numFrames st channels true ≠ 0)
    (hfr : getFrame n = some frame) (hs1 : 0 ≤ s) (hs2 : s < frame.length)
    (hsample : |convSampleToDouble st (if (getSampleBitShift st).required = true then shiftRight (frame.data ch s) (getSampleBitShift st).count else frame.data ch s)|
      = findPeak getFrame numFrames st channels true)
    (hout : ∀ j fr, outFrames j = some fr → ∀ c ∈ channels, ∀ i, 0 ≤ i → i < fr.length →
      isNativeSample st (fr.data c i) = true
        ∧ |convSampleToDouble st (if (getSampleBitShift st).required = true then shiftRight (fr.data c i) (getSampleBitShift st).count else fr.data c i)| ≤ nz.outNormPeak)
    (hat : ∃ j fr, 0 ≤ j ∧ j < outNumFrames ∧ outFrames j = some fr
      ∧ ∃ c ∈ channels, ∃ i, 0 ≤ i ∧ i < fr.length
        ∧ |convSampleToDouble st (if (getSampleBitShift st).required = true then shiftRight (fr.data c i) (getSampleBitShift st).count else fr.data c i)| = nz.outNormPeak) :
    nz.outNormPeak = adjustNormPeak target st
      ∧ nz.gain = fl64 (nz.outNormPeak / findPeak getFrame numFrames st channels true)
      ∧ Normalize.newGain getFrame numFrames st target false channels = some nz.gain
      ∧ |nz.gain * findPeak getFrame numFrames st channels true - nz.outNormPeak|
        ≤ (2 : ℚ) ^ (-53 : Int) * nz.outNormPeak
      ∧ fl64 (nz.outNormPeak * (maxInt (intSampleBits st) : ℚ))
        = (⌊fl64 (target * (maxInt (intSampleBits st) : ℚ))⌋ : ℚ)
      ∧ (∃ r, normalizeGetFrame F nz getFrame ch n outFrm stats = some r
          ∧ r.ok = true
          ∧ (if (getSampleBitShift st).required = true then shiftRight (r.frm s) (getSampleBitShift st).count else r.frm s)
            = .int (if convSampleToDouble st (if (getSampleBitShift st).required = true then shiftRight (frame.data ch s) (getSampleBitShift st).count else frame.data ch s) < 0 then
                -⌊fl64 (target * (maxInt (intSampleBits st) : ℚ))⌋
              else ⌊fl64 (target * (maxInt (intSampleBits st) : ℚ))⌋)
          ∧ |convSampleToDouble st (if (getSampleBitShift st).required = true then shiftRight (r.frm s) (getSampleBitShift st).count else r.frm s)| = nz.outNormPeak)
      ∧ findPeak outFrames outNumFrames st channels true = nz.outNormPeak := by
  have habs : |target| = target := abs_of_nonneg ht0
  obtain ⟨-, a2, a3, a4, a5, -, a7⟩ :=
    adjustNormPeak_int_spec hst target ht (by rw [habs]; exact ht1)
  rw [habs] at a2 a3 a4 a5 a7
  rw [abs_of_nonneg (adjustNormPeak_nonneg target st ht0)] at a2 a5 a7
  obtain ⟨k, hkdef⟩ : ∃ k : Int, k = ⌊fl64 (target * (maxInt (intSampleBits st) : ℚ))⌋ :=
    ⟨_, rfl⟩
  rw [← hkdef] at a2 a3 a4 a7 ⊢
  obtain ⟨P, hPdef⟩ : ∃ P : ℚ, P = findPeak getFrame numFrames st channels true := ⟨_, rfl⟩
  obtain ⟨hPlow, hP1, -⟩ := int_peak_bounds getFrame numFrames st channels hst hnat hpeak
  rw [← hPdef] at hPlow hP1 hsample hpeak ⊢
  have hP0 : 0 < P := lt_of_lt_of_le (two_zpow_pos _) hPlow
  have hnzt : nz.outSampleType = st := by rw [hnz]; rfl
  have hnzo : nz.outNormPeak = adjustNormPeak target st := by rw [hnz]; rfl
  have hgain : nz.gain = fl64 (nz.outNormPeak / P) := by
    rw [hnz, hPdef]
    simp [Normalize.new]
  obtain ⟨T, hTdef⟩ : ∃ T : ℚ, T = nz.outNormPeak := ⟨_, rfl⟩
  rw [← hTdef] at hgain hout hat ⊢
  have hTadj : T = adjustNormPeak target st := by rw [hTdef, hnzo]
  rw [← hTadj] at a2 a5 a7
  have hT0 : 0 ≤ T := by
    rw [hTadj]
    exact adjustNormPeak_nonneg target st ht0
  have hT1 : T ≤ 1 := le_trans a5 ht1
  have hTlow : T = 0 ∨ (2 : ℚ) ^ (-31 : Int) ≤ T := by
    obtain ⟨hM1, hM2, -⟩ := maxInt_bounds_of_int hst
    have hMq2 : (maxInt (intSampleBits st) : ℚ) ≤ 2 ^ 31 := by exact_mod_cast hM2
    have hMq : (0 : ℚ) < (maxInt (intSampleBits st) : ℚ) := by
      have : (1 : ℚ) ≤ (maxInt (intSampleBits st) : ℚ) := by exact_mod_cast hM1
      linarith
    by_cases hkz : k = 0
    · left
      rw [a2, hkz]
      simp [fl64_zero]
    · right
      have hk1 : (1 : ℚ) ≤ (k : ℚ) := by
        have : 1 ≤ k := by omega
        exact_mod_cast this
      have h1 : (2 : ℚ) ^ (-31 : Int) ≤ (k : ℚ) / (maxInt (intSampleBits st) : ℚ) := by
        rw [le_div_iff₀ hMq]
        have : (2 : ℚ) ^ (-31 : Int) * (maxInt (intSampleBits st) : ℚ)
            ≤ (2 : ℚ) ^ (-31 : Int) * 2 ^ 31 :=
          mul_le_mul_of_nonneg_left hMq2 (two_zpow_pos _).le
        have h2 : (2 : ℚ) ^ (-31 : Int) * 2 ^ 31 = 1 := by norm_num
        linarith
      have h3 := fl64_mono h1
      have h4 : fl64 ((2 : ℚ) ^ (-31 : Int)) = (2 : ℚ) ^ (-31 : Int) := by
        have := fl64_of_dyadic 1 (-31) (by norm_num) (by norm_num)
        simpa using this
      rw [h4, ← a2] at h3
      exact h3
  have hclose := gain_times_peak_close hTlow hP0 hP1
  rw [abs_of_nonneg hT0, ← hgain] at hclose
  obtain ⟨r, hr, hok, -, -, hsamp⟩ := normalize_frame_bounded F nz st hnzt hst k a3 a4
    (by rw [← hTdef]; exact a2) (by rw [← hTdef]; exact a7) (by rw [← hTdef]; exact hT0)
    (by rw [← hTdef]; exact hT1) getFrame frame ch n outFrm stats hfr
  obtain ⟨-, -, o, -, -, ho1, ho2⟩ := hsamp s hs1 hs2
  rw [← hTdef, hgain] at ho2
  have hwritten := peak_sample_written hst k a3 a4 T P
    (convSampleToDouble st (if (getSampleBitShift st).required = true then shiftRight (frame.data ch s) (getSampleBitShift st).count else frame.data ch s)) a2 hP1 hPlow hsample
  rw [hwritten] at ho2
  have hlog : (if (getSampleBitShift st).required = true then shiftRight (r.frm s) (getSampleBitShift st).count else r.frm s)
      = .int (if convSampleToDouble st (if (getSampleBitShift st).required = true then shiftRight (frame.data ch s) (getSampleBitShift st).count else frame.data ch s) < 0 then -k else k) := by
    rw [ho1, ho2]
  refine ⟨hTadj, hgain, ?_, hclose, a7, ⟨r, hr, hok, hlog, ?_⟩, ?_⟩
  · rw [hnz]
    simp only [Normalize.newGain, Normalize.new]
    rw [← hPdef]
    simp [hpeak]
  · rw [hlog, a2]
    have := conv_signed_k hst k a3 a4
      (decide (convSampleToDouble st (if (getSampleBitShift st).required = true then shiftRight (frame.data ch s) (getSampleBitShift st).count else frame.data ch s) < 0))
    simp only [decide_eq_true_eq] at this
    exact this
  · exact findPeak_eq_of_attained outFrames outNumFrames st channels T hT0
      (fun j fr hj c hc i hi1 hi2 => (hout j fr hj c hc i hi1 hi2).1)
      (fun j fr hj c hc i hi1 hi2 => (hout j fr hj c hc i hi1 hi2).2) hat

theorem normalize_peak_sample_exact_witness :
    findPeak (fun _ => some { length := 2, data := fun _ _ => .int 127 }) 1 .Int8 [0] true
        ≠ 0
      ∧ (Normalize.new (fun _ => some { length := 2, data := fun _ _ => .int 127 }) 1 .Int8
          1 false [0] .Error .Once).gain
        = fl64 ((Normalize.new (fun _ => some { length := 2, data := fun _ _ => .int 127 }) 1
            .Int8 1 false [0] .Error .Once).outNormPeak
          / findPeak (fun _ => some { length := 2, data := fun _ _ => .int 127 }) 1 .Int8
            [0] true)
      ∧ findPeak (fun _ => some { length := 2, data := fun _ _ => .int 127 }) 1 .Int8 [0]
          true
        = (Normalize.new (fun _ => some { length := 2, data := fun _ _ => .int 127 }) 1 .Int8
          1 false [0] .Error .Once).outNormPeak :=
  have hlog : (if (getSampleBitShift .Int8).required = true then
      shiftRight (Sample.int 127) (getSampleBitShift .Int8).count
      else Sample.int 127) = Sample.int 127 := by
    rw [if_neg (by decide)]
  have hconv : |convSampleToDouble .Int8 (.int 127)| = 1 := by
    have := @convSampleToDouble_int_max .Int8 rfl
    have hM : maxInt (intSampleBits .Int8) = 127 := by decide
    rw [hM] at this
    rw [this, abs_one]
  have hpk : findPeak (fun _ => some { length := 2, data := fun _ _ => .int 127 }) 1 .Int8
      [0] true = 1 := by
    rw [findPeak_constant_stream 127 (by norm_num) (by norm_num), hconv]
  have hpk0 : findPeak (fun _ => some { length := 2, data := fun _ _ => .int 127 }) 1 .Int8
      [0] true ≠ 0 := by
    rw [hpk]
    norm_num
  have h := normalize_peak_sample_exact 8 1 1 .Int8 1 [0] .Error .Once
    (fun _ => some { length := 2, data := fun _ _ => .int 127 })
    (fun _ => some { length := 2, data := fun _ _ => .int 127 })
    { length := 2, data := fun _ _ => .int 127 } 0 0 0 (fun _ => .int 0)
    { count := 0, peak := 0 }
    (Normalize.new (fun _ => some { length := 2, data := fun _ _ => .int 127 }) 1 .Int8 1
      false [0] .Error .Once) rfl rfl fl64_one (by norm_num) le_rfl
    (by
      intro j fr hj c _ i _ _
      injection hj with hj
      subst hj
      show isNativeSample .Int8 (.int 127) = true
      decide)
    hpk0 rfl le_rfl (by norm_num)
    (by
      show |convSampleToDouble .Int8
          (if (getSampleBitShift .Int8).required = true then
            shiftRight (Sample.int 127) (getSampleBitShift .Int8).count
          else Sample.int 127)| = _
      rw [hlog, hconv, hpk])
    (by
      intro j fr hj c _ i _ _
      injection hj with hj
      subst hj
      constructor
      · show isNativeSample .Int8 (.int 127) = true
        decide
      · show |convSampleToDouble .Int8
            (if (getSampleBitShift .Int8).required = true then
              shiftRight (Sample.int 127) (getSampleBitShift .Int8).count
            else Sample.int 127)| ≤ adjustNormPeak 1 .Int8
        rw [hlog, @adjustNormPeak_one .Int8 rfl, hconv])
    (by
      refine ⟨0, { length := 2, data := fun _ _ => .int 127 }, le_rfl, by norm_num, rfl, 0,
        List.mem_singleton.mpr rfl, 0, le_rfl, by norm_num, ?_⟩
      show |convSampleToDouble .Int8
          (if (getSampleBitShift .Int8).required = true then
            shiftRight (Sample.int 127) (getSampleBitShift .Int8).count
          else Sample.int 127)| = adjustNormPeak 1 .Int8
      rw [hlog, @adjustNormPeak_one .Int8 rfl, hconv])
  ⟨hpk0, h.2.1, h.2.2.2.2.2.2⟩

/-- Claim C35: for Mix constructed with a validated offset (`-len2 <= offset <= len1`), fade
lengths that are not negative and stream lengths of at least 1: the fade-in starts at the
start and the fade-out ends at the end of the overlap of the two trim windows, the overlap
length `mixEnd - mixStart` is not negative, the clamped fade-in and fade-out windows lie
inside the overlap, and every output position in `[0, outLen)` lies in the trim window of
stream 1 or of stream 2.  The branch of `Mix::writeFrameChannel` that asserts "sample is
neither in the left nor in the right frame" is taken only for a position outside both trim
windows, so it is not reached. -/
theorem mix_windows (F len1 len2 offset fadeinSamples fadeoutSamples : Int) (g1 g2 : ℚ)
    (st : SampleType) (relativeGain extendStart extendEnd : Bool) (fadeType : TransitionType)
    (editChannels : List Int) (mode : OverflowMode) (log : OverflowLog) (m : Mix)
    (hm : m = Mix.new F len1 g1 len2 g2 st offset relativeGain fadeinSamples fadeoutSamples
      fadeType extendStart extendEnd editChannels mode log)
    (hlen1 : 1 ≤ len1) (hlen2 : 1 ≤ len2) (hoff1 : -len2 ≤ offset) (hoff2 : offset ≤ len1)
    (hfi : 0 ≤ fadeinSamples) (hfo : 0 ≤ fadeoutSamples) :
    m.outPosFadeinStart = max m.outPosAudio1TrimStart m.outPosAudio2TrimStart
      ∧ m.outPosFadeoutEnd = min m.outPosAudio1TrimEnd m.outPosAudio2TrimEnd
      ∧ 0 ≤ m.outPosFadeoutEnd - m.outPosFadeinStart
      ∧ m.outPosFadeinStart ≤ m.outPosFadeinEnd ∧ m.outPosFadeinEnd ≤ m.outPosFadeoutEnd
      ∧ m.outPosFadeinStart ≤ m.outPosFadeoutStart
      ∧ m.outPosFadeoutStart ≤ m.outPosFadeoutEnd
      ∧ m.outPosFadeinEnd - m.outPosFadeinStart
        = min fadeinSamples (m.outPosFadeoutEnd - m.outPosFadeinStart)
      ∧ m.outPosFadeoutEnd - m.outPosFadeoutStart
        = min fadeoutSamples (m.outPosFadeoutEnd - m.outPosFadeinStart)
      ∧ ∀ outPos, 0 ≤ outPos → outPos < m.outNumSamples →
          (m.outPosAudio1TrimStart ≤ outPos ∧ outPos < m.outPosAudio1TrimEnd)
            ∨ (m.outPosAudio2TrimStart ≤ outPos ∧ outPos < m.outPosAudio2TrimEnd) := by
  subst hm
  by_cases ho : offset < 0
  · cases extendStart <;> cases extendEnd <;>
      simp only [Mix.new, if_pos ho, if_true, if_false, Bool.false_eq_true] <;>
      refine ⟨?_, ?_, ?_, ?_, ?_, ?_, ?_, ?_, ?_, ?_⟩ <;>
      first
        | trivial
        | omega
  · cases extendStart <;> cases extendEnd <;>
      simp only [Mix.new, if_neg ho, if_true, if_false, Bool.false_eq_true] <;>
      refine ⟨?_, ?_, ?_, ?_, ?_, ?_, ?_, ?_, ?_, ?_⟩ <;>
      first
        | trivial
        | omega

/-- Witness for C35: streams of 10 and 8 samples, stream 2 starting 3 samples before stream 1
and stream 1 extended at the start; the output has 13 samples and each of its positions lies
in a trim window. -/
theorem mix_windows_witness :
    0 ≤ (Mix.new 8 10 1 8 1 .Int16 (-3) false 2 2 .Linear true false [0] .Error
          .Once).outPosFadeoutEnd
        - (Mix.new 8 10 1 8 1 .Int16 (-3) false 2 2 .Linear true false [0] .Error
          .Once).outPosFadeinStart :=
  (mix_windows 8 10 8 (-3) 2 2 1 1 .Int16 false true false .Linear [0] .Error .Once
    (Mix.new 8 10 1 8 1 .Int16 (-3) false 2 2 .Linear true false [0] .Error .Once) rfl
    (by decide) (by decide) (by decide) (by decide) (by decide) (by decide)).2.2.1

/-- Claim C36, failing input: the assertions of the debug build in
`Delay::writeFrameChannel` do not hold for every offset.  With frames of 8 samples and a
stream of 10 samples, offset 3, output frame 0 and local index 3 (output position 3, the
first position of the delayed stream) `baseFrameToOffsetFrames` returns `{-1, 0}`: the left
frame is not requested and the first check fails, while `getOffsetSample` reads the sample
from the right frame.  With offset -9, output frame 0 and local index 0 the frames are
`{1, -1}` and the right sample offset is -7, not 0: the second check fails. -/
theorem delay_debug_assertions_fail :
    (Delay.new 8 10 .Int16 3 .Error .Once).outFrameToOffsetInFrames 8 0
        = { left := -1, right := 0 }
      ∧ delayGetFrameAsserts 8 (Delay.new 8 10 .Int16 3 .Error .Once)
          (fun i => .int i) 0 3 = false
      ∧ getOffsetSample 3 (Delay.new 8 10 .Int16 3 .Error .Once).audioFrameSampleOffsets
          (frameReadPtr 8 (fun i : Int => Sample.int i) 10 (-1))
          (frameReadPtr 8 (fun i : Int => Sample.int i) 10 0) = some (.int 0)
      ∧ (Delay.new 8 10 .Int16 (-9) .Error .Once).outFrameToOffsetInFrames 8 0
        = { left := 1, right := -1 }
      ∧ (Delay.new 8 10 .Int16 (-9) .Error .Once).audioFrameSampleOffsets.right = -7
      ∧ delayGetFrameAsserts 8 (Delay.new 8 10 .Int16 (-9) .Error .Once)
          (fun i => .int i) 0 0 = false
      ∧ getOffsetSample 0 (Delay.new 8 10 .Int16 (-9) .Error .Once).audioFrameSampleOffsets
          (frameReadPtr 8 (fun i : Int => Sample.int i) 10 1)
          (frameReadPtr 8 (fun i : Int => Sample.int i) 10 (-1)) = some (.int 9) := by
  decide

/-- Claim C37: for two integer sample types with bit widths `b1 <= b2` and every sample `x`
of the narrower type with `|x| <= maxInt b1`, converting `x` to the wider type and back with
the codec returns `x`, in the `double` arithmetic of the code and for either value of the
clamp flag of `convSampleFromDouble`. -/
theorem widening_lossless (st1 st2 : SampleType) (x : Int) (cf1 cf2 : Bool)
    (h1 : isFloatSampleType st1 = false) (h2 : isFloatSampleType st2 = false)
    (hb : intSampleBits st1 ≤ intSampleBits st2)
    (hlo : -maxInt (intSampleBits st1) ≤ x) (hhi : x ≤ maxInt (intSampleBits st1)) :
    convSampleFromDouble st1
        (convSampleToDouble st2
          (convSampleFromDouble st2 (convSampleToDouble st1 (.int x)) cf2)) cf1
      = .int x := by
  have hM : 256 * maxInt (intSampleBits st1) ≤ maxInt (intSampleBits st2)
      ∨ maxInt (intSampleBits st1) = maxInt (intSampleBits st2) := by
    cases st1 <;> cases st2 <;>
      first
        | (left; decide)
        | (right; rfl)
        | exact absurd h1 (by decide)
        | exact absurd h2 (by decide)
        | exact absurd hb (by decide)
  obtain ⟨a1, a2, a3⟩ := maxInt_bounds_of_int h1
  obtain ⟨b1, b2, b3⟩ := maxInt_bounds_of_int h2
  rw [convSampleFromDouble_int_eq h2, convSampleFromDouble_int_eq h1]
  simp only [convSampleToDouble]
  have hcx : clampSymIntSample (intSampleBits st1) x = x := by
    unfold clampSymIntSample
    rw [if_neg (by omega)]
  rw [hcx]
  generalize maxInt (intSampleBits st1) = m1 at *
  generalize maxInt (intSampleBits st2) = m2 at *
  rcases hM with hM | hM
  · obtain ⟨w1, w2, w3⟩ := widen_core a1 hM b2 hlo hhi
    have hcy : clampSymIntSample (intSampleBits st2)
        (roundHalfAway (fl64 (clampFloatSample (fl64 ((x : ℚ) / (m1 : ℚ))) * (m2 : ℚ))))
        = roundHalfAway (fl64 (clampFloatSample (fl64 ((x : ℚ) / (m1 : ℚ))) * (m2 : ℚ))) := by
      unfold clampSymIntSample
      rw [if_neg (by omega)]
    rw [hcy, w3]
  · subst hM
    have r1 := roundtrip_core a1 a2 hlo hhi
    rw [r1]
    have hcy : clampSymIntSample (intSampleBits st2) x = x := by
      unfold clampSymIntSample
      rw [if_neg (by omega)]
    rw [hcy, r1]

/-- Witness for C37: the Int8 sample -127 widened to Int24 and converted back. -/
theorem widening_lossless_witness :
    convSampleFromDouble .Int8
        (convSampleToDouble .Int24
          (convSampleFromDouble .Int24 (convSampleToDouble .Int8 (.int (-127))) false)) false
      = .int (-127) :=
  widening_lossless .Int8 .Int24 (-127) false false rfl rfl (by decide) (by decide)
    (by decide)

/-- Claim C38: for every integer input sample type and native sample `x` (`minInt`
included), `convSampleToDouble` of the logical sample lies in `[-1, 1]`, so
`safeConvertSample` does not take the overflow path: for every output sample type and every
overflow mode it returns a value and leaves the statistics unchanged, without a host call.
Hence Convert from an integer type and Delay on an integer stream write every frame with
`true` and unchanged statistics, and so does each pass of the copy paths of Fade, CrossFade
and SetSamples. -/
theorem integer_samples_never_overflow (F numSamples offset : Int) (st stOut : SampleType)
    (mode : OverflowMode) (log : OverflowLog) (x : Sample) (audio : Int → Sample)
    (getFrame : Int → Option AudioFrame) (frame : AudioFrame) (ch n : Int)
    (outFrm : Int → Sample) (stats : OverflowStats)
    (hst : isFloatSampleType st = false) (hx : isNativeSample st x = true)
    (hF : 0 < F) (hn : 0 ≤ n) (haudio : ∀ i, isNativeSample st (audio i) = true)
    (hne : st ≠ stOut) (hfr : getFrame n = some frame)
    (hnat : ∀ i, 0 ≤ i → i < frame.length → isNativeSample st (frame.data ch i) = true) :
    (-1 ≤ convSampleToDouble st (if (getSampleBitShift st).required = true then shiftRight (x) (getSampleBitShift st).count else x) ∧ convSampleToDouble st (if (getSampleBitShift st).required = true then shiftRight (x) (getSampleBitShift st).count else x) ≤ 1)
      ∧ (∀ (anyOut : SampleType) (pos c : Int) (ofCtx : OverflowContext) (s : OverflowStats),
          safeConvertSample anyOut (convSampleToDouble st (if (getSampleBitShift st).required = true then shiftRight (x) (getSampleBitShift st).count else x)) pos c ofCtx s
            = { value := some (convSampleFromDouble anyOut (convSampleToDouble st (if (getSampleBitShift st).required = true then shiftRight (x) (getSampleBitShift st).count else x))
                  false),
                stats := s, calls := [] })
      ∧ (∃ r, convertGetFrame F (Convert.new st stOut mode log) getFrame ch n outFrm stats
            = some (.written r)
          ∧ r.ok = true
          ∧ r.stats = (if n = 0 then { count := 0, peak := 0 } else stats)
          ∧ r.calls = [])
      ∧ (∃ r, delayGetFrame F (Delay.new F numSamples st offset mode log) audio ch n outFrm
            stats = some r
          ∧ r.ok = true
          ∧ r.stats = (if n = 0 then { count := 0, peak := 0 } else stats)
          ∧ r.calls = [])
      ∧ (∀ (cosD : ℚ → ℚ) (f : Fade) (start s : Int) (inFrmPtr : Option (FrameBuffer Sample))
          (ofCtx : OverflowContext) (frm : Int → Sample) (os : OverflowStats),
          f.outSampleType = st → readSample inFrmPtr s = some x →
          (f.fadeTrans = none ∨ start + s < f.outPosFadeStart
            ∨ f.outPosFadeEnd ≤ start + s) →
          ∃ r, f.writeFrameChannelStep cosD ch start inFrmPtr ofCtx s frm os = some r
            ∧ r.ok = true ∧ r.stats = os ∧ r.calls = [])
      ∧ (∀ (cosD : ℚ → ℚ) (c : CrossFade) (start s : Int)
          (a1FrmPtr a2FrmLPtr a2FrmRPtr : Option (FrameBuffer Sample))
          (ofCtx : OverflowContext) (frm : Int → Sample) (os : OverflowStats),
          c.outSampleType = st →
          ((start + s < c.outPosFadeStart ∧ readSample a1FrmPtr s = some x)
            ∨ (c.outPosFadeStart ≤ start + s ∧ c.outPosFadeEnd ≤ start + s
              ∧ getOffsetSample s c.audio2FrameSampleOffsets a2FrmLPtr a2FrmRPtr
                = some x)) →
          ∃ r, c.writeFrameChannelStep cosD ch start a1FrmPtr a2FrmLPtr a2FrmRPtr ofCtx s frm
                os = some r
            ∧ r.ok = true ∧ r.stats = os ∧ r.calls = [])
      ∧ (∀ (d : SetSamples) (start s : Int) (inFrmPtr : Option (FrameBuffer Sample))
          (ofCtx : OverflowContext) (frm : Int → Sample) (os : OverflowStats),
          d.outSampleType = st → readSample inFrmPtr s = some x →
          (start + s < d.outPosStart ∨ d.outPosEnd ≤ start + s) →
          ∃ r, d.writeFrameChannelStep ch start inFrmPtr ofCtx s frm os = some r
            ∧ r.ok = true ∧ r.stats = os ∧ r.calls = []) := by
  obtain ⟨b1, b2⟩ := native_int_in_range hst hx
  refine ⟨⟨b1, b2⟩, ?_, ?_, ?_, ?_, ?_, ?_⟩
  · intro anyOut pos c ofCtx s
    exact safeConvertSample_of_not_overflowing anyOut pos c ofCtx s (by
      rintro (h | h)
      · linarith
      · linarith)
  · exact convertGetFrame_int F st stOut mode log getFrame frame ch n outFrm stats hst hne
      hfr hnat
  · obtain ⟨r, hr, h1, h2, h3, -⟩ := delayGetFrame_native F numSamples offset st mode log
      audio ch n outFrm stats hF hn haudio (by
        intro i q hq
        have hi := haudio i
        rw [hq] at hi
        simp [isNativeSample, hst] at hi)
    exact ⟨r, hr, h1, h2, h3⟩
  · intro cosD f start s inFrmPtr ofCtx frm os hf hread hcopy
    exact fade_copy_step_ok cosD f st x ch start s inFrmPtr ofCtx frm os hf hst hx hread
      hcopy
  · intro cosD c start s a1 a2l a2r ofCtx frm os hc hcopy
    exact crossfade_copy_step_ok cosD c st x ch start s a1 a2l a2r ofCtx frm os hc hst hx
      hcopy
  · intro d start s inFrmPtr ofCtx frm os hd hread hcopy
    exact setsamples_copy_step_ok d st x ch start s inFrmPtr ofCtx frm os hd hst hx hread
      hcopy

/-- Witness for C38: the Int16 sample `minInt = -32768`, a stream that holds it everywhere,
frames of 8 samples, conversion to Int8 in mode Error. -/
theorem integer_samples_never_overflow_witness :
    -1 ≤ convSampleToDouble .Int16
        (if (getSampleBitShift .Int16).required = true then
          shiftRight (.int (-32768)) (getSampleBitShift .Int16).count
        else .int (-32768))
      ∧ ∃ r, convertGetFrame 8 (Convert.new .Int16 .Int8 .Error .Once)
            (fun _ => some { length := 8, data := fun _ _ => .int (-32768) }) 0 0
            (fun _ => .int 0) { count := 0, peak := 0 } = some (.written r)
          ∧ r.ok = true
          ∧ r.stats = (if (0 : Int) = 0 then { count := 0, peak := 0 }
              else { count := 0, peak := 0 })
          ∧ r.calls = [] :=
  have h := integer_samples_never_overflow 8 16 3 .Int16 .Int8 .Error .Once (.int (-32768))
    (fun _ => .int (-32768)) (fun _ => some { length := 8, data := fun _ _ => .int (-32768) })
    { length := 8, data := fun _ _ => .int (-32768) } 0 0 (fun _ => .int 0)
    { count := 0, peak := 0 } rfl (by decide) (by decide) (by decide) (fun _ => by
      show isNativeSample .Int16 (.int (-32768)) = true
      decide)
    (by decide) rfl (fun _ _ _ => by
      show isNativeSample .Int16 (.int (-32768)) = true
      decide)
  ⟨h.1.1, h.2.2.1⟩

/-- Claim C39, counterexample: a fade range beyond the end of the stream.  With frames of 8
samples, a stream of 10 samples and the fade range `[14, 16)`, frame 1 holds the positions 8
and 9, none of which lies in the fade range, and it is not returned as the input frame:
`outFrameFadeStart = 1` and `outFrameFadeEnd = 2`. -/
theorem fade_processes_frame_without_fade_sample :
    (Fade.new 8 10 .Int16 14 2 none .Error .Once).outPosFadeStart = 14
      ∧ (Fade.new 8 10 .Int16 14 2 none .Error .Once).outPosFadeEnd = 16
      ∧ (Fade.new 8 10 .Int16 14 2 none .Error .Once).outFrameFadeStart = 1
      ∧ (Fade.new 8 10 .Int16 14 2 none .Error .Once).outFrameFadeEnd = 2
      ∧ frameToFirstSample 8 1 = 8 ∧ frameToLastSample 8 1 10 = 10
      ∧ ¬ ((1 : Int) < (Fade.new 8 10 .Int16 14 2 none .Error .Once).outFrameFadeStart
          ∨ (Fade.new 8 10 .Int16 14 2 none .Error .Once).outFrameFadeEnd ≤ 1)
      ∧ ¬ ∃ p : Int, (Fade.new 8 10 .Int16 14 2 none .Error .Once).outPosFadeStart ≤ p
          ∧ p < (Fade.new 8 10 .Int16 14 2 none .Error .Once).outPosFadeEnd
          ∧ frameToFirstSample 8 1 ≤ p ∧ p < frameToLastSample 8 1 10 := by
  refine ⟨by decide, by decide, by decide, by decide, by decide, by decide, by decide, ?_⟩
  have h1 : (Fade.new 8 10 .Int16 14 2 none .Error .Once).outPosFadeStart = 14 := by decide
  have h2 : frameToLastSample 8 1 10 = 10 := by decide
  rw [h1, h2]
  rintro ⟨p, hp1, -, -, hp4⟩
  omega

/-- Claim C39, amended: for Fade constructed with `0 <= fadeStart < fadeEnd` on a stream of
`numSamples >= 0` samples and an output frame `n >= 0`: the frame is returned as the
untouched input frame (`n < outFrameFadeStart` or `n >= outFrameFadeEnd`) if and only if its
window of `F` positions `[n * F, n * F + F)` contains no position of `[fadeStart, fadeEnd)`;
when the fade range ends inside the stream (`fadeEnd <= numSamples`) this holds if and only
if the frame contains no sample position of the fade range; and in every case a frame that
is passed through contains no sample position of the fade range, so no sample inside the
fade range is skipped by the frame-level passthrough. -/
theorem fade_frame_passthrough (F numSamples fadeStart fadeSamples n : Int) (st : SampleType)
    (fadeTrans : Option Transition) (mode : OverflowMode) (log : OverflowLog) (f : Fade)
    (hf : f = Fade.new F numSamples st fadeStart fadeSamples fadeTrans mode log)
    (hF : 0 < F) (hL : 0 ≤ numSamples) (hs : 0 ≤ fadeStart) (hlen : 0 < fadeSamples)
    (hn : 0 ≤ n) :
    ((n < f.outFrameFadeStart ∨ f.outFrameFadeEnd ≤ n)
        ↔ ¬ ∃ p, f.outPosFadeStart ≤ p ∧ p < f.outPosFadeEnd
            ∧ frameToFirstSample F n ≤ p ∧ p < frameToFirstSample F n + F)
      ∧ (f.outPosFadeEnd ≤ numSamples →
          ((n < f.outFrameFadeStart ∨ f.outFrameFadeEnd ≤ n)
            ↔ ¬ ∃ p, f.outPosFadeStart ≤ p ∧ p < f.outPosFadeEnd
                ∧ frameToFirstSample F n ≤ p ∧ p < frameToLastSample F n numSamples))
      ∧ ((n < f.outFrameFadeStart ∨ f.outFrameFadeEnd ≤ n)
          → ¬ ∃ p, f.outPosFadeStart ≤ p ∧ p < f.outPosFadeEnd
              ∧ frameToFirstSample F n ≤ p ∧ p < frameToLastSample F n numSamples) := by
  subst hf
  have key := @frame_window_meets_range F fadeStart (fadeStart + fadeSamples) n hF hs
    (by omega)
  have hwin := fun p => @frame_samples_in_window F numSamples n hF hn hL p
  simp only [Fade.new]
  refine ⟨?_, ?_, ?_⟩
  · rw [key]
    simp only [frameToFirstSample]
  · intro hend
    rw [key]
    constructor
    · rintro h ⟨p, hp1, hp2, hp3⟩
      have := (hwin p).mp hp3
      exact h ⟨p, hp1, hp2, this.1, this.2.1⟩
    · rintro h ⟨p, hp1, hp2, hp3, hp4⟩
      exact h ⟨p, hp1, hp2, (hwin p).mpr ⟨hp3, hp4, by omega⟩⟩
  · intro hpass
    rintro ⟨p, hp1, hp2, hp3⟩
    have := (hwin p).mp hp3
    exact (key.mp hpass) ⟨p, hp1, hp2, this.1, this.2.1⟩

/-- Witness for C39: frames of 8 samples, a stream of 20 samples and the fade range
`[9, 12)`; frame 0 is passed through and holds no position of the fade range. -/
theorem fade_frame_passthrough_witness :
    ¬ ∃ p : Int, (Fade.new 8 20 .Int16 9 3 none .Error .Once).outPosFadeStart ≤ p
        ∧ p < (Fade.new 8 20 .Int16 9 3 none .Error .Once).outPosFadeEnd
        ∧ frameToFirstSample 8 0 ≤ p ∧ p < frameToLastSample 8 0 20 :=
  (fade_frame_passthrough 8 20 9 3 0 .Int16 none .Error .Once
    (Fade.new 8 20 .Int16 9 3 none .Error .Once) rfl (by decide) (by decide) (by decide)
    (by decide) (by decide)).2.2 (by decide)

/-- Claim C40, failing input: `getOptChannels` accepts a list that contains a negative
channel number.  With two channels the lists `[-1]` and `[0, -3, 1]` are returned as they
are; the check of the loop is `numChannels <= ch` only, which rejects `[2]`.  An absent or
empty list yields all channels. -/
theorem getOptChannels_accepts_negative :
    vsmap.getOptChannels (some [-1]) [] 2 = some [-1]
      ∧ vsmap.getOptChannels (some [0, -3, 1]) [] 2 = some [0, -3, 1]
      ∧ vsmap.getOptChannels (some [2]) [] 2 = none
      ∧ vsmap.getOptChannels (some []) [] 2 = some [0, 1]
      ∧ vsmap.getOptChannels none [] 2 = some [0, 1] := by
  decide
